import Mathlib

/-!
# Mach-O support for BFD (`bfd/mach-o.c`): a shallow embedding

The definitions below transcribe functions of `bfd/mach-o.c`.  A file is a
list of bytes; positioned reads return the requested bytes or fail when the
file is too short; machine integers are natural numbers reduced modulo the
width of the C type that holds them.
-/

namespace MachO

/-! ## Bytes, streams and the byte-swapping primitives of libbfd -/

/-- One `unsigned char`. -/
abbrev Byte := Fin 256

/-- The low eight bits of a number, as a byte. -/
def byteOf (n : Nat) : Byte := ⟨n % 256, Nat.mod_lt n (by decide)⟩

/-- The contents of the file behind a `bfd`. -/
abbrev Stream := List Byte

/-- Reduction to an `unsigned int` / 32-bit field. -/
def u32 (n : Nat) : Nat := n % 2 ^ 32

/-- Positioned read, `bfd_seek (abfd, pos, SEEK_SET)` followed by
`bfd_bread (buf, n, abfd)`: the `n` bytes at `pos`, or `none` when fewer than
`n` bytes are available there (the callers treat a short read as failure). -/
def bfd_bread (abfd : Stream) (pos n : Nat) : Option (List Byte) :=
  if pos + n ≤ abfd.length then some ((abfd.drop pos).take n) else none

/-- Positioned write, `bfd_seek (abfd, pos, SEEK_SET)` followed by
`bfd_bwrite (buf, n, abfd)` on a stream that accepts every write: the bytes of
`buf` replace those at `pos`, the file being zero-extended up to `pos` first. -/
def bfd_bwrite (abfd : Stream) (pos : Nat) (buf : List Byte) : Stream :=
  abfd.take pos ++ List.replicate (pos - abfd.length) 0 ++ buf
    ++ abfd.drop (pos + buf.length)

/-- Source `bfd_getb32`: big-endian 32-bit load from a buffer. -/
def bfd_getb32 (p : List Byte) : Nat :=
  (p.getD 0 0).val * 2 ^ 24 + (p.getD 1 0).val * 2 ^ 16
    + (p.getD 2 0).val * 2 ^ 8 + (p.getD 3 0).val

/-- Source `bfd_getl32`: little-endian 32-bit load from a buffer. -/
def bfd_getl32 (p : List Byte) : Nat :=
  (p.getD 0 0).val + (p.getD 1 0).val * 2 ^ 8
    + (p.getD 2 0).val * 2 ^ 16 + (p.getD 3 0).val * 2 ^ 24

/-- Source `bfd_putb32`: big-endian 32-bit store (the value is truncated to 32 bits). -/
def bfd_putb32 (v : Nat) : List Byte :=
  [byteOf (v / 2 ^ 24), byteOf (v / 2 ^ 16), byteOf (v / 2 ^ 8), byteOf v]

/-- Source `bfd_putl32`: little-endian 32-bit store (the value is truncated to 32 bits). -/
def bfd_putl32 (v : Nat) : List Byte :=
  [byteOf v, byteOf (v / 2 ^ 8), byteOf (v / 2 ^ 16), byteOf (v / 2 ^ 24)]

/-- The byte-swapping routines of a target vector (`abfd->xvec`): every Mach-O
target vector installs either the big-endian or the little-endian family, for
both its data and its header accessors. -/
inductive bfd_target where
  | big
  | little
  deriving DecidableEq, Repr

/-- The accessors `bfd_h_get_32 (abfd, p)` and `bfd_get_32 (abfd, p)`. -/
def bfd_h_get_32 (xvec : bfd_target) (p : List Byte) : Nat :=
  match xvec with
  | .big => bfd_getb32 p
  | .little => bfd_getl32 p

/-- The accessors `bfd_h_put_32 (abfd, v, p)` and `bfd_put_32 (abfd, v, p)`. -/
def bfd_h_put_32 (xvec : bfd_target) (v : Nat) : List Byte :=
  match xvec with
  | .big => bfd_putb32 v
  | .little => bfd_putl32 v

/-- The three values of `enum bfd_endian`. -/
inductive bfd_endian where
  | BFD_ENDIAN_BIG
  | BFD_ENDIAN_LITTLE
  | BFD_ENDIAN_UNKNOWN
  deriving DecidableEq, Repr

/-- The byte order a target vector writes headers in. -/
def bfd_target.header_byteorder : bfd_target → bfd_endian
  | .big => .BFD_ENDIAN_BIG
  | .little => .BFD_ENDIAN_LITTLE

/-! ## The Mach-O header -/

/-- Modelled from the spec: `BFD_MACH_O_MH_MAGIC` of `mach-o.h`, the 32-bit magic. -/
def BFD_MACH_O_MH_MAGIC : Nat := 0xfeedface

/-- Modelled from the spec: `BFD_MACH_O_MH_MAGIC_64` of `mach-o.h`, the 64-bit magic. -/
def BFD_MACH_O_MH_MAGIC_64 : Nat := 0xfeedfacf

/-- Modelled from the spec: `BFD_MACH_O_HEADER_SIZE`, seven 32-bit words. -/
def BFD_MACH_O_HEADER_SIZE : Nat := 28

/-- Modelled from the spec: `BFD_MACH_O_HEADER_64_SIZE`, eight 32-bit words. -/
def BFD_MACH_O_HEADER_64_SIZE : Nat := 32

/-- Modelled from the spec: `bfd_mach_o_header` of `mach-o.h`, the in-memory header. -/
structure bfd_mach_o_header where
  magic : Nat
  cputype : Nat
  cpusubtype : Nat
  filetype : Nat
  ncmds : Nat
  sizeofcmds : Nat
  flags : Nat
  reserved : Nat
  version : Nat
  byteorder : bfd_endian
  deriving DecidableEq, Repr

/-- Source `mach_o_wide_p`: version 1 is the 32-bit form, version 2 the 64-bit form;
any other version raises the `BFD_FAIL` diagnostic and counts as 32-bit. -/
def mach_o_wide_p (header : bfd_mach_o_header) : Bool :=
  match header.version with
  | 1 => false
  | 2 => true
  | _ => false

/-- The contents of `struct mach_o_header_external raw` that
`bfd_mach_o_write_header` fills in, cut to the `size` bytes it writes: seven
words, and the reserved word for the 64-bit form. -/
def bfd_mach_o_write_header_raw (xvec : bfd_target) (header : bfd_mach_o_header) :
    List Byte :=
  bfd_h_put_32 xvec header.magic ++ bfd_h_put_32 xvec header.cputype
    ++ bfd_h_put_32 xvec header.cpusubtype ++ bfd_h_put_32 xvec header.filetype
    ++ bfd_h_put_32 xvec header.ncmds ++ bfd_h_put_32 xvec header.sizeofcmds
    ++ bfd_h_put_32 xvec header.flags
    ++ (if mach_o_wide_p header then bfd_h_put_32 xvec header.reserved else [])

/-- Source `bfd_mach_o_write_header`: the header words are written at file position 0
in the byte order of the target vector. -/
def bfd_mach_o_write_header (xvec : bfd_target) (abfd : Stream)
    (header : bfd_mach_o_header) : Stream :=
  bfd_bwrite abfd 0 (bfd_mach_o_write_header_raw xvec header)

/-- The tail of `bfd_mach_o_read_header`, once the magic has selected `get32`:
read the full header and decode its words. -/
def bfd_mach_o_read_header_fields (abfd : Stream) (get32 : List Byte → Nat)
    (header : bfd_mach_o_header) : Bool × bfd_mach_o_header :=
  let size := if mach_o_wide_p header then BFD_MACH_O_HEADER_64_SIZE
              else BFD_MACH_O_HEADER_SIZE
  match bfd_bread abfd 0 size with
  | none => (false, header)
  | some raw =>
    let header := { header with
      cputype := get32 (raw.drop 4)
      cpusubtype := get32 (raw.drop 8)
      filetype := get32 (raw.drop 12)
      ncmds := get32 (raw.drop 16)
      sizeofcmds := get32 (raw.drop 20)
      flags := get32 (raw.drop 24) }
    let header := if mach_o_wide_p header
      then { header with reserved := get32 (raw.drop 28) } else header
    (true, header)

/-- Source `bfd_mach_o_read_header`: returns the success flag and the updated
`*header` (fields the function does not assign keep their previous value). -/
def bfd_mach_o_read_header (abfd : Stream) (header : bfd_mach_o_header) :
    Bool × bfd_mach_o_header :=
  match bfd_bread abfd 0 4 with
  | none => (false, header)
  | some magic =>
    if bfd_getb32 magic = BFD_MACH_O_MH_MAGIC then
      bfd_mach_o_read_header_fields abfd bfd_getb32
        { header with byteorder := .BFD_ENDIAN_BIG, magic := BFD_MACH_O_MH_MAGIC, version := 1 }
    else if bfd_getl32 magic = BFD_MACH_O_MH_MAGIC then
      bfd_mach_o_read_header_fields abfd bfd_getl32
        { header with byteorder := .BFD_ENDIAN_LITTLE, magic := BFD_MACH_O_MH_MAGIC, version := 1 }
    else if bfd_getb32 magic = BFD_MACH_O_MH_MAGIC_64 then
      bfd_mach_o_read_header_fields abfd bfd_getb32
        { header with byteorder := .BFD_ENDIAN_BIG, magic := BFD_MACH_O_MH_MAGIC_64, version := 2 }
    else if bfd_getl32 magic = BFD_MACH_O_MH_MAGIC_64 then
      bfd_mach_o_read_header_fields abfd bfd_getl32
        { header with byteorder := .BFD_ENDIAN_LITTLE, magic := BFD_MACH_O_MH_MAGIC_64, version := 2 }
    else
      (false, { header with byteorder := .BFD_ENDIAN_UNKNOWN })

/-! ## Enumerators of `mach-o.h`

The header `mach-o.h` is not among the sources read here; the enumerators that
`mach-o.c` names are given the values the Mach-O file format assigns to them. -/

/-- Modelled from the spec: `BFD_MACH_O_LC_REQ_DYLD`, the required-by-dyld bit of a
command type word. -/
def BFD_MACH_O_LC_REQ_DYLD : Nat := 0x80000000

/-- Modelled from the spec: `BFD_MACH_O_LC_SIZE`, the size of the (type, length)
prefix of a load command. -/
def BFD_MACH_O_LC_SIZE : Nat := 8

/-- Modelled from the spec: load-command kind `BFD_MACH_O_LC_SEGMENT` of `mach-o.h`. -/
def BFD_MACH_O_LC_SEGMENT : Nat := 0x1

/-- Modelled from the spec: load-command kind `BFD_MACH_O_LC_SYMTAB` of `mach-o.h`. -/
def BFD_MACH_O_LC_SYMTAB : Nat := 0x2

/-- Modelled from the spec: load-command kind `BFD_MACH_O_LC_SYMSEG` of `mach-o.h`. -/
def BFD_MACH_O_LC_SYMSEG : Nat := 0x3

/-- Modelled from the spec: load-command kind `BFD_MACH_O_LC_THREAD` of `mach-o.h`. -/
def BFD_MACH_O_LC_THREAD : Nat := 0x4

/-- Modelled from the spec: load-command kind `BFD_MACH_O_LC_UNIXTHREAD` of `mach-o.h`. -/
def BFD_MACH_O_LC_UNIXTHREAD : Nat := 0x5

/-- Modelled from the spec: load-command kind `BFD_MACH_O_LC_LOADFVMLIB` of `mach-o.h`. -/
def BFD_MACH_O_LC_LOADFVMLIB : Nat := 0x6

/-- Modelled from the spec: load-command kind `BFD_MACH_O_LC_IDFVMLIB` of `mach-o.h`. -/
def BFD_MACH_O_LC_IDFVMLIB : Nat := 0x7

/-- Modelled from the spec: load-command kind `BFD_MACH_O_LC_IDENT` of `mach-o.h`. -/
def BFD_MACH_O_LC_IDENT : Nat := 0x8

/-- Modelled from the spec: load-command kind `BFD_MACH_O_LC_FVMFILE` of `mach-o.h`. -/
def BFD_MACH_O_LC_FVMFILE : Nat := 0x9

/-- Modelled from the spec: load-command kind `BFD_MACH_O_LC_PREPAGE` of `mach-o.h`. -/
def BFD_MACH_O_LC_PREPAGE : Nat := 0xa

/-- Modelled from the spec: load-command kind `BFD_MACH_O_LC_DYSYMTAB` of `mach-o.h`. -/
def BFD_MACH_O_LC_DYSYMTAB : Nat := 0xb

/-- Modelled from the spec: load-command kind `BFD_MACH_O_LC_LOAD_DYLIB` of `mach-o.h`. -/
def BFD_MACH_O_LC_LOAD_DYLIB : Nat := 0xc

/-- Modelled from the spec: load-command kind `BFD_MACH_O_LC_ID_DYLIB` of `mach-o.h`. -/
def BFD_MACH_O_LC_ID_DYLIB : Nat := 0xd

/-- Modelled from the spec: load-command kind `BFD_MACH_O_LC_LOAD_DYLINKER` of `mach-o.h`. -/
def BFD_MACH_O_LC_LOAD_DYLINKER : Nat := 0xe

/-- Modelled from the spec: load-command kind `BFD_MACH_O_LC_ID_DYLINKER` of `mach-o.h`. -/
def BFD_MACH_O_LC_ID_DYLINKER : Nat := 0xf

/-- Modelled from the spec: load-command kind `BFD_MACH_O_LC_PREBOUND_DYLIB` of `mach-o.h`. -/
def BFD_MACH_O_LC_PREBOUND_DYLIB : Nat := 0x10

/-- Modelled from the spec: load-command kind `BFD_MACH_O_LC_ROUTINES` of `mach-o.h`. -/
def BFD_MACH_O_LC_ROUTINES : Nat := 0x11

/-- Modelled from the spec: load-command kind `BFD_MACH_O_LC_SUB_FRAMEWORK` of `mach-o.h`. -/
def BFD_MACH_O_LC_SUB_FRAMEWORK : Nat := 0x12

/-- Modelled from the spec: load-command kind `BFD_MACH_O_LC_SUB_UMBRELLA` of `mach-o.h`. -/
def BFD_MACH_O_LC_SUB_UMBRELLA : Nat := 0x13

/-- Modelled from the spec: load-command kind `BFD_MACH_O_LC_SUB_CLIENT` of `mach-o.h`. -/
def BFD_MACH_O_LC_SUB_CLIENT : Nat := 0x14

/-- Modelled from the spec: load-command kind `BFD_MACH_O_LC_SUB_LIBRARY` of `mach-o.h`. -/
def BFD_MACH_O_LC_SUB_LIBRARY : Nat := 0x15

/-- Modelled from the spec: load-command kind `BFD_MACH_O_LC_TWOLEVEL_HINTS` of `mach-o.h`. -/
def BFD_MACH_O_LC_TWOLEVEL_HINTS : Nat := 0x16

/-- Modelled from the spec: load-command kind `BFD_MACH_O_LC_PREBIND_CKSUM` of `mach-o.h`. -/
def BFD_MACH_O_LC_PREBIND_CKSUM : Nat := 0x17

/-- Modelled from the spec: load-command kind `BFD_MACH_O_LC_LOAD_WEAK_DYLIB` of `mach-o.h`. -/
def BFD_MACH_O_LC_LOAD_WEAK_DYLIB : Nat := 0x18

/-- Modelled from the spec: load-command kind `BFD_MACH_O_LC_SEGMENT_64` of `mach-o.h`. -/
def BFD_MACH_O_LC_SEGMENT_64 : Nat := 0x19

/-- Modelled from the spec: load-command kind `BFD_MACH_O_LC_ROUTINES_64` of `mach-o.h`. -/
def BFD_MACH_O_LC_ROUTINES_64 : Nat := 0x1a

/-- Modelled from the spec: load-command kind `BFD_MACH_O_LC_UUID` of `mach-o.h`. -/
def BFD_MACH_O_LC_UUID : Nat := 0x1b

/-- Modelled from the spec: load-command kind `BFD_MACH_O_LC_RPATH` of `mach-o.h`. -/
def BFD_MACH_O_LC_RPATH : Nat := 0x1c

/-- Modelled from the spec: load-command kind `BFD_MACH_O_LC_CODE_SIGNATURE` of `mach-o.h`. -/
def BFD_MACH_O_LC_CODE_SIGNATURE : Nat := 0x1d

/-- Modelled from the spec: load-command kind `BFD_MACH_O_LC_SEGMENT_SPLIT_INFO` of `mach-o.h`. -/
def BFD_MACH_O_LC_SEGMENT_SPLIT_INFO : Nat := 0x1e

/-- Modelled from the spec: load-command kind `BFD_MACH_O_LC_REEXPORT_DYLIB` of `mach-o.h`. -/
def BFD_MACH_O_LC_REEXPORT_DYLIB : Nat := 0x1f

/-- Modelled from the spec: load-command kind `BFD_MACH_O_LC_DYLD_INFO` of `mach-o.h`. -/
def BFD_MACH_O_LC_DYLD_INFO : Nat := 0x22

/-- Modelled from the spec: load-command kind `BFD_MACH_O_LC_VERSION_MIN_MACOSX` of `mach-o.h`. -/
def BFD_MACH_O_LC_VERSION_MIN_MACOSX : Nat := 0x24

/-- Modelled from the spec: load-command kind `BFD_MACH_O_LC_VERSION_MIN_IPHONEOS` of `mach-o.h`. -/
def BFD_MACH_O_LC_VERSION_MIN_IPHONEOS : Nat := 0x25

/-- Modelled from the spec: load-command kind `BFD_MACH_O_LC_FUNCTION_STARTS` of `mach-o.h`. -/
def BFD_MACH_O_LC_FUNCTION_STARTS : Nat := 0x26

/-- Modelled from the spec: cpu type `BFD_MACH_O_CPU_TYPE_VAX` of `mach-o.h`. -/
def BFD_MACH_O_CPU_TYPE_VAX : Nat := 1

/-- Modelled from the spec: cpu type `BFD_MACH_O_CPU_TYPE_MC680x0` of `mach-o.h`. -/
def BFD_MACH_O_CPU_TYPE_MC680x0 : Nat := 6

/-- Modelled from the spec: cpu type `BFD_MACH_O_CPU_TYPE_I386` of `mach-o.h`. -/
def BFD_MACH_O_CPU_TYPE_I386 : Nat := 7

/-- Modelled from the spec: cpu type `BFD_MACH_O_CPU_TYPE_MIPS` of `mach-o.h`. -/
def BFD_MACH_O_CPU_TYPE_MIPS : Nat := 8

/-- Modelled from the spec: cpu type `BFD_MACH_O_CPU_TYPE_MC98000` of `mach-o.h`. -/
def BFD_MACH_O_CPU_TYPE_MC98000 : Nat := 10

/-- Modelled from the spec: cpu type `BFD_MACH_O_CPU_TYPE_HPPA` of `mach-o.h`. -/
def BFD_MACH_O_CPU_TYPE_HPPA : Nat := 11

/-- Modelled from the spec: cpu type `BFD_MACH_O_CPU_TYPE_ARM` of `mach-o.h`. -/
def BFD_MACH_O_CPU_TYPE_ARM : Nat := 12

/-- Modelled from the spec: cpu type `BFD_MACH_O_CPU_TYPE_MC88000` of `mach-o.h`. -/
def BFD_MACH_O_CPU_TYPE_MC88000 : Nat := 13

/-- Modelled from the spec: cpu type `BFD_MACH_O_CPU_TYPE_SPARC` of `mach-o.h`. -/
def BFD_MACH_O_CPU_TYPE_SPARC : Nat := 14

/-- Modelled from the spec: cpu type `BFD_MACH_O_CPU_TYPE_I860` of `mach-o.h`. -/
def BFD_MACH_O_CPU_TYPE_I860 : Nat := 15

/-- Modelled from the spec: cpu type `BFD_MACH_O_CPU_TYPE_ALPHA` of `mach-o.h`. -/
def BFD_MACH_O_CPU_TYPE_ALPHA : Nat := 16

/-- Modelled from the spec: cpu type `BFD_MACH_O_CPU_TYPE_POWERPC` of `mach-o.h`. -/
def BFD_MACH_O_CPU_TYPE_POWERPC : Nat := 18

/-- Modelled from the spec: cpu type `BFD_MACH_O_CPU_TYPE_POWERPC_64` of `mach-o.h`. -/
def BFD_MACH_O_CPU_TYPE_POWERPC_64 : Nat := 18 + 0x1000000

/-- Modelled from the spec: cpu type `BFD_MACH_O_CPU_TYPE_X86_64` of `mach-o.h`. -/
def BFD_MACH_O_CPU_TYPE_X86_64 : Nat := 7 + 0x1000000

/-- Modelled from the spec: file kind `BFD_MACH_O_MH_OBJECT` of `mach-o.h`. -/
def BFD_MACH_O_MH_OBJECT : Nat := 1

/-- Modelled from the spec: file kind `BFD_MACH_O_MH_EXECUTE` of `mach-o.h`. -/
def BFD_MACH_O_MH_EXECUTE : Nat := 2

/-- Modelled from the spec: file kind `BFD_MACH_O_MH_DYLIB` of `mach-o.h`. -/
def BFD_MACH_O_MH_DYLIB : Nat := 6

/-- Modelled from the spec: file kind `BFD_MACH_O_MH_BUNDLE` of `mach-o.h`. -/
def BFD_MACH_O_MH_BUNDLE : Nat := 8

/-! ## Load commands: the read side -/

/-- The architectures `bfd_mach_o_convert_architecture` can return
(`enum bfd_architecture`). -/
inductive bfd_architecture where
  | bfd_arch_unknown | bfd_arch_vax | bfd_arch_m68k | bfd_arch_i386 | bfd_arch_mips
  | bfd_arch_m98k | bfd_arch_hppa | bfd_arch_arm | bfd_arch_m88k | bfd_arch_sparc
  | bfd_arch_i860 | bfd_arch_alpha | bfd_arch_powerpc
  deriving DecidableEq, Repr

/-- The machine numbers `bfd_mach_o_convert_architecture` can store in
`*subtype`; `unknown` is the initial `bfd_arch_unknown` (zero). -/
inductive bfd_machine where
  | unknown | bfd_mach_i386_i386 | bfd_mach_x86_64 | bfd_mach_sparc | bfd_mach_ppc
  | bfd_mach_ppc64
  deriving DecidableEq, Repr

/-- Source `bfd_mach_o_convert_architecture`: the pair (`*type`, `*subtype`). -/
def bfd_mach_o_convert_architecture (mtype : Nat) (_msubtype : Nat) :
    bfd_architecture × bfd_machine :=
  if mtype = BFD_MACH_O_CPU_TYPE_VAX then (.bfd_arch_vax, .unknown)
  else if mtype = BFD_MACH_O_CPU_TYPE_MC680x0 then (.bfd_arch_m68k, .unknown)
  else if mtype = BFD_MACH_O_CPU_TYPE_I386 then (.bfd_arch_i386, .bfd_mach_i386_i386)
  else if mtype = BFD_MACH_O_CPU_TYPE_X86_64 then (.bfd_arch_i386, .bfd_mach_x86_64)
  else if mtype = BFD_MACH_O_CPU_TYPE_MIPS then (.bfd_arch_mips, .unknown)
  else if mtype = BFD_MACH_O_CPU_TYPE_MC98000 then (.bfd_arch_m98k, .unknown)
  else if mtype = BFD_MACH_O_CPU_TYPE_HPPA then (.bfd_arch_hppa, .unknown)
  else if mtype = BFD_MACH_O_CPU_TYPE_ARM then (.bfd_arch_arm, .unknown)
  else if mtype = BFD_MACH_O_CPU_TYPE_MC88000 then (.bfd_arch_m88k, .unknown)
  else if mtype = BFD_MACH_O_CPU_TYPE_SPARC then (.bfd_arch_sparc, .bfd_mach_sparc)
  else if mtype = BFD_MACH_O_CPU_TYPE_I860 then (.bfd_arch_i860, .unknown)
  else if mtype = BFD_MACH_O_CPU_TYPE_ALPHA then (.bfd_arch_alpha, .unknown)
  else if mtype = BFD_MACH_O_CPU_TYPE_POWERPC then (.bfd_arch_powerpc, .bfd_mach_ppc)
  else if mtype = BFD_MACH_O_CPU_TYPE_POWERPC_64 then (.bfd_arch_powerpc, .bfd_mach_ppc64)
  else (.bfd_arch_unknown, .unknown)

/-- Modelled from the spec: `bfd_mach_o_load_command` of `mach-o.h`: the kind, the
required-by-dyld flag, the file offset and byte length (both `unsigned int`),
and the union `command` of decoded bodies, here a value of type `P` once a
per-kind decoder has filled it. -/
structure bfd_mach_o_load_command (P : Type) where
  type : Nat
  type_required : Bool
  offset : Nat
  len : Nat
  command : Option P

/-- The per-kind decoders that `bfd_mach_o_read_command` and `bfd_mach_o_scan`
call.  Each receives the file, the command (kind, length and offset already
set) and the rest of the object data `σ`; it returns `none` for the failure
return, or the decoded body and the updated object data.  None of them
assigns the kind, length or offset of a command. -/
structure bfd_mach_o_readers (σ P : Type) where
  bfd_mach_o_read_segment_32 : Stream → bfd_mach_o_load_command P → σ → Option (P × σ)
  bfd_mach_o_read_segment_64 : Stream → bfd_mach_o_load_command P → σ → Option (P × σ)
  bfd_mach_o_read_symtab : Stream → bfd_mach_o_load_command P → σ → Option (P × σ)
  bfd_mach_o_read_thread : Stream → bfd_mach_o_load_command P → σ → Option (P × σ)
  bfd_mach_o_read_dylinker : Stream → bfd_mach_o_load_command P → σ → Option (P × σ)
  bfd_mach_o_read_dylib : Stream → bfd_mach_o_load_command P → σ → Option (P × σ)
  bfd_mach_o_read_prebound_dylib : Stream → bfd_mach_o_load_command P → σ → Option (P × σ)
  bfd_mach_o_read_str : Stream → bfd_mach_o_load_command P → σ → Option (P × σ)
  bfd_mach_o_read_dysymtab : Stream → bfd_mach_o_load_command P → σ → Option (P × σ)
  bfd_mach_o_read_uuid : Stream → bfd_mach_o_load_command P → σ → Option (P × σ)
  bfd_mach_o_read_linkedit : Stream → bfd_mach_o_load_command P → σ → Option (P × σ)
  bfd_mach_o_read_dyld_info : Stream → bfd_mach_o_load_command P → σ → Option (P × σ)
  bfd_mach_o_read_version_min : Stream → bfd_mach_o_load_command P → σ → Option (P × σ)
  -- the flavour walk of bfd_mach_o_scan_start_address over the one thread
  -- command of the file; none when a register read fails
  thread_start_address : Stream → bfd_mach_o_header → bfd_mach_o_load_command P → σ → Option σ
  -- bfd_mach_o_flatten_sections, which cannot fail
  bfd_mach_o_flatten_sections : List (bfd_mach_o_load_command P) → σ → σ

/-- The case labels of the `switch` in `bfd_mach_o_read_command`, in source order;
every other kind reaches its `default` branch. -/
def bfd_mach_o_read_command_cases : List Nat :=
  [BFD_MACH_O_LC_SEGMENT, BFD_MACH_O_LC_SEGMENT_64, BFD_MACH_O_LC_SYMTAB,
   BFD_MACH_O_LC_SYMSEG, BFD_MACH_O_LC_THREAD, BFD_MACH_O_LC_UNIXTHREAD,
   BFD_MACH_O_LC_LOAD_DYLINKER, BFD_MACH_O_LC_ID_DYLINKER,
   BFD_MACH_O_LC_LOAD_DYLIB, BFD_MACH_O_LC_ID_DYLIB, BFD_MACH_O_LC_LOAD_WEAK_DYLIB,
   BFD_MACH_O_LC_REEXPORT_DYLIB, BFD_MACH_O_LC_PREBOUND_DYLIB,
   BFD_MACH_O_LC_LOADFVMLIB, BFD_MACH_O_LC_IDFVMLIB, BFD_MACH_O_LC_IDENT,
   BFD_MACH_O_LC_FVMFILE, BFD_MACH_O_LC_PREPAGE, BFD_MACH_O_LC_ROUTINES,
   BFD_MACH_O_LC_ROUTINES_64,
   BFD_MACH_O_LC_SUB_FRAMEWORK, BFD_MACH_O_LC_SUB_UMBRELLA, BFD_MACH_O_LC_SUB_LIBRARY,
   BFD_MACH_O_LC_SUB_CLIENT, BFD_MACH_O_LC_RPATH,
   BFD_MACH_O_LC_DYSYMTAB, BFD_MACH_O_LC_TWOLEVEL_HINTS, BFD_MACH_O_LC_PREBIND_CKSUM,
   BFD_MACH_O_LC_UUID, BFD_MACH_O_LC_CODE_SIGNATURE, BFD_MACH_O_LC_SEGMENT_SPLIT_INFO,
   BFD_MACH_O_LC_FUNCTION_STARTS, BFD_MACH_O_LC_DYLD_INFO,
   BFD_MACH_O_LC_VERSION_MIN_MACOSX, BFD_MACH_O_LC_VERSION_MIN_IPHONEOS]

/-- The outcome of one per-kind decoder inside `bfd_mach_o_read_command`: failure
is passed on, success stores the decoded body in the command. -/
def decoded {σ P : Type} (command : bfd_mach_o_load_command P) (r : Option (P × σ)) :
    Option (bfd_mach_o_load_command P × σ) :=
  match r with
  | none => none
  | some (body, mdata) => some ({ command with command := some body }, mdata)

/-- The `switch (command->type)` of `bfd_mach_o_read_command`, entered once kind,
required flag and length have been stored in the command. -/
def bfd_mach_o_read_command_switch {σ P : Type} (R : bfd_mach_o_readers σ P)
    (abfd : Stream) (command : bfd_mach_o_load_command P) (mdata : σ) :
    Option (bfd_mach_o_load_command P × σ) :=
  let t := command.type
  if t = BFD_MACH_O_LC_SEGMENT then
    decoded command (R.bfd_mach_o_read_segment_32 abfd command mdata)
  else if t = BFD_MACH_O_LC_SEGMENT_64 then
    decoded command (R.bfd_mach_o_read_segment_64 abfd command mdata)
  else if t = BFD_MACH_O_LC_SYMTAB then
    decoded command (R.bfd_mach_o_read_symtab abfd command mdata)
  else if t = BFD_MACH_O_LC_SYMSEG then
    some (command, mdata)
  else if t = BFD_MACH_O_LC_THREAD ∨ t = BFD_MACH_O_LC_UNIXTHREAD then
    decoded command (R.bfd_mach_o_read_thread abfd command mdata)
  else if t = BFD_MACH_O_LC_LOAD_DYLINKER ∨ t = BFD_MACH_O_LC_ID_DYLINKER then
    decoded command (R.bfd_mach_o_read_dylinker abfd command mdata)
  else if t = BFD_MACH_O_LC_LOAD_DYLIB ∨ t = BFD_MACH_O_LC_ID_DYLIB
      ∨ t = BFD_MACH_O_LC_LOAD_WEAK_DYLIB ∨ t = BFD_MACH_O_LC_REEXPORT_DYLIB then
    decoded command (R.bfd_mach_o_read_dylib abfd command mdata)
  else if t = BFD_MACH_O_LC_PREBOUND_DYLIB then
    decoded command (R.bfd_mach_o_read_prebound_dylib abfd command mdata)
  else if t = BFD_MACH_O_LC_LOADFVMLIB ∨ t = BFD_MACH_O_LC_IDFVMLIB
      ∨ t = BFD_MACH_O_LC_IDENT ∨ t = BFD_MACH_O_LC_FVMFILE
      ∨ t = BFD_MACH_O_LC_PREPAGE ∨ t = BFD_MACH_O_LC_ROUTINES
      ∨ t = BFD_MACH_O_LC_ROUTINES_64 then
    some (command, mdata)
  else if t = BFD_MACH_O_LC_SUB_FRAMEWORK ∨ t = BFD_MACH_O_LC_SUB_UMBRELLA
      ∨ t = BFD_MACH_O_LC_SUB_LIBRARY ∨ t = BFD_MACH_O_LC_SUB_CLIENT
      ∨ t = BFD_MACH_O_LC_RPATH then
    decoded command (R.bfd_mach_o_read_str abfd command mdata)
  else if t = BFD_MACH_O_LC_DYSYMTAB then
    decoded command (R.bfd_mach_o_read_dysymtab abfd command mdata)
  else if t = BFD_MACH_O_LC_TWOLEVEL_HINTS ∨ t = BFD_MACH_O_LC_PREBIND_CKSUM then
    some (command, mdata)
  else if t = BFD_MACH_O_LC_UUID then
    decoded command (R.bfd_mach_o_read_uuid abfd command mdata)
  else if t = BFD_MACH_O_LC_CODE_SIGNATURE ∨ t = BFD_MACH_O_LC_SEGMENT_SPLIT_INFO
      ∨ t = BFD_MACH_O_LC_FUNCTION_STARTS then
    decoded command (R.bfd_mach_o_read_linkedit abfd command mdata)
  else if t = BFD_MACH_O_LC_DYLD_INFO then
    decoded command (R.bfd_mach_o_read_dyld_info abfd command mdata)
  else if t = BFD_MACH_O_LC_VERSION_MIN_MACOSX
      ∨ t = BFD_MACH_O_LC_VERSION_MIN_IPHONEOS then
    decoded command (R.bfd_mach_o_read_version_min abfd command mdata)
  else
    -- default: "unable to read unknown load command" is reported, then `break`
    some (command, mdata)

/-- Source `bfd_mach_o_read_command`: reads the 8-byte prefix at `command->offset`,
sets kind (the word without the required-by-dyld bit), required flag and
length, then enters the switch.  `none` is the return value -1. -/
def bfd_mach_o_read_command {σ P : Type} (R : bfd_mach_o_readers σ P) (xvec : bfd_target)
    (abfd : Stream) (command : bfd_mach_o_load_command P) (mdata : σ) :
    Option (bfd_mach_o_load_command P × σ) :=
  match bfd_bread abfd command.offset BFD_MACH_O_LC_SIZE with
  | none => none
  | some raw =>
    let cmd := bfd_h_get_32 xvec raw
    bfd_mach_o_read_command_switch R abfd
      { command with
        type := cmd &&& (2 ^ 32 - 1 - BFD_MACH_O_LC_REQ_DYLD)
        type_required := cmd &&& BFD_MACH_O_LC_REQ_DYLD != 0
        len := bfd_h_get_32 xvec (raw.drop 4) }
      mdata

/-- The bits of `abfd->flags` that `mach-o.c` sets or tests. -/
structure bfd_flags where
  HAS_RELOC : Bool
  EXEC_P : Bool
  DYNAMIC : Bool
  BFD_IN_MEMORY : Bool
  deriving DecidableEq, Repr

/-- Modelled from the spec: `bfd_mach_o_data_struct` of `mach-o.h`, restricted to the
header and the command table; `rest` stands for its other members. -/
structure bfd_mach_o_data_struct (σ P : Type) where
  header : bfd_mach_o_header
  commands : List (bfd_mach_o_load_command P)
  rest : σ

/-- The command loop of `bfd_mach_o_scan`: `todo` iterations remain, `done` holds
the commands decoded so far.  Command 0 is placed at `hdrsize`, command `i` at
`prev->offset + prev->len`, computed in `unsigned int`. -/
def bfd_mach_o_scan_commands {σ P : Type} (R : bfd_mach_o_readers σ P) (xvec : bfd_target)
    (abfd : Stream) (hdrsize : Nat) :
    Nat → List (bfd_mach_o_load_command P) → σ →
      Option (List (bfd_mach_o_load_command P) × σ)
  | 0, done, mdata => some (done, mdata)
  | todo + 1, done, mdata =>
    let offset := match done.getLast? with
      | none => hdrsize
      | some prev => u32 (prev.offset + prev.len)
    match bfd_mach_o_read_command R xvec abfd
        { type := 0, type_required := false, offset := offset, len := 0, command := none }
        mdata with
    | none => none
    | some (cur, mdata) => bfd_mach_o_scan_commands R xvec abfd hdrsize todo (done ++ [cur]) mdata

/-- Source `bfd_mach_o_scan_start_address`: with no thread command, or with more
than one, it returns 0 at once; with exactly one it walks the flavours of that
command. -/
def bfd_mach_o_scan_start_address {σ P : Type} (R : bfd_mach_o_readers σ P)
    (abfd : Stream) (header : bfd_mach_o_header)
    (commands : List (bfd_mach_o_load_command P)) (mdata : σ) : Option σ :=
  match commands.filter (fun c =>
      c.type = BFD_MACH_O_LC_THREAD ∨ c.type = BFD_MACH_O_LC_UNIXTHREAD) with
  | [cmd] => R.thread_start_address abfd header cmd mdata
  | _ => some mdata

/-- Source `bfd_mach_o_scan`: `none` is the return value -1; on success the new
`abfd->flags` and the filled `mdata`. -/
def bfd_mach_o_scan {σ P : Type} (R : bfd_mach_o_readers σ P) (xvec : bfd_target)
    (abfd : Stream) (flags : bfd_flags) (header : bfd_mach_o_header) (mdata : σ) :
    Option (bfd_flags × bfd_mach_o_data_struct σ P) :=
  let hdrsize := if mach_o_wide_p header then BFD_MACH_O_HEADER_64_SIZE
                 else BFD_MACH_O_HEADER_SIZE
  let flags : bfd_flags :=
    { HAS_RELOC := false, EXEC_P := false, DYNAMIC := false,
      BFD_IN_MEMORY := flags.BFD_IN_MEMORY }
  let flags : bfd_flags :=
    if header.filetype = BFD_MACH_O_MH_OBJECT then { flags with HAS_RELOC := true }
    else if header.filetype = BFD_MACH_O_MH_EXECUTE then { flags with EXEC_P := true }
    else if header.filetype = BFD_MACH_O_MH_DYLIB ∨ header.filetype = BFD_MACH_O_MH_BUNDLE
      then { flags with DYNAMIC := true }
    else flags
  if (bfd_mach_o_convert_architecture header.cputype header.cpusubtype).1
      = .bfd_arch_unknown then none
  else
    match bfd_mach_o_scan_commands R xvec abfd hdrsize header.ncmds [] mdata with
    | none => none
    | some (commands, mdata) =>
      match bfd_mach_o_scan_start_address R abfd header commands mdata with
      | none => none
      | some mdata =>
        some (flags, { header := header, commands := commands,
                       rest := R.bfd_mach_o_flatten_sections commands mdata })

/-! ## Load commands: the write side -/

/-- The functions `bfd_mach_o_write_contents` calls to lay out the object and to
emit the body of a command.  Each returns its success flag together with the
file and the object data as it leaves them.  The writers update the body of
the command they are given and the rest of the object data (carried in `σ`),
never the kind, offset or length of a command. -/
structure bfd_mach_o_writers (σ P : Type) where
  bfd_mach_o_build_commands :
    bfd_mach_o_data_struct σ P → Bool × bfd_mach_o_data_struct σ P
  bfd_mach_o_mangle_symbols : σ → Bool × σ
  bfd_mach_o_write_segment_32 : Stream → bfd_mach_o_load_command P → σ → Bool × Stream × σ
  bfd_mach_o_write_segment_64 : Stream → bfd_mach_o_load_command P → σ → Bool × Stream × σ
  bfd_mach_o_write_symtab : Stream → bfd_mach_o_load_command P → σ → Bool × Stream × σ
  bfd_mach_o_write_thread : Stream → bfd_mach_o_load_command P → σ → Bool × Stream × σ

/-- The case labels of the `switch` in the command loop of
`bfd_mach_o_write_contents`, in source order; every other kind reaches its
`default` branch. -/
def bfd_mach_o_write_contents_cases : List Nat :=
  [BFD_MACH_O_LC_SEGMENT, BFD_MACH_O_LC_SEGMENT_64, BFD_MACH_O_LC_SYMTAB,
   BFD_MACH_O_LC_SYMSEG, BFD_MACH_O_LC_THREAD, BFD_MACH_O_LC_UNIXTHREAD,
   BFD_MACH_O_LC_LOADFVMLIB, BFD_MACH_O_LC_IDFVMLIB, BFD_MACH_O_LC_IDENT,
   BFD_MACH_O_LC_FVMFILE, BFD_MACH_O_LC_PREPAGE, BFD_MACH_O_LC_DYSYMTAB,
   BFD_MACH_O_LC_LOAD_DYLIB, BFD_MACH_O_LC_LOAD_WEAK_DYLIB, BFD_MACH_O_LC_ID_DYLIB,
   BFD_MACH_O_LC_REEXPORT_DYLIB, BFD_MACH_O_LC_LOAD_DYLINKER,
   BFD_MACH_O_LC_ID_DYLINKER, BFD_MACH_O_LC_PREBOUND_DYLIB, BFD_MACH_O_LC_ROUTINES,
   BFD_MACH_O_LC_SUB_FRAMEWORK]

/-- The 8-byte prefix that the command loop of `bfd_mach_o_write_contents` writes
at `cur->offset`: the kind with the required-by-dyld bit put back, and the
length. -/
def bfd_mach_o_write_command_head {P : Type} (xvec : bfd_target)
    (cur : bfd_mach_o_load_command P) : List Byte :=
  let typeflag := cur.type ||| (if cur.type_required then BFD_MACH_O_LC_REQ_DYLD else 0)
  bfd_h_put_32 xvec typeflag ++ bfd_h_put_32 xvec cur.len

/-- One iteration of the command loop of `bfd_mach_o_write_contents`: the prefix is
written, then the switch on the kind emits the body.  The flag is `false`
where the source returns `FALSE`. -/
def bfd_mach_o_write_command {σ P : Type} (W : bfd_mach_o_writers σ P) (xvec : bfd_target)
    (abfd : Stream) (cur : bfd_mach_o_load_command P) (mdata : σ) : Bool × Stream × σ :=
  let abfd := bfd_bwrite abfd cur.offset (bfd_mach_o_write_command_head xvec cur)
  let t := cur.type
  if t = BFD_MACH_O_LC_SEGMENT then W.bfd_mach_o_write_segment_32 abfd cur mdata
  else if t = BFD_MACH_O_LC_SEGMENT_64 then W.bfd_mach_o_write_segment_64 abfd cur mdata
  else if t = BFD_MACH_O_LC_SYMTAB then W.bfd_mach_o_write_symtab abfd cur mdata
  else if t = BFD_MACH_O_LC_SYMSEG then (true, abfd, mdata)
  else if t = BFD_MACH_O_LC_THREAD ∨ t = BFD_MACH_O_LC_UNIXTHREAD then
    W.bfd_mach_o_write_thread abfd cur mdata
  else if t = BFD_MACH_O_LC_LOADFVMLIB ∨ t = BFD_MACH_O_LC_IDFVMLIB
      ∨ t = BFD_MACH_O_LC_IDENT ∨ t = BFD_MACH_O_LC_FVMFILE
      ∨ t = BFD_MACH_O_LC_PREPAGE ∨ t = BFD_MACH_O_LC_DYSYMTAB
      ∨ t = BFD_MACH_O_LC_LOAD_DYLIB ∨ t = BFD_MACH_O_LC_LOAD_WEAK_DYLIB
      ∨ t = BFD_MACH_O_LC_ID_DYLIB ∨ t = BFD_MACH_O_LC_REEXPORT_DYLIB
      ∨ t = BFD_MACH_O_LC_LOAD_DYLINKER ∨ t = BFD_MACH_O_LC_ID_DYLINKER
      ∨ t = BFD_MACH_O_LC_PREBOUND_DYLIB ∨ t = BFD_MACH_O_LC_ROUTINES
      ∨ t = BFD_MACH_O_LC_SUB_FRAMEWORK then
    (true, abfd, mdata)
  else
    -- default: "unable to write unknown load command" is reported, return FALSE
    (false, abfd, mdata)

/-- The command loop of `bfd_mach_o_write_contents` over the commands still to be
written; it stops at the first iteration that fails. -/
def bfd_mach_o_write_commands {σ P : Type} (W : bfd_mach_o_writers σ P) (xvec : bfd_target) :
    List (bfd_mach_o_load_command P) → Stream → σ → Bool × Stream × σ
  | [], abfd, mdata => (true, abfd, mdata)
  | cur :: rest, abfd, mdata =>
    match bfd_mach_o_write_command W xvec abfd cur mdata with
    | (false, abfd, mdata) => (false, abfd, mdata)
    | (true, abfd, mdata) => bfd_mach_o_write_commands W xvec rest abfd mdata

/-- Source `bfd_mach_o_write_contents`: the success flag, the file and the object
data as the function leaves them.  The loop visits `commands[0 .. ncmds-1]`. -/
def bfd_mach_o_write_contents {σ P : Type} (W : bfd_mach_o_writers σ P) (xvec : bfd_target)
    (abfd : Stream) (flags : bfd_flags) (mdata : bfd_mach_o_data_struct σ P) :
    Bool × Stream × bfd_mach_o_data_struct σ P :=
  let built := if mdata.header.ncmds = 0 then W.bfd_mach_o_build_commands mdata
               else (true, mdata)
  match built with
  | (false, mdata) => (false, abfd, mdata)
  | (true, mdata) =>
    let filetype :=
      if mdata.header.filetype = 0 then
        if flags.EXEC_P then BFD_MACH_O_MH_EXECUTE
        else if flags.DYNAMIC then BFD_MACH_O_MH_DYLIB
        else BFD_MACH_O_MH_OBJECT
      else mdata.header.filetype
    let mdata := { mdata with header := { mdata.header with filetype := filetype } }
    let abfd := bfd_mach_o_write_header xvec abfd mdata.header
    match W.bfd_mach_o_mangle_symbols mdata.rest with
    | (false, rest) => (false, abfd, { mdata with rest := rest })
    | (true, rest) =>
      match bfd_mach_o_write_commands W xvec (mdata.commands.take mdata.header.ncmds)
          abfd rest with
      | (ok, abfd, rest) => (ok, abfd, { mdata with rest := rest })

/-! ## Sections and relocations -/

/-- Modelled from the spec: `bfd_vma` of `bfd.h` is an unsigned 64-bit integer in
every configuration that supports 64-bit Mach-O; `vma n` is `n` reduced to
that type. -/
def vma (n : Nat) : Nat := n % 2 ^ 64

/-- Modelled from the spec: `bfd_mach_o_section` of `mach-o.h`.  The generic section
`bfdsection` it points to is identified by the position of the section in the
flattened table `mdata->sections`. -/
structure bfd_mach_o_section where
  sectname : List Byte
  segname : List Byte
  addr : Nat
  size : Nat
  offset : Nat
  align : Nat
  reloff : Nat
  nreloc : Nat
  flags : Nat
  reserved1 : Nat
  reserved2 : Nat
  reserved3 : Nat
  deriving DecidableEq, Repr

/-- What `res->sym_ptr_ptr` can point to: nothing, the section symbol
`mdata->sections[j]->bfdsection->symbol_ptr_ptr`, or the entry `syms + n` of the
symbol array. -/
inductive reloc_target where
  | null
  | section_symbol (j : Nat)
  | symbol (n : Nat)
  deriving DecidableEq, Repr

/-- The members of `arelent` (`bfd.h`) that `mach-o.c` assigns; `howto` is set by
the backend. -/
structure arelent (H : Type) where
  sym_ptr_ptr : reloc_target
  address : Nat
  addend : Nat
  howto : Option H
  deriving DecidableEq, Repr

/-- Modelled from the spec: `bfd_mach_o_reloc_info` of `mach-o.h`, the intermediate
relocation.  `r_address` and `r_value` are `bfd_vma`; the other members are the
unsigned bit-fields `r_scattered : 1`, `r_type : 4`, `r_pcrel : 1`,
`r_length : 2`, `r_extern : 1`, so a value stored in one of them is reduced
modulo 2 to the power of its width. -/
structure bfd_mach_o_reloc_info where
  r_address : Nat
  r_value : Nat
  r_scattered : Nat
  r_type : Nat
  r_pcrel : Nat
  r_length : Nat
  r_extern : Nat
  deriving DecidableEq, Repr

/-- Modelled from the spec: `BFD_MACH_O_R_PCREL` (`mach-o.h`). -/
def BFD_MACH_O_R_PCREL : Nat := 0x01000000

/-- Modelled from the spec: `BFD_MACH_O_R_EXTERN` (`mach-o.h`). -/
def BFD_MACH_O_R_EXTERN : Nat := 0x08000000

/-- Modelled from the spec: `BFD_MACH_O_GET_R_LENGTH(s)` is `((s) >> 25) & 0x3`. -/
def BFD_MACH_O_GET_R_LENGTH (s : Nat) : Nat := (s >>> 25) &&& 0x3

/-- Modelled from the spec: `BFD_MACH_O_GET_R_TYPE(s)` is `((s) >> 28) & 0x0f`. -/
def BFD_MACH_O_GET_R_TYPE (s : Nat) : Nat := (s >>> 28) &&& 0x0f

/-- Modelled from the spec: `BFD_MACH_O_GET_R_SYMBOLNUM(s)` is `(s) & 0x00ffffff`. -/
def BFD_MACH_O_GET_R_SYMBOLNUM (s : Nat) : Nat := s &&& 0x00ffffff

/-- Modelled from the spec: `BFD_MACH_O_SET_R_LENGTH(l)` is `((l) & 0x3) << 25`. -/
def BFD_MACH_O_SET_R_LENGTH (l : Nat) : Nat := (l &&& 0x3) <<< 25

/-- Modelled from the spec: `BFD_MACH_O_SET_R_TYPE(t)` is `((t) & 0xf) << 28`. -/
def BFD_MACH_O_SET_R_TYPE (t : Nat) : Nat := (t &&& 0xf) <<< 28

/-- Modelled from the spec: `BFD_MACH_O_SET_R_SYMBOLNUM(s)` is `(s) & 0x00ffffff`. -/
def BFD_MACH_O_SET_R_SYMBOLNUM (s : Nat) : Nat := s &&& 0x00ffffff

/-- Modelled from the spec: `BFD_MACH_O_SR_SCATTERED` (`mach-o.h`), the scattered bit
of the first word. -/
def BFD_MACH_O_SR_SCATTERED : Nat := 0x80000000

/-- Modelled from the spec: `BFD_MACH_O_SR_PCREL` (`mach-o.h`). -/
def BFD_MACH_O_SR_PCREL : Nat := 0x40000000

/-- Modelled from the spec: `BFD_MACH_O_GET_SR_LENGTH(s)` is `((s) >> 28) & 0x3`. -/
def BFD_MACH_O_GET_SR_LENGTH (s : Nat) : Nat := (s >>> 28) &&& 0x3

/-- Modelled from the spec: `BFD_MACH_O_GET_SR_TYPE(s)` is `((s) >> 24) & 0x0f`. -/
def BFD_MACH_O_GET_SR_TYPE (s : Nat) : Nat := (s >>> 24) &&& 0x0f

/-- Modelled from the spec: `BFD_MACH_O_GET_SR_ADDRESS(s)` is `(s) & 0x00ffffff`. -/
def BFD_MACH_O_GET_SR_ADDRESS (s : Nat) : Nat := s &&& 0x00ffffff

/-- Modelled from the spec: `BFD_MACH_O_SET_SR_LENGTH(l)` is `((l) & 0x3) << 28`. -/
def BFD_MACH_O_SET_SR_LENGTH (l : Nat) : Nat := (l &&& 0x3) <<< 28

/-- Modelled from the spec: `BFD_MACH_O_SET_SR_TYPE(t)` is `((t) & 0xf) << 24`. -/
def BFD_MACH_O_SET_SR_TYPE (t : Nat) : Nat := (t &&& 0xf) <<< 24

/-- Modelled from the spec: `BFD_MACH_O_SET_SR_ADDRESS(s)` is `(s) & 0x00ffffff`. -/
def BFD_MACH_O_SET_SR_ADDRESS (s : Nat) : Nat := s &&& 0x00ffffff

/-- The result of a C computation that may leave the defined behaviour of the
language: `undefined` marks an array access outside the array. -/
inductive c_result (α : Type) where
  | value (a : α)
  | undefined
  deriving DecidableEq, Repr

/-- The section search of the scattered branch of
`bfd_mach_o_canonicalize_one_reloc`: sections `j, j+1, ...` are tried in order
and the loop breaks at the first one with
`symnum >= sect->addr && symnum < sect->addr + sect->size` (the sum is a
`bfd_vma` sum); the result is the pair (`res->sym_ptr_ptr`, `res->addend`),
which stays (NULL, 0) when no section matches. -/
def scattered_target (symnum : Nat) : List bfd_mach_o_section → Nat → reloc_target × Nat
  | [], _ => (.null, 0)
  | sect :: rest, j =>
    if symnum ≥ sect.addr ∧ symnum < vma (sect.addr + sect.size) then
      (.section_symbol j, symnum - sect.addr)
    else scattered_target symnum rest (j + 1)

/-- The body of `bfd_mach_o_canonicalize_one_reloc` up to the call of the backend:
the relocation `res` and the intermediate `reloc` it hands to
`_bfd_mach_o_swap_reloc_in`.  `sections` is the flattened table
(`mdata->nsects` is its length); `res` and `reloc` come in with whatever they
held, and members the function does not assign keep that value.  In the
normal, non-extern branch the two `BFD_ASSERT`s only report; the table is
then indexed at `num - 1` whatever `num` is. -/
def bfd_mach_o_canonicalize_one_reloc_lower {H : Type} (xvec : bfd_target)
    (sections : List bfd_mach_o_section) (raw : List Byte) (res : arelent H)
    (reloc : bfd_mach_o_reloc_info) : c_result (arelent H × bfd_mach_o_reloc_info) :=
  let addr := bfd_h_get_32 xvec raw
  let symnum := bfd_h_get_32 xvec (raw.drop 4)
  if addr &&& BFD_MACH_O_SR_SCATTERED ≠ 0 then
    let t := scattered_target symnum sections 0
    .value
      ({ res with sym_ptr_ptr := t.1, addend := t.2,
                  address := BFD_MACH_O_GET_SR_ADDRESS addr },
       { reloc with r_type := BFD_MACH_O_GET_SR_TYPE addr % 2 ^ 4
                    r_length := BFD_MACH_O_GET_SR_LENGTH addr % 2 ^ 2
                    r_pcrel := (addr &&& BFD_MACH_O_SR_PCREL) % 2 ^ 1
                    r_scattered := 1 })
  else
    let num := BFD_MACH_O_GET_R_SYMBOLNUM symnum
    let fields : bfd_mach_o_reloc_info :=
      { reloc with r_type := BFD_MACH_O_GET_R_TYPE symnum % 2 ^ 4
                   r_length := BFD_MACH_O_GET_R_LENGTH symnum % 2 ^ 2
                   r_pcrel := if symnum &&& BFD_MACH_O_R_PCREL ≠ 0 then 1 else 0
                   r_scattered := 0 }
    if symnum &&& BFD_MACH_O_R_EXTERN ≠ 0 then
      .value ({ res with addend := 0, address := addr, sym_ptr_ptr := .symbol num },
              { fields with r_extern := 1 })
    else
      if num = 0 then .undefined
      else
        match sections[num - 1]? with
        | none => .undefined
        | some sect =>
          .value ({ res with addend := vma (2 ^ 64 - vma sect.addr), address := addr,
                             sym_ptr_ptr := .section_symbol (num - 1) },
                  { fields with r_extern := 0 })

/-- Source `bfd_mach_o_canonicalize_one_reloc`: `none` is the return value -1, which
only the backend `_bfd_mach_o_swap_reloc_in` can cause. -/
def bfd_mach_o_canonicalize_one_reloc {H : Type} (xvec : bfd_target)
    (sections : List bfd_mach_o_section)
    (swap_reloc_in : arelent H → bfd_mach_o_reloc_info → Option (arelent H))
    (raw : List Byte) (res : arelent H) (reloc : bfd_mach_o_reloc_info) :
    c_result (Option (arelent H)) :=
  match bfd_mach_o_canonicalize_one_reloc_lower xvec sections raw res reloc with
  | .undefined => .undefined
  | .value (res, reloc) => .value (swap_reloc_in res reloc)

/-- The block "Lower the relocation info" of `bfd_mach_o_write_relocs`: the eight
bytes written for one intermediate relocation `pinfo`.  A scattered entry
stores the packed word first and `r_value` second; a normal entry stores
`r_address` first and the packed word second. -/
def bfd_mach_o_write_relocs_lower (xvec : bfd_target) (pinfo : bfd_mach_o_reloc_info) :
    List Byte :=
  if pinfo.r_scattered ≠ 0 then
    let v := BFD_MACH_O_SR_SCATTERED
      ||| (if pinfo.r_pcrel ≠ 0 then BFD_MACH_O_SR_PCREL else 0)
      ||| BFD_MACH_O_SET_SR_LENGTH pinfo.r_length
      ||| BFD_MACH_O_SET_SR_TYPE pinfo.r_type
      ||| BFD_MACH_O_SET_SR_ADDRESS pinfo.r_address
    bfd_h_put_32 xvec v ++ bfd_h_put_32 xvec pinfo.r_value
  else
    let v := BFD_MACH_O_SET_R_SYMBOLNUM pinfo.r_value
      ||| (if pinfo.r_pcrel ≠ 0 then BFD_MACH_O_R_PCREL else 0)
      ||| BFD_MACH_O_SET_R_LENGTH pinfo.r_length
      ||| (if pinfo.r_extern ≠ 0 then BFD_MACH_O_R_EXTERN else 0)
      ||| BFD_MACH_O_SET_R_TYPE pinfo.r_type
    bfd_h_put_32 xvec pinfo.r_address ++ bfd_h_put_32 xvec v

/-! ## The symbol table -/

/-- Modelled from the spec: `BFD_MACH_O_N_STAB`, mask of the stab bits of `n_type`. -/
def BFD_MACH_O_N_STAB : Nat := 0xe0

/-- Modelled from the spec: `BFD_MACH_O_N_PEXT`, private-external bit of `n_type`. -/
def BFD_MACH_O_N_PEXT : Nat := 0x10

/-- Modelled from the spec: `BFD_MACH_O_N_TYPE`, mask of the kind bits of `n_type`. -/
def BFD_MACH_O_N_TYPE : Nat := 0x0e

/-- Modelled from the spec: `BFD_MACH_O_N_EXT`, external bit of `n_type`. -/
def BFD_MACH_O_N_EXT : Nat := 0x01

/-- Modelled from the spec: `BFD_MACH_O_N_UNDF`, kind undefined. -/
def BFD_MACH_O_N_UNDF : Nat := 0x00

/-- Modelled from the spec: `BFD_MACH_O_N_ABS`, kind absolute. -/
def BFD_MACH_O_N_ABS : Nat := 0x02

/-- Modelled from the spec: `BFD_MACH_O_N_INDR`, kind indirect. -/
def BFD_MACH_O_N_INDR : Nat := 0x0a

/-- Modelled from the spec: `BFD_MACH_O_N_PBUD`, kind prebound undefined. -/
def BFD_MACH_O_N_PBUD : Nat := 0x0c

/-- Modelled from the spec: `BFD_MACH_O_N_SECT`, kind defined in a section. -/
def BFD_MACH_O_N_SECT : Nat := 0x0e

/-- Modelled from the spec: `BFD_MACH_O_N_WEAK_REF`, weak-reference bit of `n_desc`. -/
def BFD_MACH_O_N_WEAK_REF : Nat := 0x40

/-- Modelled from the spec: `BFD_MACH_O_NLIST_SIZE`, size of a 32-bit symbol record. -/
def BFD_MACH_O_NLIST_SIZE : Nat := 12

/-- Modelled from the spec: `BFD_MACH_O_NLIST_64_SIZE`, size of a 64-bit symbol record. -/
def BFD_MACH_O_NLIST_64_SIZE : Nat := 16

/-- Modelled from the spec: `N_GSYM`, stab code of `aout/stab.def`. -/
def N_GSYM : Nat := 0x20

/-- Modelled from the spec: `N_FUN`, stab code of `aout/stab.def`. -/
def N_FUN : Nat := 0x24

/-- Modelled from the spec: `N_STSYM`, stab code of `aout/stab.def`. -/
def N_STSYM : Nat := 0x26

/-- Modelled from the spec: `N_LCSYM`, stab code of `aout/stab.def`. -/
def N_LCSYM : Nat := 0x28

/-- Modelled from the spec: `N_BNSYM`, stab code of `aout/stab.def`. -/
def N_BNSYM : Nat := 0x2e

/-- Modelled from the spec: `N_SLINE`, stab code of `aout/stab.def`. -/
def N_SLINE : Nat := 0x44

/-- Modelled from the spec: `N_ENSYM`, stab code of `aout/stab.def`. -/
def N_ENSYM : Nat := 0x4e

/-- Modelled from the spec: `N_ECOMM`, stab code of `aout/stab.def`. -/
def N_ECOMM : Nat := 0xe4

/-- Modelled from the spec: `N_ECOML`, stab code of `aout/stab.def`. -/
def N_ECOML : Nat := 0xe8

/-- Modelled from the spec: `BSF_NO_FLAGS`, symbol flag of `bfd.h`. -/
def BSF_NO_FLAGS : Nat := 0x00

/-- Modelled from the spec: `BSF_LOCAL`, symbol flag of `bfd.h`. -/
def BSF_LOCAL : Nat := 0x01

/-- Modelled from the spec: `BSF_GLOBAL`, symbol flag of `bfd.h`. -/
def BSF_GLOBAL : Nat := 0x02

/-- Modelled from the spec: `BSF_DEBUGGING`, symbol flag of `bfd.h`. -/
def BSF_DEBUGGING : Nat := 0x04

/-- Modelled from the spec: `BSF_WEAK`, symbol flag of `bfd.h`. -/
def BSF_WEAK : Nat := 0x80

/-- Source `bfd_getb16`: big-endian 16-bit load. -/
def bfd_getb16 (p : List Byte) : Nat := (p.getD 0 0).val * 2 ^ 8 + (p.getD 1 0).val

/-- Source `bfd_getl16`: little-endian 16-bit load. -/
def bfd_getl16 (p : List Byte) : Nat := (p.getD 0 0).val + (p.getD 1 0).val * 2 ^ 8

/-- Source `bfd_getb64`: big-endian 64-bit load. -/
def bfd_getb64 (p : List Byte) : Nat := bfd_getb32 p * 2 ^ 32 + bfd_getb32 (p.drop 4)

/-- Source `bfd_getl64`: little-endian 64-bit load. -/
def bfd_getl64 (p : List Byte) : Nat := bfd_getl32 p + bfd_getl32 (p.drop 4) * 2 ^ 32

/-- The accessor `bfd_h_get_16 (abfd, p)`. -/
def bfd_h_get_16 (xvec : bfd_target) (p : List Byte) : Nat :=
  match xvec with
  | .big => bfd_getb16 p
  | .little => bfd_getl16 p

/-- The accessor `bfd_h_get_64 (abfd, p)`. -/
def bfd_h_get_64 (xvec : bfd_target) (p : List Byte) : Nat :=
  match xvec with
  | .big => bfd_getb64 p
  | .little => bfd_getl64 p

/-- The accessor `bfd_h_get_8 (abfd, p)`: the byte itself. -/
def bfd_h_get_8 (p : List Byte) : Nat := (p.getD 0 0).val

/-- What `symbol.section` can point to: the undefined, absolute and common
sections of libbfd, or the generic section `mdata->sections[j]->bfdsection`. -/
inductive sym_section where
  | bfd_und_section_ptr
  | bfd_abs_section_ptr
  | bfd_com_section_ptr
  | bfdsection (j : Nat)
  deriving DecidableEq, Repr

/-- Modelled from the spec: `bfd_mach_o_asymbol` of `mach-o.h`, the generic `asymbol`
followed by the raw `n_type`, `n_sect` and `n_desc`.  The name is a pointer
into the string table, kept as its offset from `sym->strtab`. -/
structure bfd_mach_o_asymbol where
  name : Nat
  value : Nat
  flags : Nat
  udata_i : Nat
  symbol_section : sym_section
  n_type : Nat
  n_sect : Nat
  n_desc : Nat
  deriving DecidableEq, Repr

/-- Modelled from the spec: `bfd_mach_o_symtab_command` of `mach-o.h`.  `symbols` and
`strtab` are null until loaded; `symbols` then holds the entries decoded so
far and `strtab` the bytes the string-table pointer gives access to. -/
structure bfd_mach_o_symtab_command where
  symoff : Nat
  nsyms : Nat
  stroff : Nat
  strsize : Nat
  symbols : Option (List bfd_mach_o_asymbol)
  strtab : Option (List Byte)
  deriving DecidableEq, Repr

/-- The C string a `char *` denotes: the bytes of `mem` from position `p` up to,
not including, the first NUL (or up to the end of the modelled memory). -/
def c_string (mem : List Byte) (p : Nat) : List Byte :=
  (mem.drop p).takeWhile (fun b => b ≠ 0)

/-- The assignments of `bfd_mach_o_read_symtab_symbol` after the name check: the
symbol built from the string offset, type byte, section number, description
word and value of a record. -/
def bfd_mach_o_read_symtab_symbol_classify (sections : List bfd_mach_o_section)
    (stroff type n_sect desc value : Nat) : bfd_mach_o_asymbol :=
  let symtype := type &&& BFD_MACH_O_N_TYPE
  let s : bfd_mach_o_asymbol :=
    { name := stroff, value := value, flags := 0, udata_i := 0,
      symbol_section := .bfd_und_section_ptr, n_type := type, n_sect := n_sect, n_desc := desc }
  let in_section : bfd_mach_o_asymbol :=
    match sections[n_sect - 1]? with
    | some sect =>
      { s with symbol_section := .bfdsection (n_sect - 1)
               value := vma (value + (2 ^ 64 - vma sect.addr)) }
    | none => s
  if type &&& BFD_MACH_O_N_STAB ≠ 0 then
    let s := { s with flags := s.flags ||| BSF_DEBUGGING, symbol_section := .bfd_und_section_ptr }
    if type = N_FUN ∨ type = N_STSYM ∨ type = N_LCSYM ∨ type = N_BNSYM ∨ type = N_SLINE
        ∨ type = N_ENSYM ∨ type = N_ECOMM ∨ type = N_ECOML ∨ type = N_GSYM then
      if n_sect > 0 ∧ n_sect ≤ sections.length then
        { in_section with flags := s.flags }
      else s
    else s
  else
    let f1 := if type &&& BFD_MACH_O_N_PEXT ≠ 0 then s.flags ||| BSF_GLOBAL else s.flags
    let f2 := if type &&& BFD_MACH_O_N_EXT ≠ 0 then f1 ||| BSF_GLOBAL else f1
    let f3 := if type &&& (BFD_MACH_O_N_PEXT ||| BFD_MACH_O_N_EXT) = 0
      then f2 ||| BSF_LOCAL else f2
    let s := { s with flags := f3 }
    if symtype = BFD_MACH_O_N_UNDF then
      if type = (BFD_MACH_O_N_UNDF ||| BFD_MACH_O_N_EXT) ∧ s.value ≠ 0 then
        { s with symbol_section := .bfd_com_section_ptr, flags := BSF_NO_FLAGS }
      else
        { s with symbol_section := .bfd_und_section_ptr
                 flags := if s.n_desc &&& BFD_MACH_O_N_WEAK_REF ≠ 0
                   then s.flags ||| BSF_WEAK else s.flags }
    else if symtype = BFD_MACH_O_N_PBUD then
      { s with symbol_section := .bfd_und_section_ptr }
    else if symtype = BFD_MACH_O_N_ABS then
      { s with symbol_section := .bfd_abs_section_ptr }
    else if symtype = BFD_MACH_O_N_SECT then
      if n_sect > 0 ∧ n_sect ≤ sections.length then
        { in_section with flags := s.flags }
      else
        -- "setting to undefined" is reported when the section number is not 0
        { s with symbol_section := .bfd_und_section_ptr }
    else if symtype = BFD_MACH_O_N_INDR then
      { s with symbol_section := .bfd_und_section_ptr }
    else
      { s with symbol_section := .bfd_und_section_ptr }

/-- Source `bfd_mach_o_read_symtab_symbol`: decodes symbol `i` of the table `sym`;
`none` is the return value -1.  `sections` is the flattened section table and
`header` the header of the file (for the record width). -/
def bfd_mach_o_read_symtab_symbol (xvec : bfd_target) (abfd : Stream)
    (header : bfd_mach_o_header) (sections : List bfd_mach_o_section)
    (sym : bfd_mach_o_symtab_command) (i : Nat) : Option bfd_mach_o_asymbol :=
  let wide := mach_o_wide_p header
  let symwidth := if wide then BFD_MACH_O_NLIST_64_SIZE else BFD_MACH_O_NLIST_SIZE
  let symoff := u32 (sym.symoff + i * symwidth)
  match bfd_bread abfd symoff symwidth with
  | none => none
  | some raw =>
    let stroff := bfd_h_get_32 xvec raw
    let type := bfd_h_get_8 (raw.drop 4)
    let n_sect := bfd_h_get_8 (raw.drop 5)
    let desc := bfd_h_get_16 xvec (raw.drop 6)
    let value := if wide then bfd_h_get_64 xvec (raw.drop 8)
                 else bfd_h_get_32 xvec (raw.drop 8)
    if stroff ≥ sym.strsize then none
    else some (bfd_mach_o_read_symtab_symbol_classify sections stroff type n_sect desc value)

/-- Source `bfd_mach_o_read_symtab_strtab`: the success flag (`true` for the return
value 0) and the symbol-table command as the function leaves it.  A string
table in memory is a pointer into the file buffer; otherwise `strsize` bytes
are allocated and read, and the pointer stays set, to a buffer of
indeterminate content (modelled as zeros), when the read fails. -/
def bfd_mach_o_read_symtab_strtab (abfd : Stream) (flags : bfd_flags)
    (symtab : Option bfd_mach_o_symtab_command) :
    Bool × Option bfd_mach_o_symtab_command :=
  match symtab with
  | none => (false, none)
  | some sym =>
    match sym.strtab with
    | some _ => (true, some sym)
    | none =>
      if flags.BFD_IN_MEMORY then
        if u32 (sym.stroff + sym.strsize) > abfd.length then (false, some sym)
        else (true, some { sym with strtab := some (abfd.drop sym.stroff) })
      else
        match bfd_bread abfd sym.stroff sym.strsize with
        | none => (false, some { sym with strtab := some (List.replicate sym.strsize 0) })
        | some buf => (true, some { sym with strtab := some buf })

/-- The symbol loop of `bfd_mach_o_read_symtab_symbols`, from symbol `i` on with
`todo` symbols left; it returns at the first symbol that fails to decode. -/
def bfd_mach_o_read_symtab_symbols_loop (xvec : bfd_target) (abfd : Stream)
    (header : bfd_mach_o_header) (sections : List bfd_mach_o_section)
    (sym : bfd_mach_o_symtab_command) :
    Nat → Nat → List bfd_mach_o_asymbol → Bool × List bfd_mach_o_asymbol
  | 0, _, done => (true, done)
  | todo + 1, i, done =>
    match bfd_mach_o_read_symtab_symbol xvec abfd header sections sym i with
    | none => (false, done)
    | some s =>
      bfd_mach_o_read_symtab_symbols_loop xvec abfd header sections sym todo (i + 1)
        (done ++ [s])

/-- Source `bfd_mach_o_read_symtab_symbols`: the success flag (`true` for the return
value 0) and the symbol-table command as the function leaves it.  Nothing is
done when there is no symbol table or when the symbol array is already
allocated. -/
def bfd_mach_o_read_symtab_symbols (xvec : bfd_target) (abfd : Stream) (flags : bfd_flags)
    (header : bfd_mach_o_header) (sections : List bfd_mach_o_section)
    (symtab : Option bfd_mach_o_symtab_command) :
    Bool × Option bfd_mach_o_symtab_command :=
  match symtab with
  | none => (true, none)
  | some sym =>
    match sym.symbols with
    | some _ => (true, some sym)
    | none =>
      let sym := { sym with symbols := some [] }
      match bfd_mach_o_read_symtab_strtab abfd flags (some sym) with
      | (_, none) => (false, some sym)
      | (false, some sym) => (false, some sym)
      | (true, some sym) =>
        match bfd_mach_o_read_symtab_symbols_loop xvec abfd header sections sym
            sym.nsyms 0 [] with
        | (ok, symbols) => (ok, some { sym with symbols := some symbols })

/-- A set of per-kind decoders that all report failure, for running the scan on
command tables made only of kinds that `bfd_mach_o_read_command` accepts
without calling a decoder (`LC_SYMSEG`, `LC_IDENT`, unknown kinds, ...).  Such
tables hold no thread command, so `bfd_mach_o_scan_start_address` never walks
flavours, and no segment, so flattening has nothing to collect. -/
def bfd_mach_o_no_readers : bfd_mach_o_readers Unit Unit where
  bfd_mach_o_read_segment_32 := fun _ _ _ => none
  bfd_mach_o_read_segment_64 := fun _ _ _ => none
  bfd_mach_o_read_symtab := fun _ _ _ => none
  bfd_mach_o_read_thread := fun _ _ _ => none
  bfd_mach_o_read_dylinker := fun _ _ _ => none
  bfd_mach_o_read_dylib := fun _ _ _ => none
  bfd_mach_o_read_prebound_dylib := fun _ _ _ => none
  bfd_mach_o_read_str := fun _ _ _ => none
  bfd_mach_o_read_dysymtab := fun _ _ _ => none
  bfd_mach_o_read_uuid := fun _ _ _ => none
  bfd_mach_o_read_linkedit := fun _ _ _ => none
  bfd_mach_o_read_dyld_info := fun _ _ _ => none
  bfd_mach_o_read_version_min := fun _ _ _ => none
  thread_start_address := fun _ _ _ _ => none
  bfd_mach_o_flatten_sections := fun _ m => m

/-- Writers for an object without sections and symbols, whose command table
holds only kinds that have no body writer: symbol numbering has nothing to do
and succeeds, every body writer and the command builder report failure. -/
def bfd_mach_o_no_writers : bfd_mach_o_writers Unit Unit where
  bfd_mach_o_build_commands := fun mdata => (false, mdata)
  bfd_mach_o_mangle_symbols := fun m => (true, m)
  bfd_mach_o_write_segment_32 := fun abfd _ m => (false, abfd, m)
  bfd_mach_o_write_segment_64 := fun abfd _ m => (false, abfd, m)
  bfd_mach_o_write_symtab := fun abfd _ m => (false, abfd, m)
  bfd_mach_o_write_thread := fun abfd _ m => (false, abfd, m)

/-- The file made of the given 32-bit words, stored big-endian. -/
def be_words (ws : List Nat) : Stream := (ws.map bfd_putb32).flatten

/-- The bytes of a C string literal, without its terminating NUL. -/
def str (s : String) : List Byte := s.toList.map (fun c => byteOf c.toNat)

/-- Modelled from the spec: `SEC_NO_FLAGS`, section flag of `bfd.h`. -/
def SEC_NO_FLAGS : Nat := 0x000

/-- Modelled from the spec: `SEC_ALLOC`, section flag of `bfd.h`. -/
def SEC_ALLOC : Nat := 0x001

/-- Modelled from the spec: `SEC_LOAD`, section flag of `bfd.h`. -/
def SEC_LOAD : Nat := 0x002

/-- Modelled from the spec: `SEC_RELOC`, section flag of `bfd.h`. -/
def SEC_RELOC : Nat := 0x004

/-- Modelled from the spec: `SEC_READONLY`, section flag of `bfd.h`. -/
def SEC_READONLY : Nat := 0x008

/-- Modelled from the spec: `SEC_CODE`, section flag of `bfd.h`. -/
def SEC_CODE : Nat := 0x010

/-- Modelled from the spec: `SEC_DATA`, section flag of `bfd.h`. -/
def SEC_DATA : Nat := 0x020

/-- Modelled from the spec: `SEC_HAS_CONTENTS`, section flag of `bfd.h`. -/
def SEC_HAS_CONTENTS : Nat := 0x100

/-- Modelled from the spec: `SEC_DEBUGGING`, section flag of `bfd.h`. -/
def SEC_DEBUGGING : Nat := 0x2000

/-- Modelled from the spec: `BFD_MACH_O_SEGNAME_SIZE` of `mach-o.h`, the size of a
segment-name field. -/
def BFD_MACH_O_SEGNAME_SIZE : Nat := 16

/-- Modelled from the spec: `BFD_MACH_O_SECTNAME_SIZE` of `mach-o.h`, the size of a
section-name field. -/
def BFD_MACH_O_SECTNAME_SIZE : Nat := 16

/-- Source `struct mach_o_section_name_xlat`: a generic name, the Mach-O section
name it stands for, and the default flags. -/
structure mach_o_section_name_xlat where
  bfd_name : List Byte
  mach_o_name : List Byte
  flags : Nat
  deriving DecidableEq, Repr

/-- Source `dwarf_section_names_xlat`, without the terminating null entry. -/
def dwarf_section_names_xlat : List mach_o_section_name_xlat :=
  [ ⟨str ".debug_frame", str "__debug_frame", SEC_DEBUGGING⟩,
    ⟨str ".debug_info", str "__debug_info", SEC_DEBUGGING⟩,
    ⟨str ".debug_abbrev", str "__debug_abbrev", SEC_DEBUGGING⟩,
    ⟨str ".debug_aranges", str "__debug_aranges", SEC_DEBUGGING⟩,
    ⟨str ".debug_macinfo", str "__debug_macinfo", SEC_DEBUGGING⟩,
    ⟨str ".debug_line", str "__debug_line", SEC_DEBUGGING⟩,
    ⟨str ".debug_loc", str "__debug_loc", SEC_DEBUGGING⟩,
    ⟨str ".debug_pubnames", str "__debug_pubnames", SEC_DEBUGGING⟩,
    ⟨str ".debug_pubtypes", str "__debug_pubtypes", SEC_DEBUGGING⟩,
    ⟨str ".debug_str", str "__debug_str", SEC_DEBUGGING⟩,
    ⟨str ".debug_ranges", str "__debug_ranges", SEC_DEBUGGING⟩ ]

/-- Source `text_section_names_xlat`, without the terminating null entry. -/
def text_section_names_xlat : List mach_o_section_name_xlat :=
  [ ⟨str ".text", str "__text", SEC_CODE ||| SEC_LOAD⟩,
    ⟨str ".const", str "__const", SEC_READONLY ||| SEC_DATA ||| SEC_LOAD⟩,
    ⟨str ".cstring", str "__cstring", SEC_READONLY ||| SEC_DATA ||| SEC_LOAD⟩,
    ⟨str ".eh_frame", str "__eh_frame", SEC_READONLY ||| SEC_LOAD⟩ ]

/-- Source `data_section_names_xlat`, without the terminating null entry. -/
def data_section_names_xlat : List mach_o_section_name_xlat :=
  [ ⟨str ".data", str "__data", SEC_DATA ||| SEC_LOAD⟩,
    ⟨str ".const_data", str "__const", SEC_DATA ||| SEC_LOAD⟩,
    ⟨str ".dyld", str "__dyld", SEC_DATA ||| SEC_LOAD⟩,
    ⟨str ".lazy_symbol_ptr", str "__la_symbol_ptr", SEC_DATA ||| SEC_LOAD⟩,
    ⟨str ".non_lazy_symbol_ptr", str "__nl_symbol_ptr", SEC_DATA ||| SEC_LOAD⟩,
    ⟨str ".bss", str "__bss", SEC_NO_FLAGS⟩ ]

/-- Source `struct mach_o_segment_name_xlat`: a segment name and the table of its
well-known sections. -/
structure mach_o_segment_name_xlat where
  segname : List Byte
  sections : List mach_o_section_name_xlat
  deriving DecidableEq, Repr

/-- Source `segsec_names_xlat`, without the terminating null entry. -/
def segsec_names_xlat : List mach_o_segment_name_xlat :=
  [ ⟨str "__DWARF", dwarf_section_names_xlat⟩,
    ⟨str "__TEXT", text_section_names_xlat⟩,
    ⟨str "__DATA", data_section_names_xlat⟩ ]

/-- The length `strlen (s)` of the C string that starts the memory `s`. -/
def strlen (s : List Byte) : Nat := (c_string s 0).length

/-- The test `strncmp (a, b, n) == 0` on the memory behind two `char *`: at most
`n` characters are compared, and the comparison stops after a NUL.  The end
of the modelled memory reads as NUL. -/
def strncmp_eq : List Byte → List Byte → Nat → Bool
  | _, _, 0 => true
  | a, b, n + 1 =>
    if a.headD 0 ≠ b.headD 0 then false
    else if a.headD 0 = 0 then true
    else strncmp_eq a.tail b.tail n

/-- The test `strcmp (a, b) == 0`: the two C strings are equal. -/
def strcmp_eq (a b : List Byte) : Bool := c_string a 0 == c_string b 0

/-- Source `bfd_mach_o_normalize_section_name`: the canonical generic name (`none`
for `NULL`) and the flags for a segment and section name.  Only the table
of the first segment whose name matches is searched. -/
def bfd_mach_o_normalize_section_name (segname sectname : List Byte) :
    Option (List Byte) × Nat :=
  match segsec_names_xlat.find?
      (fun seg => strncmp_eq seg.segname segname BFD_MACH_O_SEGNAME_SIZE) with
  | none => (none, SEC_NO_FLAGS)
  | some seg =>
    match seg.sections.find?
        (fun sec => strncmp_eq sec.mach_o_name sectname BFD_MACH_O_SECTNAME_SIZE) with
    | none => (none, SEC_NO_FLAGS)
    | some sec => (some sec.bfd_name, sec.flags)

/-- Source `bfd_mach_o_convert_section_name_to_bfd`: the generic name and flags for
a segment and section name, given as the memory behind the two `char *`.
The name buffer is taken to be allocated (`bfd_alloc` succeeds); its length
is the exact length of the formatted name, so `snprintf` truncates nothing. -/
def bfd_mach_o_convert_section_name_to_bfd (segname sectname : List Byte) :
    Option (List Byte) × Nat :=
  match bfd_mach_o_normalize_section_name segname sectname with
  | (some name, flags) => (some name, flags)
  | (none, _) =>
    let pfx := if segname.headD 0 ≠ byteOf 0x5f then str "LC_SEGMENT." else []
    (some (pfx ++ c_string segname 0 ++ str "." ++ c_string sectname 0), SEC_NO_FLAGS)

/-- Source `strchr (name, '.')` as an offset from `name`: the position of the first
dot of the C string, `none` for `NULL`. -/
def strchr_dot (name : List Byte) : Option Nat :=
  let s := c_string name 0
  if s.indexOf (byteOf 0x2e) < s.length then some (s.indexOf (byteOf 0x2e)) else none

/-- Source `bfd_mach_o_convert_section_name_to_mach_o`: the segment name and the
section name stored (NUL-terminated, in the 17-byte arrays of the freshly
cleared Mach-O section) for the generic section name `name`, the C string
`bfd_get_section_name (abfd, sect)`. -/
def bfd_mach_o_convert_section_name_to_mach_o (name : List Byte) :
    List Byte × List Byte :=
  let name := c_string name 0
  let known :=
    if name.headD 0 = byteOf 0x2e then
      (segsec_names_xlat.flatMap (fun seg => seg.sections.map (fun sec => (seg, sec)))).find?
        (fun e => strcmp_eq e.2.bfd_name name)
    else none
  match known with
  | some (seg, sec) => (seg.segname, sec.mach_o_name)
  | none =>
    let name := if strncmp_eq name (str "LC_SEGMENT.") 11 then name.drop 11 else name
    let len := strlen name
    let both := (name.take (if len > 16 then 16 else len),
                 name.take (if len > 16 then 16 else len))
    match strchr_dot name with
    | some seglen =>
      if seglen ≠ 0 then
        let seclen := len - (seglen + 1)
        if seglen < 16 ∧ seclen < 16 then
          (name.take seglen, (name.drop (seglen + 1)).take seclen)
        else both
      else both
    | none => both

/-- The reverse name translation as the specification words it, for names that
are not canonical names of the static tables: a leading "LC_SEGMENT." is
stripped; with a '.' in the remainder the segment name is the part before
the first '.' and the section name the part after it, each clipped to 16
bytes; without one both are the remainder truncated to 16 bytes. -/
def spec_convert_section_name_to_mach_o (name : List Byte) : List Byte × List Byte :=
  let s := c_string name 0
  let r := if (str "LC_SEGMENT.").isPrefixOf s then s.drop 11 else s
  if byteOf 0x2e ∈ r then
    ((r.takeWhile (fun b => b ≠ byteOf 0x2e)).take 16,
     ((r.dropWhile (fun b => b ≠ byteOf 0x2e)).tail).take 16)
  else (r.take 16, r.take 16)

/-! ## Sections: records, generic sections and default commands -/

/-- Modelled from the spec: `BFD_MACH_O_SECTION_SIZE` of `mach-o.h`, the size of a
32-bit section record. -/
def BFD_MACH_O_SECTION_SIZE : Nat := 68

/-- Modelled from the spec: `BFD_MACH_O_SECTION_64_SIZE` of `mach-o.h`, the size of a
64-bit section record. -/
def BFD_MACH_O_SECTION_64_SIZE : Nat := 80

/-- Modelled from the spec: `BFD_MACH_O_LC_SEGMENT_SIZE` of `mach-o.h`, the size of a
32-bit segment command without its section records. -/
def BFD_MACH_O_LC_SEGMENT_SIZE : Nat := 56

/-- Modelled from the spec: `BFD_MACH_O_LC_SEGMENT_64_SIZE` of `mach-o.h`, the size of
a 64-bit segment command without its section records. -/
def BFD_MACH_O_LC_SEGMENT_64_SIZE : Nat := 72

/-- Modelled from the spec: `BFD_MACH_O_S_REGULAR`, section type of `mach-o.h`. -/
def BFD_MACH_O_S_REGULAR : Nat := 0x0

/-- Modelled from the spec: `BFD_MACH_O_S_ZEROFILL`, section type of `mach-o.h`. -/
def BFD_MACH_O_S_ZEROFILL : Nat := 0x1

/-- Modelled from the spec: `BFD_MACH_O_SECTION_TYPE_MASK` of `mach-o.h`. -/
def BFD_MACH_O_SECTION_TYPE_MASK : Nat := 0x000000ff

/-- Modelled from the spec: `BFD_MACH_O_S_ATTR_PURE_INSTRUCTIONS` of `mach-o.h`. -/
def BFD_MACH_O_S_ATTR_PURE_INSTRUCTIONS : Nat := 0x80000000

/-- Modelled from the spec: `BFD_MACH_O_S_ATTR_SOME_INSTRUCTIONS` of `mach-o.h`. -/
def BFD_MACH_O_S_ATTR_SOME_INSTRUCTIONS : Nat := 0x00000400

/-- Modelled from the spec: `BFD_MACH_O_S_ATTR_DEBUG` of `mach-o.h`. -/
def BFD_MACH_O_S_ATTR_DEBUG : Nat := 0x02000000

/-- Modelled from the spec: `BFD_MACH_O_PROT_READ` of `mach-o.h`. -/
def BFD_MACH_O_PROT_READ : Nat := 0x01

/-- Modelled from the spec: `BFD_MACH_O_PROT_WRITE` of `mach-o.h`. -/
def BFD_MACH_O_PROT_WRITE : Nat := 0x02

/-- Modelled from the spec: `BFD_MACH_O_PROT_EXECUTE` of `mach-o.h`. -/
def BFD_MACH_O_PROT_EXECUTE : Nat := 0x04

/-- Source `bfd_putb64`: big-endian 64-bit store (the value is truncated to 64 bits). -/
def bfd_putb64 (v : Nat) : List Byte := bfd_putb32 (v / 2 ^ 32) ++ bfd_putb32 v

/-- Source `bfd_putl64`: little-endian 64-bit store (the value is truncated to 64 bits). -/
def bfd_putl64 (v : Nat) : List Byte := bfd_putl32 v ++ bfd_putl32 (v / 2 ^ 32)

/-- The accessor `bfd_h_put_64 (abfd, v, p)`. -/
def bfd_h_put_64 (xvec : bfd_target) (v : Nat) : List Byte :=
  match xvec with
  | .big => bfd_putb64 v
  | .little => bfd_putl64 v

/-- The 16 bytes that `memcpy (dst, field, 16)` reads from a name array of a
Mach-O section: the array holds the bytes of `field` followed by NUL bytes. -/
def name16 (field : List Byte) : List Byte := (field ++ List.replicate 16 0).take 16

/-- The buffer `raw` after `memcpy (raw + off, src, n)` with `n` the length of
`src`, for a buffer of at least `off + n` bytes. -/
def memcpy (raw : List Byte) (off : Nat) (src : List Byte) : List Byte :=
  raw.take off ++ src ++ raw.drop (off + src.length)

/-- The local buffer `raw` of `bfd_mach_o_write_section_32` when it is handed to
`bfd_bwrite`.  `raw0` is the indeterminate content the 68-byte buffer starts
with.  Offsets are those of `struct mach_o_section_32_external`: `sectname`
at 0, `segname` at 16, then the nine 32-bit words from 32 on.  The second
`memcpy` has the destination `raw.segname + 16`, that is offset 32. -/
def bfd_mach_o_write_section_32_raw (xvec : bfd_target) (raw0 : List Byte)
    (s : bfd_mach_o_section) : List Byte :=
  let raw := (raw0 ++ List.replicate BFD_MACH_O_SECTION_SIZE 0).take BFD_MACH_O_SECTION_SIZE
  let raw := memcpy raw 0 (name16 s.sectname)
  let raw := memcpy raw (16 + 16) (name16 s.segname)
  let raw := memcpy raw 32 (bfd_h_put_32 xvec s.addr)
  let raw := memcpy raw 36 (bfd_h_put_32 xvec s.size)
  let raw := memcpy raw 40 (bfd_h_put_32 xvec s.offset)
  let raw := memcpy raw 44 (bfd_h_put_32 xvec s.align)
  let raw := memcpy raw 48 (bfd_h_put_32 xvec s.reloff)
  let raw := memcpy raw 52 (bfd_h_put_32 xvec s.nreloc)
  let raw := memcpy raw 56 (bfd_h_put_32 xvec s.flags)
  let raw := memcpy raw 60 (bfd_h_put_32 xvec s.reserved1)
  let raw := memcpy raw 64 (bfd_h_put_32 xvec s.reserved2)
  raw

/-- Source `bfd_mach_o_write_section_32`: the file after the 68-byte record of the
section has been written at the current position `pos`. -/
def bfd_mach_o_write_section_32 (xvec : bfd_target) (abfd : Stream) (pos : Nat)
    (raw0 : List Byte) (s : bfd_mach_o_section) : Stream :=
  bfd_bwrite abfd pos (bfd_mach_o_write_section_32_raw xvec raw0 s)

/-- The local buffer `raw` of `bfd_mach_o_write_section_64` when it is handed to
`bfd_bwrite`.  `raw0` is the indeterminate content the 80-byte buffer starts
with.  Offsets are those of `struct mach_o_section_64_external`: `sectname`
at 0, `segname` at 16, `addr` at 32, `size` at 40, then the eight 32-bit words
from 48 on. -/
def bfd_mach_o_write_section_64_raw (xvec : bfd_target) (raw0 : List Byte)
    (s : bfd_mach_o_section) : List Byte :=
  let raw := (raw0 ++ List.replicate BFD_MACH_O_SECTION_64_SIZE 0).take
    BFD_MACH_O_SECTION_64_SIZE
  let raw := memcpy raw 0 (name16 s.sectname)
  let raw := memcpy raw 16 (name16 s.segname)
  let raw := memcpy raw 32 (bfd_h_put_64 xvec s.addr)
  let raw := memcpy raw 40 (bfd_h_put_64 xvec s.size)
  let raw := memcpy raw 48 (bfd_h_put_32 xvec s.offset)
  let raw := memcpy raw 52 (bfd_h_put_32 xvec s.align)
  let raw := memcpy raw 56 (bfd_h_put_32 xvec s.reloff)
  let raw := memcpy raw 60 (bfd_h_put_32 xvec s.nreloc)
  let raw := memcpy raw 64 (bfd_h_put_32 xvec s.flags)
  let raw := memcpy raw 68 (bfd_h_put_32 xvec s.reserved1)
  let raw := memcpy raw 72 (bfd_h_put_32 xvec s.reserved2)
  let raw := memcpy raw 76 (bfd_h_put_32 xvec s.reserved3)
  raw

/-- Source `bfd_mach_o_write_section_64`: the file after the 80-byte record of the
section has been written at the current position `pos`. -/
def bfd_mach_o_write_section_64 (xvec : bfd_target) (abfd : Stream) (pos : Nat)
    (raw0 : List Byte) (s : bfd_mach_o_section) : Stream :=
  bfd_bwrite abfd pos (bfd_mach_o_write_section_64_raw xvec raw0 s)

/-- Modelled from the spec: `asection` of `bfd.h`, restricted to the members this
back end reads or writes.  `used_by_bfd` is the Mach-O section hung off the
generic section (whose `bfdsection` points back). -/
structure asection where
  name : List Byte
  flags : Nat
  vma : Nat
  lma : Nat
  size : Nat
  filepos : Nat
  alignment_power : Nat
  reloc_count : Nat
  rel_filepos : Nat
  target_index : Nat
  used_by_bfd : bfd_mach_o_section
  deriving DecidableEq, Repr

/-- The default Mach-O flags for generic section flags, the `if` chain shared by
`bfd_mach_o_new_section_hook` and `bfd_mach_o_set_section_flags_from_bfd`. -/
def bfd_mach_o_default_section_flags (bfd_flags : Nat) : Nat :=
  if bfd_flags &&& SEC_CODE = SEC_CODE then
    BFD_MACH_O_S_ATTR_PURE_INSTRUCTIONS ||| BFD_MACH_O_S_ATTR_SOME_INSTRUCTIONS
      ||| BFD_MACH_O_S_REGULAR
  else if bfd_flags &&& (SEC_ALLOC ||| SEC_LOAD) = SEC_ALLOC then BFD_MACH_O_S_ZEROFILL
  else if bfd_flags &&& SEC_DEBUGGING ≠ 0 then
    BFD_MACH_O_S_REGULAR ||| BFD_MACH_O_S_ATTR_DEBUG
  else BFD_MACH_O_S_REGULAR

/-- Source `bfd_mach_o_set_section_flags_from_bfd`. -/
def bfd_mach_o_set_section_flags_from_bfd (sec : asection) : asection :=
  { sec with used_by_bfd :=
      { sec.used_by_bfd with flags := bfd_mach_o_default_section_flags sec.flags } }

/-- Source `bfd_mach_o_new_section_hook` for a section that has no Mach-O section
yet: the cleared Mach-O section it allocates, with the default names for the
generic name and the default flags for the generic flags. -/
def bfd_mach_o_new_section_hook (name : List Byte) (bfd_flags : Nat) : bfd_mach_o_section :=
  { sectname := (bfd_mach_o_convert_section_name_to_mach_o name).2
    segname := (bfd_mach_o_convert_section_name_to_mach_o name).1
    addr := 0, size := 0, offset := 0, align := 0, reloff := 0, nreloc := 0
    flags := bfd_mach_o_default_section_flags bfd_flags
    reserved1 := 0, reserved2 := 0, reserved3 := 0 }

/-- Modelled from the spec: `bfd_make_section_anyway_with_flags` of libbfd creates a
cleared generic section with the given name and flags and runs the new-section
hook of the target on it. -/
def bfd_make_section_anyway_with_flags (name : List Byte) (flags : Nat) : asection :=
  { name := name, flags := flags, vma := 0, lma := 0, size := 0, filepos := 0
    alignment_power := 0, reloc_count := 0, rel_filepos := 0, target_index := 0
    used_by_bfd := bfd_mach_o_new_section_hook name flags }

/-- Source `bfd_mach_o_init_section_from_mach_o`: the generic section after its
flags and layout fields have been set from its Mach-O section and the
protection of the segment. -/
def bfd_mach_o_init_section_from_mach_o (sec : asection) (prot : Nat) : asection :=
  let msect := sec.used_by_bfd
  let flags := sec.flags
  let flags :=
    if flags = SEC_NO_FLAGS then
      if msect.flags &&& BFD_MACH_O_S_ATTR_DEBUG ≠ 0 then SEC_DEBUGGING
      else
        let flags := SEC_ALLOC
        if msect.flags &&& BFD_MACH_O_SECTION_TYPE_MASK ≠ BFD_MACH_O_S_ZEROFILL then
          let flags := flags ||| SEC_LOAD
          let flags := if prot &&& BFD_MACH_O_PROT_EXECUTE ≠ 0 then flags ||| SEC_CODE else flags
          if prot &&& BFD_MACH_O_PROT_WRITE ≠ 0 then flags ||| SEC_DATA
          else if prot &&& BFD_MACH_O_PROT_READ ≠ 0 then flags ||| SEC_READONLY
          else flags
        else flags
    else
      if flags &&& SEC_DEBUGGING = 0 then flags ||| SEC_ALLOC else flags
  let flags := if msect.offset ≠ 0 then flags ||| SEC_HAS_CONTENTS else flags
  let flags := if msect.nreloc ≠ 0 then flags ||| SEC_RELOC else flags
  { sec with
    flags := flags
    vma := msect.addr
    lma := msect.addr
    size := msect.size
    filepos := msect.offset
    alignment_power := msect.align
    reloc_count := msect.nreloc
    rel_filepos := msect.reloff }

/-- Source `bfd_mach_o_make_bfd_section`: the generic section created for a
segment name and a section name, given as the memory behind the two
pointers; `none` is `NULL`. -/
def bfd_mach_o_make_bfd_section (segname sectname : List Byte) : Option asection :=
  match bfd_mach_o_convert_section_name_to_bfd segname sectname with
  | (none, _) => none
  | (some sname, flags) => some (bfd_make_section_anyway_with_flags sname flags)

/-- Source `bfd_mach_o_read_section_32`: the generic section decoded from the
68-byte record at `offset`, `none` for `NULL`.  `raw.sectname` is the record
from offset 0 on, `raw.segname` the record from offset 16 on; they are passed
to `bfd_mach_o_make_bfd_section` in this order. -/
def bfd_mach_o_read_section_32 (xvec : bfd_target) (abfd : Stream) (offset prot : Nat) :
    Option asection :=
  match bfd_bread abfd offset BFD_MACH_O_SECTION_SIZE with
  | none => none
  | some raw =>
    match bfd_mach_o_make_bfd_section raw (raw.drop 16) with
    | none => none
    | some sec =>
      let msect : bfd_mach_o_section :=
        { sec.used_by_bfd with
          segname := (raw.drop 16).take 16
          sectname := raw.take 16
          addr := bfd_h_get_32 xvec (raw.drop 32)
          size := bfd_h_get_32 xvec (raw.drop 36)
          offset := bfd_h_get_32 xvec (raw.drop 40)
          align := bfd_h_get_32 xvec (raw.drop 44)
          reloff := bfd_h_get_32 xvec (raw.drop 48)
          nreloc := bfd_h_get_32 xvec (raw.drop 52)
          flags := bfd_h_get_32 xvec (raw.drop 56)
          reserved1 := bfd_h_get_32 xvec (raw.drop 60)
          reserved2 := bfd_h_get_32 xvec (raw.drop 64)
          reserved3 := 0 }
      some (bfd_mach_o_init_section_from_mach_o { sec with used_by_bfd := msect } prot)

/-- Source `bfd_mach_o_read_section_64`: the generic section decoded from the
80-byte record at `offset`, `none` for `NULL`.  `raw.sectname` is the record
from offset 0 on, `raw.segname` the record from offset 16 on; they are passed
to `bfd_mach_o_make_bfd_section` in this order. -/
def bfd_mach_o_read_section_64 (xvec : bfd_target) (abfd : Stream) (offset prot : Nat) :
    Option asection :=
  match bfd_bread abfd offset BFD_MACH_O_SECTION_64_SIZE with
  | none => none
  | some raw =>
    match bfd_mach_o_make_bfd_section raw (raw.drop 16) with
    | none => none
    | some sec =>
      let msect : bfd_mach_o_section :=
        { sec.used_by_bfd with
          segname := (raw.drop 16).take 16
          sectname := raw.take 16
          addr := bfd_h_get_64 xvec (raw.drop 32)
          size := bfd_h_get_64 xvec (raw.drop 40)
          offset := bfd_h_get_32 xvec (raw.drop 48)
          align := bfd_h_get_32 xvec (raw.drop 52)
          reloff := bfd_h_get_32 xvec (raw.drop 56)
          nreloc := bfd_h_get_32 xvec (raw.drop 60)
          flags := bfd_h_get_32 xvec (raw.drop 64)
          reserved1 := bfd_h_get_32 xvec (raw.drop 68)
          reserved2 := bfd_h_get_32 xvec (raw.drop 72)
          reserved3 := bfd_h_get_32 xvec (raw.drop 76) }
      some (bfd_mach_o_init_section_from_mach_o { sec with used_by_bfd := msect } prot)

/-- Source `bfd_mach_o_read_section`. -/
def bfd_mach_o_read_section (xvec : bfd_target) (abfd : Stream) (offset prot : Nat)
    (wide : Bool) : Option asection :=
  if wide then bfd_mach_o_read_section_64 xvec abfd offset prot
  else bfd_mach_o_read_section_32 xvec abfd offset prot

/-- The 32 bytes of the two name fields of a section record whose section-name
field holds `sectname` and whose segment-name field holds `segname`. -/
def section_record_names (segname sectname : List Byte) : List Byte :=
  name16 sectname ++ name16 segname

/-- Modelled from the spec: `bfd_mach_o_segment_command` of `mach-o.h`.  `sections` is
the list that runs from `sect_head` to `sect_tail`, each Mach-O section being
given with the generic section it belongs to. -/
structure bfd_mach_o_segment_command where
  segname : List Byte
  vmaddr : Nat
  vmsize : Nat
  fileoff : Nat
  filesize : Nat
  maxprot : Nat
  initprot : Nat
  nsects : Nat
  flags : Nat
  sections : List asection
  deriving DecidableEq, Repr

/-- Modelled from the spec: `bfd_mach_o_thread_flavour` of `mach-o.h`: the flavour
code of a register-state block, the file offset of its state and the size of
the state in bytes. -/
structure bfd_mach_o_thread_flavour where
  flavour : Nat
  offset : Nat
  size : Nat
  deriving DecidableEq, Repr

/-- Modelled from the spec: `bfd_mach_o_thread_command` of `mach-o.h`, restricted to
the flavour array; `nflavours` is the length of `flavours`. -/
structure bfd_mach_o_thread_command where
  flavours : List bfd_mach_o_thread_flavour
  deriving DecidableEq, Repr

/-- Modelled from the spec: `bfd_mach_o_dylib_module` of `mach-o.h`. -/
structure bfd_mach_o_dylib_module where
  module_name_idx : Nat
  iextdefsym : Nat
  nextdefsym : Nat
  irefsym : Nat
  nrefsym : Nat
  ilocalsym : Nat
  nlocalsym : Nat
  iextrel : Nat
  nextrel : Nat
  iinit : Nat
  iterm : Nat
  ninit : Nat
  nterm : Nat
  objc_module_info_size : Nat
  objc_module_info_addr : Nat
  deriving DecidableEq, Repr

/-- Modelled from the spec: `bfd_mach_o_dylib_table_of_content` of `mach-o.h`. -/
structure bfd_mach_o_dylib_table_of_content where
  symbol_index : Nat
  module_index : Nat
  deriving DecidableEq, Repr

/-- Modelled from the spec: `bfd_mach_o_dylib_reference` of `mach-o.h`: the symbol
index and the flags of an external reference. -/
structure bfd_mach_o_dylib_reference where
  isym : Nat
  flags : Nat
  deriving DecidableEq, Repr

/-- Modelled from the spec: `bfd_mach_o_dysymtab_command` of `mach-o.h`: the eighteen
words of the command and the four tables loaded with it.  A table whose count
is 0 is not allocated and is the empty list here. -/
structure bfd_mach_o_dysymtab_command where
  ilocalsym : Nat
  nlocalsym : Nat
  iextdefsym : Nat
  nextdefsym : Nat
  iundefsym : Nat
  nundefsym : Nat
  tocoff : Nat
  ntoc : Nat
  modtaboff : Nat
  nmodtab : Nat
  extrefsymoff : Nat
  nextrefsyms : Nat
  indirectsymoff : Nat
  nindirectsyms : Nat
  extreloff : Nat
  nextrel : Nat
  locreloff : Nat
  nlocrel : Nat
  dylib_module : List bfd_mach_o_dylib_module
  dylib_toc : List bfd_mach_o_dylib_table_of_content
  indirect_syms : List Nat
  ext_refs : List bfd_mach_o_dylib_reference
  deriving DecidableEq, Repr

/-- The members of the union `command` of a load command that the command
builder, the section writers and the symbol-table, dynamic-symbol-table and
thread decoders use. -/
inductive bfd_mach_o_command where
  | segment (seg : bfd_mach_o_segment_command)
  | symtab (sym : bfd_mach_o_symtab_command)
  | dysymtab (dysym : bfd_mach_o_dysymtab_command)
  | thread (thr : bfd_mach_o_thread_command)
  deriving DecidableEq, Repr

/-- The object data next to the header and the command table that the command
builder uses: the section list `abfd->sections` of the object and the
file-length cursor `mdata->filelen`. -/
structure bfd_mach_o_object where
  sections : List asection
  filelen : Nat
  deriving DecidableEq, Repr

/-- Source `FILE_ALIGN (off, algn)`, on the 64-bit two's-complement patterns of
`file_ptr`: `(off + (1 << algn) - 1) & (-1 << algn)`.  A shift count of 64 or
more, undefined in C, is read as shifting every bit out. -/
def FILE_ALIGN (off algn : Nat) : Nat :=
  vma (off + vma (1 <<< algn) + (2 ^ 64 - 1)) &&& vma ((2 ^ 64 - 1) <<< algn)

/-- The body of the section loop of `bfd_mach_o_build_commands` for one section:
the section as the iteration leaves it and the new file-length cursor.
`target_index` is the counter before its pre-increment. -/
def bfd_mach_o_build_commands_section (filelen target_index : Nat) (sec : asection) :
    asection × Nat :=
  let sec := if sec.used_by_bfd.flags = 0 then bfd_mach_o_set_section_flags_from_bfd sec
    else sec
  let msect : bfd_mach_o_section :=
    { sec.used_by_bfd with addr := sec.vma, size := sec.size, align := sec.alignment_power }
  let filelen := if msect.size ≠ 0 then FILE_ALIGN filelen msect.align else filelen
  let msect : bfd_mach_o_section :=
    { msect with offset := if msect.size ≠ 0 then filelen else 0 }
  ({ sec with filepos := msect.offset, target_index := target_index + 1, used_by_bfd := msect },
    vma (filelen + msect.size))

/-- The section loop of `bfd_mach_o_build_commands` over the rest of
`abfd->sections`: the sections appended to the segment so far, in order, and
the file-length cursor. -/
def bfd_mach_o_build_commands_loop :
    List asection → Nat → Nat → List asection → List asection × Nat
  | [], filelen, _, done => (done, filelen)
  | sec :: rest, filelen, target_index, done =>
    bfd_mach_o_build_commands_loop rest
      (bfd_mach_o_build_commands_section filelen target_index sec).2 (target_index + 1)
      (done ++ [(bfd_mach_o_build_commands_section filelen target_index sec).1])

/-- Source `bfd_mach_o_build_commands`: the return value and the object data as the
function leaves them.  The command array is taken to be allocated, with the
section list of the new segment command empty (the source relies on the
allocator for a null `sect_head`); `bfd_count_sections` is the length of
`abfd->sections`.  The body of the symbol-table command is left unset. -/
def bfd_mach_o_build_commands
    (mdata : bfd_mach_o_data_struct bfd_mach_o_object bfd_mach_o_command) :
    Bool × bfd_mach_o_data_struct bfd_mach_o_object bfd_mach_o_command :=
  if mdata.header.ncmds ≠ 0 then (false, mdata)
  else
    let wide := mach_o_wide_p mdata.header
    let nsects := mdata.rest.sections.length
    let type := if wide then BFD_MACH_O_LC_SEGMENT_64 else BFD_MACH_O_LC_SEGMENT
    let offset := if wide then BFD_MACH_O_HEADER_64_SIZE else BFD_MACH_O_HEADER_SIZE
    let len := if wide
      then u32 (BFD_MACH_O_LC_SEGMENT_64_SIZE + BFD_MACH_O_SECTION_64_SIZE * nsects)
      else u32 (BFD_MACH_O_LC_SEGMENT_SIZE + BFD_MACH_O_SECTION_SIZE * nsects)
    let sizeofcmds := len
    let filelen := u32 (offset + len)
    let symtab_cmd : bfd_mach_o_load_command bfd_mach_o_command :=
      { type := BFD_MACH_O_LC_SYMTAB, type_required := false, offset := u32 (offset + len)
        len := 6 * 4, command := none }
    let sizeofcmds := sizeofcmds + symtab_cmd.len
    let filelen := filelen + symtab_cmd.len
    let fileoff := filelen
    let maxprot := BFD_MACH_O_PROT_READ ||| BFD_MACH_O_PROT_WRITE ||| BFD_MACH_O_PROT_EXECUTE
    let done := bfd_mach_o_build_commands_loop mdata.rest.sections filelen 0 []
    let filesize := vma (done.2 + (2 ^ 64 - fileoff))
    let seg : bfd_mach_o_segment_command :=
      { segname := List.replicate 16 0, vmaddr := 0, vmsize := filesize, fileoff := fileoff
        filesize := filesize, maxprot := maxprot, initprot := maxprot, nsects := nsects
        flags := 0, sections := done.1 }
    let cmd : bfd_mach_o_load_command bfd_mach_o_command :=
      { type := type, type_required := false, offset := offset, len := len
        command := some (.segment seg) }
    (true,
      { header := { mdata.header with ncmds := 2, sizeofcmds := sizeofcmds }
        commands := [cmd, symtab_cmd]
        rest := { sections := done.1, filelen := done.2 } })

/-- The segment body of a load command, if it has one. -/
def bfd_mach_o_load_command.segment (c : bfd_mach_o_load_command bfd_mach_o_command) :
    Option bfd_mach_o_segment_command :=
  match c.command with
  | some (.segment seg) => some seg
  | _ => none

/-- What `bfd_mach_o_build_commands` leaves untouched in a section: its name,
flags, address, size, alignment and relocation fields, and the names,
relocation fields and reserved words of its Mach-O section. -/
def asection.kept (s : asection) :
    List Byte × Nat × Nat × Nat × Nat × Nat × Nat × Nat × List Byte × List Byte × Nat × Nat
      × Nat × Nat × Nat :=
  (s.name, s.flags, s.vma, s.lma, s.size, s.alignment_power, s.reloc_count, s.rel_filepos,
    s.used_by_bfd.sectname, s.used_by_bfd.segname, s.used_by_bfd.reloff, s.used_by_bfd.nreloc,
    s.used_by_bfd.reserved1, s.used_by_bfd.reserved2, s.used_by_bfd.reserved3)

/-! ## Fat archives -/

/-- Source `mach_o_fat_archentry`: one entry of the directory of a fat file. -/
structure mach_o_fat_archentry where
  cputype : Nat
  cpusubtype : Nat
  offset : Nat
  size : Nat
  align : Nat
  deriving DecidableEq, Repr

/-- Source `mach_o_fat_data_struct`: the magic, the number of entries and the entry
array of a fat file. -/
structure mach_o_fat_data_struct where
  magic : Nat
  nfat_arch : Nat
  archentries : List mach_o_fat_archentry
  deriving DecidableEq, Repr

/-- The entry loop of `bfd_mach_o_archive_p`: `todo` entries remain, entry `i` is
the next one; the reads follow the 8-byte header one after the other, so
entry `i` is the 20 bytes at `8 + 20 * i`.  `none` is a failed read. -/
def bfd_mach_o_archive_p_entries (abfd : Stream) :
    Nat → Nat → List mach_o_fat_archentry → Option (List mach_o_fat_archentry)
  | 0, _, done => some done
  | todo + 1, i, done =>
    match bfd_bread abfd (8 + 20 * i) 20 with
    | none => none
    | some arch =>
      bfd_mach_o_archive_p_entries abfd todo (i + 1)
        (done ++ [{ cputype := bfd_getb32 arch
                    cpusubtype := bfd_getb32 (arch.drop 4)
                    offset := bfd_getb32 (arch.drop 8)
                    size := bfd_getb32 (arch.drop 12)
                    align := bfd_getb32 (arch.drop 16) }])

/-- Source `bfd_mach_o_archive_p`: the fat data stored in the archive when the
stream is accepted, `none` for the `NULL` return (wrong format). -/
def bfd_mach_o_archive_p (abfd : Stream) : Option mach_o_fat_data_struct :=
  match bfd_bread abfd 0 8 with
  | none => none
  | some hdr =>
    let magic := bfd_getb32 hdr
    let nfat_arch := bfd_getb32 (hdr.drop 4)
    if magic ≠ 0xcafebabe then none
    else if nfat_arch > 30 then none
    else
      match bfd_mach_o_archive_p_entries abfd nfat_arch 0 [] with
      | none => none
      | some archentries =>
        some { magic := magic, nfat_arch := nfat_arch, archentries := archentries }

/-- What `bfd_mach_o_fat_extract` returns: the archive itself, `NULL`, or a new
member opened at the given origin. -/
inductive fat_extract_result where
  | abfd
  | NULL
  | member (origin : Nat)
  deriving DecidableEq, Repr

/-- The entry loop of `bfd_mach_o_fat_extract` over the remaining directory
entries.  `check_format origin` is the outcome of `bfd_check_format` on the
member opened at `origin`; the member is taken to be allocated.  The entry
array holds `nfat_arch` entries, as `bfd_mach_o_archive_p` leaves it. -/
def bfd_mach_o_fat_extract_loop (check_format : Nat → Bool)
    (arch : bfd_architecture × bfd_machine) :
    List mach_o_fat_archentry → fat_extract_result
  | [] => .NULL
  | e :: rest =>
    if (bfd_mach_o_convert_architecture e.cputype e.cpusubtype).1 ≠ arch.1
        ∨ (bfd_mach_o_convert_architecture e.cputype e.cpusubtype).2 ≠ arch.2 then
      bfd_mach_o_fat_extract_loop check_format arch rest
    else if check_format e.offset then .member e.offset
    else .NULL

/-- Source `bfd_mach_o_fat_extract`.  `is_format` is `bfd_check_format (abfd, format)`
on the file itself, `is_arch` whether its architecture is the requested one,
`is_fat` whether it is an archive with the fat target vector; `arch` is the
requested (`arch->arch`, `arch->mach`) pair. -/
def bfd_mach_o_fat_extract (is_format is_arch is_fat : Bool) (check_format : Nat → Bool)
    (adata : mach_o_fat_data_struct) (arch : bfd_architecture × bfd_machine) :
    fat_extract_result :=
  if is_format then (if is_arch then .abfd else .NULL)
  else if !is_fat then .NULL
  else bfd_mach_o_fat_extract_loop check_format arch adata.archentries

/-! ## The symbol-table and dynamic-symbol-table commands -/

/-- The data byte order of a target vector, `abfd->xvec->byteorder`. -/
def bfd_target.byteorder : bfd_target → bfd_endian
  | .big => .BFD_ENDIAN_BIG
  | .little => .BFD_ENDIAN_LITTLE

/-- The test `bfd_big_endian (abfd)` of `bfd.h`. -/
def bfd_big_endian (xvec : bfd_target) : Bool :=
  decide (xvec.byteorder = .BFD_ENDIAN_BIG)

/-- Modelled from the spec: the members of `bfd_mach_o_data_struct` (`mach-o.h`) that
the decoders of the symbol-table and of the dynamic-symbol-table command use:
the pointers `symtab` and `dysymtab` to the body of the command they refer to
(null until such a command is decoded; the pointer is kept as the body it
points to), the bit `HAS_SYMS` of `abfd->flags`, and the other members. -/
structure bfd_mach_o_symtab_data (τ : Type) where
  symtab : Option bfd_mach_o_symtab_command
  dysymtab : Option bfd_mach_o_dysymtab_command
  HAS_SYMS : Bool
  rest : τ
  deriving DecidableEq

/-- Source `bfd_mach_o_read_symtab`: the sixteen bytes after the command prefix
give `symoff`, `nsyms`, `stroff` and `strsize`; the symbol array and the string
table are left unloaded.  The command is refused (`none`, the return value -1)
when the read fails or when `mdata->symtab` is already set. -/
def bfd_mach_o_read_symtab {τ : Type} (xvec : bfd_target) (abfd : Stream)
    (command : bfd_mach_o_load_command bfd_mach_o_command)
    (mdata : bfd_mach_o_symtab_data τ) :
    Option (bfd_mach_o_command × bfd_mach_o_symtab_data τ) :=
  match bfd_bread abfd (u32 (command.offset + BFD_MACH_O_LC_SIZE)) 16 with
  | none => none
  | some raw =>
    let symtab : bfd_mach_o_symtab_command :=
      { symoff := bfd_h_get_32 xvec raw
        nsyms := bfd_h_get_32 xvec (raw.drop 4)
        stroff := bfd_h_get_32 xvec (raw.drop 8)
        strsize := bfd_h_get_32 xvec (raw.drop 12)
        symbols := none
        strtab := none }
    let mdata := if symtab.nsyms ≠ 0 then { mdata with HAS_SYMS := true } else mdata
    if mdata.symtab.isSome then none
    else some (.symtab symtab, { mdata with symtab := some symtab })

/-- The table loops of `bfd_mach_o_read_dysymtab`: after one seek to the start of
a table, `todo` records of `len` bytes are read one after the other, the next
one at `pos`, and decoded; a short read makes the function return -1. -/
def bfd_mach_o_read_dysymtab_table {α : Type} (abfd : Stream) (len : Nat)
    (decode : List Byte → α) : Nat → Nat → List α → Option (List α)
  | 0, _, done => some done
  | todo + 1, pos, done =>
    match bfd_bread abfd pos len with
    | none => none
    | some buf =>
      bfd_mach_o_read_dysymtab_table abfd len decode todo (pos + len) (done ++ [decode buf])

/-- The body of the module loop of `bfd_mach_o_read_dysymtab`: one module record,
of 56 bytes in a 64-bit file and 52 bytes otherwise. -/
def bfd_mach_o_read_dysymtab_module (xvec : bfd_target) (wide : Bool) (buf : List Byte) :
    bfd_mach_o_dylib_module :=
  let v1 := bfd_h_get_32 xvec (buf.drop 36)
  let v2 := bfd_h_get_32 xvec (buf.drop 40)
  { module_name_idx := bfd_h_get_32 xvec buf
    iextdefsym := bfd_h_get_32 xvec (buf.drop 4)
    nextdefsym := bfd_h_get_32 xvec (buf.drop 8)
    irefsym := bfd_h_get_32 xvec (buf.drop 12)
    nrefsym := bfd_h_get_32 xvec (buf.drop 16)
    ilocalsym := bfd_h_get_32 xvec (buf.drop 20)
    nlocalsym := bfd_h_get_32 xvec (buf.drop 24)
    iextrel := bfd_h_get_32 xvec (buf.drop 28)
    nextrel := bfd_h_get_32 xvec (buf.drop 32)
    iinit := v1 &&& 0xffff
    iterm := (v1 >>> 16) &&& 0xffff
    ninit := v2 &&& 0xffff
    nterm := (v2 >>> 16) &&& 0xffff
    objc_module_info_size :=
      if wide then bfd_h_get_32 xvec (buf.drop 44) else bfd_h_get_32 xvec (buf.drop 48)
    objc_module_info_addr :=
      if wide then bfd_h_get_64 xvec (buf.drop 48) else bfd_h_get_32 xvec (buf.drop 44) }

/-- The body of the table-of-contents loop of `bfd_mach_o_read_dysymtab`. -/
def bfd_mach_o_read_dysymtab_toc (xvec : bfd_target) (raw : List Byte) :
    bfd_mach_o_dylib_table_of_content :=
  { symbol_index := bfd_h_get_32 xvec raw
    module_index := bfd_h_get_32 xvec (raw.drop 4) }

/-- The body of the external-reference loop of `bfd_mach_o_read_dysymtab`, applied
to the word `v = bfd_h_get_32 (abfd, raw)`: `isym` and `flags` are bit-fields,
laid out according to the byte order of the file. -/
def bfd_mach_o_read_dysymtab_ext_ref (xvec : bfd_target) (v : Nat) :
    bfd_mach_o_dylib_reference :=
  if bfd_big_endian xvec then
    { isym := (v >>> 8) &&& 0xffffff, flags := v &&& 0xff }
  else
    { isym := v &&& 0xffffff, flags := (v >>> 24) &&& 0xff }

/-- Source `bfd_mach_o_read_dysymtab`: the eighteen words after the command
prefix, then the module table, the table of contents, the indirect symbols and
the external references, each read only when its count is not 0.  `wide` is
`bfd_mach_o_wide_p (abfd)`.  The command is refused (`none`, the return
value -1) when a read fails or, at the end, when `mdata->dysymtab` is already
set.  The allocations of the four tables are taken to succeed. -/
def bfd_mach_o_read_dysymtab {τ : Type} (xvec : bfd_target) (wide : Bool) (abfd : Stream)
    (command : bfd_mach_o_load_command bfd_mach_o_command)
    (mdata : bfd_mach_o_symtab_data τ) :
    Option (bfd_mach_o_command × bfd_mach_o_symtab_data τ) :=
  match bfd_bread abfd (u32 (command.offset + BFD_MACH_O_LC_SIZE)) 72 with
  | none => none
  | some raw =>
    let tocoff := bfd_h_get_32 xvec (raw.drop 24)
    let ntoc := bfd_h_get_32 xvec (raw.drop 28)
    let modtaboff := bfd_h_get_32 xvec (raw.drop 32)
    let nmodtab := bfd_h_get_32 xvec (raw.drop 36)
    let extrefsymoff := bfd_h_get_32 xvec (raw.drop 40)
    let nextrefsyms := bfd_h_get_32 xvec (raw.drop 44)
    let indirectsymoff := bfd_h_get_32 xvec (raw.drop 48)
    let nindirectsyms := bfd_h_get_32 xvec (raw.drop 52)
    let module_len := if wide then 56 else 52
    match (if nmodtab ≠ 0 then
        bfd_mach_o_read_dysymtab_table abfd module_len
          (bfd_mach_o_read_dysymtab_module xvec wide) nmodtab modtaboff []
      else some []) with
    | none => none
    | some dylib_module =>
    match (if ntoc ≠ 0 then
        bfd_mach_o_read_dysymtab_table abfd 8 (bfd_mach_o_read_dysymtab_toc xvec)
          ntoc tocoff []
      else some []) with
    | none => none
    | some dylib_toc =>
    match (if nindirectsyms ≠ 0 then
        bfd_mach_o_read_dysymtab_table abfd 4 (bfd_h_get_32 xvec)
          nindirectsyms indirectsymoff []
      else some []) with
    | none => none
    | some indirect_syms =>
    match (if nextrefsyms ≠ 0 then
        bfd_mach_o_read_dysymtab_table abfd 4
          (fun raw => bfd_mach_o_read_dysymtab_ext_ref xvec (bfd_h_get_32 xvec raw))
          nextrefsyms extrefsymoff []
      else some []) with
    | none => none
    | some ext_refs =>
    let cmd : bfd_mach_o_dysymtab_command :=
      { ilocalsym := bfd_h_get_32 xvec raw
        nlocalsym := bfd_h_get_32 xvec (raw.drop 4)
        iextdefsym := bfd_h_get_32 xvec (raw.drop 8)
        nextdefsym := bfd_h_get_32 xvec (raw.drop 12)
        iundefsym := bfd_h_get_32 xvec (raw.drop 16)
        nundefsym := bfd_h_get_32 xvec (raw.drop 20)
        tocoff := tocoff
        ntoc := ntoc
        modtaboff := modtaboff
        nmodtab := nmodtab
        extrefsymoff := extrefsymoff
        nextrefsyms := nextrefsyms
        indirectsymoff := indirectsymoff
        nindirectsyms := nindirectsyms
        extreloff := bfd_h_get_32 xvec (raw.drop 56)
        nextrel := bfd_h_get_32 xvec (raw.drop 60)
        locreloff := bfd_h_get_32 xvec (raw.drop 64)
        nlocrel := bfd_h_get_32 xvec (raw.drop 68)
        dylib_module := dylib_module
        dylib_toc := dylib_toc
        indirect_syms := indirect_syms
        ext_refs := ext_refs }
    if mdata.dysymtab.isSome then none
    else some (.dysymtab cmd, { mdata with dysymtab := some cmd })

/-- A decoder that leaves `mdata->symtab`, `mdata->dysymtab` and `HAS_SYMS` alone:
it works on the other members of the object data only. -/
def on_rest {τ P : Type} (f : Stream → bfd_mach_o_load_command P → τ → Option (P × τ))
    (abfd : Stream) (command : bfd_mach_o_load_command P) (mdata : bfd_mach_o_symtab_data τ) :
    Option (P × bfd_mach_o_symtab_data τ) :=
  match f abfd command mdata.rest with
  | none => none
  | some (body, rest) => some (body, { mdata with rest := rest })

/-- The decoders of `bfd_mach_o_read_command` with the symbol-table and the
dynamic-symbol-table decoder of the source in place: `bfd_mach_o_read_symtab`
and `bfd_mach_o_read_dysymtab` are the only functions of `mach-o.c` that assign
`mdata->symtab` and `mdata->dysymtab`, so every other decoder, the start-address
walk and the flattening of sections work on the other members.  The object
header is stored in `mdata` before the first command is decoded. -/
def bfd_mach_o_symtab_readers {τ : Type} (xvec : bfd_target) (header : bfd_mach_o_header)
    (R : bfd_mach_o_readers τ bfd_mach_o_command) :
    bfd_mach_o_readers (bfd_mach_o_symtab_data τ) bfd_mach_o_command where
  bfd_mach_o_read_segment_32 := on_rest R.bfd_mach_o_read_segment_32
  bfd_mach_o_read_segment_64 := on_rest R.bfd_mach_o_read_segment_64
  bfd_mach_o_read_symtab := bfd_mach_o_read_symtab xvec
  bfd_mach_o_read_thread := on_rest R.bfd_mach_o_read_thread
  bfd_mach_o_read_dylinker := on_rest R.bfd_mach_o_read_dylinker
  bfd_mach_o_read_dylib := on_rest R.bfd_mach_o_read_dylib
  bfd_mach_o_read_prebound_dylib := on_rest R.bfd_mach_o_read_prebound_dylib
  bfd_mach_o_read_str := on_rest R.bfd_mach_o_read_str
  bfd_mach_o_read_dysymtab := bfd_mach_o_read_dysymtab xvec (mach_o_wide_p header)
  bfd_mach_o_read_uuid := on_rest R.bfd_mach_o_read_uuid
  bfd_mach_o_read_linkedit := on_rest R.bfd_mach_o_read_linkedit
  bfd_mach_o_read_dyld_info := on_rest R.bfd_mach_o_read_dyld_info
  bfd_mach_o_read_version_min := on_rest R.bfd_mach_o_read_version_min
  thread_start_address := fun abfd header cmd mdata =>
    match R.thread_start_address abfd header cmd mdata.rest with
    | none => none
    | some rest => some { mdata with rest := rest }
  bfd_mach_o_flatten_sections := fun commands mdata =>
    { mdata with rest := R.bfd_mach_o_flatten_sections commands mdata.rest }

/-- Decoders for the other command kinds that all report failure. -/
def bfd_mach_o_fail_readers : bfd_mach_o_readers Unit bfd_mach_o_command where
  bfd_mach_o_read_segment_32 := fun _ _ _ => none
  bfd_mach_o_read_segment_64 := fun _ _ _ => none
  bfd_mach_o_read_symtab := fun _ _ _ => none
  bfd_mach_o_read_thread := fun _ _ _ => none
  bfd_mach_o_read_dylinker := fun _ _ _ => none
  bfd_mach_o_read_dylib := fun _ _ _ => none
  bfd_mach_o_read_prebound_dylib := fun _ _ _ => none
  bfd_mach_o_read_str := fun _ _ _ => none
  bfd_mach_o_read_dysymtab := fun _ _ _ => none
  bfd_mach_o_read_uuid := fun _ _ _ => none
  bfd_mach_o_read_linkedit := fun _ _ _ => none
  bfd_mach_o_read_dyld_info := fun _ _ _ => none
  bfd_mach_o_read_version_min := fun _ _ _ => none
  thread_start_address := fun _ _ _ _ => none
  bfd_mach_o_flatten_sections := fun _ m => m

/-! ## Numbering the output symbols -/

/-- The loop body of `bfd_mach_o_mangle_symbols` for the output symbol number `i`.
`sections` are the generic sections of the object: a symbol section
`.bfdsection j` points to the `j`-th of them, and a pointer to no section of
the object is outside the defined behaviour.  `n_sect` is an `unsigned char`
member, so the assignment of `target_index` keeps its low eight bits. -/
def bfd_mach_o_mangle_symbol (sections : List asection) (i : Nat) (s : bfd_mach_o_asymbol) :
    c_result bfd_mach_o_asymbol :=
  let s : bfd_mach_o_asymbol :=
    if s.n_type = BFD_MACH_O_N_UNDF ∧ s.flags &&& BSF_DEBUGGING = 0 then
      let s : bfd_mach_o_asymbol :=
        if s.symbol_section = .bfd_abs_section_ptr then
          { s with n_type := BFD_MACH_O_N_ABS }
        else if s.symbol_section = .bfd_und_section_ptr then
          let s : bfd_mach_o_asymbol := { s with n_type := BFD_MACH_O_N_UNDF }
          if s.flags &&& BSF_WEAK ≠ 0 then
            { s with n_desc := s.n_desc ||| BFD_MACH_O_N_WEAK_REF }
          else s
        else if s.symbol_section = .bfd_com_section_ptr then
          { s with n_type := BFD_MACH_O_N_UNDF ||| BFD_MACH_O_N_EXT }
        else
          { s with n_type := BFD_MACH_O_N_SECT }
      if s.flags &&& BSF_GLOBAL ≠ 0 then
        { s with n_type := s.n_type ||| BFD_MACH_O_N_EXT }
      else s
    else s
  match s.symbol_section with
  | .bfdsection j =>
    match sections[j]? with
    | none => .undefined
    | some sec => .value { s with n_sect := sec.target_index % 2 ^ 8, udata_i := i }
  | _ => .value { s with udata_i := i }

/-- The loop of `bfd_mach_o_mangle_symbols` from output symbol `i` on. -/
def bfd_mach_o_mangle_symbols_loop (sections : List asection) :
    Nat → List bfd_mach_o_asymbol → c_result (List bfd_mach_o_asymbol)
  | _, [] => .value []
  | i, s :: rest =>
    match bfd_mach_o_mangle_symbol sections i s with
    | .undefined => .undefined
    | .value s1 =>
      match bfd_mach_o_mangle_symbols_loop sections (i + 1) rest with
      | .undefined => .undefined
      | .value out => .value (s1 :: out)

/-- Source `bfd_mach_o_mangle_symbols` on the output symbols
`bfd_get_outsymbols (abfd)`: the symbols as the function leaves them (it
always returns `TRUE`). -/
def bfd_mach_o_mangle_symbols (sections : List asection)
    (symbols : List bfd_mach_o_asymbol) : c_result (List bfd_mach_o_asymbol) :=
  bfd_mach_o_mangle_symbols_loop sections 0 symbols

/-! ## Thread commands -/

/-- The first loop of `bfd_mach_o_read_thread`, which counts the flavours: `offset`
and `nflavours` are its `unsigned int` variables.  The loop runs until the
walking offset equals the command length, so the model bounds the iterations
by `fuel`: `none` is fuel exhausted, `some none` the return value -1, and
`some (some n)` the count the loop ends with. -/
def bfd_mach_o_read_thread_count (xvec : bfd_target) (abfd : Stream)
    (command : bfd_mach_o_load_command bfd_mach_o_command) :
    Nat → Nat → Nat → Option (Option Nat)
  | 0, _, _ => none
  | fuel + 1, offset, nflavours =>
    if offset = command.len then some (some nflavours)
    else if offset ≥ command.len then some none
    else
      match bfd_bread abfd (u32 (command.offset + offset)) 8 with
      | none => some none
      | some raw =>
        bfd_mach_o_read_thread_count xvec abfd command fuel
          (u32 (offset + (8 + bfd_h_get_32 xvec (raw.drop 4) * 4))) (u32 (nflavours + 1))

/-- The second loop of `bfd_mach_o_read_thread`, which fills the `nflavours` allocated
flavours; `flavours` are those filled so far, so the loop variable `nflavours`
is their number.  The members `offset` and `size` of a flavour are
`unsigned long` (64 bits), the walking offset is an `unsigned int`.  Fuel and
results as for the first loop. -/
def bfd_mach_o_read_thread_flavours (xvec : bfd_target) (abfd : Stream)
    (command : bfd_mach_o_load_command bfd_mach_o_command) (nflavours : Nat) :
    Nat → Nat → List bfd_mach_o_thread_flavour →
      Option (Option (List bfd_mach_o_thread_flavour))
  | 0, _, _ => none
  | fuel + 1, offset, flavours =>
    if offset = command.len then some (some flavours)
    else if offset ≥ command.len then some none
    else if flavours.length ≥ nflavours then some none
    else
      match bfd_bread abfd (u32 (command.offset + offset)) 8 with
      | none => some none
      | some raw =>
        let size := bfd_h_get_32 xvec (raw.drop 4) * 4
        bfd_mach_o_read_thread_flavours xvec abfd command nflavours fuel
          (u32 (offset + (size + 8)))
          (flavours ++ [{ flavour := bfd_h_get_32 xvec raw
                          offset := u32 (command.offset + offset) + 8
                          size := size }])

/-- Source `bfd_mach_o_read_thread`, up to the flavour array: both walks start at
offset 8 of the command.  `none` is fuel exhausted, `some none` the return
value -1.  The allocation of the flavour array is taken to succeed, and the
generic sections the function then makes, one for each flavour, are not part
of the model. -/
def bfd_mach_o_read_thread (xvec : bfd_target) (abfd : Stream)
    (command : bfd_mach_o_load_command bfd_mach_o_command) (fuel : Nat) :
    Option (Option bfd_mach_o_thread_command) :=
  match bfd_mach_o_read_thread_count xvec abfd command fuel 8 0 with
  | none => none
  | some none => some none
  | some (some nflavours) =>
    match bfd_mach_o_read_thread_flavours xvec abfd command nflavours fuel 8 [] with
    | none => none
    | some none => some none
    | some (some flavours) => some (some { flavours := flavours })

/-- The walking offset after `i` blocks (flavour, count) of a thread command, as
an `unsigned int`: 8 plus `8 + 4 * count` for each block, modulo 2^32. -/
def thread_walk (blocks : List (Nat × Nat)) (i : Nat) : Nat :=
  u32 (8 + ((blocks.take i).map (fun b => 8 + 4 * b.2)).sum)

/-! ## File layout of the sections -/

/-- The layout step the specification describes, on unbounded integers: from
the cursor `c`, a section of size 0 gets offset 0 and leaves the cursor alone;
any other section gets the least multiple of `2 ^ alignment_power` that is not
below `c`, and the cursor moves to the end of the section.  The result is the
offset and the new cursor. -/
def spec_layout_step (c : Nat) (sec : asection) : Nat × Nat :=
  if sec.size ≠ 0 then
    ((c + 2 ^ sec.alignment_power - 1) / 2 ^ sec.alignment_power * 2 ^ sec.alignment_power,
      (c + 2 ^ sec.alignment_power - 1) / 2 ^ sec.alignment_power * 2 ^ sec.alignment_power
        + sec.size)
  else (0, c)

/-- The cursor `c_n` the specification describes after sections `s_1 .. s_n`,
from the cursor `c_0 = c`. -/
def spec_layout_end : Nat → List asection → Nat
  | c, [] => c
  | c, sec :: rest => spec_layout_end (spec_layout_step c sec).2 rest

/-! ## Synthetic symbols -/

/-- Modelled from the spec: `BSF_SYNTHETIC`, symbol flag of `bfd.h`. -/
def BSF_SYNTHETIC : Nat := 1 <<< 21

/-- Modelled from the spec: section type `BFD_MACH_O_S_NON_LAZY_SYMBOL_POINTERS` of
`mach-o.h`. -/
def BFD_MACH_O_S_NON_LAZY_SYMBOL_POINTERS : Nat := 0x6

/-- Modelled from the spec: section type `BFD_MACH_O_S_LAZY_SYMBOL_POINTERS` of
`mach-o.h`. -/
def BFD_MACH_O_S_LAZY_SYMBOL_POINTERS : Nat := 0x7

/-- Modelled from the spec: section type `BFD_MACH_O_S_SYMBOL_STUBS` of `mach-o.h`. -/
def BFD_MACH_O_S_SYMBOL_STUBS : Nat := 0x8

/-- Source `bfd_mach_o_section_get_entry_size`, an `unsigned int`: 4 or 8 for the
symbol-pointer sections, `reserved2` for a stub section, 0 (after `BFD_FAIL`)
for any other section. -/
def bfd_mach_o_section_get_entry_size (wide : Bool) (sec : bfd_mach_o_section) : Nat :=
  if sec.flags &&& BFD_MACH_O_SECTION_TYPE_MASK = BFD_MACH_O_S_NON_LAZY_SYMBOL_POINTERS
      ∨ sec.flags &&& BFD_MACH_O_SECTION_TYPE_MASK = BFD_MACH_O_S_LAZY_SYMBOL_POINTERS then
    if wide then 8 else 4
  else if sec.flags &&& BFD_MACH_O_SECTION_TYPE_MASK = BFD_MACH_O_S_SYMBOL_STUBS then
    u32 sec.reserved2
  else 0

/-- Source `bfd_mach_o_section_get_nbr_indirect`, an `unsigned int`. -/
def bfd_mach_o_section_get_nbr_indirect (wide : Bool) (sec : bfd_mach_o_section) : Nat :=
  if bfd_mach_o_section_get_entry_size wide sec = 0 then 0
  else u32 (sec.size / bfd_mach_o_section_get_entry_size wide sec)

/-- The members of an `asymbol` that `bfd_mach_o_get_synthetic_symtab` sets (it also
clears `udata.p`): the C string `name` points to, the value, the flags and the
section, `mdata->sections[j]->bfdsection` for `.bfdsection j`. -/
structure synthetic_asymbol where
  name : List Byte
  value : Nat
  flags : Nat
  symbol_section : sym_section
  deriving DecidableEq, Repr

/-- The loop `for (j = first; j < last; j++)` of `bfd_mach_o_get_synthetic_symtab`
over the indirect symbols of section `i`, with `todo` iterations left, the
next one for the indirect symbol `j` and the running address `addr`.  The
name of a symbol is a pointer into the string table and is never null, so an
indirect symbol below `nsyms` gets the name of its symbol followed by
`$stub`, and any other the empty string.  Reading outside the table of
indirect symbols or outside the symbol array is outside the defined
behaviour. -/
def bfd_mach_o_get_synthetic_symtab_entries (dysymtab : bfd_mach_o_dysymtab_command)
    (symtab : bfd_mach_o_symtab_command) (symbols : List bfd_mach_o_asymbol)
    (strtab : List Byte) (i : Nat) (sec : bfd_mach_o_section) (entry_size : Nat) :
    Nat → Nat → Nat → c_result (List synthetic_asymbol)
  | 0, _, _ => .value []
  | todo + 1, j, addr =>
    match dysymtab.indirect_syms[j]? with
    | none => .undefined
    | some isym =>
      match (if isym < symtab.nsyms then
          match symbols[isym]? with
          | none => none
          | some sym => some (c_string strtab sym.name ++ str "$stub")
        else some []) with
      | none => .undefined
      | some name =>
        match bfd_mach_o_get_synthetic_symtab_entries dysymtab symtab symbols strtab i sec
            entry_size todo (j + 1) (vma (addr + entry_size)) with
        | .undefined => .undefined
        | .value rest =>
          .value ({ name := name
                    value := vma (addr + (2 ^ 64 - sec.addr))
                    flags := BSF_GLOBAL ||| BSF_SYNTHETIC
                    symbol_section := .bfdsection i } :: rest)

/-- The body of the section loop of `bfd_mach_o_get_synthetic_symtab` for section
`i`: the symbols it stores, none for a section that is neither a
symbol-pointer nor a stub section.  `first` and `last` are `unsigned int`. -/
def bfd_mach_o_get_synthetic_symtab_section (wide : Bool)
    (dysymtab : bfd_mach_o_dysymtab_command) (symtab : bfd_mach_o_symtab_command)
    (symbols : List bfd_mach_o_asymbol) (strtab : List Byte) (i : Nat)
    (sec : bfd_mach_o_section) : c_result (List synthetic_asymbol) :=
  if sec.flags &&& BFD_MACH_O_SECTION_TYPE_MASK = BFD_MACH_O_S_NON_LAZY_SYMBOL_POINTERS
      ∨ sec.flags &&& BFD_MACH_O_SECTION_TYPE_MASK = BFD_MACH_O_S_LAZY_SYMBOL_POINTERS
      ∨ sec.flags &&& BFD_MACH_O_SECTION_TYPE_MASK = BFD_MACH_O_S_SYMBOL_STUBS then
    let first := u32 sec.reserved1
    let last := u32 (first + bfd_mach_o_section_get_nbr_indirect wide sec)
    bfd_mach_o_get_synthetic_symtab_entries dysymtab symtab symbols strtab i sec
      (bfd_mach_o_section_get_entry_size wide sec) (last - first) first sec.addr
  else .value []

/-- The bytes a symbol name takes in the name area: the string and its NUL for a
`$stub` name, nothing for the shared empty name. -/
def synthetic_name_size (name : List Byte) : Nat :=
  if name = [] then 0 else name.length + 1

/-- The sizing loop of `bfd_mach_o_get_synthetic_symtab`: the bytes added to `size`
for the names of the indirect symbols `j, j+1, ...`, with `todo` of them
left. -/
def bfd_mach_o_get_synthetic_symtab_names (dysymtab : bfd_mach_o_dysymtab_command)
    (symtab : bfd_mach_o_symtab_command) (symbols : List bfd_mach_o_asymbol)
    (strtab : List Byte) : Nat → Nat → c_result Nat
  | 0, _ => .value 0
  | todo + 1, j =>
    match dysymtab.indirect_syms[j]? with
    | none => .undefined
    | some isym =>
      match (if isym < symtab.nsyms then
          match symbols[isym]? with
          | none => none
          | some sym => some ((c_string strtab sym.name).length + 6)
        else some 0) with
      | none => .undefined
      | some n =>
        match bfd_mach_o_get_synthetic_symtab_names dysymtab symtab symbols strtab todo
            (j + 1) with
        | .undefined => .undefined
        | .value rest => .value (n + rest)

/-- The section loop of `bfd_mach_o_get_synthetic_symtab` over the sections
`i, i+1, ...`: `done` are the symbols stored so far.  The array holds `count`
symbols and the name area behind it `names` bytes, one of them taken by the
empty name; storing more is outside the defined behaviour. -/
def bfd_mach_o_get_synthetic_symtab_sections (wide : Bool)
    (dysymtab : bfd_mach_o_dysymtab_command) (symtab : bfd_mach_o_symtab_command)
    (symbols : List bfd_mach_o_asymbol) (strtab : List Byte) (count names : Nat) :
    List bfd_mach_o_section → Nat → List synthetic_asymbol →
      c_result (List synthetic_asymbol)
  | [], _, done => .value done
  | sec :: rest, i, done =>
    match bfd_mach_o_get_synthetic_symtab_section wide dysymtab symtab symbols strtab i sec with
    | .undefined => .undefined
    | .value new =>
      if (done ++ new).length > count
          ∨ 1 + ((done ++ new).map (fun s => synthetic_name_size s.name)).sum > names then
        .undefined
      else
        bfd_mach_o_get_synthetic_symtab_sections wide dysymtab symtab symbols strtab count
          names rest (i + 1) (done ++ new)

/-- Source `bfd_mach_o_get_synthetic_symtab`: `none` is the return value 0 with
`*ret = NULL`, `some l` the array `*ret` of the `l.length` symbols the function
returns the number of.  `sections` is the table `mdata->sections`; the
allocation of the array is taken to succeed. -/
def bfd_mach_o_get_synthetic_symtab (wide : Bool) (sections : List bfd_mach_o_section)
    (symtab : Option bfd_mach_o_symtab_command)
    (dysymtab : Option bfd_mach_o_dysymtab_command) :
    c_result (Option (List synthetic_asymbol)) :=
  match dysymtab, symtab with
  | some dysymtab, some symtab =>
    match symtab.symbols with
    | none => .value none
    | some symbols =>
      if dysymtab.nindirectsyms = 0 then .value none
      else
        let strtab := symtab.strtab.getD []
        match bfd_mach_o_get_synthetic_symtab_names dysymtab symtab symbols strtab
            dysymtab.nindirectsyms 0 with
        | .undefined => .undefined
        | .value names =>
          match bfd_mach_o_get_synthetic_symtab_sections wide dysymtab symtab symbols strtab
              dysymtab.nindirectsyms (1 + names) sections 0 [] with
          | .undefined => .undefined
          | .value l => .value (some l)
  | _, _ => .value none

/-! ## Walking the members of a fat archive -/

/-- What `bfd_mach_o_openr_next_archived_file` returns: a new member whose `origin`
is the given file offset, or `NULL` with the error `bfd_error_bad_value` or
`bfd_error_no_more_archived_files` set. -/
inductive openr_next_result where
  | member (origin : Nat)
  | bad_value
  | no_more_archived_files
  deriving DecidableEq, Repr

/-- Source `bfd_mach_o_openr_next_archived_file`.  `prev` is `none` for a null
`prev`, otherwise `prev->origin`.  The search loop stops at the first entry
whose offset is `prev->origin`, or at `nfat_arch`.  The entry array holds
`nfat_arch` entries, as `bfd_mach_o_archive_p` leaves it (the last case of the
final `match` is never reached then); the new member and its file name are
taken to be allocated. -/
def bfd_mach_o_openr_next_archived_file (adata : mach_o_fat_data_struct)
    (prev : Option Nat) : openr_next_result :=
  let found : Option Nat :=
    match prev with
    | none => some 0
    | some origin =>
      let i := (adata.archentries.take adata.nfat_arch).findIdx
        (fun e => decide (e.offset = origin))
      if i = adata.nfat_arch then none else some (i + 1)
  match found with
  | none => .bad_value
  | some i =>
    if i ≥ adata.nfat_arch then .no_more_archived_files
    else
      match adata.archentries[i]? with
      | some entry => .member entry.offset
      | none => .bad_value

/-- The results of up to `k` successive calls of
`bfd_mach_o_openr_next_archived_file` on one archive: the first call is made
with `prev`, each later one with the member the call before it returned; the
walk ends at the first call that returns `NULL`. -/
def openr_next_calls (adata : mach_o_fat_data_struct) :
    Nat → Option Nat → List openr_next_result
  | 0, _ => []
  | k + 1, prev =>
    match bfd_mach_o_openr_next_archived_file adata prev with
    | .member origin => .member origin :: openr_next_calls adata k (some origin)
    | r => [r]

/-! ## Dynamic relocations -/

/-- The size of a pointer `arelent *` on an LP64 host, in bytes. -/
def sizeof_arelent_ptr : Nat := 8

/-- Source `bfd_mach_o_get_reloc_upper_bound`: `asect->reloc_count` is an
`unsigned int`, the product is taken in `size_t`. -/
def bfd_mach_o_get_reloc_upper_bound (asect : asection) : Nat :=
  vma (u32 (asect.reloc_count + 1) * sizeof_arelent_ptr)

/-- Source `bfd_mach_o_get_dynamic_reloc_upper_bound`; `dysymtab` is `mdata->dysymtab`,
`none` when it is null.  The counts are `unsigned long`. -/
def bfd_mach_o_get_dynamic_reloc_upper_bound
    (dysymtab : Option bfd_mach_o_dysymtab_command) : Nat :=
  match dysymtab with
  | none => 1
  | some d => vma (vma (d.nextrel + d.nlocrel) * sizeof_arelent_ptr)

/-- Source `bfd_mach_o_canonicalize_dynamic_reloc`: the return value (`none` for -1)
and the pointers the function stores in `rels[0]`, `rels[1]`, ... in this
order, `some i` for `&res[i]` and `none` for `NULL`.  `swap_reloc_in` tells
whether the back end has the hook `_bfd_mach_o_swap_reloc_in`; `ext_ok` and
`loc_ok` are the outcomes of the two calls of `bfd_mach_o_canonicalize_relocs`,
which fill `res`.  The allocation of `res` is taken to succeed. -/
def bfd_mach_o_canonicalize_dynamic_reloc (dysymtab : Option bfd_mach_o_dysymtab_command)
    (swap_reloc_in ext_ok loc_ok : Bool) : Option Nat × List (Option Nat) :=
  match dysymtab with
  | none => (some 0, [])
  | some d =>
    if d.nextrel = 0 ∧ d.nlocrel = 0 then (some 0, [])
    else if !swap_reloc_in then (some 0, [])
    else if !ext_ok then (none, [])
    else if !loc_ok then (none, [])
    else
      (some (vma (d.nextrel + d.nlocrel)),
        (List.range (vma (d.nextrel + d.nlocrel))).map some ++ [none])

/-! ## Segment commands and the flattened section table -/

/-- The section loop of `bfd_mach_o_read_segment`: `todo` records remain, `i` is the
loop counter and `done` the sections appended to the segment so far.  The
sum `command->offset + BFD_MACH_O_LC_SEGMENT_SIZE` is an `unsigned int` sum,
the record offset `segoff` a `bfd_vma`, and `bfd_mach_o_read_section` takes it
as an `unsigned int`.  `none` is the return value -1. -/
def bfd_mach_o_read_segment_sections (xvec : bfd_target) (abfd : Stream)
    (command : bfd_mach_o_load_command bfd_mach_o_command) (initprot : Nat) (wide : Bool) :
    Nat → Nat → List asection → Option (List asection)
  | 0, _, done => some done
  | todo + 1, i, done =>
    let segoff :=
      if wide then
        vma (u32 (command.offset + BFD_MACH_O_LC_SEGMENT_64_SIZE)
          + i * BFD_MACH_O_SECTION_64_SIZE)
      else
        vma (u32 (command.offset + BFD_MACH_O_LC_SEGMENT_SIZE) + i * BFD_MACH_O_SECTION_SIZE)
    match bfd_mach_o_read_section xvec abfd (u32 segoff) initprot wide with
    | none => none
    | some sec =>
      bfd_mach_o_read_segment_sections xvec abfd command initprot wide todo (i + 1)
        (done ++ [sec])

/-- Source `bfd_mach_o_read_segment`: the segment body decoded from the command,
`none` for the return value -1.  The external record read after the 8-byte
prefix holds the 16-byte segment name and then `vmaddr`, `vmsize`, `fileoff`,
`filesize` (four bytes each in the 32-bit form, eight in the 64-bit form),
`maxprot`, `initprot`, `nsects` and `flags` (four bytes each): 48 or 64 bytes.
The section list of the segment is taken to start empty (the source relies
on the allocator for a null `sect_head`). -/
def bfd_mach_o_read_segment (xvec : bfd_target) (abfd : Stream)
    (command : bfd_mach_o_load_command bfd_mach_o_command) (wide : Bool) :
    Option bfd_mach_o_segment_command :=
  match bfd_bread abfd (u32 (command.offset + BFD_MACH_O_LC_SIZE))
      (if wide then 64 else 48) with
  | none => none
  | some raw =>
    let seg : bfd_mach_o_segment_command :=
      if wide then
        { segname := raw.take 16
          vmaddr := bfd_h_get_64 xvec (raw.drop 16)
          vmsize := bfd_h_get_64 xvec (raw.drop 24)
          fileoff := bfd_h_get_64 xvec (raw.drop 32)
          filesize := bfd_h_get_64 xvec (raw.drop 40)
          maxprot := bfd_h_get_32 xvec (raw.drop 48)
          initprot := bfd_h_get_32 xvec (raw.drop 52)
          nsects := bfd_h_get_32 xvec (raw.drop 56)
          flags := bfd_h_get_32 xvec (raw.drop 60)
          sections := [] }
      else
        { segname := raw.take 16
          vmaddr := bfd_h_get_32 xvec (raw.drop 16)
          vmsize := bfd_h_get_32 xvec (raw.drop 20)
          fileoff := bfd_h_get_32 xvec (raw.drop 24)
          filesize := bfd_h_get_32 xvec (raw.drop 28)
          maxprot := bfd_h_get_32 xvec (raw.drop 32)
          initprot := bfd_h_get_32 xvec (raw.drop 36)
          nsects := bfd_h_get_32 xvec (raw.drop 40)
          flags := bfd_h_get_32 xvec (raw.drop 44)
          sections := [] }
    match bfd_mach_o_read_segment_sections xvec abfd command seg.initprot wide seg.nsects 0
        [] with
    | none => none
    | some sections => some { seg with sections := sections }

/-- Modelled from the spec: the members `nsects` and `sections` of
`bfd_mach_o_data_struct` (`mach-o.h`), the number of sections of the object and
the flattened section table, next to the other members.  The table is an
array of `nsects` slots; `undefined` stands for a table that was overrun or
has slots that were never assigned. -/
structure bfd_mach_o_sections_data (τ : Type) where
  nsects : Nat
  sections : c_result (List asection)
  rest : τ

/-- Whether a command is of one of the two segment kinds, the test of both loops
of `bfd_mach_o_flatten_sections`. -/
def bfd_mach_o_segment_kind (c : bfd_mach_o_load_command bfd_mach_o_command) : Bool :=
  decide (c.type = BFD_MACH_O_LC_SEGMENT ∨ c.type = BFD_MACH_O_LC_SEGMENT_64)

/-- The counting loop of `bfd_mach_o_flatten_sections` over the remaining commands:
`nsects` is `mdata->nsects`, an `unsigned long`.  A command of a segment kind
carries the segment body its decoder stored; one without it counts no
section. -/
def bfd_mach_o_flatten_sections_count :
    List (bfd_mach_o_load_command bfd_mach_o_command) → Nat → Nat
  | [], nsects => nsects
  | c :: rest, nsects =>
    if bfd_mach_o_segment_kind c then
      bfd_mach_o_flatten_sections_count rest
        (vma (nsects + ((c.segment.map (·.nsects)).getD 0)))
    else bfd_mach_o_flatten_sections_count rest nsects

/-- The filling loop of `bfd_mach_o_flatten_sections` over the remaining commands:
the sections stored at `mdata->sections[csect++]`, in this order. -/
def bfd_mach_o_flatten_sections_fill :
    List (bfd_mach_o_load_command bfd_mach_o_command) → List asection
  | [] => []
  | c :: rest =>
    if bfd_mach_o_segment_kind c then
      ((c.segment.map (·.sections)).getD []) ++ bfd_mach_o_flatten_sections_fill rest
    else bfd_mach_o_flatten_sections_fill rest

/-- Source `bfd_mach_o_flatten_sections` on the command table `commands`
(`mdata->commands[0 .. ncmds-1]`).  The table is allocated with the counted
number of slots and the `BFD_ASSERT` of the filling loop only reports, so
storing another number of sections leaves the defined behaviour or leaves
slots unassigned. -/
def bfd_mach_o_flatten_sections {τ : Type}
    (commands : List (bfd_mach_o_load_command bfd_mach_o_command))
    (mdata : bfd_mach_o_sections_data τ) : bfd_mach_o_sections_data τ :=
  let nsects := bfd_mach_o_flatten_sections_count commands 0
  { mdata with
    nsects := nsects
    sections :=
      if (bfd_mach_o_flatten_sections_fill commands).length = nsects then
        .value (bfd_mach_o_flatten_sections_fill commands)
      else .undefined }

/-- A decoder that leaves `mdata->nsects` and `mdata->sections` alone: it works on
the other members of the object data only. -/
def on_sections_rest {τ P : Type}
    (f : Stream → bfd_mach_o_load_command P → τ → Option (P × τ))
    (abfd : Stream) (command : bfd_mach_o_load_command P)
    (mdata : bfd_mach_o_sections_data τ) : Option (P × bfd_mach_o_sections_data τ) :=
  match f abfd command mdata.rest with
  | none => none
  | some (body, rest) => some (body, { mdata with rest := rest })

/-- The decoders of `bfd_mach_o_read_command` with the segment decoders and the
flattening of the source in place: `bfd_mach_o_read_segment_32` and
`bfd_mach_o_read_segment_64` call `bfd_mach_o_read_segment` with `wide` 0 and 1,
and `bfd_mach_o_flatten_sections` is the only function that assigns
`mdata->nsects` and `mdata->sections` during the scan, so every other decoder
and the start-address walk work on the other members. -/
def bfd_mach_o_segment_readers {τ : Type} (xvec : bfd_target)
    (R : bfd_mach_o_readers τ bfd_mach_o_command) :
    bfd_mach_o_readers (bfd_mach_o_sections_data τ) bfd_mach_o_command where
  bfd_mach_o_read_segment_32 := fun abfd command mdata =>
    match bfd_mach_o_read_segment xvec abfd command false with
    | none => none
    | some seg => some (.segment seg, mdata)
  bfd_mach_o_read_segment_64 := fun abfd command mdata =>
    match bfd_mach_o_read_segment xvec abfd command true with
    | none => none
    | some seg => some (.segment seg, mdata)
  bfd_mach_o_read_symtab := on_sections_rest R.bfd_mach_o_read_symtab
  bfd_mach_o_read_thread := on_sections_rest R.bfd_mach_o_read_thread
  bfd_mach_o_read_dylinker := on_sections_rest R.bfd_mach_o_read_dylinker
  bfd_mach_o_read_dylib := on_sections_rest R.bfd_mach_o_read_dylib
  bfd_mach_o_read_prebound_dylib := on_sections_rest R.bfd_mach_o_read_prebound_dylib
  bfd_mach_o_read_str := on_sections_rest R.bfd_mach_o_read_str
  bfd_mach_o_read_dysymtab := on_sections_rest R.bfd_mach_o_read_dysymtab
  bfd_mach_o_read_uuid := on_sections_rest R.bfd_mach_o_read_uuid
  bfd_mach_o_read_linkedit := on_sections_rest R.bfd_mach_o_read_linkedit
  bfd_mach_o_read_dyld_info := on_sections_rest R.bfd_mach_o_read_dyld_info
  bfd_mach_o_read_version_min := on_sections_rest R.bfd_mach_o_read_version_min
  thread_start_address := fun abfd header cmd mdata =>
    match R.thread_start_address abfd header cmd mdata.rest with
    | none => none
    | some rest => some { mdata with rest := rest }
  bfd_mach_o_flatten_sections := fun commands mdata =>
    bfd_mach_o_flatten_sections commands mdata

/-- The size of the fixed part of a segment command, prefix included:
`BFD_MACH_O_LC_SEGMENT_64_SIZE` or `BFD_MACH_O_LC_SEGMENT_SIZE`. -/
def segment_fixed_size (wide : Bool) : Nat :=
  if wide then BFD_MACH_O_LC_SEGMENT_64_SIZE else BFD_MACH_O_LC_SEGMENT_SIZE

/-- The size of one section record: `BFD_MACH_O_SECTION_64_SIZE` or
`BFD_MACH_O_SECTION_SIZE`. -/
def section_record_size (wide : Bool) : Nat :=
  if wide then BFD_MACH_O_SECTION_64_SIZE else BFD_MACH_O_SECTION_SIZE

/-- A 152-byte 32-bit big-endian object file: the header announces one command; the
command is a segment command of length `cmdsize` with one section, whose
record (section `__text` of segment `__TEXT`) follows the 56 bytes of the
fixed part. -/
def one_section_object (cmdsize : Nat) : Stream :=
  be_words [0xfeedface, 7, 3, 1, 1, cmdsize, 0]
    ++ be_words [1, cmdsize] ++ name16 (str "__TEXT") ++ be_words [0, 0x1000, 0, 0x1000, 7, 5, 1, 0]
    ++ name16 (str "__text") ++ name16 (str "__TEXT")
    ++ be_words [0x100, 0x20, 152, 2, 0, 0, 0x80000400, 0, 0]

/-- The segment bodies of the commands of a segment kind, in command order. -/
def segment_commands (commands : List (bfd_mach_o_load_command bfd_mach_o_command)) :
    List bfd_mach_o_segment_command :=
  commands.filterMap (fun c => if bfd_mach_o_segment_kind c then c.segment else none)

/-! ## Writing relocation tables, segment commands and the symbol table -/

/-- Modelled from the spec: `BFD_MACH_O_RELENT_SIZE` of `mach-o.h`, the size of a raw
relocation entry. -/
def BFD_MACH_O_RELENT_SIZE : Nat := 8

/-- What the writers of `mach-o.c` take from outside the modelled object data:
`wide` is `bfd_mach_o_wide_p (abfd)`; `swap_reloc_out` is the back-end hook
`_bfd_mach_o_swap_reloc_out` (`none` when it is null), `orelocation` the array
`section->bfdsection->orelocation` of a section (it holds `reloc_count`
entries); `raw0` is the content the local record buffers start with;
`symcount` is `bfd_get_symcount (abfd)`, an `unsigned int`; `write_symbols` is
the symbol loop of `bfd_mach_o_write_symtab` with its string table
(`_bfd_stringtab_init`, `_bfd_stringtab_add`, the record writes): from the
file positioned at `symoff` it gives the file with the records written and
the size `_bfd_stringtab_size` of the collected table, or `none` on failure;
`stringtab_emit` is `_bfd_stringtab_emit`, which writes that table at the
position the records end at; `write_thread` is `bfd_mach_o_write_thread`. -/
structure bfd_mach_o_output (H : Type) where
  wide : Bool
  swap_reloc_out : Option (arelent H → Option bfd_mach_o_reloc_info)
  orelocation : asection → List (arelent H)
  raw0 : List Byte
  symcount : Nat
  write_symbols : Stream → Nat → Option (Stream × Nat)
  stringtab_emit : Stream → Nat → Option Stream
  write_thread : Stream → bfd_mach_o_load_command bfd_mach_o_command → bfd_mach_o_object
    → Bool × Stream × bfd_mach_o_object

/-- The loop "Convert and write" of `bfd_mach_o_write_relocs` over the remaining
entries, the next one written at `pos`: the flag is `false` when the hook
refuses an entry. -/
def bfd_mach_o_write_relocs_entries {H : Type} (xvec : bfd_target)
    (swap_reloc_out : arelent H → Option bfd_mach_o_reloc_info) :
    List (arelent H) → Stream → Nat → Bool × Stream
  | [], abfd, _ => (true, abfd)
  | rel :: rest, abfd, pos =>
    match swap_reloc_out rel with
    | none => (false, abfd)
    | some pinfo =>
      bfd_mach_o_write_relocs_entries xvec swap_reloc_out rest
        (bfd_bwrite abfd pos (bfd_mach_o_write_relocs_lower xvec pinfo))
        (pos + BFD_MACH_O_RELENT_SIZE)

/-- Source `bfd_mach_o_write_relocs`: the return value, the file, the cursor
`mdata->filelen` and the section as the function leaves them.  `filelen` and
`rel_filepos` are `file_ptr`, `reloff` is a `bfd_vma` (64 bits each);
`reloc_count` is an `unsigned int`, so the product with the entry size is an
`unsigned int` product. -/
def bfd_mach_o_write_relocs {H : Type} (xvec : bfd_target) (O : bfd_mach_o_output H)
    (abfd : Stream) (filelen : Nat) (sec : asection) : Bool × Stream × Nat × asection :=
  if sec.reloc_count = 0 then (true, abfd, filelen, sec)
  else
    match O.swap_reloc_out with
    | none => (true, abfd, filelen, sec)
    | some swap =>
      let filelen := FILE_ALIGN filelen 2
      let out : asection :=
        { sec with
          rel_filepos := filelen
          used_by_bfd := { sec.used_by_bfd with nreloc := sec.reloc_count, reloff := filelen } }
      let filelen := vma (filelen + u32 (sec.reloc_count * BFD_MACH_O_RELENT_SIZE))
      let r := bfd_mach_o_write_relocs_entries xvec swap
        ((O.orelocation sec).take out.used_by_bfd.nreloc) abfd out.used_by_bfd.reloff
      (r.1, r.2, filelen, out)

/-- The first loop of `bfd_mach_o_write_segment_32` and `bfd_mach_o_write_segment_64`,
which calls `bfd_mach_o_write_relocs` for the sections of the segment in
order: `done` are the sections visited so far.  The loop returns at the
first failure. -/
def bfd_mach_o_write_segment_relocs {H : Type} (xvec : bfd_target)
    (O : bfd_mach_o_output H) :
    List asection → Stream → Nat → List asection → Bool × Stream × Nat × List asection
  | [], abfd, filelen, done => (true, abfd, filelen, done)
  | sec :: rest, abfd, filelen, done =>
    match bfd_mach_o_write_relocs xvec O abfd filelen sec with
    | (false, abfd, filelen, out) => (false, abfd, filelen, done ++ out :: rest)
    | (true, abfd, filelen, out) =>
      bfd_mach_o_write_segment_relocs xvec O rest abfd filelen (done ++ [out])

/-- The local buffer `raw` of `bfd_mach_o_write_segment_32` (48 bytes) and of
`bfd_mach_o_write_segment_64` (64 bytes) when it is handed to `bfd_bwrite`. -/
def bfd_mach_o_write_segment_raw (xvec : bfd_target) (wide : Bool)
    (seg : bfd_mach_o_segment_command) : List Byte :=
  if wide then
    name16 seg.segname ++ bfd_h_put_64 xvec seg.vmaddr ++ bfd_h_put_64 xvec seg.vmsize
      ++ bfd_h_put_64 xvec seg.fileoff ++ bfd_h_put_64 xvec seg.filesize
      ++ bfd_h_put_32 xvec seg.maxprot ++ bfd_h_put_32 xvec seg.initprot
      ++ bfd_h_put_32 xvec seg.nsects ++ bfd_h_put_32 xvec seg.flags
  else
    name16 seg.segname ++ bfd_h_put_32 xvec seg.vmaddr ++ bfd_h_put_32 xvec seg.vmsize
      ++ bfd_h_put_32 xvec seg.fileoff ++ bfd_h_put_32 xvec seg.filesize
      ++ bfd_h_put_32 xvec seg.maxprot ++ bfd_h_put_32 xvec seg.initprot
      ++ bfd_h_put_32 xvec seg.nsects ++ bfd_h_put_32 xvec seg.flags

/-- The second loop of `bfd_mach_o_write_segment_32` and
`bfd_mach_o_write_segment_64`: the section records are written one after the
other from the position `pos` the segment record ends at. -/
def bfd_mach_o_write_segment_sections (xvec : bfd_target) (wide : Bool) (raw0 : List Byte) :
    List asection → Stream → Nat → Stream
  | [], abfd, _ => abfd
  | sec :: rest, abfd, pos =>
    if wide then
      bfd_mach_o_write_segment_sections xvec wide raw0 rest
        (bfd_mach_o_write_section_64 xvec abfd pos raw0 sec.used_by_bfd)
        (pos + BFD_MACH_O_SECTION_64_SIZE)
    else
      bfd_mach_o_write_segment_sections xvec wide raw0 rest
        (bfd_mach_o_write_section_32 xvec abfd pos raw0 sec.used_by_bfd)
        (pos + BFD_MACH_O_SECTION_SIZE)

/-- Source `bfd_mach_o_write_segment_32` (`wide` false) and
`bfd_mach_o_write_segment_64` (`wide` true): the flag is `false` for the return
value -1.  The sections of the segment are the sections of the object (the
command builder appends every section of `abfd->sections` to the segment it
makes), so the sections as the relocation loop leaves them are the sections
of the object afterwards.  A command of a segment kind carries a segment
body; the first case of the `match` stands for a command without one. -/
def bfd_mach_o_write_segment {H : Type} (xvec : bfd_target) (wide : Bool)
    (O : bfd_mach_o_output H) (abfd : Stream)
    (command : bfd_mach_o_load_command bfd_mach_o_command) (mdata : bfd_mach_o_object) :
    Bool × Stream × bfd_mach_o_object :=
  match command.segment with
  | none => (false, abfd, mdata)
  | some seg =>
    match bfd_mach_o_write_segment_relocs xvec O seg.sections abfd mdata.filelen [] with
    | (false, abfd, filelen, sections) =>
      (false, abfd, { sections := sections, filelen := filelen })
    | (true, abfd, filelen, sections) =>
      let raw := bfd_mach_o_write_segment_raw xvec wide { seg with sections := sections }
      let abfd := bfd_bwrite abfd (u32 (command.offset + BFD_MACH_O_LC_SIZE)) raw
      let abfd := bfd_mach_o_write_segment_sections xvec wide O.raw0 sections abfd
        (u32 (command.offset + BFD_MACH_O_LC_SIZE) + raw.length)
      (true, abfd, { sections := sections, filelen := filelen })

/-- The record `bfd_mach_o_write_symtab` writes after the prefix of the command:
`symoff`, `nsyms`, `stroff` and `strsize`. -/
def bfd_mach_o_write_symtab_raw (xvec : bfd_target) (symoff nsyms stroff strsize : Nat) :
    List Byte :=
  bfd_h_put_32 xvec symoff ++ bfd_h_put_32 xvec nsyms ++ bfd_h_put_32 xvec stroff
    ++ bfd_h_put_32 xvec strsize

/-- Source `bfd_mach_o_write_symtab`.  `symoff`, `nsyms`, `stroff` and `strsize` are
`unsigned int` members of the command, and `symlen` is an `unsigned int`, so
the cursor is truncated when it is stored in `symoff` and `stroff`, and
`nsyms * symlen` is an `unsigned int` product. -/
def bfd_mach_o_write_symtab {H : Type} (xvec : bfd_target) (O : bfd_mach_o_output H)
    (abfd : Stream) (command : bfd_mach_o_load_command bfd_mach_o_command)
    (mdata : bfd_mach_o_object) : Bool × Stream × bfd_mach_o_object :=
  let symlen := if O.wide then BFD_MACH_O_NLIST_64_SIZE else BFD_MACH_O_NLIST_SIZE
  let filelen := FILE_ALIGN mdata.filelen (if O.wide then 3 else 2)
  let symoff := u32 filelen
  let nsyms := O.symcount
  let filelen := vma (filelen + u32 (nsyms * symlen))
  match O.write_symbols abfd symoff with
  | none => (false, abfd, { mdata with filelen := filelen })
  | some (abfd, size) =>
    let strsize := u32 size
    let stroff := u32 filelen
    let filelen := vma (filelen + strsize)
    match O.stringtab_emit abfd size with
    | none => (false, abfd, { mdata with filelen := filelen })
    | some abfd =>
      (true,
        bfd_bwrite abfd (u32 (command.offset + BFD_MACH_O_LC_SIZE))
          (bfd_mach_o_write_symtab_raw xvec symoff nsyms stroff strsize),
        { mdata with filelen := filelen })

/-- The writers of `bfd_mach_o_write_contents` with the functions of the source in
place.  `bfd_mach_o_mangle_symbols` returns `TRUE` and changes the symbols
only, which are not part of the modelled object data. -/
def bfd_mach_o_object_writers {H : Type} (xvec : bfd_target) (O : bfd_mach_o_output H) :
    bfd_mach_o_writers bfd_mach_o_object bfd_mach_o_command where
  bfd_mach_o_build_commands := bfd_mach_o_build_commands
  bfd_mach_o_mangle_symbols := fun mdata => (true, mdata)
  bfd_mach_o_write_segment_32 := bfd_mach_o_write_segment xvec false O
  bfd_mach_o_write_segment_64 := bfd_mach_o_write_segment xvec true O
  bfd_mach_o_write_symtab := bfd_mach_o_write_symtab xvec O
  bfd_mach_o_write_thread := O.write_thread

/-- The relocation table of one section as the specification lays it out, on
unbounded integers: from the cursor `c`, a section with relocations (when the
back end can write them, `hook`) gets the least multiple of 4 that is not
below `c`, and the cursor moves on by 8 bytes for each relocation; any other
section leaves the cursor alone.  The result is the table offset and the new
cursor. -/
def spec_reloc_step (hook : Bool) (c : Nat) (sec : asection) : Nat × Nat :=
  if sec.reloc_count ≠ 0 ∧ hook = true then
    ((c + 4 - 1) / 4 * 4, (c + 4 - 1) / 4 * 4 + 8 * sec.reloc_count)
  else (sec.used_by_bfd.reloff, c)

/-- The cursor the specification describes after the relocation tables of the
given sections, from the cursor `c`. -/
def spec_reloc_end (hook : Bool) : Nat → List asection → Nat
  | c, [] => c
  | c, sec :: rest => spec_reloc_end hook (spec_reloc_step hook c sec).2 rest

/-- The symbol table and the string table as the specification lays them out, on
unbounded integers, from the cursor `c`: the symbol table starts at the least
multiple of 4 (8 in the 64-bit form) that is not below `c` and takes 12 (16)
bytes for each symbol, the string table follows it at once.  The result is
`symoff`, `stroff` and the new cursor. -/
def spec_symtab_layout (wide : Bool) (c nsyms strsize : Nat) : Nat × Nat × Nat :=
  let a := if wide then 8 else 4
  let symoff := (c + a - 1) / a * a
  let stroff := symoff + nsyms * (if wide then 16 else 12)
  (symoff, stroff, stroff + strsize)

/-- Output hooks that always succeed, for an object with `symcount` symbols whose
string table takes `strsize` bytes: the relocation hook accepts every entry,
every section has as many entries as its `reloc_count` says, and the symbol
loop and the string table leave the file alone. -/
def bfd_mach_o_plain_output (wide : Bool) (symcount strsize : Nat) : bfd_mach_o_output Unit where
  wide := wide
  swap_reloc_out := some (fun _ => some ⟨0, 0, 0, 0, 0, 0, 0⟩)
  orelocation := fun sec => List.replicate sec.reloc_count ⟨.null, 0, 0, none⟩
  raw0 := []
  symcount := symcount
  write_symbols := fun abfd _ => some (abfd, strsize)
  stringtab_emit := fun abfd _ => some abfd
  write_thread := fun abfd _ mdata => (true, abfd, mdata)

/-- A 32-bit object without commands and with three sections: 10 bytes aligned to
4 with two relocations, an empty section, and 5 bytes aligned to 8 with one
relocation. -/
def three_section_object : bfd_mach_o_data_struct bfd_mach_o_object bfd_mach_o_command :=
  ⟨⟨0xfeedface, 7, 3, 1, 0, 0, 0, 0, 1, .BFD_ENDIAN_BIG⟩, [],
    ⟨[⟨[], 0, 0, 0, 10, 0, 2, 2, 0, 0, ⟨[], [], 0, 0, 0, 0, 0, 0, 0x80000400, 0, 0, 0⟩⟩,
      ⟨[], 0, 0, 0, 0, 0, 4, 0, 0, 0, ⟨[], [], 0, 0, 0, 0, 0, 0, 1, 0, 0, 0⟩⟩,
      ⟨[], 0, 0, 0, 5, 0, 3, 1, 0, 0, ⟨[], [], 0, 0, 0, 0, 0, 0, 0, 0, 0, 0⟩⟩],
     0⟩⟩

/-- A 32-bit object without commands whose one section is 2^32 bytes long. -/
def large_section_object : bfd_mach_o_data_struct bfd_mach_o_object bfd_mach_o_command :=
  ⟨⟨0xfeedface, 7, 3, 1, 0, 0, 0, 0, 1, .BFD_ENDIAN_BIG⟩, [],
    ⟨[⟨[], 0, 0, 0, 2 ^ 32, 0, 0, 0, 0, 0, ⟨[], [], 0, 0, 0, 0, 0, 0, 1, 0, 0, 0⟩⟩], 0⟩⟩

/-! ## The kinds the write side accepts -/

/-- Writers that all report success and leave the file and the object data
alone, for running `bfd_mach_o_write_contents` on command tables where only the
dispatch on the kind matters. -/
def bfd_mach_o_ok_writers : bfd_mach_o_writers Unit Unit where
  bfd_mach_o_build_commands := fun mdata => (true, mdata)
  bfd_mach_o_mangle_symbols := fun m => (true, m)
  bfd_mach_o_write_segment_32 := fun abfd _ m => (true, abfd, m)
  bfd_mach_o_write_segment_64 := fun abfd _ m => (true, abfd, m)
  bfd_mach_o_write_symtab := fun abfd _ m => (true, abfd, m)
  bfd_mach_o_write_thread := fun abfd _ m => (true, abfd, m)

/-! # Theorems -/

/-! ## Byte-level lemmas -/

theorem byteOf_val (n : Nat) : (byteOf n).val = n % 256 := rfl

theorem bfd_getb32_putb32 (v : Nat) (rest : List Byte) :
    bfd_getb32 (bfd_putb32 v ++ rest) = v % 2 ^ 32 := by
  simp [bfd_getb32, bfd_putb32, byteOf_val]
  omega

theorem bfd_getl32_putl32 (v : Nat) (rest : List Byte) :
    bfd_getl32 (bfd_putl32 v ++ rest) = v % 2 ^ 32 := by
  simp [bfd_getl32, bfd_putl32, byteOf_val]
  omega

theorem bfd_h_get_32_put_32 (xvec : bfd_target) (v : Nat) (rest : List Byte) :
    bfd_h_get_32 xvec (bfd_h_put_32 xvec v ++ rest) = v % 2 ^ 32 := by
  cases xvec
  · exact bfd_getb32_putb32 v rest
  · exact bfd_getl32_putl32 v rest

theorem bfd_h_put_32_length (xvec : bfd_target) (v : Nat) :
    (bfd_h_put_32 xvec v).length = 4 := by
  cases xvec <;> rfl

theorem bfd_bread_bwrite_zero (abfd : Stream) (buf : List Byte) (n : Nat)
    (hn : n ≤ buf.length) :
    bfd_bread (bfd_bwrite abfd 0 buf) 0 n = some (buf.take n) := by
  have hlen : 0 + n ≤ (bfd_bwrite abfd 0 buf).length := by
    simp [bfd_bwrite]; omega
  simp only [bfd_bread, hlen, if_true]
  simp [bfd_bwrite, List.take_append_of_le_length hn]

/-! ## Header round trip -/

theorem getD_take_of_lt (p : List Byte) (n i : Nat) (h : i < n) :
    (p.take n).getD i 0 = p.getD i 0 := by
  simp [List.getD_eq_getElem?_getD, List.getElem?_take, h]

theorem bfd_getb32_take (p : List Byte) (n : Nat) (h : 4 ≤ n) :
    bfd_getb32 (p.take n) = bfd_getb32 p := by
  simp only [bfd_getb32]
  rw [getD_take_of_lt p n 0 (by omega), getD_take_of_lt p n 1 (by omega),
    getD_take_of_lt p n 2 (by omega), getD_take_of_lt p n 3 (by omega)]

theorem bfd_getl32_take (p : List Byte) (n : Nat) (h : 4 ≤ n) :
    bfd_getl32 (p.take n) = bfd_getl32 p := by
  simp only [bfd_getl32]
  rw [getD_take_of_lt p n 0 (by omega), getD_take_of_lt p n 1 (by omega),
    getD_take_of_lt p n 2 (by omega), getD_take_of_lt p n 3 (by omega)]

theorem bfd_getb32_lt (p : List Byte) : bfd_getb32 p < 2 ^ 32 := by
  simp only [bfd_getb32]
  have h0 := (p.getD 0 0).isLt
  have h1 := (p.getD 1 0).isLt
  have h2 := (p.getD 2 0).isLt
  have h3 := (p.getD 3 0).isLt
  omega

theorem bfd_getl32_lt (p : List Byte) : bfd_getl32 p < 2 ^ 32 := by
  simp only [bfd_getl32]
  have h0 := (p.getD 0 0).isLt
  have h1 := (p.getD 1 0).isLt
  have h2 := (p.getD 2 0).isLt
  have h3 := (p.getD 3 0).isLt
  omega

theorem drop_h_put_32 (xvec : bfd_target) (v : Nat) (rest : List Byte) (k : Nat) :
    List.drop (k + 4) (bfd_h_put_32 xvec v ++ rest) = List.drop k rest := by
  cases xvec <;> simp [bfd_h_put_32, bfd_putb32, bfd_putl32]

theorem raw_words (xvec : bfd_target) (a b c d e f g : Nat) (tail : List Byte) :
    let raw := bfd_h_put_32 xvec a ++ (bfd_h_put_32 xvec b ++ (bfd_h_put_32 xvec c
      ++ (bfd_h_put_32 xvec d ++ (bfd_h_put_32 xvec e ++ (bfd_h_put_32 xvec f
      ++ (bfd_h_put_32 xvec g ++ tail))))))
    bfd_h_get_32 xvec raw = a % 2 ^ 32
      ∧ bfd_h_get_32 xvec (raw.drop 4) = b % 2 ^ 32
      ∧ bfd_h_get_32 xvec (raw.drop 8) = c % 2 ^ 32
      ∧ bfd_h_get_32 xvec (raw.drop 12) = d % 2 ^ 32
      ∧ bfd_h_get_32 xvec (raw.drop 16) = e % 2 ^ 32
      ∧ bfd_h_get_32 xvec (raw.drop 20) = f % 2 ^ 32
      ∧ bfd_h_get_32 xvec (raw.drop 24) = g % 2 ^ 32
      ∧ raw.drop 28 = tail := by
  intro raw
  refine ⟨bfd_h_get_32_put_32 _ _ _, ?_, ?_, ?_, ?_, ?_, ?_, ?_⟩
  · rw [show (4 : Nat) = 0 + 4 from rfl]
    simp only [raw, drop_h_put_32, List.drop_zero, bfd_h_get_32_put_32]
  · rw [show (8 : Nat) = 0 + 4 + 4 from rfl]
    simp only [raw, drop_h_put_32, List.drop_zero, bfd_h_get_32_put_32]
  · rw [show (12 : Nat) = 0 + 4 + 4 + 4 from rfl]
    simp only [raw, drop_h_put_32, List.drop_zero, bfd_h_get_32_put_32]
  · rw [show (16 : Nat) = 0 + 4 + 4 + 4 + 4 from rfl]
    simp only [raw, drop_h_put_32, List.drop_zero, bfd_h_get_32_put_32]
  · rw [show (20 : Nat) = 0 + 4 + 4 + 4 + 4 + 4 from rfl]
    simp only [raw, drop_h_put_32, List.drop_zero, bfd_h_get_32_put_32]
  · rw [show (24 : Nat) = 0 + 4 + 4 + 4 + 4 + 4 + 4 from rfl]
    simp only [raw, drop_h_put_32, List.drop_zero, bfd_h_get_32_put_32]
  · rw [show (28 : Nat) = 0 + 4 + 4 + 4 + 4 + 4 + 4 + 4 from rfl]
    simp only [raw, drop_h_put_32, List.drop_zero]

theorem read_header_of_length (abfd : Stream) (header : bfd_mach_o_header)
    (h4 : 4 ≤ abfd.length) :
    bfd_mach_o_read_header abfd header =
      if bfd_getb32 abfd = BFD_MACH_O_MH_MAGIC then
        bfd_mach_o_read_header_fields abfd bfd_getb32
          { header with byteorder := .BFD_ENDIAN_BIG, magic := BFD_MACH_O_MH_MAGIC, version := 1 }
      else if bfd_getl32 abfd = BFD_MACH_O_MH_MAGIC then
        bfd_mach_o_read_header_fields abfd bfd_getl32
          { header with byteorder := .BFD_ENDIAN_LITTLE, magic := BFD_MACH_O_MH_MAGIC, version := 1 }
      else if bfd_getb32 abfd = BFD_MACH_O_MH_MAGIC_64 then
        bfd_mach_o_read_header_fields abfd bfd_getb32
          { header with byteorder := .BFD_ENDIAN_BIG, magic := BFD_MACH_O_MH_MAGIC_64, version := 2 }
      else if bfd_getl32 abfd = BFD_MACH_O_MH_MAGIC_64 then
        bfd_mach_o_read_header_fields abfd bfd_getl32
          { header with byteorder := .BFD_ENDIAN_LITTLE, magic := BFD_MACH_O_MH_MAGIC_64, version := 2 }
      else
        (false, { header with byteorder := .BFD_ENDIAN_UNKNOWN }) := by
  have hb : bfd_bread abfd 0 4 = some (abfd.take 4) := by
    simp [bfd_bread, h4]
  simp only [bfd_mach_o_read_header, hb, bfd_getb32_take abfd 4 (Nat.le_refl 4),
    bfd_getl32_take abfd 4 (Nat.le_refl 4)]

theorem bfd_getb32_append (v : List Byte) (rest : List Byte) (h : v.length = 4) :
    bfd_getb32 (v ++ rest) = bfd_getb32 v := by
  match v, h with
  | [a, b, c, d], _ => simp [bfd_getb32]

theorem bfd_getl32_append (v : List Byte) (rest : List Byte) (h : v.length = 4) :
    bfd_getl32 (v ++ rest) = bfd_getl32 v := by
  match v, h with
  | [a, b, c, d], _ => simp [bfd_getl32]

theorem magic_tests :
    bfd_getb32 (bfd_putb32 BFD_MACH_O_MH_MAGIC) = BFD_MACH_O_MH_MAGIC
    ∧ bfd_getb32 (bfd_putl32 BFD_MACH_O_MH_MAGIC) ≠ BFD_MACH_O_MH_MAGIC
    ∧ bfd_getl32 (bfd_putl32 BFD_MACH_O_MH_MAGIC) = BFD_MACH_O_MH_MAGIC
    ∧ bfd_getb32 (bfd_putb32 BFD_MACH_O_MH_MAGIC_64) ≠ BFD_MACH_O_MH_MAGIC
    ∧ bfd_getl32 (bfd_putb32 BFD_MACH_O_MH_MAGIC_64) ≠ BFD_MACH_O_MH_MAGIC
    ∧ bfd_getb32 (bfd_putb32 BFD_MACH_O_MH_MAGIC_64) = BFD_MACH_O_MH_MAGIC_64
    ∧ bfd_getb32 (bfd_putl32 BFD_MACH_O_MH_MAGIC_64) ≠ BFD_MACH_O_MH_MAGIC
    ∧ bfd_getl32 (bfd_putl32 BFD_MACH_O_MH_MAGIC_64) ≠ BFD_MACH_O_MH_MAGIC
    ∧ bfd_getb32 (bfd_putl32 BFD_MACH_O_MH_MAGIC_64) ≠ BFD_MACH_O_MH_MAGIC_64
    ∧ bfd_getl32 (bfd_putl32 BFD_MACH_O_MH_MAGIC_64) = BFD_MACH_O_MH_MAGIC_64 := by
  decide

theorem bfd_h_get_32_drop_take (xvec : bfd_target) (p : List Byte) (n k : Nat)
    (h : k + 4 ≤ n) :
    bfd_h_get_32 xvec ((p.take n).drop k) = bfd_h_get_32 xvec (p.drop k) := by
  rw [List.drop_take]
  cases xvec
  · exact bfd_getb32_take _ _ (by omega)
  · exact bfd_getl32_take _ _ (by omega)

theorem mach_o_wide_p_eq (header : bfd_mach_o_header) :
    mach_o_wide_p header = decide (header.version = 2) := by
  unfold mach_o_wide_p
  split <;> simp_all

/-- The header decoded by `bfd_mach_o_read_header_fields` when the file holds
the full header. -/
theorem read_header_fields_of_length (xvec : bfd_target) (abfd : Stream)
    (header : bfd_mach_o_header)
    (hlen : (if mach_o_wide_p header then BFD_MACH_O_HEADER_64_SIZE
      else BFD_MACH_O_HEADER_SIZE) ≤ abfd.length) :
    bfd_mach_o_read_header_fields abfd (bfd_h_get_32 xvec) header =
      (true, { header with
        cputype := bfd_h_get_32 xvec (abfd.drop 4)
        cpusubtype := bfd_h_get_32 xvec (abfd.drop 8)
        filetype := bfd_h_get_32 xvec (abfd.drop 12)
        ncmds := bfd_h_get_32 xvec (abfd.drop 16)
        sizeofcmds := bfd_h_get_32 xvec (abfd.drop 20)
        flags := bfd_h_get_32 xvec (abfd.drop 24)
        reserved := if mach_o_wide_p header then bfd_h_get_32 xvec (abfd.drop 28)
          else header.reserved }) := by
  have hsz : 28 ≤ (if mach_o_wide_p header then BFD_MACH_O_HEADER_64_SIZE
      else BFD_MACH_O_HEADER_SIZE) := by
    split <;> simp [BFD_MACH_O_HEADER_64_SIZE, BFD_MACH_O_HEADER_SIZE]
  have hb : bfd_bread abfd 0 (if mach_o_wide_p header then BFD_MACH_O_HEADER_64_SIZE
      else BFD_MACH_O_HEADER_SIZE) = some (abfd.take (if mach_o_wide_p header then
        BFD_MACH_O_HEADER_64_SIZE else BFD_MACH_O_HEADER_SIZE)) := by
    simp [bfd_bread, hlen]
  simp only [bfd_mach_o_read_header_fields, hb]
  rw [bfd_h_get_32_drop_take xvec abfd _ 4 (by omega),
    bfd_h_get_32_drop_take xvec abfd _ 8 (by omega),
    bfd_h_get_32_drop_take xvec abfd _ 12 (by omega),
    bfd_h_get_32_drop_take xvec abfd _ 16 (by omega),
    bfd_h_get_32_drop_take xvec abfd _ 20 (by omega),
    bfd_h_get_32_drop_take xvec abfd _ 24 (by omega)]
  cases hwide : mach_o_wide_p header
  · have hw : header.version ≠ 2 := by
      intro h2
      simp [mach_o_wide_p, h2] at hwide
    simp [mach_o_wide_p_eq, hw]
  · have hw : header.version = 2 := by
      rw [mach_o_wide_p_eq] at hwide
      exact of_decide_eq_true hwide
    simp only [hwide, if_true] at hlen ⊢
    simp only [mach_o_wide_p_eq, hw, decide_True, if_true]
    rw [bfd_h_get_32_drop_take xvec abfd _ 28 (by simp [BFD_MACH_O_HEADER_64_SIZE])]

theorem write_header_stream (xvec : bfd_target) (abfd : Stream) (h : bfd_mach_o_header) :
    bfd_mach_o_write_header xvec abfd h =
      bfd_h_put_32 xvec h.magic ++ (bfd_h_put_32 xvec h.cputype
        ++ (bfd_h_put_32 xvec h.cpusubtype ++ (bfd_h_put_32 xvec h.filetype
        ++ (bfd_h_put_32 xvec h.ncmds ++ (bfd_h_put_32 xvec h.sizeofcmds
        ++ (bfd_h_put_32 xvec h.flags ++
          (if h.version = 2 then bfd_h_put_32 xvec h.reserved ++ abfd.drop 32
            else abfd.drop 28))))))) := by
  simp only [bfd_mach_o_write_header, bfd_bwrite, bfd_mach_o_write_header_raw,
    mach_o_wide_p_eq]
  by_cases hv : h.version = 2
  · simp [hv, bfd_h_put_32_length]
  · simp [hv, bfd_h_put_32_length]

theorem write_header_length (xvec : bfd_target) (abfd : Stream) (h : bfd_mach_o_header) :
    (if h.version = 2 then 32 else 28) ≤ (bfd_mach_o_write_header xvec abfd h).length := by
  rw [write_header_stream]
  by_cases hv : h.version = 2
  · simp [hv, bfd_h_put_32_length]
    omega
  · simp [hv, bfd_h_put_32_length]
    omega

theorem magic_word_tests (xvec : bfd_target) (abfd : Stream) (h : bfd_mach_o_header) :
    bfd_getb32 (bfd_mach_o_write_header xvec abfd h) = bfd_getb32 (bfd_h_put_32 xvec h.magic)
    ∧ bfd_getl32 (bfd_mach_o_write_header xvec abfd h)
      = bfd_getl32 (bfd_h_put_32 xvec h.magic) := by
  rw [write_header_stream]
  exact ⟨bfd_getb32_append _ _ (bfd_h_put_32_length _ _),
    bfd_getl32_append _ _ (bfd_h_put_32_length _ _)⟩

/-- C1. Header round trip: for either word width (version 1 with magic
0xfeedface, version 2 with magic 0xfeedfacf), either byte order and every header
whose fields fit in 32 bits, `bfd_mach_o_read_header` applied to the file that
`bfd_mach_o_write_header` wrote succeeds and returns the byte order used for
writing and the same version, magic, cputype, cpusubtype, filetype, ncmds,
sizeofcmds and flags, and for the 64-bit form the same reserved word (the
32-bit form leaves the reserved word of the destination untouched). -/
theorem C1_header_round_trip (xvec : bfd_target) (abfd : Stream)
    (h h0 : bfd_mach_o_header)
    (hw : (h.version = 1 ∧ h.magic = BFD_MACH_O_MH_MAGIC)
      ∨ (h.version = 2 ∧ h.magic = BFD_MACH_O_MH_MAGIC_64))
    (hfit : h.cputype < 2 ^ 32 ∧ h.cpusubtype < 2 ^ 32 ∧ h.filetype < 2 ^ 32
      ∧ h.ncmds < 2 ^ 32 ∧ h.sizeofcmds < 2 ^ 32 ∧ h.flags < 2 ^ 32
      ∧ h.reserved < 2 ^ 32) :
    bfd_mach_o_read_header (bfd_mach_o_write_header xvec abfd h) h0 =
      (true, { h with
        byteorder := xvec.header_byteorder
        reserved := if h.version = 2 then h.reserved else h0.reserved }) := by
  obtain ⟨h1, h2, h3, h4, h5, h6, h7⟩ := hfit
  have hlen := write_header_length xvec abfd h
  have hlen4 : 4 ≤ (bfd_mach_o_write_header xvec abfd h).length := by
    split at hlen <;> omega
  rw [read_header_of_length _ _ hlen4]
  have hwords := raw_words xvec h.magic h.cputype h.cpusubtype h.filetype h.ncmds
    h.sizeofcmds h.flags
    (if h.version = 2 then bfd_h_put_32 xvec h.reserved ++ abfd.drop 32 else abfd.drop 28)
  simp only [← write_header_stream] at hwords
  obtain ⟨-, w1, w2, w3, w4, w5, w6, w7⟩ := hwords
  rw [Nat.mod_eq_of_lt h1] at w1
  rw [Nat.mod_eq_of_lt h2] at w2
  rw [Nat.mod_eq_of_lt h3] at w3
  rw [Nat.mod_eq_of_lt h4] at w4
  rw [Nat.mod_eq_of_lt h5] at w5
  rw [Nat.mod_eq_of_lt h6] at w6
  obtain ⟨tb, tl⟩ := magic_word_tests xvec abfd h
  obtain ⟨m1, m2, m3, m4, m5, m6, m7, m8, m9, m10⟩ := magic_tests
  obtain ⟨magic, cputype, cpusubtype, filetype, ncmds, sizeofcmds, flags, reserved,
    version, byteorder⟩ := h
  simp only at hw w1 w2 w3 w4 w5 w6 w7 tb tl hlen h7
  rcases hw with ⟨hv, hm⟩ | ⟨hv, hm⟩ <;> subst hv hm <;> cases xvec
  · have hf : bfd_mach_o_read_header_fields _ bfd_getb32 _ = _ :=
      read_header_fields_of_length .big _
      { h0 with byteorder := .BFD_ENDIAN_BIG, magic := BFD_MACH_O_MH_MAGIC, version := 1 }
      (by simpa [mach_o_wide_p, BFD_MACH_O_HEADER_SIZE] using hlen)
    simp only [bfd_h_put_32, bfd_h_get_32] at tb tl hf w1 w2 w3 w4 w5 w6
    rw [if_pos (tb.trans m1), hf, w1, w2, w3, w4, w5, w6]
    simp [mach_o_wide_p, bfd_target.header_byteorder]
  · have hf : bfd_mach_o_read_header_fields _ bfd_getl32 _ = _ :=
      read_header_fields_of_length .little _
      { h0 with byteorder := .BFD_ENDIAN_LITTLE, magic := BFD_MACH_O_MH_MAGIC, version := 1 }
      (by simpa [mach_o_wide_p, BFD_MACH_O_HEADER_SIZE] using hlen)
    simp only [bfd_h_put_32, bfd_h_get_32] at tb tl hf w1 w2 w3 w4 w5 w6
    rw [if_neg (by rw [tb]; exact m2), if_pos (tl.trans m3), hf, w1, w2, w3, w4, w5, w6]
    simp [mach_o_wide_p, bfd_target.header_byteorder]
  · have hf : bfd_mach_o_read_header_fields _ bfd_getb32 _ = _ :=
      read_header_fields_of_length .big _
      { h0 with byteorder := .BFD_ENDIAN_BIG, magic := BFD_MACH_O_MH_MAGIC_64, version := 2 }
      (by simpa [mach_o_wide_p, BFD_MACH_O_HEADER_64_SIZE] using hlen)
    simp only [if_true] at w7
    have w8 := bfd_h_get_32_put_32 .big reserved (List.drop 32 abfd)
    rw [← w7, Nat.mod_eq_of_lt h7] at w8
    simp only [bfd_h_put_32, bfd_h_get_32] at tb tl hf w1 w2 w3 w4 w5 w6 w8
    rw [if_neg (by rw [tb]; exact m4), if_neg (by rw [tl]; exact m5), if_pos (tb.trans m6),
      hf, w1, w2, w3, w4, w5, w6, w8]
    simp [mach_o_wide_p, bfd_target.header_byteorder]
  · have hf : bfd_mach_o_read_header_fields _ bfd_getl32 _ = _ :=
      read_header_fields_of_length .little _
      { h0 with byteorder := .BFD_ENDIAN_LITTLE, magic := BFD_MACH_O_MH_MAGIC_64, version := 2 }
      (by simpa [mach_o_wide_p, BFD_MACH_O_HEADER_64_SIZE] using hlen)
    simp only [if_true] at w7
    have w8 := bfd_h_get_32_put_32 .little reserved (List.drop 32 abfd)
    rw [← w7, Nat.mod_eq_of_lt h7] at w8
    simp only [bfd_h_put_32, bfd_h_get_32] at tb tl hf w1 w2 w3 w4 w5 w6 w8
    rw [if_neg (by rw [tb]; exact m7), if_neg (by rw [tl]; exact m8),
      if_neg (by rw [tb]; exact m9), if_pos (tl.trans m10),
      hf, w1, w2, w3, w4, w5, w6, w8]
    simp [mach_o_wide_p, bfd_target.header_byteorder]

theorem C1_header_round_trip_witness :
    bfd_mach_o_read_header
      (bfd_mach_o_write_header .little []
        ⟨BFD_MACH_O_MH_MAGIC_64, 0x1000007, 3, 1, 2, 176, 0x2000, 5, 2, .BFD_ENDIAN_UNKNOWN⟩)
      ⟨0, 0, 0, 0, 0, 0, 0, 0, 0, .BFD_ENDIAN_UNKNOWN⟩ =
      (true,
        ⟨BFD_MACH_O_MH_MAGIC_64, 0x1000007, 3, 1, 2, 176, 0x2000, 5, 2, .BFD_ENDIAN_LITTLE⟩) :=
  C1_header_round_trip .little []
    ⟨BFD_MACH_O_MH_MAGIC_64, 0x1000007, 3, 1, 2, 176, 0x2000, 5, 2, .BFD_ENDIAN_UNKNOWN⟩
    ⟨0, 0, 0, 0, 0, 0, 0, 0, 0, .BFD_ENDIAN_UNKNOWN⟩ (Or.inr ⟨rfl, rfl⟩) (by decide)

/-! ## Magic detection -/

theorem magic_tests_exclusive (p : List Byte) :
    (bfd_getb32 p = BFD_MACH_O_MH_MAGIC → bfd_getl32 p ≠ BFD_MACH_O_MH_MAGIC
      ∧ bfd_getb32 p ≠ BFD_MACH_O_MH_MAGIC_64 ∧ bfd_getl32 p ≠ BFD_MACH_O_MH_MAGIC_64)
    ∧ (bfd_getl32 p = BFD_MACH_O_MH_MAGIC → bfd_getb32 p ≠ BFD_MACH_O_MH_MAGIC_64
      ∧ bfd_getl32 p ≠ BFD_MACH_O_MH_MAGIC_64)
    ∧ (bfd_getb32 p = BFD_MACH_O_MH_MAGIC_64 → bfd_getl32 p ≠ BFD_MACH_O_MH_MAGIC_64) := by
  simp only [bfd_getb32, bfd_getl32, BFD_MACH_O_MH_MAGIC, BFD_MACH_O_MH_MAGIC_64]
  have h0 := (p.getD 0 0).isLt
  have h1 := (p.getD 1 0).isLt
  have h2 := (p.getD 2 0).isLt
  have h3 := (p.getD 3 0).isLt
  refine ⟨?_, ?_, ?_⟩ <;> intro h <;> omega

theorem read_header_fields_ok (xvec : bfd_target) (abfd : Stream)
    (header : bfd_mach_o_header)
    (hlen : (if header.version = 2 then 32 else 28) ≤ abfd.length) :
    (bfd_mach_o_read_header_fields abfd (bfd_h_get_32 xvec) header).1 = true
    ∧ (bfd_mach_o_read_header_fields abfd (bfd_h_get_32 xvec) header).2.version
      = header.version
    ∧ (bfd_mach_o_read_header_fields abfd (bfd_h_get_32 xvec) header).2.byteorder
      = header.byteorder
    ∧ (bfd_mach_o_read_header_fields abfd (bfd_h_get_32 xvec) header).2.magic
      = header.magic := by
  rw [read_header_fields_of_length xvec abfd header
    (by simpa [mach_o_wide_p_eq, BFD_MACH_O_HEADER_64_SIZE, BFD_MACH_O_HEADER_SIZE] using hlen)]
  exact ⟨rfl, rfl, rfl, rfl⟩

/-- C2. On a stream holding a full header, `bfd_mach_o_read_header` succeeds if
and only if the first four bytes, read big- or little-endian, equal 0xfeedface
or 0xfeedfacf.  At most one of the four tests can hold for given bytes, and
each test on its own fixes the result - (version 1, big), (version 1, little),
(version 2, big), (version 2, little) - whatever the order of the tests; when
none holds the function fails and sets the byte order to unknown, leaving the
rest of the header as it was. -/
theorem C2_read_header_magic (abfd : Stream) (header : bfd_mach_o_header)
    (h28 : 28 ≤ abfd.length)
    (h32 : bfd_getb32 abfd = BFD_MACH_O_MH_MAGIC_64
      ∨ bfd_getl32 abfd = BFD_MACH_O_MH_MAGIC_64 → 32 ≤ abfd.length) :
    ((bfd_mach_o_read_header abfd header).1 = true ↔
      (bfd_getb32 abfd = BFD_MACH_O_MH_MAGIC ∨ bfd_getl32 abfd = BFD_MACH_O_MH_MAGIC
        ∨ bfd_getb32 abfd = BFD_MACH_O_MH_MAGIC_64
        ∨ bfd_getl32 abfd = BFD_MACH_O_MH_MAGIC_64))
    ∧ (bfd_getb32 abfd = BFD_MACH_O_MH_MAGIC →
        bfd_getl32 abfd ≠ BFD_MACH_O_MH_MAGIC ∧ bfd_getb32 abfd ≠ BFD_MACH_O_MH_MAGIC_64
        ∧ bfd_getl32 abfd ≠ BFD_MACH_O_MH_MAGIC_64
        ∧ (bfd_mach_o_read_header abfd header).2.version = 1
        ∧ (bfd_mach_o_read_header abfd header).2.byteorder = .BFD_ENDIAN_BIG
        ∧ (bfd_mach_o_read_header abfd header).2.magic = BFD_MACH_O_MH_MAGIC)
    ∧ (bfd_getl32 abfd = BFD_MACH_O_MH_MAGIC →
        bfd_getb32 abfd ≠ BFD_MACH_O_MH_MAGIC ∧ bfd_getb32 abfd ≠ BFD_MACH_O_MH_MAGIC_64
        ∧ bfd_getl32 abfd ≠ BFD_MACH_O_MH_MAGIC_64
        ∧ (bfd_mach_o_read_header abfd header).2.version = 1
        ∧ (bfd_mach_o_read_header abfd header).2.byteorder = .BFD_ENDIAN_LITTLE
        ∧ (bfd_mach_o_read_header abfd header).2.magic = BFD_MACH_O_MH_MAGIC)
    ∧ (bfd_getb32 abfd = BFD_MACH_O_MH_MAGIC_64 →
        bfd_getb32 abfd ≠ BFD_MACH_O_MH_MAGIC ∧ bfd_getl32 abfd ≠ BFD_MACH_O_MH_MAGIC
        ∧ bfd_getl32 abfd ≠ BFD_MACH_O_MH_MAGIC_64
        ∧ (bfd_mach_o_read_header abfd header).2.version = 2
        ∧ (bfd_mach_o_read_header abfd header).2.byteorder = .BFD_ENDIAN_BIG
        ∧ (bfd_mach_o_read_header abfd header).2.magic = BFD_MACH_O_MH_MAGIC_64)
    ∧ (bfd_getl32 abfd = BFD_MACH_O_MH_MAGIC_64 →
        bfd_getb32 abfd ≠ BFD_MACH_O_MH_MAGIC ∧ bfd_getl32 abfd ≠ BFD_MACH_O_MH_MAGIC
        ∧ bfd_getb32 abfd ≠ BFD_MACH_O_MH_MAGIC_64
        ∧ (bfd_mach_o_read_header abfd header).2.version = 2
        ∧ (bfd_mach_o_read_header abfd header).2.byteorder = .BFD_ENDIAN_LITTLE
        ∧ (bfd_mach_o_read_header abfd header).2.magic = BFD_MACH_O_MH_MAGIC_64)
    ∧ (bfd_getb32 abfd ≠ BFD_MACH_O_MH_MAGIC → bfd_getl32 abfd ≠ BFD_MACH_O_MH_MAGIC →
        bfd_getb32 abfd ≠ BFD_MACH_O_MH_MAGIC_64 → bfd_getl32 abfd ≠ BFD_MACH_O_MH_MAGIC_64 →
        bfd_mach_o_read_header abfd header
          = (false, { header with byteorder := .BFD_ENDIAN_UNKNOWN })) := by
  obtain ⟨e1, e2, e3⟩ := magic_tests_exclusive abfd
  have hrd := read_header_of_length abfd header (by omega)
  have fB1 : ∀ hd : bfd_mach_o_header, hd.version = 1 →
      (bfd_mach_o_read_header_fields abfd bfd_getb32 hd).1 = true
      ∧ (bfd_mach_o_read_header_fields abfd bfd_getb32 hd).2.version = hd.version
      ∧ (bfd_mach_o_read_header_fields abfd bfd_getb32 hd).2.byteorder = hd.byteorder
      ∧ (bfd_mach_o_read_header_fields abfd bfd_getb32 hd).2.magic = hd.magic :=
    fun hd hv => read_header_fields_ok .big abfd hd (by simp [hv]; omega)
  have fL1 : ∀ hd : bfd_mach_o_header, hd.version = 1 →
      (bfd_mach_o_read_header_fields abfd bfd_getl32 hd).1 = true
      ∧ (bfd_mach_o_read_header_fields abfd bfd_getl32 hd).2.version = hd.version
      ∧ (bfd_mach_o_read_header_fields abfd bfd_getl32 hd).2.byteorder = hd.byteorder
      ∧ (bfd_mach_o_read_header_fields abfd bfd_getl32 hd).2.magic = hd.magic :=
    fun hd hv => read_header_fields_ok .little abfd hd (by simp [hv]; omega)
  have fB2 : ∀ hd : bfd_mach_o_header, 32 ≤ abfd.length →
      (bfd_mach_o_read_header_fields abfd bfd_getb32 hd).1 = true
      ∧ (bfd_mach_o_read_header_fields abfd bfd_getb32 hd).2.version = hd.version
      ∧ (bfd_mach_o_read_header_fields abfd bfd_getb32 hd).2.byteorder = hd.byteorder
      ∧ (bfd_mach_o_read_header_fields abfd bfd_getb32 hd).2.magic = hd.magic :=
    fun hd hl => read_header_fields_ok .big abfd hd (by split <;> omega)
  have fL2 : ∀ hd : bfd_mach_o_header, 32 ≤ abfd.length →
      (bfd_mach_o_read_header_fields abfd bfd_getl32 hd).1 = true
      ∧ (bfd_mach_o_read_header_fields abfd bfd_getl32 hd).2.version = hd.version
      ∧ (bfd_mach_o_read_header_fields abfd bfd_getl32 hd).2.byteorder = hd.byteorder
      ∧ (bfd_mach_o_read_header_fields abfd bfd_getl32 hd).2.magic = hd.magic :=
    fun hd hl => read_header_fields_ok .little abfd hd (by split <;> omega)
  by_cases t1 : bfd_getb32 abfd = BFD_MACH_O_MH_MAGIC
  · obtain ⟨n2, n3, n4⟩ := e1 t1
    rw [if_pos t1] at hrd
    obtain ⟨a, b, c, d⟩ := fB1 { header with byteorder := .BFD_ENDIAN_BIG, magic := BFD_MACH_O_MH_MAGIC, version := 1 } rfl
    rw [← hrd] at a b c d
    exact ⟨⟨fun _ => Or.inl t1, fun _ => a⟩, fun _ => ⟨n2, n3, n4, b, c, d⟩,
      fun h => absurd h n2, fun h => absurd h n3, fun h => absurd h n4,
      fun h => absurd t1 h⟩
  by_cases t2 : bfd_getl32 abfd = BFD_MACH_O_MH_MAGIC
  · obtain ⟨n3, n4⟩ := e2 t2
    rw [if_neg t1, if_pos t2] at hrd
    obtain ⟨a, b, c, d⟩ := fL1 { header with byteorder := .BFD_ENDIAN_LITTLE, magic := BFD_MACH_O_MH_MAGIC, version := 1 } rfl
    rw [← hrd] at a b c d
    exact ⟨⟨fun _ => Or.inr (Or.inl t2), fun _ => a⟩, fun h => absurd h t1,
      fun _ => ⟨t1, n3, n4, b, c, d⟩, fun h => absurd h n3, fun h => absurd h n4,
      fun _ h => absurd t2 h⟩
  by_cases t3 : bfd_getb32 abfd = BFD_MACH_O_MH_MAGIC_64
  · have n4 := e3 t3
    rw [if_neg t1, if_neg t2, if_pos t3] at hrd
    obtain ⟨a, b, c, d⟩ := fB2 { header with byteorder := .BFD_ENDIAN_BIG, magic := BFD_MACH_O_MH_MAGIC_64, version := 2 } (h32 (Or.inl t3))
    rw [← hrd] at a b c d
    exact ⟨⟨fun _ => Or.inr (Or.inr (Or.inl t3)), fun _ => a⟩, fun h => absurd h t1,
      fun h => absurd h t2, fun _ => ⟨t1, t2, n4, b, c, d⟩, fun h => absurd h n4,
      fun _ _ h => absurd t3 h⟩
  by_cases t4 : bfd_getl32 abfd = BFD_MACH_O_MH_MAGIC_64
  · rw [if_neg t1, if_neg t2, if_neg t3, if_pos t4] at hrd
    obtain ⟨a, b, c, d⟩ := fL2 { header with byteorder := .BFD_ENDIAN_LITTLE, magic := BFD_MACH_O_MH_MAGIC_64, version := 2 } (h32 (Or.inr t4))
    rw [← hrd] at a b c d
    exact ⟨⟨fun _ => Or.inr (Or.inr (Or.inr t4)), fun _ => a⟩, fun h => absurd h t1,
      fun h => absurd h t2, fun h => absurd h t3, fun _ => ⟨t1, t2, t3, b, c, d⟩,
      fun _ _ _ h => absurd t4 h⟩
  · rw [if_neg t1, if_neg t2, if_neg t3, if_neg t4] at hrd
    refine ⟨⟨fun h => ?_, fun h => ?_⟩, fun h => absurd h t1, fun h => absurd h t2,
      fun h => absurd h t3, fun h => absurd h t4, fun _ _ _ _ => hrd⟩
    · rw [hrd] at h
      exact absurd h (by simp)
    · rcases h with h | h | h | h
      · exact absurd h t1
      · exact absurd h t2
      · exact absurd h t3
      · exact absurd h t4

theorem C2_read_header_magic_witness :
    (bfd_mach_o_read_header (bfd_putl32 BFD_MACH_O_MH_MAGIC ++ List.replicate 24 0)
        ⟨0, 0, 0, 0, 0, 0, 0, 0, 0, .BFD_ENDIAN_UNKNOWN⟩).1 = true
    ∧ (bfd_mach_o_read_header (bfd_putl32 BFD_MACH_O_MH_MAGIC ++ List.replicate 24 0)
        ⟨0, 0, 0, 0, 0, 0, 0, 0, 0, .BFD_ENDIAN_UNKNOWN⟩).2.byteorder
          = .BFD_ENDIAN_LITTLE :=
  have h := C2_read_header_magic (bfd_putl32 BFD_MACH_O_MH_MAGIC ++ List.replicate 24 0)
    ⟨0, 0, 0, 0, 0, 0, 0, 0, 0, .BFD_ENDIAN_UNKNOWN⟩ (by decide) (by decide)
  ⟨h.1.2 (Or.inr (Or.inl (by decide))), (h.2.2.1 (by decide)).2.2.2.2.1⟩

/-! ## The command table -/

theorem decoded_fields {σ P : Type} (command c : bfd_mach_o_load_command P)
    (r : Option (P × σ)) (m : σ) (h : decoded command r = some (c, m)) :
    c.type = command.type ∧ c.type_required = command.type_required
      ∧ c.offset = command.offset ∧ c.len = command.len := by
  cases r with
  | none => simp [decoded] at h
  | some v =>
    obtain ⟨body, mdata⟩ := v
    simp only [decoded, Option.some.injEq, Prod.mk.injEq] at h
    obtain ⟨rfl, -⟩ := h
    exact ⟨rfl, rfl, rfl, rfl⟩

theorem ite_pred {α : Type} (Q : α → Prop) (c : Prop) [Decidable c] (a b : α)
    (ha : Q a) (hb : Q b) : Q (if c then a else b) := by
  split
  · exact ha
  · exact hb

/-- Every branch of the switch of `bfd_mach_o_read_command` is either the result
of one per-kind decoder or the command unchanged, so a property of both holds
of the switch. -/
theorem read_command_switch_ind {σ P : Type} (R : bfd_mach_o_readers σ P)
    (abfd : Stream) (command : bfd_mach_o_load_command P) (mdata : σ)
    (Q : Option (bfd_mach_o_load_command P × σ) → Prop)
    (hd : ∀ r, Q (decoded command r)) (hs : Q (some (command, mdata))) :
    Q (bfd_mach_o_read_command_switch R abfd command mdata) := by
  unfold bfd_mach_o_read_command_switch
  exact ite_pred Q _ _ _ (hd _)
      (ite_pred Q _ _ _ (hd _)
      (ite_pred Q _ _ _ (hd _)
      (ite_pred Q _ _ _ hs
      (ite_pred Q _ _ _ (hd _)
      (ite_pred Q _ _ _ (hd _)
      (ite_pred Q _ _ _ (hd _)
      (ite_pred Q _ _ _ (hd _)
      (ite_pred Q _ _ _ hs
      (ite_pred Q _ _ _ (hd _)
      (ite_pred Q _ _ _ (hd _)
      (ite_pred Q _ _ _ hs
      (ite_pred Q _ _ _ (hd _)
      (ite_pred Q _ _ _ (hd _)
      (ite_pred Q _ _ _ (hd _)
      (ite_pred Q _ _ _ (hd _)
      (hs))))))))))))))))

theorem read_command_switch_fields {σ P : Type} (R : bfd_mach_o_readers σ P)
    (abfd : Stream) (command c : bfd_mach_o_load_command P) (mdata m : σ)
    (h : bfd_mach_o_read_command_switch R abfd command mdata = some (c, m)) :
    c.type = command.type ∧ c.type_required = command.type_required
      ∧ c.offset = command.offset ∧ c.len = command.len := by
  refine read_command_switch_ind R abfd command mdata
    (fun x => x = some (c, m) → c.type = command.type
      ∧ c.type_required = command.type_required
      ∧ c.offset = command.offset ∧ c.len = command.len) ?_ ?_ h
  · exact fun r h => decoded_fields _ _ _ _ h
  · intro h
    simp only [Option.some.injEq, Prod.mk.injEq] at h
    obtain ⟨rfl, -⟩ := h
    exact ⟨rfl, rfl, rfl, rfl⟩

/-- What `bfd_mach_o_read_command` stores in a command it accepts: the prefix at
the command offset was readable, the offset is unchanged, and kind, required
flag and length are those of the prefix. -/
theorem read_command_fields {σ P : Type} (R : bfd_mach_o_readers σ P) (xvec : bfd_target)
    (abfd : Stream) (command c : bfd_mach_o_load_command P) (mdata m : σ)
    (h : bfd_mach_o_read_command R xvec abfd command mdata = some (c, m)) :
    ∃ raw, bfd_bread abfd command.offset BFD_MACH_O_LC_SIZE = some raw
      ∧ c.offset = command.offset
      ∧ c.type = bfd_h_get_32 xvec raw &&& (2 ^ 32 - 1 - BFD_MACH_O_LC_REQ_DYLD)
      ∧ c.type_required = (bfd_h_get_32 xvec raw &&& BFD_MACH_O_LC_REQ_DYLD != 0)
      ∧ c.len = bfd_h_get_32 xvec (raw.drop 4) := by
  unfold bfd_mach_o_read_command at h
  split at h
  · exact absurd h (by simp)
  · rename_i raw hraw
    obtain ⟨a, b, c1, d⟩ := read_command_switch_fields R abfd _ c mdata m h
    exact ⟨raw, hraw, c1, a, b, d⟩

theorem u32_add_u32 (a b : Nat) : u32 (u32 a + b) = u32 (a + b) := by
  simp only [u32]
  omega

/-- The offset `bfd_mach_o_scan` gives to the next command, when the offsets
recorded so far are the 32-bit prefix sums of the lengths. -/
theorem next_offset_eq {P : Type} (hdrsize : Nat) (hh : hdrsize < 2 ^ 32)
    (done : List (bfd_mach_o_load_command P))
    (J : ∀ i (hi : i < done.length),
      done[i].offset = u32 (hdrsize + ((done.take i).map (·.len)).sum)) :
    (match done.getLast? with
      | none => hdrsize
      | some prev => u32 (prev.offset + prev.len))
      = u32 (hdrsize + (done.map (·.len)).sum) := by
  rcases List.eq_nil_or_concat done with rfl | ⟨init, prev, rfl⟩
  · simp only [List.getLast?_nil, List.map_nil, List.sum_nil, Nat.add_zero, u32]
    exact (Nat.mod_eq_of_lt hh).symm
  · simp only [List.concat_eq_append] at J ⊢
    have hp := J init.length (by simp)
    have ht : List.take init.length (init ++ [prev]) = init := by simp
    rw [ht] at hp
    simp only [List.getElem_concat_length] at hp
    have hl : (init ++ [prev]).getLast? = some prev := by simp
    rw [hl]
    simp only [hp, u32_add_u32, List.map_append, List.map_cons, List.map_nil,
      List.sum_append, List.sum_cons, List.sum_nil, Nat.add_zero, Nat.add_assoc]

/-- The loop of `bfd_mach_o_scan` runs `todo` more iterations and keeps the
invariant: every recorded command sits at the 32-bit prefix sum of the lengths
before it and carries the kind, required flag and length of the prefix found
at that offset. -/
theorem scan_commands_spec {σ P : Type} (R : bfd_mach_o_readers σ P) (xvec : bfd_target)
    (abfd : Stream) (hdrsize : Nat) (hh : hdrsize < 2 ^ 32) :
    ∀ (todo : Nat) (done cmds : List (bfd_mach_o_load_command P)) (m m' : σ),
      bfd_mach_o_scan_commands R xvec abfd hdrsize todo done m = some (cmds, m') →
      (∀ i (hi : i < done.length),
        done[i].offset = u32 (hdrsize + ((done.take i).map (·.len)).sum)
        ∧ ∃ raw, bfd_bread abfd done[i].offset BFD_MACH_O_LC_SIZE = some raw
          ∧ done[i].type = bfd_h_get_32 xvec raw &&& (2 ^ 32 - 1 - BFD_MACH_O_LC_REQ_DYLD)
          ∧ done[i].type_required = (bfd_h_get_32 xvec raw &&& BFD_MACH_O_LC_REQ_DYLD != 0)
          ∧ done[i].len = bfd_h_get_32 xvec (raw.drop 4)) →
      cmds.length = done.length + todo
      ∧ ∀ i (hi : i < cmds.length),
        cmds[i].offset = u32 (hdrsize + ((cmds.take i).map (·.len)).sum)
        ∧ ∃ raw, bfd_bread abfd cmds[i].offset BFD_MACH_O_LC_SIZE = some raw
          ∧ cmds[i].type = bfd_h_get_32 xvec raw &&& (2 ^ 32 - 1 - BFD_MACH_O_LC_REQ_DYLD)
          ∧ cmds[i].type_required = (bfd_h_get_32 xvec raw &&& BFD_MACH_O_LC_REQ_DYLD != 0)
          ∧ cmds[i].len = bfd_h_get_32 xvec (raw.drop 4) := by
  intro todo
  induction todo with
  | zero =>
    intro done cmds m m' h J
    simp only [bfd_mach_o_scan_commands, Option.some.injEq, Prod.mk.injEq] at h
    obtain ⟨rfl, -⟩ := h
    exact ⟨rfl, J⟩
  | succ n ih =>
    intro done cmds m m' h J
    rw [bfd_mach_o_scan_commands] at h
    split at h
    · exact absurd h (by simp)
    · rename_i cur m1 hrd
      have hoff := next_offset_eq hdrsize hh done (fun i hi => (J i hi).1)
      obtain ⟨raw, hraw, ho, ht, hr, hl⟩ := read_command_fields R xvec abfd _ cur m m1 hrd
      simp only at hraw ho
      rw [hoff] at hraw ho
      have J' : ∀ i (hi : i < (done ++ [cur]).length),
          (done ++ [cur])[i].offset
            = u32 (hdrsize + (((done ++ [cur]).take i).map (·.len)).sum)
          ∧ ∃ raw, bfd_bread abfd (done ++ [cur])[i].offset BFD_MACH_O_LC_SIZE = some raw
            ∧ (done ++ [cur])[i].type
              = bfd_h_get_32 xvec raw &&& (2 ^ 32 - 1 - BFD_MACH_O_LC_REQ_DYLD)
            ∧ (done ++ [cur])[i].type_required
              = (bfd_h_get_32 xvec raw &&& BFD_MACH_O_LC_REQ_DYLD != 0)
            ∧ (done ++ [cur])[i].len = bfd_h_get_32 xvec (raw.drop 4) := by
        intro i hi
        by_cases hlt : i < done.length
        · have hg : (done ++ [cur])[i] = done[i] := List.getElem_append_left hlt
          have htk : (done ++ [cur]).take i = done.take i :=
            List.take_append_of_le_length (Nat.le_of_lt hlt)
          rw [hg, htk]
          exact J i hlt
        · have hieq : i = done.length := by
            simp only [List.length_append, List.length_singleton] at hi
            omega
          subst hieq
          have hg : (done ++ [cur])[done.length] = cur := by simp
          have htk : (done ++ [cur]).take done.length = done := by simp
          rw [hg, htk, ho]
          exact ⟨rfl, raw, hraw, ht, hr, hl⟩
      obtain ⟨hlen, hJ⟩ := ih (done ++ [cur]) cmds m1 m' h J'
      refine ⟨?_, hJ⟩
      rw [hlen]
      simp only [List.length_append, List.length_singleton]
      omega

theorem strip_req_dyld (x : Nat) :
    x &&& (2 ^ 32 - 1 - BFD_MACH_O_LC_REQ_DYLD) = x % 2 ^ 31 := by
  have h : 2 ^ 32 - 1 - BFD_MACH_O_LC_REQ_DYLD = 2 ^ 31 - 1 := by
    simp [BFD_MACH_O_LC_REQ_DYLD]
  rw [h, Nat.and_pow_two_sub_one_eq_mod]

theorem req_dyld_bit (x : Nat) (hx : x < 2 ^ 32) :
    (x &&& BFD_MACH_O_LC_REQ_DYLD != 0) = decide (2 ^ 31 ≤ x) := by
  have h : BFD_MACH_O_LC_REQ_DYLD = 2 ^ 31 := by simp [BFD_MACH_O_LC_REQ_DYLD]
  rw [h, Nat.and_two_pow, Nat.testBit_to_div_mod]
  norm_num at hx ⊢
  by_cases hb : 2147483648 ≤ x
  · have : x / 2147483648 % 2 = 1 := by omega
    simp [this, hb]
  · have : x / 2147483648 % 2 = 0 := by omega
    simp [this, hb]

theorem bfd_h_get_32_lt (xvec : bfd_target) (p : List Byte) : bfd_h_get_32 xvec p < 2 ^ 32 := by
  cases xvec
  · exact bfd_getb32_lt p
  · exact bfd_getl32_lt p

/-- C3 (amended). After a successful `bfd_mach_o_scan` the command table holds
exactly `ncmds` commands; command `i` carries the kind stored in the 8-byte
prefix found at its offset, with the 0x80000000 required-by-dyld bit stripped
from the kind and reported in `type_required`, and the `cmdsize` stored there
as its length; its offset is the header size (28, or 32 for the 64-bit form)
plus the sum of the lengths of commands 0..i-1, computed in 32-bit unsigned
arithmetic (modulo 2^32), hence the plain sum whenever that is below 2^32. -/
theorem C3_scan_command_table {σ P : Type} (R : bfd_mach_o_readers σ P) (xvec : bfd_target)
    (abfd : Stream) (flags flags' : bfd_flags) (header : bfd_mach_o_header) (mdata : σ)
    (res : bfd_mach_o_data_struct σ P)
    (h : bfd_mach_o_scan R xvec abfd flags header mdata = some (flags', res)) :
    res.commands.length = header.ncmds
    ∧ ∀ i (hi : i < res.commands.length),
      (∃ raw, bfd_bread abfd res.commands[i].offset BFD_MACH_O_LC_SIZE = some raw
        ∧ res.commands[i].type = bfd_h_get_32 xvec raw % 2 ^ 31
        ∧ res.commands[i].type_required = decide (2 ^ 31 ≤ bfd_h_get_32 xvec raw)
        ∧ res.commands[i].len = bfd_h_get_32 xvec (raw.drop 4))
      ∧ res.commands[i].offset
        = ((if mach_o_wide_p header then 32 else 28)
            + ((res.commands.take i).map (·.len)).sum) % 2 ^ 32
      ∧ ((if mach_o_wide_p header then 32 else 28)
            + ((res.commands.take i).map (·.len)).sum < 2 ^ 32 →
          res.commands[i].offset
            = (if mach_o_wide_p header then 32 else 28)
              + ((res.commands.take i).map (·.len)).sum) := by
  unfold bfd_mach_o_scan at h
  simp only at h
  split at h
  · exact absurd h (by simp)
  split at h
  · exact absurd h (by simp)
  rename_i cmds m1 hloop
  split at h
  · exact absurd h (by simp)
  rename_i m2 hstart
  simp only [Option.some.injEq, Prod.mk.injEq] at h
  obtain ⟨-, rfl⟩ := h
  have hh : (if mach_o_wide_p header then BFD_MACH_O_HEADER_64_SIZE
      else BFD_MACH_O_HEADER_SIZE) < 2 ^ 32 := by
    split <;> simp [BFD_MACH_O_HEADER_64_SIZE, BFD_MACH_O_HEADER_SIZE]
  obtain ⟨hlen, hJ⟩ := scan_commands_spec R xvec abfd _ hh header.ncmds [] cmds mdata m1
    hloop (fun i hi => absurd hi (by simp))
  refine ⟨by simpa using hlen, fun i hi => ?_⟩
  obtain ⟨hoff, raw, hraw, ht, hr, hl⟩ := hJ i hi
  have hsz : (if mach_o_wide_p header then BFD_MACH_O_HEADER_64_SIZE
      else BFD_MACH_O_HEADER_SIZE) = (if mach_o_wide_p header then 32 else 28) := rfl
  rw [hsz] at hoff
  refine ⟨⟨raw, hraw, ?_, ?_, hl⟩, hoff, fun hlt => ?_⟩
  · rw [ht, strip_req_dyld]
  · rw [hr, req_dyld_bit _ (bfd_h_get_32_lt xvec raw)]
  · rw [hoff, u32, Nat.mod_eq_of_lt hlt]

theorem C3_scan_command_table_witness :
    bfd_mach_o_scan bfd_mach_o_no_readers .big
        (be_words [0xfeedface, 7, 3, 1, 2, 16, 0, 3, 8, 0x80000030, 8])
        ⟨false, false, false, false⟩
        ⟨0xfeedface, 7, 3, 1, 2, 16, 0, 0, 1, .BFD_ENDIAN_BIG⟩ ()
      = some (⟨true, false, false, false⟩,
          ⟨⟨0xfeedface, 7, 3, 1, 2, 16, 0, 0, 1, .BFD_ENDIAN_BIG⟩,
            [⟨3, false, 28, 8, none⟩, ⟨0x30, true, 36, 8, none⟩], ()⟩)
    ∧ [(⟨3, false, 28, 8, none⟩ : bfd_mach_o_load_command Unit),
        ⟨0x30, true, 36, 8, none⟩].length = 2 :=
  ⟨rfl, (C3_scan_command_table bfd_mach_o_no_readers .big
    (be_words [0xfeedface, 7, 3, 1, 2, 16, 0, 3, 8, 0x80000030, 8])
    ⟨false, false, false, false⟩ ⟨true, false, false, false⟩
    ⟨0xfeedface, 7, 3, 1, 2, 16, 0, 0, 1, .BFD_ENDIAN_BIG⟩ ()
    ⟨⟨0xfeedface, 7, 3, 1, 2, 16, 0, 0, 1, .BFD_ENDIAN_BIG⟩,
      [⟨3, false, 28, 8, none⟩, ⟨0x30, true, 36, 8, none⟩], ()⟩ rfl).1⟩

/-- C3, as stated, fails when the 32-bit offset wraps: in this 44-byte image the
header announces three commands; command 0 (offset 28) has length 8, command
1 (offset 36) has length 0xfffffff8, so command 2 is read at
(36 + 0xfffffff8) mod 2^32 = 28 and recorded with offset 28, not with the
header size plus the lengths of commands 0 and 1. -/
theorem C3_offset_wraps_counterexample :
    (bfd_mach_o_scan bfd_mach_o_no_readers .big
        (be_words [0xfeedface, 7, 3, 1, 3, 16, 0, 3, 8, 3, 0xfffffff8])
        ⟨false, false, false, false⟩
        (bfd_mach_o_read_header
          (be_words [0xfeedface, 7, 3, 1, 3, 16, 0, 3, 8, 3, 0xfffffff8])
          ⟨0, 0, 0, 0, 0, 0, 0, 0, 0, .BFD_ENDIAN_UNKNOWN⟩).2 ()).map
      (fun r => r.2.commands.map (fun c => (c.type, c.len, c.offset)))
      = some [(3, 8, 28), (3, 0xfffffff8, 36), (3, 8, 28)]
    ∧ 28 ≠ 28 + (8 + 0xfffffff8) := by
  decide

/-! ## Unknown load commands on the read side -/

/-- A kind outside the case labels of the switch of `bfd_mach_o_read_command`
reaches the `default` branch: the command and the object data are returned
unchanged. -/
theorem read_command_switch_default {σ P : Type} (R : bfd_mach_o_readers σ P)
    (abfd : Stream) (command : bfd_mach_o_load_command P) (mdata : σ)
    (hdef : command.type ∉ bfd_mach_o_read_command_cases) :
    bfd_mach_o_read_command_switch R abfd command mdata = some (command, mdata) := by
  unfold bfd_mach_o_read_command_switch
  dsimp only
  rw [if_neg (fun h => hdef (by rw [h]; decide)),
    if_neg (fun h => hdef (by rw [h]; decide)),
    if_neg (fun h => hdef (by rw [h]; decide)),
    if_neg (fun h => hdef (by rw [h]; decide)),
    if_neg (fun h => by
      rcases h with h | h <;> exact hdef (by rw [h]; decide)),
    if_neg (fun h => by
      rcases h with h | h <;> exact hdef (by rw [h]; decide)),
    if_neg (fun h => by
      rcases h with h | h | h | h <;> exact hdef (by rw [h]; decide)),
    if_neg (fun h => hdef (by rw [h]; decide)),
    if_neg (fun h => by
      rcases h with h | h | h | h | h | h | h <;> exact hdef (by rw [h]; decide)),
    if_neg (fun h => by
      rcases h with h | h | h | h | h <;> exact hdef (by rw [h]; decide)),
    if_neg (fun h => hdef (by rw [h]; decide)),
    if_neg (fun h => by
      rcases h with h | h <;> exact hdef (by rw [h]; decide)),
    if_neg (fun h => hdef (by rw [h]; decide)),
    if_neg (fun h => by
      rcases h with h | h | h <;> exact hdef (by rw [h]; decide)),
    if_neg (fun h => hdef (by rw [h]; decide)),
    if_neg (fun h => by
      rcases h with h | h <;> exact hdef (by rw [h]; decide))]

theorem getLast?_concat_one {α : Type} (l : List α) (a : α) :
    (l ++ [a]).getLast? = some a := by simp

/-- C4 (amended). When the 8-byte prefix at offset `o` can be read and its kind,
with the required-by-dyld bit masked off, is none of the case labels of the
switch, `bfd_mach_o_read_command` succeeds, stores only kind, required flag
and length in the command (the body and the object data are left as they
were), and `bfd_mach_o_scan` goes on to read the next command at this
command's offset plus its recorded length, computed modulo 2^32. -/
theorem C4_unknown_command_read {σ P : Type} (R : bfd_mach_o_readers σ P) (xvec : bfd_target)
    (abfd : Stream) (o : Nat) (mdata : σ) (raw : List Byte)
    (hraw : bfd_bread abfd o BFD_MACH_O_LC_SIZE = some raw)
    (hdef : bfd_h_get_32 xvec raw % 2 ^ 31 ∉ bfd_mach_o_read_command_cases) :
    (∀ command : bfd_mach_o_load_command P, command.offset = o →
      bfd_mach_o_read_command R xvec abfd command mdata
        = some ({ type := bfd_h_get_32 xvec raw % 2 ^ 31
                  type_required := decide (2 ^ 31 ≤ bfd_h_get_32 xvec raw)
                  offset := o
                  len := bfd_h_get_32 xvec (raw.drop 4)
                  command := command.command }, mdata))
    ∧ ∀ (hdrsize todo : Nat) (done : List (bfd_mach_o_load_command P)),
      (match done.getLast? with
        | none => hdrsize
        | some prev => u32 (prev.offset + prev.len)) = o →
      bfd_mach_o_scan_commands R xvec abfd hdrsize (todo + 2) done mdata
        = match bfd_mach_o_read_command R xvec abfd
            { type := 0, type_required := false
              offset := (o + bfd_h_get_32 xvec (raw.drop 4)) % 2 ^ 32
              len := 0, command := none } mdata with
          | none => none
          | some (next, mdata) =>
            bfd_mach_o_scan_commands R xvec abfd hdrsize todo
              (done ++ [{ type := bfd_h_get_32 xvec raw % 2 ^ 31
                          type_required := decide (2 ^ 31 ≤ bfd_h_get_32 xvec raw)
                          offset := o
                          len := bfd_h_get_32 xvec (raw.drop 4)
                          command := none }, next]) mdata := by
  have part1 : ∀ command : bfd_mach_o_load_command P, command.offset = o →
      bfd_mach_o_read_command R xvec abfd command mdata
        = some ({ type := bfd_h_get_32 xvec raw % 2 ^ 31
                  type_required := decide (2 ^ 31 ≤ bfd_h_get_32 xvec raw)
                  offset := o
                  len := bfd_h_get_32 xvec (raw.drop 4)
                  command := command.command }, mdata) := by
    intro command ho
    unfold bfd_mach_o_read_command
    rw [ho, hraw]
    dsimp only
    rw [read_command_switch_default]
    · rw [strip_req_dyld, req_dyld_bit _ (bfd_h_get_32_lt xvec raw)]
    · dsimp only
      rw [strip_req_dyld]
      exact hdef
  refine ⟨part1, fun hdrsize todo done hnext => ?_⟩
  rw [bfd_mach_o_scan_commands, hnext, part1 _ rfl]
  dsimp only
  rw [bfd_mach_o_scan_commands]
  rw [getLast?_concat_one]
  dsimp only [u32]
  cases bfd_mach_o_read_command R xvec abfd
      { type := 0, type_required := false
        offset := (o + bfd_h_get_32 xvec (raw.drop 4)) % 2 ^ 32
        len := 0, command := none } mdata with
  | none => rfl
  | some v =>
    obtain ⟨next, m2⟩ := v
    simp only [List.append_assoc, List.singleton_append]

theorem C4_unknown_command_read_witness :
    bfd_mach_o_read_command bfd_mach_o_no_readers .big
        (be_words [0xfeedface, 7, 3, 1, 1, 8, 0, 0x80000030, 8])
        ⟨0, false, 28, 0, none⟩ ()
      = some (⟨0x30, true, 28, 8, none⟩, ()) :=
  (C4_unknown_command_read bfd_mach_o_no_readers .big
    (be_words [0xfeedface, 7, 3, 1, 1, 8, 0, 0x80000030, 8]) 28 ()
    (be_words [0x80000030, 8]) (by decide) (by decide)).1 ⟨0, false, 28, 0, none⟩ rfl

/-- C4, as stated, fails when the sum wraps: the unknown command (kind 0x30) at
offset 36 records length 0xfffffff8, and the scan reads the next command at
offset 28, not at 36 + 0xfffffff8. -/
theorem C4_next_offset_wraps_counterexample :
    (bfd_mach_o_scan bfd_mach_o_no_readers .big
        (be_words [0xfeedface, 7, 3, 1, 3, 16, 0, 0x30, 8, 0x30, 0xfffffff8])
        ⟨false, false, false, false⟩
        (bfd_mach_o_read_header
          (be_words [0xfeedface, 7, 3, 1, 3, 16, 0, 0x30, 8, 0x30, 0xfffffff8])
          ⟨0, 0, 0, 0, 0, 0, 0, 0, 0, .BFD_ENDIAN_UNKNOWN⟩).2 ()).map
      (fun r => r.2.commands.map (fun c => (c.type, c.len, c.offset)))
      = some [(0x30, 8, 28), (0x30, 0xfffffff8, 36), (0x30, 8, 28)]
    ∧ 0x30 ∉ bfd_mach_o_read_command_cases
    ∧ 28 ≠ 36 + 0xfffffff8 := by
  decide

/-! ## Unknown load commands on the write side -/

/-- On a command whose kind is none of the case labels of the read switch, one
iteration of the write loop writes the 8-byte prefix, reaches the `default`
branch of the write switch and returns failure: no writer is called, nothing
else is written and the object data is unchanged. -/
theorem write_command_default {σ P : Type} (W : bfd_mach_o_writers σ P) (xvec : bfd_target)
    (abfd : Stream) (cur : bfd_mach_o_load_command P) (mdata : σ)
    (hdef : cur.type ∉ bfd_mach_o_read_command_cases) :
    bfd_mach_o_write_command W xvec abfd cur mdata
      = (false, bfd_bwrite abfd cur.offset (bfd_mach_o_write_command_head xvec cur),
          mdata) := by
  unfold bfd_mach_o_write_command
  dsimp only
  rw [if_neg (fun h => hdef (by rw [h]; decide)),
    if_neg (fun h => hdef (by rw [h]; decide)),
    if_neg (fun h => hdef (by rw [h]; decide)),
    if_neg (fun h => hdef (by rw [h]; decide)),
    if_neg (fun h => by
      rcases h with h | h <;> exact hdef (by rw [h]; decide)),
    if_neg (fun h => by
      rcases h with h | h | h | h | h | h | h | h | h | h | h | h | h | h | h <;> exact hdef (by rw [h]; decide))]

theorem write_commands_unknown {σ P : Type} (W : bfd_mach_o_writers σ P) (xvec : bfd_target)
    (c : bfd_mach_o_load_command P) (hdef : c.type ∉ bfd_mach_o_read_command_cases) :
    ∀ (l : List (bfd_mach_o_load_command P)) (abfd : Stream) (mdata : σ), c ∈ l →
      (bfd_mach_o_write_commands W xvec l abfd mdata).1 = false := by
  intro l
  induction l with
  | nil => intro abfd mdata h; exact absurd h (List.not_mem_nil c)
  | cons cur rest ih =>
    intro abfd mdata h
    rw [bfd_mach_o_write_commands]
    rcases hstep : bfd_mach_o_write_command W xvec abfd cur mdata with ⟨ok, abfd1, m1⟩
    cases ok with
    | false => rfl
    | true =>
      dsimp only
      rcases List.mem_cons.mp h with heq | hin
      · subst heq
        rw [write_command_default W xvec abfd c mdata hdef] at hstep
        exact absurd (congrArg Prod.fst hstep) (by simp)
      · exact ih abfd1 m1 hin

/-- C5. When the command table of an object (its first `ncmds` commands) contains
a command whose kind `bfd_mach_o_read_command` does not recognise,
`bfd_mach_o_write_contents` returns failure; and the loop iteration that
meets such a command writes its 8-byte prefix and nothing else: no body
writer runs and the object data is left unchanged. -/
theorem C5_unknown_command_write {σ P : Type} (W : bfd_mach_o_writers σ P)
    (xvec : bfd_target) (abfd : Stream) (flags : bfd_flags)
    (mdata : bfd_mach_o_data_struct σ P) (c : bfd_mach_o_load_command P)
    (hc : c ∈ mdata.commands.take mdata.header.ncmds)
    (hdef : c.type ∉ bfd_mach_o_read_command_cases) :
    (bfd_mach_o_write_contents W xvec abfd flags mdata).1 = false
    ∧ ∀ (out : Stream) (m : σ),
      bfd_mach_o_write_command W xvec out c m
        = (false, bfd_bwrite out c.offset (bfd_mach_o_write_command_head xvec c), m) := by
  refine ⟨?_, fun out m => write_command_default W xvec out c m hdef⟩
  have hn : mdata.header.ncmds ≠ 0 := by
    intro h0
    rw [h0, List.take_zero] at hc
    exact absurd hc (List.not_mem_nil c)
  unfold bfd_mach_o_write_contents
  simp only [hn, if_false]
  rcases hm : W.bfd_mach_o_mangle_symbols mdata.rest with ⟨ok, rest⟩
  cases ok with
  | false => rfl
  | true =>
    dsimp only
    exact write_commands_unknown W xvec c hdef _ _ _ hc

theorem C5_unknown_command_write_witness :
    (bfd_mach_o_write_contents bfd_mach_o_no_writers .big [] ⟨false, false, false, false⟩
      ⟨⟨0xfeedface, 7, 3, 1, 2, 16, 0, 0, 1, .BFD_ENDIAN_BIG⟩,
        [⟨3, false, 28, 8, none⟩, ⟨0x30, true, 36, 8, none⟩], ()⟩).1 = false :=
  (C5_unknown_command_write bfd_mach_o_no_writers .big [] ⟨false, false, false, false⟩
    ⟨⟨0xfeedface, 7, 3, 1, 2, 16, 0, 0, 1, .BFD_ENDIAN_BIG⟩,
      [⟨3, false, 28, 8, none⟩, ⟨0x30, true, 36, 8, none⟩], ()⟩
    ⟨0x30, true, 36, 8, none⟩ (by simp) (by decide)).1

/-! ## Relocations -/

/-- The search of the scattered branch returns the first section, in table order,
whose test `addr <= v && v < addr + size` (a `bfd_vma` sum) succeeds, with
addend `v - addr`; it returns (NULL, 0) when the test fails for all. -/
theorem scattered_target_spec (v : Nat) :
    ∀ (l : List bfd_mach_o_section) (k : Nat),
      (∀ j (hj : j < l.length),
        (l[j].addr ≤ v ∧ v < vma (l[j].addr + l[j].size)) →
        (∀ i (hi : i < l.length), i < j →
          ¬ (l[i].addr ≤ v ∧ v < vma (l[i].addr + l[i].size))) →
        scattered_target v l k = (.section_symbol (k + j), v - l[j].addr))
      ∧ ((∀ j (hj : j < l.length),
          ¬ (l[j].addr ≤ v ∧ v < vma (l[j].addr + l[j].size))) →
        scattered_target v l k = (.null, 0)) := by
  intro l
  induction l with
  | nil =>
    intro k
    exact ⟨fun j hj => absurd hj (by simp), fun _ => rfl⟩
  | cons sect rest ih =>
    intro k
    obtain ⟨ih1, ih2⟩ := ih (k + 1)
    constructor
    · intro j hj hin hfirst
      cases j with
      | zero =>
        simp only [List.getElem_cons_zero] at hin
        simp only [scattered_target, ge_iff_le, hin, and_self, if_true, Nat.add_zero,
          List.getElem_cons_zero]
      | succ j =>
        have h0 := hfirst 0 (by simp) (Nat.succ_pos j)
        simp only [List.getElem_cons_zero] at h0
        simp only [List.getElem_cons_succ] at hin
        have hj' : j < rest.length := by simpa using hj
        have hrest := ih1 j hj' hin (fun i hi hij => by
          have := hfirst (i + 1) (by simpa using hi) (by omega)
          simpa only [List.getElem_cons_succ] using this)
        simp only [scattered_target, ge_iff_le, h0, if_false, hrest, List.getElem_cons_succ]
        congr 2
        omega
    · intro hnone
      have h0 := hnone 0 (by simp)
      simp only [List.getElem_cons_zero] at h0
      have hrest := ih2 (fun j hj => by
        have := hnone (j + 1) (by simpa using hj)
        simpa only [List.getElem_cons_succ] using this)
      simp only [scattered_target, ge_iff_le, h0, if_false, hrest]

/-- C6 (amended). For a raw relocation whose first word has the scattered bit set,
`bfd_mach_o_canonicalize_one_reloc` never leaves defined behaviour and fails
only if the backend does: it hands the backend a relocation whose target and
addend come from the section search.  If `j` is the lowest index with
`addr_j <= v` and `v < (addr_j + size_j) mod 2^64` for the second word `v`
(the sum is a 64-bit `bfd_vma` sum, equal to `addr_j + size_j` whenever that
is below 2^64), the target is section `j` and the addend is `v - addr_j`; if
no section passes the test, the target is null and the addend is 0. -/
theorem C6_scattered_reloc_target {H : Type} (xvec : bfd_target)
    (sections : List bfd_mach_o_section)
    (swap_reloc_in : arelent H → bfd_mach_o_reloc_info → Option (arelent H))
    (raw : List Byte) (res : arelent H) (reloc : bfd_mach_o_reloc_info)
    (hs : bfd_h_get_32 xvec raw &&& BFD_MACH_O_SR_SCATTERED ≠ 0) :
    bfd_mach_o_canonicalize_one_reloc xvec sections swap_reloc_in raw res reloc
      = .value (swap_reloc_in
          { sym_ptr_ptr := (scattered_target (bfd_h_get_32 xvec (raw.drop 4)) sections 0).1
            address := BFD_MACH_O_GET_SR_ADDRESS (bfd_h_get_32 xvec raw)
            addend := (scattered_target (bfd_h_get_32 xvec (raw.drop 4)) sections 0).2
            howto := res.howto }
          { r_address := reloc.r_address
            r_value := reloc.r_value
            r_scattered := 1
            r_type := BFD_MACH_O_GET_SR_TYPE (bfd_h_get_32 xvec raw) % 2 ^ 4
            r_pcrel := (bfd_h_get_32 xvec raw &&& BFD_MACH_O_SR_PCREL) % 2 ^ 1
            r_length := BFD_MACH_O_GET_SR_LENGTH (bfd_h_get_32 xvec raw) % 2 ^ 2
            r_extern := reloc.r_extern })
    ∧ (∀ j (hj : j < sections.length),
        (sections[j].addr ≤ bfd_h_get_32 xvec (raw.drop 4)
          ∧ bfd_h_get_32 xvec (raw.drop 4) < vma (sections[j].addr + sections[j].size)) →
        (∀ i (hi : i < sections.length), i < j →
          ¬ (sections[i].addr ≤ bfd_h_get_32 xvec (raw.drop 4)
            ∧ bfd_h_get_32 xvec (raw.drop 4)
              < vma (sections[i].addr + sections[i].size))) →
        scattered_target (bfd_h_get_32 xvec (raw.drop 4)) sections 0
          = (.section_symbol j, bfd_h_get_32 xvec (raw.drop 4) - sections[j].addr))
    ∧ ((∀ j (hj : j < sections.length),
          ¬ (sections[j].addr ≤ bfd_h_get_32 xvec (raw.drop 4)
            ∧ bfd_h_get_32 xvec (raw.drop 4)
              < vma (sections[j].addr + sections[j].size))) →
        scattered_target (bfd_h_get_32 xvec (raw.drop 4)) sections 0 = (.null, 0))
    ∧ (∀ j (hj : j < sections.length), sections[j].addr + sections[j].size < 2 ^ 64 →
        vma (sections[j].addr + sections[j].size)
          = sections[j].addr + sections[j].size) := by
  obtain ⟨h1, h2⟩ := scattered_target_spec (bfd_h_get_32 xvec (raw.drop 4)) sections 0
  refine ⟨?_, fun j hj hin hfirst => ?_, h2, fun j hj hlt => Nat.mod_eq_of_lt hlt⟩
  · simp only [bfd_mach_o_canonicalize_one_reloc, bfd_mach_o_canonicalize_one_reloc_lower,
      hs, ne_eq, not_false_eq_true, if_true]
  · have := h1 j hj hin hfirst
    rwa [Nat.zero_add] at this

theorem C6_scattered_reloc_target_witness :
    bfd_mach_o_canonicalize_one_reloc .big
        [⟨[], [], 0x1000, 0x100, 0, 0, 0, 0, 0, 0, 0, 0⟩,
         ⟨[], [], 0x2000, 0x100, 0, 0, 0, 0, 0, 0, 0, 0⟩]
        (fun (r : arelent Unit) _ => some r)
        (be_words [0xa2000010, 0x2004]) ⟨.null, 0, 0, none⟩ ⟨0, 0, 0, 0, 0, 0, 0⟩
      = .value (some ⟨.section_symbol 1, 0x10, 4, none⟩) :=
  (C6_scattered_reloc_target .big
    [⟨[], [], 0x1000, 0x100, 0, 0, 0, 0, 0, 0, 0, 0⟩,
     ⟨[], [], 0x2000, 0x100, 0, 0, 0, 0, 0, 0, 0, 0⟩]
    (fun (r : arelent Unit) _ => some r)
    (be_words [0xa2000010, 0x2004]) ⟨.null, 0, 0, none⟩ ⟨0, 0, 0, 0, 0, 0, 0⟩
    (by decide)).1

/-- C6, as stated, fails when `addr + size` wraps: the only section has address 16
and size 2^64 - 8, so 16 <= 100 < 16 + size, yet the code compares 100 with
(16 + size) mod 2^64 = 8 and leaves the target null with addend 0. -/
theorem C6_section_end_wraps_counterexample :
    (16 ≤ 100 ∧ 100 < 16 + (2 ^ 64 - 8))
    ∧ bfd_mach_o_canonicalize_one_reloc_lower .big
        [⟨[], [], 16, 2 ^ 64 - 8, 0, 0, 0, 0, 0, 0, 0, 0⟩]
        (be_words [0x80000000, 100]) (⟨.symbol 7, 0, 0, none⟩ : arelent Unit)
        ⟨0, 0, 0, 0, 0, 0, 0⟩
      = .value (⟨.null, 0, 0, none⟩, ⟨0, 0, 1, 0, 0, 0, 0⟩) := by
  decide

/-- C7. For a raw relocation with the scattered bit and the extern bit clear whose
24-bit number field is `k` with `1 <= k <= nsects`,
`bfd_mach_o_canonicalize_one_reloc` hands the backend a relocation whose target
is the section at 1-based flattened index `k` (position `k - 1` of the table),
whose addend is the negative of that section's address in `bfd_vma`
arithmetic (addend plus address is 0 modulo 2^64), and whose address is the
first word. -/
theorem C7_normal_reloc_section {H : Type} (xvec : bfd_target)
    (sections : List bfd_mach_o_section)
    (swap_reloc_in : arelent H → bfd_mach_o_reloc_info → Option (arelent H))
    (raw : List Byte) (res : arelent H) (reloc : bfd_mach_o_reloc_info) (k : Nat)
    (hs : bfd_h_get_32 xvec raw &&& BFD_MACH_O_SR_SCATTERED = 0)
    (he : bfd_h_get_32 xvec (raw.drop 4) &&& BFD_MACH_O_R_EXTERN = 0)
    (hk : BFD_MACH_O_GET_R_SYMBOLNUM (bfd_h_get_32 xvec (raw.drop 4)) = k)
    (hk1 : 1 ≤ k) (hk2 : k ≤ sections.length) :
    bfd_mach_o_canonicalize_one_reloc xvec sections swap_reloc_in raw res reloc
      = .value (swap_reloc_in
          { sym_ptr_ptr := .section_symbol (k - 1)
            address := bfd_h_get_32 xvec raw
            addend := vma (2 ^ 64 - vma sections[k - 1].addr)
            howto := res.howto }
          { r_address := reloc.r_address
            r_value := reloc.r_value
            r_scattered := 0
            r_type := BFD_MACH_O_GET_R_TYPE (bfd_h_get_32 xvec (raw.drop 4)) % 2 ^ 4
            r_pcrel := if bfd_h_get_32 xvec (raw.drop 4) &&& BFD_MACH_O_R_PCREL ≠ 0
              then 1 else 0
            r_length := BFD_MACH_O_GET_R_LENGTH (bfd_h_get_32 xvec (raw.drop 4)) % 2 ^ 2
            r_extern := 0 })
    ∧ (vma (2 ^ 64 - vma sections[k - 1].addr) + sections[k - 1].addr) % 2 ^ 64 = 0 := by
  constructor
  · have hne : k ≠ 0 := by omega
    have hget : sections[k - 1]? = some sections[k - 1] :=
      List.getElem?_eq_getElem (by omega)
    simp only [bfd_mach_o_canonicalize_one_reloc, bfd_mach_o_canonicalize_one_reloc_lower,
      hs, he, hk, hne, hget, ne_eq, not_true_eq_false, if_false]
  · simp only [vma]
    omega

theorem C7_normal_reloc_section_witness :
    bfd_mach_o_canonicalize_one_reloc .little
        [⟨[], [], 0x1000, 0x100, 0, 0, 0, 0, 0, 0, 0, 0⟩,
         ⟨[], [], 0x2000, 0x100, 0, 0, 0, 0, 0, 0, 0, 0⟩]
        (fun (r : arelent Unit) _ => some r)
        (bfd_putl32 0x24 ++ bfd_putl32 0x04000002) ⟨.null, 0, 0, none⟩
        ⟨0, 0, 0, 0, 0, 0, 0⟩
      = .value (some ⟨.section_symbol 1, 0x24, 2 ^ 64 - 0x2000, none⟩) :=
  (C7_normal_reloc_section .little
    [⟨[], [], 0x1000, 0x100, 0, 0, 0, 0, 0, 0, 0, 0⟩,
     ⟨[], [], 0x2000, 0x100, 0, 0, 0, 0, 0, 0, 0, 0⟩]
    (fun (r : arelent Unit) _ => some r)
    (bfd_putl32 0x24 ++ bfd_putl32 0x04000002) ⟨.null, 0, 0, none⟩
    ⟨0, 0, 0, 0, 0, 0, 0⟩ 2 (by decide) (by decide) (by decide) (by decide)
    (by decide)).1

/-! ## Packing and unpacking relocation words -/

theorem or_mul_two_pow (a b i : Nat) (h : a < 2 ^ i) : a ||| b * 2 ^ i = a + b * 2 ^ i := by
  rw [Nat.or_comm, Nat.mul_comm, ← Nat.mul_add_lt_is_or h, Nat.add_comm]

theorem and_mask_24 (x : Nat) : x &&& 0x00ffffff = x % 2 ^ 24 :=
  Nat.and_pow_two_sub_one_eq_mod x 24

theorem and_mask_4 (x : Nat) : x &&& 0xf = x % 2 ^ 4 :=
  Nat.and_pow_two_sub_one_eq_mod x 4

theorem and_mask_2 (x : Nat) : x &&& 0x3 = x % 2 ^ 2 :=
  Nat.and_pow_two_sub_one_eq_mod x 2

theorem and_bit_ne_zero (w i : Nat) : w &&& 2 ^ i ≠ 0 ↔ w / 2 ^ i % 2 = 1 := by
  rw [Nat.and_two_pow, Nat.testBit_to_div_mod]
  have hpos : 0 < 2 ^ i := Nat.two_pow_pos i
  by_cases hb : w / 2 ^ i % 2 = 1
  · simp [hb, Nat.pos_iff_ne_zero.mp hpos]
  · simp [hb]

theorem and_bit_value (w i : Nat) : w &&& 2 ^ i = (w / 2 ^ i % 2) * 2 ^ i := by
  rw [Nat.and_two_pow, Nat.testBit_to_div_mod]
  by_cases hb : w / 2 ^ i % 2 = 1
  · simp [hb]
  · have h0 : w / 2 ^ i % 2 = 0 := by omega
    simp [h0]

/-- The packed word of a normal relocation as a sum of its bit fields. -/
theorem normal_word_eq (val len typ p e : Nat) (hp : p ≤ 1) (he : e ≤ 1) :
    BFD_MACH_O_SET_R_SYMBOLNUM val ||| p * 2 ^ 24 ||| BFD_MACH_O_SET_R_LENGTH len
        ||| e * 2 ^ 27 ||| BFD_MACH_O_SET_R_TYPE typ
      = val % 2 ^ 24 + p * 2 ^ 24 + (len % 2 ^ 2) * 2 ^ 25 + e * 2 ^ 27
        + (typ % 2 ^ 4) * 2 ^ 28 := by
  simp only [BFD_MACH_O_SET_R_SYMBOLNUM, BFD_MACH_O_SET_R_LENGTH, BFD_MACH_O_SET_R_TYPE,
    and_mask_24, and_mask_4, and_mask_2, Nat.shiftLeft_eq]
  have h1 : val % 2 ^ 24 < 2 ^ 24 := Nat.mod_lt _ (by norm_num)
  rw [or_mul_two_pow _ _ _ h1]
  have h2 : val % 2 ^ 24 + p * 2 ^ 24 < 2 ^ 25 := by omega
  rw [or_mul_two_pow _ _ _ h2]
  have h3 : val % 2 ^ 24 + p * 2 ^ 24 + len % 2 ^ 2 * 2 ^ 25 < 2 ^ 27 := by omega
  rw [or_mul_two_pow _ _ _ h3]
  have h4 : val % 2 ^ 24 + p * 2 ^ 24 + len % 2 ^ 2 * 2 ^ 25 + e * 2 ^ 27 < 2 ^ 28 := by
    omega
  rw [or_mul_two_pow _ _ _ h4]

/-- The packed first word of a scattered relocation as a sum of its bit fields. -/
theorem scattered_word_eq (adr len typ p : Nat) (hp : p ≤ 1) :
    BFD_MACH_O_SR_SCATTERED ||| p * 2 ^ 30 ||| BFD_MACH_O_SET_SR_LENGTH len
        ||| BFD_MACH_O_SET_SR_TYPE typ ||| BFD_MACH_O_SET_SR_ADDRESS adr
      = adr % 2 ^ 24 + (typ % 2 ^ 4) * 2 ^ 24 + (len % 2 ^ 2) * 2 ^ 28 + p * 2 ^ 30
        + 2 ^ 31 := by
  have h1 : adr % 2 ^ 24 < 2 ^ 24 := Nat.mod_lt _ (by norm_num)
  have h2 : adr % 2 ^ 24 + typ % 2 ^ 4 * 2 ^ 24 < 2 ^ 28 := by omega
  have h3 : adr % 2 ^ 24 + typ % 2 ^ 4 * 2 ^ 24 + len % 2 ^ 2 * 2 ^ 28 < 2 ^ 30 := by omega
  have h4 : adr % 2 ^ 24 + typ % 2 ^ 4 * 2 ^ 24 + len % 2 ^ 2 * 2 ^ 28 + p * 2 ^ 30
      < 2 ^ 31 := by omega
  have hsum : adr % 2 ^ 24 + (typ % 2 ^ 4) * 2 ^ 24 + (len % 2 ^ 2) * 2 ^ 28 + p * 2 ^ 30
        + 2 ^ 31
      = adr % 2 ^ 24 ||| (typ % 2 ^ 4) * 2 ^ 24 ||| (len % 2 ^ 2) * 2 ^ 28 ||| p * 2 ^ 30
        ||| 1 * 2 ^ 31 := by
    rw [or_mul_two_pow _ _ _ h1, or_mul_two_pow _ _ _ h2, or_mul_two_pow _ _ _ h3,
      or_mul_two_pow _ _ _ h4, Nat.one_mul]
  rw [hsum]
  simp only [BFD_MACH_O_SR_SCATTERED, BFD_MACH_O_SET_SR_LENGTH, BFD_MACH_O_SET_SR_TYPE,
    BFD_MACH_O_SET_SR_ADDRESS, and_mask_24, and_mask_4, and_mask_2, Nat.shiftLeft_eq]
  have hc : (0x80000000 : Nat) = 1 * 2 ^ 31 := by norm_num
  rw [hc]
  ac_rfl

theorem get_32_second_word (xvec : bfd_target) (a b : Nat) :
    bfd_h_get_32 xvec ((bfd_h_put_32 xvec a ++ bfd_h_put_32 xvec b).drop 4) = b % 2 ^ 32 := by
  have h := drop_h_put_32 xvec a (bfd_h_put_32 xvec b) 0
  rw [Nat.zero_add, List.drop_zero] at h
  rw [h]
  have h2 := bfd_h_get_32_put_32 xvec b []
  rwa [List.append_nil] at h2

/-- The two words of a normal relocation written by `bfd_mach_o_write_relocs`
carry every field back: the first word is the address and has the scattered
bit clear, the second yields the number, the extern and pc-relative bits, the
length and the type. -/
theorem normal_reloc_words (xvec : bfd_target) (pinfo : bfd_mach_o_reloc_info)
    (hsc : pinfo.r_scattered = 0) (ht : pinfo.r_type < 16) (hl : pinfo.r_length < 4)
    (ha : pinfo.r_address < 2 ^ 31) (hv : pinfo.r_value < 2 ^ 24) :
    bfd_h_get_32 xvec (bfd_mach_o_write_relocs_lower xvec pinfo) = pinfo.r_address
    ∧ bfd_h_get_32 xvec (bfd_mach_o_write_relocs_lower xvec pinfo)
        &&& BFD_MACH_O_SR_SCATTERED = 0
    ∧ BFD_MACH_O_GET_R_SYMBOLNUM
        (bfd_h_get_32 xvec ((bfd_mach_o_write_relocs_lower xvec pinfo).drop 4))
        = pinfo.r_value
    ∧ (bfd_h_get_32 xvec ((bfd_mach_o_write_relocs_lower xvec pinfo).drop 4)
        &&& BFD_MACH_O_R_EXTERN ≠ 0 ↔ pinfo.r_extern ≠ 0)
    ∧ (bfd_h_get_32 xvec ((bfd_mach_o_write_relocs_lower xvec pinfo).drop 4)
        &&& BFD_MACH_O_R_PCREL ≠ 0 ↔ pinfo.r_pcrel ≠ 0)
    ∧ BFD_MACH_O_GET_R_TYPE
        (bfd_h_get_32 xvec ((bfd_mach_o_write_relocs_lower xvec pinfo).drop 4))
        = pinfo.r_type
    ∧ BFD_MACH_O_GET_R_LENGTH
        (bfd_h_get_32 xvec ((bfd_mach_o_write_relocs_lower xvec pinfo).drop 4))
        = pinfo.r_length := by
  have hp : (if pinfo.r_pcrel ≠ 0 then BFD_MACH_O_R_PCREL else 0)
      = (if pinfo.r_pcrel ≠ 0 then 1 else 0) * 2 ^ 24 := by
    split <;> simp [BFD_MACH_O_R_PCREL]
  have he : (if pinfo.r_extern ≠ 0 then BFD_MACH_O_R_EXTERN else 0)
      = (if pinfo.r_extern ≠ 0 then 1 else 0) * 2 ^ 27 := by
    split <;> simp [BFD_MACH_O_R_EXTERN]
  have hp1 : (if pinfo.r_pcrel ≠ 0 then 1 else 0) ≤ 1 := by split <;> omega
  have he1 : (if pinfo.r_extern ≠ 0 then 1 else 0) ≤ 1 := by split <;> omega
  have hw := normal_word_eq pinfo.r_value pinfo.r_length pinfo.r_type _ _ hp1 he1
  have hraw : bfd_mach_o_write_relocs_lower xvec pinfo
      = bfd_h_put_32 xvec pinfo.r_address ++ bfd_h_put_32 xvec
        (pinfo.r_value % 2 ^ 24 + (if pinfo.r_pcrel ≠ 0 then 1 else 0) * 2 ^ 24
          + (pinfo.r_length % 2 ^ 2) * 2 ^ 25
          + (if pinfo.r_extern ≠ 0 then 1 else 0) * 2 ^ 27
          + (pinfo.r_type % 2 ^ 4) * 2 ^ 28) := by
    simp only [bfd_mach_o_write_relocs_lower, hsc, ne_eq, not_true_eq_false, if_false]
    rw [← hw, ← hp, ← he]
  rw [hraw, get_32_second_word, bfd_h_get_32_put_32]
  have hscat : (BFD_MACH_O_SR_SCATTERED : Nat) = 2 ^ 31 := by norm_num [BFD_MACH_O_SR_SCATTERED]
  have hext : (BFD_MACH_O_R_EXTERN : Nat) = 2 ^ 27 := by norm_num [BFD_MACH_O_R_EXTERN]
  have hpc : (BFD_MACH_O_R_PCREL : Nat) = 2 ^ 24 := by norm_num [BFD_MACH_O_R_PCREL]
  rw [hscat, hext, hpc]
  simp only [and_bit_ne_zero, BFD_MACH_O_GET_R_SYMBOLNUM, BFD_MACH_O_GET_R_TYPE,
    BFD_MACH_O_GET_R_LENGTH, and_mask_24, and_mask_4, and_mask_2,
    Nat.shiftRight_eq_div_pow]
  have hz : pinfo.r_address % 2 ^ 32 &&& 2 ^ 31 = 0 := by
    rw [and_bit_value]
    have : pinfo.r_address % 2 ^ 32 / 2 ^ 31 % 2 = 0 := by omega
    rw [this, Nat.zero_mul]
  refine ⟨by omega, hz, ?_, ?_, ?_, ?_, ?_⟩
  · split <;> split <;> omega
  · split <;> split <;> omega
  · split <;> split <;> omega
  · split <;> split <;> omega
  · split <;> split <;> omega

/-- The two words of a scattered relocation written by `bfd_mach_o_write_relocs`:
the first word has the scattered bit set and yields address, type and length,
and its pc-relative bit (0x40000000) is set exactly when `r_pcrel` was; the
second word is the raw target. -/
theorem scattered_reloc_words (xvec : bfd_target) (pinfo : bfd_mach_o_reloc_info)
    (hsc : pinfo.r_scattered ≠ 0) (ht : pinfo.r_type < 16) (hl : pinfo.r_length < 4)
    (ha : pinfo.r_address < 2 ^ 24) :
    bfd_h_get_32 xvec (bfd_mach_o_write_relocs_lower xvec pinfo)
        &&& BFD_MACH_O_SR_SCATTERED ≠ 0
    ∧ BFD_MACH_O_GET_SR_ADDRESS
        (bfd_h_get_32 xvec (bfd_mach_o_write_relocs_lower xvec pinfo)) = pinfo.r_address
    ∧ BFD_MACH_O_GET_SR_TYPE
        (bfd_h_get_32 xvec (bfd_mach_o_write_relocs_lower xvec pinfo)) = pinfo.r_type
    ∧ BFD_MACH_O_GET_SR_LENGTH
        (bfd_h_get_32 xvec (bfd_mach_o_write_relocs_lower xvec pinfo)) = pinfo.r_length
    ∧ bfd_h_get_32 xvec (bfd_mach_o_write_relocs_lower xvec pinfo) &&& BFD_MACH_O_SR_PCREL
        = (if pinfo.r_pcrel ≠ 0 then 0x40000000 else 0)
    ∧ bfd_h_get_32 xvec ((bfd_mach_o_write_relocs_lower xvec pinfo).drop 4)
        = pinfo.r_value % 2 ^ 32 := by
  have hp : (if pinfo.r_pcrel ≠ 0 then BFD_MACH_O_SR_PCREL else 0)
      = (if pinfo.r_pcrel ≠ 0 then 1 else 0) * 2 ^ 30 := by
    split <;> simp [BFD_MACH_O_SR_PCREL]
  have hp1 : (if pinfo.r_pcrel ≠ 0 then 1 else 0) ≤ 1 := by split <;> omega
  have hw := scattered_word_eq pinfo.r_address pinfo.r_length pinfo.r_type _ hp1
  have hraw : bfd_mach_o_write_relocs_lower xvec pinfo
      = bfd_h_put_32 xvec
        (pinfo.r_address % 2 ^ 24 + (pinfo.r_type % 2 ^ 4) * 2 ^ 24
          + (pinfo.r_length % 2 ^ 2) * 2 ^ 28
          + (if pinfo.r_pcrel ≠ 0 then 1 else 0) * 2 ^ 30 + 2 ^ 31)
        ++ bfd_h_put_32 xvec pinfo.r_value := by
    simp only [bfd_mach_o_write_relocs_lower, hsc, ne_eq, not_false_eq_true, if_true]
    rw [← hw, ← hp]
  rw [hraw, get_32_second_word, bfd_h_get_32_put_32]
  have hscat : (BFD_MACH_O_SR_SCATTERED : Nat) = 2 ^ 31 := by norm_num [BFD_MACH_O_SR_SCATTERED]
  have hpc : (BFD_MACH_O_SR_PCREL : Nat) = 2 ^ 30 := by norm_num [BFD_MACH_O_SR_PCREL]
  rw [hscat, hpc]
  simp only [and_bit_ne_zero, and_bit_value, BFD_MACH_O_GET_SR_ADDRESS,
    BFD_MACH_O_GET_SR_TYPE, BFD_MACH_O_GET_SR_LENGTH, and_mask_24, and_mask_4, and_mask_2,
    Nat.shiftRight_eq_div_pow]
  refine ⟨?_, ?_, ?_, ?_, ?_, trivial⟩
  · split <;> omega
  · split <;> omega
  · split <;> omega
  · split <;> omega
  · split <;> omega

/-- Decoding the words of a normal extern relocation gives back the address, the
symbol number as target, type, length, and the extern and pc-relative flags
as 0 or 1. -/
theorem canonicalize_write_relocs_normal_extern {H : Type} (xvec : bfd_target)
    (sections : List bfd_mach_o_section) (pinfo : bfd_mach_o_reloc_info)
    (res : arelent H) (reloc : bfd_mach_o_reloc_info)
    (hsc : pinfo.r_scattered = 0) (hx : pinfo.r_extern ≠ 0)
    (ht : pinfo.r_type < 16) (hl : pinfo.r_length < 4)
    (ha : pinfo.r_address < 2 ^ 31) (hv : pinfo.r_value < 2 ^ 24) :
    bfd_mach_o_canonicalize_one_reloc_lower xvec sections
        (bfd_mach_o_write_relocs_lower xvec pinfo) res reloc
      = .value
          ({ sym_ptr_ptr := .symbol pinfo.r_value
             address := pinfo.r_address
             addend := 0
             howto := res.howto },
           { r_address := reloc.r_address
             r_value := reloc.r_value
             r_scattered := 0
             r_type := pinfo.r_type
             r_pcrel := if pinfo.r_pcrel ≠ 0 then 1 else 0
             r_length := pinfo.r_length
             r_extern := 1 }) := by
  obtain ⟨w1, w2, w3, w4, w5, w6, w7⟩ := normal_reloc_words xvec pinfo hsc ht hl ha hv
  have hx' := w4.mpr hx
  have hpc : (if bfd_h_get_32 xvec ((bfd_mach_o_write_relocs_lower xvec pinfo).drop 4)
      &&& BFD_MACH_O_R_PCREL ≠ 0 then 1 else 0) = (if pinfo.r_pcrel ≠ 0 then 1 else 0) := by
    by_cases hp : pinfo.r_pcrel ≠ 0
    · rw [if_pos hp, if_pos (w5.mpr hp)]
    · rw [if_neg hp, if_neg (fun h => hp (w5.mp h))]
  rw [w1] at w2
  simp only [ne_eq] at hpc hx'
  simp only [bfd_mach_o_canonicalize_one_reloc_lower, w1, w2, ne_eq, not_true_eq_false,
    if_false, hx', not_false_eq_true, if_true, w3, w6, w7, hpc,
    Nat.mod_eq_of_lt (show pinfo.r_type < 2 ^ 4 from ht),
    Nat.mod_eq_of_lt (show pinfo.r_length < 2 ^ 2 from hl)]

/-- Decoding the words of a scattered relocation gives back the address, type,
length and scattered flag, but the pc-relative member is always 0: the masked
value 0x40000000 or 0 is stored in the one-bit field `r_pcrel`. -/
theorem canonicalize_write_relocs_scattered {H : Type} (xvec : bfd_target)
    (sections : List bfd_mach_o_section) (pinfo : bfd_mach_o_reloc_info)
    (res : arelent H) (reloc : bfd_mach_o_reloc_info)
    (hsc : pinfo.r_scattered ≠ 0) (ht : pinfo.r_type < 16) (hl : pinfo.r_length < 4)
    (ha : pinfo.r_address < 2 ^ 24) :
    bfd_mach_o_canonicalize_one_reloc_lower xvec sections
        (bfd_mach_o_write_relocs_lower xvec pinfo) res reloc
      = .value
          ({ sym_ptr_ptr := (scattered_target (pinfo.r_value % 2 ^ 32) sections 0).1
             address := pinfo.r_address
             addend := (scattered_target (pinfo.r_value % 2 ^ 32) sections 0).2
             howto := res.howto },
           { r_address := reloc.r_address
             r_value := reloc.r_value
             r_scattered := 1
             r_type := pinfo.r_type
             r_pcrel := 0
             r_length := pinfo.r_length
             r_extern := reloc.r_extern }) := by
  obtain ⟨w1, w2, w3, w4, w5, w6⟩ := scattered_reloc_words xvec pinfo hsc ht hl ha
  have hpc : (bfd_h_get_32 xvec (bfd_mach_o_write_relocs_lower xvec pinfo)
      &&& BFD_MACH_O_SR_PCREL) % 2 ^ 1 = 0 := by
    rw [w5]
    split <;> rfl
  simp only [ne_eq] at w1
  simp only [bfd_mach_o_canonicalize_one_reloc_lower, w1, ne_eq, not_false_eq_true,
    if_true, w2, w3, w4, w6, hpc,
    Nat.mod_eq_of_lt (show pinfo.r_type < 2 ^ 4 from ht),
    Nat.mod_eq_of_lt (show pinfo.r_length < 2 ^ 2 from hl)]

/-- C8 (defect). A scattered, pc-relative relocation (address 0x10, type 2, length
2, target 0x1004) is written as the words 0xe2000010, 0x00001004; decoding
them gives back the scattered flag, type, length, address and the target
section, but `r_pcrel` comes back as 0: the scattered branch stores
`addr & BFD_MACH_O_SR_PCREL` (0x40000000) in the one-bit field, where the
normal branch stores `... ? 1 : 0`. -/
theorem C8_scattered_pcrel_not_recovered :
    bfd_mach_o_write_relocs_lower .little ⟨0x10, 0x1004, 1, 2, 1, 2, 0⟩
      = bfd_putl32 0xe2000010 ++ bfd_putl32 0x00001004
    ∧ bfd_mach_o_canonicalize_one_reloc_lower .little
        [⟨[], [], 0x1000, 0x100, 0, 0, 0, 0, 0, 0, 0, 0⟩]
        (bfd_mach_o_write_relocs_lower .little ⟨0x10, 0x1004, 1, 2, 1, 2, 0⟩)
        (⟨.null, 0, 0, none⟩ : arelent Unit) ⟨0, 0, 0, 0, 0, 0, 0⟩
      = .value (⟨.section_symbol 0, 0x10, 4, none⟩, ⟨0, 0, 1, 2, 0, 2, 0⟩) := by
  decide

/-! ## Symbol names -/

/-- The decoder `bfd_mach_o_read_symtab_symbol` looks only at the offset of the
symbol array and the size of the string table in the command. -/
theorem read_symtab_symbol_congr (xvec : bfd_target) (abfd : Stream)
    (header : bfd_mach_o_header) (sections : List bfd_mach_o_section)
    (sym sym' : bfd_mach_o_symtab_command) (i : Nat)
    (h1 : sym'.symoff = sym.symoff) (h2 : sym'.strsize = sym.strsize) :
    bfd_mach_o_read_symtab_symbol xvec abfd header sections sym' i
      = bfd_mach_o_read_symtab_symbol xvec abfd header sections sym i := by
  simp only [bfd_mach_o_read_symtab_symbol, h1, h2]

theorem read_symtab_strtab_fields (abfd : Stream) (flags : bfd_flags)
    (sym sym' : bfd_mach_o_symtab_command) (ok : Bool)
    (h : bfd_mach_o_read_symtab_strtab abfd flags (some sym) = (ok, some sym')) :
    sym'.symoff = sym.symoff ∧ sym'.strsize = sym.strsize ∧ sym'.nsyms = sym.nsyms
      ∧ sym'.symbols = sym.symbols := by
  unfold bfd_mach_o_read_symtab_strtab at h
  dsimp only at h
  split at h
  · simp only [Prod.mk.injEq, Option.some.injEq] at h
    obtain ⟨-, rfl⟩ := h
    exact ⟨rfl, rfl, rfl, rfl⟩
  · split at h
    · split at h
      · simp only [Prod.mk.injEq, Option.some.injEq] at h
        obtain ⟨-, rfl⟩ := h
        exact ⟨rfl, rfl, rfl, rfl⟩
      · simp only [Prod.mk.injEq, Option.some.injEq] at h
        obtain ⟨-, rfl⟩ := h
        exact ⟨rfl, rfl, rfl, rfl⟩
    · split at h
      · simp only [Prod.mk.injEq, Option.some.injEq] at h
        obtain ⟨-, rfl⟩ := h
        exact ⟨rfl, rfl, rfl, rfl⟩
      · simp only [Prod.mk.injEq, Option.some.injEq] at h
        obtain ⟨-, rfl⟩ := h
        exact ⟨rfl, rfl, rfl, rfl⟩

/-- The symbol loop fails as soon as one of the symbols it still has to visit
fails to decode. -/
theorem read_symtab_symbols_loop_fails (xvec : bfd_target) (abfd : Stream)
    (header : bfd_mach_o_header) (sections : List bfd_mach_o_section)
    (sym : bfd_mach_o_symtab_command) :
    ∀ (todo i k : Nat) (done : List bfd_mach_o_asymbol), i ≤ k → k < i + todo →
      bfd_mach_o_read_symtab_symbol xvec abfd header sections sym k = none →
      (bfd_mach_o_read_symtab_symbols_loop xvec abfd header sections sym todo i done).1
        = false := by
  intro todo
  induction todo with
  | zero => intro i k done h1 h2; omega
  | succ n ih =>
    intro i k done h1 h2 hk
    rw [bfd_mach_o_read_symtab_symbols_loop]
    cases hi : bfd_mach_o_read_symtab_symbol xvec abfd header sections sym i with
    | none => rfl
    | some s =>
      dsimp only
      have hne : i ≠ k := by
        intro heq
        rw [heq, hk] at hi
        exact absurd hi (by simp)
      exact ih (i + 1) k (done ++ [s]) (by omega) (by omega) hk

theorem classify_name (sections : List bfd_mach_o_section)
    (stroff type n_sect desc value : Nat) :
    (bfd_mach_o_read_symtab_symbol_classify sections stroff type n_sect desc value).name
      = stroff := by
  unfold bfd_mach_o_read_symtab_symbol_classify
  cases sections[n_sect - 1]? <;>
    simp only [apply_ite bfd_mach_o_asymbol.name, ite_self]

/-- C9. For a symbol record that can be read (`raw` holds its bytes),
`bfd_mach_o_read_symtab_symbol` fails if and only if the name offset `n_strx`
is at least the string-table size, in particular when it equals the size;
such a failure on a symbol of the table makes a loading call of
`bfd_mach_o_read_symtab_symbols` fail; and when `n_strx` is below the size
the decode succeeds with the name pointing `n_strx` bytes into the string
table, that is, the name is the NUL-terminated string starting there. -/
theorem C9_symbol_name_offset (xvec : bfd_target) (abfd : Stream)
    (header : bfd_mach_o_header) (sections : List bfd_mach_o_section)
    (sym : bfd_mach_o_symtab_command) (i : Nat) (raw : List Byte)
    (hraw : bfd_bread abfd
        (u32 (sym.symoff + i * (if mach_o_wide_p header then BFD_MACH_O_NLIST_64_SIZE
          else BFD_MACH_O_NLIST_SIZE)))
        (if mach_o_wide_p header then BFD_MACH_O_NLIST_64_SIZE else BFD_MACH_O_NLIST_SIZE)
      = some raw) :
    (bfd_mach_o_read_symtab_symbol xvec abfd header sections sym i = none
      ↔ sym.strsize ≤ bfd_h_get_32 xvec raw)
    ∧ (bfd_h_get_32 xvec raw = sym.strsize →
        bfd_mach_o_read_symtab_symbol xvec abfd header sections sym i = none)
    ∧ (bfd_h_get_32 xvec raw < sym.strsize →
        (bfd_mach_o_read_symtab_symbol xvec abfd header sections sym i).map (fun s => s.name)
          = some (bfd_h_get_32 xvec raw)
        ∧ ∀ strtab : List Byte,
          (bfd_mach_o_read_symtab_symbol xvec abfd header sections sym i).map
              (fun s => c_string strtab s.name)
            = some ((strtab.drop (bfd_h_get_32 xvec raw)).takeWhile (fun b => b ≠ 0)))
    ∧ (∀ flags : bfd_flags, sym.symbols = none → i < sym.nsyms →
        bfd_mach_o_read_symtab_symbol xvec abfd header sections sym i = none →
        (bfd_mach_o_read_symtab_symbols xvec abfd flags header sections (some sym)).1
          = false) := by
  have hiff : bfd_mach_o_read_symtab_symbol xvec abfd header sections sym i = none
      ↔ sym.strsize ≤ bfd_h_get_32 xvec raw := by
    simp only [bfd_mach_o_read_symtab_symbol, hraw, ge_iff_le]
    split
    · simp_all
    · simp_all
  refine ⟨hiff, fun heq => hiff.mpr (Nat.le_of_eq heq.symm), fun hlt => ?_,
    fun flags hsyms hi hfail => ?_⟩
  · have hnot : ¬ sym.strsize ≤ bfd_h_get_32 xvec raw := Nat.not_le.mpr hlt
    have hrd : bfd_mach_o_read_symtab_symbol xvec abfd header sections sym i
        = some (bfd_mach_o_read_symtab_symbol_classify sections (bfd_h_get_32 xvec raw)
          (bfd_h_get_8 (raw.drop 4)) (bfd_h_get_8 (raw.drop 5))
          (bfd_h_get_16 xvec (raw.drop 6))
          (if mach_o_wide_p header then bfd_h_get_64 xvec (raw.drop 8)
            else bfd_h_get_32 xvec (raw.drop 8))) := by
      simp only [bfd_mach_o_read_symtab_symbol, hraw, ge_iff_le, hnot, if_false]
    rw [hrd]
    simp only [Option.map_some', classify_name, c_string, true_and]
    exact fun _ => trivial
  · unfold bfd_mach_o_read_symtab_symbols
    simp only [hsyms]
    rcases hst : bfd_mach_o_read_symtab_strtab abfd flags
        (some { sym with symbols := some [] }) with ⟨ok, r⟩
    cases r with
    | none => cases ok <;> rfl
    | some sym1 =>
      cases ok with
      | false => rfl
      | true =>
        dsimp only
        obtain ⟨f1, f2, f3, -⟩ := read_symtab_strtab_fields abfd flags _ sym1 true hst
        have hfail1 : bfd_mach_o_read_symtab_symbol xvec abfd header sections sym1 i
            = none := by
          rw [read_symtab_symbol_congr xvec abfd header sections
            { sym with symbols := some [] } sym1 i f1 f2]
          rw [read_symtab_symbol_congr xvec abfd header sections sym
            { sym with symbols := some [] } i rfl rfl]
          exact hfail
        exact read_symtab_symbols_loop_fails xvec abfd header sections sym1 sym1.nsyms 0 i []
          (Nat.zero_le i) (by rw [f3]; simpa using hi) hfail1

theorem C9_symbol_name_offset_witness :
    bfd_mach_o_read_symtab_symbol .big
        (be_words [4, 0x0f010000, 0x1010] ++ [0, 0x66, 0x6f, 0])
        ⟨0xfeedface, 7, 3, 1, 0, 0, 0, 0, 1, .BFD_ENDIAN_BIG⟩
        [⟨[], [], 0x1000, 0x100, 0, 0, 0, 0, 0, 0, 0, 0⟩]
        ⟨0, 1, 12, 4, none, none⟩ 0 = none :=
  (C9_symbol_name_offset .big
    (be_words [4, 0x0f010000, 0x1010] ++ [0, 0x66, 0x6f, 0])
    ⟨0xfeedface, 7, 3, 1, 0, 0, 0, 0, 1, .BFD_ENDIAN_BIG⟩
    [⟨[], [], 0x1000, 0x100, 0, 0, 0, 0, 0, 0, 0, 0⟩]
    ⟨0, 1, 12, 4, none, none⟩ 0 (be_words [4, 0x0f010000, 0x1010])
    (by decide)).2.1 (by decide)

/-- C10 (the code on the inputs of the claim). `bfd_mach_o_read_symtab_symbol` has
no case for the name offset 0.  For a readable symbol record whose `n_strx` is
0: with a string table of size 0 the record is rejected (0 >= strsize); with
a string table of nonzero size it is accepted and the name points at the
start of the string table, so the decoded name is the NUL-terminated string
found there, which is the empty string when the table begins with a NUL byte
and is not the empty string when the table begins with any other byte. -/
theorem C10_name_offset_zero (xvec : bfd_target) (abfd : Stream)
    (header : bfd_mach_o_header) (sections : List bfd_mach_o_section)
    (sym : bfd_mach_o_symtab_command) (i : Nat) (raw : List Byte)
    (hraw : bfd_bread abfd
        (u32 (sym.symoff + i * (if mach_o_wide_p header then BFD_MACH_O_NLIST_64_SIZE
          else BFD_MACH_O_NLIST_SIZE)))
        (if mach_o_wide_p header then BFD_MACH_O_NLIST_64_SIZE else BFD_MACH_O_NLIST_SIZE)
      = some raw)
    (h0 : bfd_h_get_32 xvec raw = 0) :
    (sym.strsize = 0 →
      bfd_mach_o_read_symtab_symbol xvec abfd header sections sym i = none)
    ∧ (0 < sym.strsize →
      (bfd_mach_o_read_symtab_symbol xvec abfd header sections sym i).map (fun s => s.name)
        = some 0
      ∧ ∀ strtab : List Byte,
        (bfd_mach_o_read_symtab_symbol xvec abfd header sections sym i).map
            (fun s => c_string strtab s.name)
          = some (strtab.takeWhile (fun b => b ≠ 0))
        ∧ (strtab.head? = some 0 →
            (bfd_mach_o_read_symtab_symbol xvec abfd header sections sym i).map
                (fun s => c_string strtab s.name) = some [])
        ∧ (∀ b : Byte, strtab.head? = some b → b ≠ 0 →
            (bfd_mach_o_read_symtab_symbol xvec abfd header sections sym i).map
                (fun s => c_string strtab s.name) ≠ some [])) := by
  refine ⟨fun hz => ?_, fun hsz => ?_⟩
  · have hge : sym.strsize ≤ bfd_h_get_32 xvec raw := by
      rw [h0, hz]
    simp only [bfd_mach_o_read_symtab_symbol, hraw, ge_iff_le, hge, if_true]
  · have hnot : ¬ sym.strsize ≤ bfd_h_get_32 xvec raw := by
      rw [h0]
      omega
    have hrd : bfd_mach_o_read_symtab_symbol xvec abfd header sections sym i
        = some (bfd_mach_o_read_symtab_symbol_classify sections (bfd_h_get_32 xvec raw)
          (bfd_h_get_8 (raw.drop 4)) (bfd_h_get_8 (raw.drop 5))
          (bfd_h_get_16 xvec (raw.drop 6))
          (if mach_o_wide_p header then bfd_h_get_64 xvec (raw.drop 8)
            else bfd_h_get_32 xvec (raw.drop 8))) := by
      simp only [bfd_mach_o_read_symtab_symbol, hraw, ge_iff_le, hnot, if_false]
    rw [hrd]
    simp only [Option.map_some', classify_name, h0, Option.some.injEq, true_and]
    intro strtab
    refine ⟨by simp [c_string], fun hhead => ?_, fun b hhead hb => ?_⟩
    · cases strtab with
      | nil => rfl
      | cons b rest =>
        simp only [List.head?_cons, Option.some.injEq] at hhead
        subst hhead
        simp [c_string]
    · cases strtab with
      | nil => simp at hhead
      | cons c rest =>
        simp only [List.head?_cons, Option.some.injEq] at hhead
        subst hhead
        simp [c_string, List.takeWhile_cons, hb]

theorem C10_name_offset_zero_witness :
    (bfd_mach_o_read_symtab_symbol .big (be_words [0, 0x01000000, 0] ++ [0x61, 0])
        ⟨0xfeedface, 7, 3, 1, 0, 0, 0, 0, 1, .BFD_ENDIAN_BIG⟩ []
        ⟨0, 1, 12, 2, none, none⟩ 0).map (fun s => c_string [0x61, 0] s.name)
      = some [0x61]
    ∧ bfd_mach_o_read_symtab_symbol .big (be_words [0, 0x01000000, 0])
        ⟨0xfeedface, 7, 3, 1, 0, 0, 0, 0, 1, .BFD_ENDIAN_BIG⟩ []
        ⟨0, 1, 12, 0, none, none⟩ 0 = none :=
  ⟨(((C10_name_offset_zero .big (be_words [0, 0x01000000, 0] ++ [0x61, 0])
      ⟨0xfeedface, 7, 3, 1, 0, 0, 0, 0, 1, .BFD_ENDIAN_BIG⟩ []
      ⟨0, 1, 12, 2, none, none⟩ 0 (be_words [0, 0x01000000, 0])
      (by decide) (by decide)).2 (by decide)).2 [0x61, 0]).1.trans (by decide),
    (C10_name_offset_zero .big (be_words [0, 0x01000000, 0])
      ⟨0xfeedface, 7, 3, 1, 0, 0, 0, 0, 1, .BFD_ENDIAN_BIG⟩ []
      ⟨0, 1, 12, 0, none, none⟩ 0 (be_words [0, 0x01000000, 0])
      (by decide) (by decide)).1 rfl⟩

/-- The whole load at the two inputs above.  With a string table of size 0 the
record with `n_strx = 0` is rejected (0 >= 0).  With the two-byte string table
"a\0" `bfd_mach_o_read_symtab_symbols` succeeds, the table is loaded, and the
name of the symbol, the NUL-terminated string at offset 0, is "a", not the
empty string. -/
theorem read_symtab_symbols_offset_zero_run :
    bfd_mach_o_read_symtab_symbol .big (be_words [0, 0x01000000, 0])
        ⟨0xfeedface, 7, 3, 1, 0, 0, 0, 0, 1, .BFD_ENDIAN_BIG⟩ []
        ⟨0, 1, 12, 0, none, none⟩ 0 = none
    ∧ bfd_mach_o_read_symtab_symbols .big (be_words [0, 0x01000000, 0] ++ [0x61, 0])
        ⟨false, false, false, false⟩
        ⟨0xfeedface, 7, 3, 1, 0, 0, 0, 0, 1, .BFD_ENDIAN_BIG⟩ []
        (some ⟨0, 1, 12, 2, none, none⟩)
      = (true, some ⟨0, 1, 12, 2,
          some [⟨0, 0, BSF_GLOBAL, 0, .bfd_und_section_ptr, 1, 0, 0⟩], some [0x61, 0]⟩)
    ∧ c_string [0x61, 0] 0 = [0x61] := by
  decide

/-- A readable symbol record whose name offset lies inside the string table
decodes to the classification of its five fields. -/
theorem read_symtab_symbol_ok (xvec : bfd_target) (abfd : Stream)
    (header : bfd_mach_o_header) (sections : List bfd_mach_o_section)
    (sym : bfd_mach_o_symtab_command) (i : Nat) (raw : List Byte)
    (hraw : bfd_bread abfd
        (u32 (sym.symoff + i * (if mach_o_wide_p header then BFD_MACH_O_NLIST_64_SIZE
          else BFD_MACH_O_NLIST_SIZE)))
        (if mach_o_wide_p header then BFD_MACH_O_NLIST_64_SIZE else BFD_MACH_O_NLIST_SIZE)
      = some raw)
    (hname : bfd_h_get_32 xvec raw < sym.strsize) :
    bfd_mach_o_read_symtab_symbol xvec abfd header sections sym i
      = some (bfd_mach_o_read_symtab_symbol_classify sections (bfd_h_get_32 xvec raw)
          (bfd_h_get_8 (raw.drop 4)) (bfd_h_get_8 (raw.drop 5))
          (bfd_h_get_16 xvec (raw.drop 6))
          (if mach_o_wide_p header then bfd_h_get_64 xvec (raw.drop 8)
            else bfd_h_get_32 xvec (raw.drop 8))) := by
  have hnot : ¬ sym.strsize ≤ bfd_h_get_32 xvec raw := Nat.not_le.mpr hname
  simp only [bfd_mach_o_read_symtab_symbol, hraw, ge_iff_le, hnot, if_false]

/-- Subtraction in `bfd_vma`: the wrapped difference is the integer difference
modulo 2^64, and the plain difference when nothing is borrowed. -/
theorem vma_sub (v a : Nat) :
    ((vma (v + (2 ^ 64 - vma a)) : Nat) : Int) = ((v : Int) - (a : Int)) % 2 ^ 64
    ∧ (a ≤ v → v < 2 ^ 64 → vma (v + (2 ^ 64 - vma a)) = v - a) := by
  unfold vma
  constructor
  · omega
  · intro h1 h2
    omega

theorem bfd_h_get_64_lt (xvec : bfd_target) (p : List Byte) : bfd_h_get_64 xvec p < 2 ^ 64 := by
  have h1 := bfd_getb32_lt p
  have h2 := bfd_getb32_lt (p.drop 4)
  have h3 := bfd_getl32_lt p
  have h4 := bfd_getl32_lt (p.drop 4)
  cases xvec <;> simp only [bfd_h_get_64, bfd_getb64, bfd_getl64] <;> omega

/-- The section branch shared by the stab whitelist and the `N_SECT` kind. -/
theorem classify_sect (sections : List bfd_mach_o_section)
    (stroff type n_sect desc value : Nat)
    (hstab : type &&& BFD_MACH_O_N_STAB = 0)
    (hkind : type &&& BFD_MACH_O_N_TYPE = BFD_MACH_O_N_SECT) :
    (∀ sect, 0 < n_sect → sections[n_sect - 1]? = some sect →
      (bfd_mach_o_read_symtab_symbol_classify sections stroff type n_sect desc value).symbol_section
          = .bfdsection (n_sect - 1)
      ∧ (bfd_mach_o_read_symtab_symbol_classify sections stroff type n_sect desc value).value
          = vma (value + (2 ^ 64 - vma sect.addr)))
    ∧ (n_sect = 0 ∨ sections.length < n_sect →
      (bfd_mach_o_read_symtab_symbol_classify sections stroff type n_sect desc value).symbol_section
          = .bfd_und_section_ptr
      ∧ (bfd_mach_o_read_symtab_symbol_classify sections stroff type n_sect desc value).value
          = value) := by
  have e1 : ¬ (BFD_MACH_O_N_SECT = BFD_MACH_O_N_UNDF) := by decide
  have e2 : ¬ (BFD_MACH_O_N_SECT = BFD_MACH_O_N_PBUD) := by decide
  have e3 : ¬ (BFD_MACH_O_N_SECT = BFD_MACH_O_N_ABS) := by decide
  unfold bfd_mach_o_read_symtab_symbol_classify
  simp only [hstab, hkind, ne_eq, not_true_eq_false, if_false, e1, e2, e3, if_true]
  constructor
  · intro sect h0 hs
    have hlen : n_sect ≤ sections.length := by
      have := (List.getElem?_eq_some_iff.mp hs).1
      omega
    simp only [h0, hlen, and_self, gt_iff_lt, if_true, hs]
  · intro h
    have hn : ¬ (n_sect > 0 ∧ n_sect ≤ sections.length) := by omega
    simp only [hn, if_false]
    exact ⟨trivial, trivial⟩

theorem or_eq_zero_iff_both (a b : Nat) : a ||| b = 0 ↔ a = 0 ∧ b = 0 := by
  constructor
  · intro h
    constructor
    · apply Nat.eq_of_testBit_eq
      intro i
      have := congrArg (fun n => n.testBit i) h
      simp only [Nat.testBit_or, Nat.zero_testBit, Bool.or_eq_false_iff] at this
      simp [this.1]
    · apply Nat.eq_of_testBit_eq
      intro i
      have := congrArg (fun n => n.testBit i) h
      simp only [Nat.testBit_or, Nat.zero_testBit, Bool.or_eq_false_iff] at this
      simp [this.2]
  · rintro ⟨rfl, rfl⟩; rfl

/-- The flags of a non-stab record before the kind is looked at: global when one
of the two external bits is set, local otherwise. -/
theorem classify_ext_flags (type : Nat) :
    (if type &&& (BFD_MACH_O_N_PEXT ||| BFD_MACH_O_N_EXT) = 0
      then (if type &&& BFD_MACH_O_N_EXT ≠ 0
              then (if type &&& BFD_MACH_O_N_PEXT ≠ 0 then 0 ||| BSF_GLOBAL else 0) ||| BSF_GLOBAL
              else (if type &&& BFD_MACH_O_N_PEXT ≠ 0 then 0 ||| BSF_GLOBAL else 0)) ||| BSF_LOCAL
      else (if type &&& BFD_MACH_O_N_EXT ≠ 0
              then (if type &&& BFD_MACH_O_N_PEXT ≠ 0 then 0 ||| BSF_GLOBAL else 0) ||| BSF_GLOBAL
              else (if type &&& BFD_MACH_O_N_PEXT ≠ 0 then 0 ||| BSF_GLOBAL else 0)))
      = if type &&& BFD_MACH_O_N_PEXT ≠ 0 ∨ type &&& BFD_MACH_O_N_EXT ≠ 0
          then BSF_GLOBAL else BSF_LOCAL := by
  have hor : type &&& (BFD_MACH_O_N_PEXT ||| BFD_MACH_O_N_EXT) = 0
      ↔ type &&& BFD_MACH_O_N_PEXT = 0 ∧ type &&& BFD_MACH_O_N_EXT = 0 := by
    rw [Nat.and_or_distrib_left]
    exact or_eq_zero_iff_both _ _
  by_cases hp : type &&& BFD_MACH_O_N_PEXT = 0 <;> by_cases he : type &&& BFD_MACH_O_N_EXT = 0
    <;> simp [hor, hp, he]

/-- The `N_UNDF` kind of a non-stab record. -/
theorem classify_undf (sections : List bfd_mach_o_section)
    (stroff type n_sect desc value : Nat)
    (hstab : type &&& BFD_MACH_O_N_STAB = 0)
    (hkind : type &&& BFD_MACH_O_N_TYPE = BFD_MACH_O_N_UNDF) :
    (type = (BFD_MACH_O_N_UNDF ||| BFD_MACH_O_N_EXT) → value ≠ 0 →
      bfd_mach_o_read_symtab_symbol_classify sections stroff type n_sect desc value
        = ⟨stroff, value, BSF_NO_FLAGS, 0, .bfd_com_section_ptr, type, n_sect, desc⟩)
    ∧ (¬ (type = (BFD_MACH_O_N_UNDF ||| BFD_MACH_O_N_EXT) ∧ value ≠ 0) →
      bfd_mach_o_read_symtab_symbol_classify sections stroff type n_sect desc value
        = ⟨stroff, value,
            (if type &&& BFD_MACH_O_N_PEXT ≠ 0 ∨ type &&& BFD_MACH_O_N_EXT ≠ 0
              then BSF_GLOBAL else BSF_LOCAL)
            ||| (if desc &&& BFD_MACH_O_N_WEAK_REF ≠ 0 then BSF_WEAK else 0),
            0, .bfd_und_section_ptr, type, n_sect, desc⟩) := by
  have hf := classify_ext_flags type
  unfold bfd_mach_o_read_symtab_symbol_classify
  simp only [hstab, hkind, ne_eq, not_true_eq_false, if_false, if_true]
  constructor
  · intro ht hv
    simp only [ht, hv, not_false_eq_true, and_self, if_true]
  · intro hn
    simp only [ne_eq] at hn hf
    simp only [hn, if_false, hf]
    by_cases hw : desc &&& BFD_MACH_O_N_WEAK_REF = 0
    · simp [hw]
    · simp [hw]

/-- The stab branch. -/
theorem classify_stab (sections : List bfd_mach_o_section)
    (stroff type n_sect desc value : Nat)
    (hstab : type &&& BFD_MACH_O_N_STAB ≠ 0) :
    (bfd_mach_o_read_symtab_symbol_classify sections stroff type n_sect desc value).flags
        = BSF_DEBUGGING
    ∧ (∀ sect, (type = N_FUN ∨ type = N_STSYM ∨ type = N_LCSYM ∨ type = N_BNSYM
          ∨ type = N_SLINE ∨ type = N_ENSYM ∨ type = N_ECOMM ∨ type = N_ECOML
          ∨ type = N_GSYM) →
        0 < n_sect → sections[n_sect - 1]? = some sect →
      (bfd_mach_o_read_symtab_symbol_classify sections stroff type n_sect desc value).symbol_section
          = .bfdsection (n_sect - 1)
      ∧ (bfd_mach_o_read_symtab_symbol_classify sections stroff type n_sect desc value).value
          = vma (value + (2 ^ 64 - vma sect.addr)))
    ∧ (¬ ((type = N_FUN ∨ type = N_STSYM ∨ type = N_LCSYM ∨ type = N_BNSYM
          ∨ type = N_SLINE ∨ type = N_ENSYM ∨ type = N_ECOMM ∨ type = N_ECOML
          ∨ type = N_GSYM) ∧ 0 < n_sect ∧ n_sect ≤ sections.length) →
      (bfd_mach_o_read_symtab_symbol_classify sections stroff type n_sect desc value).symbol_section
          = .bfd_und_section_ptr
      ∧ (bfd_mach_o_read_symtab_symbol_classify sections stroff type n_sect desc value).value
          = value) := by
  unfold bfd_mach_o_read_symtab_symbol_classify
  simp only [hstab, ne_eq, not_false_eq_true, if_true]
  refine ⟨?_, ?_, ?_⟩
  · cases sections[n_sect - 1]? <;>
      simp only [apply_ite bfd_mach_o_asymbol.flags, ite_self] <;> rfl
  · intro sect hw h0 hs
    have hlen : n_sect ≤ sections.length := by
      have := (List.getElem?_eq_some_iff.mp hs).1
      omega
    simp only [hw, h0, hlen, and_self, gt_iff_lt, if_true, hs]
  · intro hn
    by_cases hw : (type = N_FUN ∨ type = N_STSYM ∨ type = N_LCSYM ∨ type = N_BNSYM
          ∨ type = N_SLINE ∨ type = N_ENSYM ∨ type = N_ECOMM ∨ type = N_ECOML
          ∨ type = N_GSYM)
    · have hr : ¬ (n_sect > 0 ∧ n_sect ≤ sections.length) := fun h => hn ⟨hw, h⟩
      simp only [hw, hr, if_true, if_false]
      exact ⟨trivial, trivial⟩
    · simp only [hw, if_false]
      exact ⟨trivial, trivial⟩

theorem bfd_h_get_value_lt (xvec : bfd_target) (wide : Bool) (p : List Byte) :
    (if wide then bfd_h_get_64 xvec p else bfd_h_get_32 xvec p) < 2 ^ 64 := by
  have h1 := bfd_h_get_64_lt xvec p
  have h2 := bfd_h_get_32_lt xvec p
  cases wide
  · simp only [Bool.false_eq_true, if_false]
    omega
  · simpa using h1

/-- C11. A readable symbol record with a name offset inside the string table, no
stab bit and kind `N_SECT` decodes successfully.  When its section number
`n_sect` is between 1 and the number of flattened sections, the symbol gets
the generic section of the entry at 1-based index `n_sect` and its value is
the raw value minus that section's address, computed in the 64-bit `bfd_vma`
(the plain difference whenever the address does not exceed the raw value).
When `n_sect` is 0 or larger than the number of sections, the symbol gets
the undefined section and keeps the raw value. -/
theorem C11_sect_symbol (xvec : bfd_target) (abfd : Stream)
    (header : bfd_mach_o_header) (sections : List bfd_mach_o_section)
    (sym : bfd_mach_o_symtab_command) (i : Nat) (raw : List Byte)
    (type n_sect desc value : Nat)
    (hraw : bfd_bread abfd
        (u32 (sym.symoff + i * (if mach_o_wide_p header then BFD_MACH_O_NLIST_64_SIZE
          else BFD_MACH_O_NLIST_SIZE)))
        (if mach_o_wide_p header then BFD_MACH_O_NLIST_64_SIZE else BFD_MACH_O_NLIST_SIZE)
      = some raw)
    (hname : bfd_h_get_32 xvec raw < sym.strsize)
    (htype : type = bfd_h_get_8 (raw.drop 4))
    (hsect : n_sect = bfd_h_get_8 (raw.drop 5))
    (hdesc : desc = bfd_h_get_16 xvec (raw.drop 6))
    (hvalue : value = if mach_o_wide_p header then bfd_h_get_64 xvec (raw.drop 8)
        else bfd_h_get_32 xvec (raw.drop 8))
    (hstab : type &&& BFD_MACH_O_N_STAB = 0)
    (hkind : type &&& BFD_MACH_O_N_TYPE = BFD_MACH_O_N_SECT) :
    (∀ sect : bfd_mach_o_section, 1 ≤ n_sect → n_sect ≤ sections.length →
        sections[n_sect - 1]? = some sect →
      (bfd_mach_o_read_symtab_symbol xvec abfd header sections sym i).map
          (fun s => (s.symbol_section, s.value))
        = some (.bfdsection (n_sect - 1), vma (value + (2 ^ 64 - vma sect.addr)))
      ∧ ((vma (value + (2 ^ 64 - vma sect.addr)) : Nat) : Int)
          = ((value : Int) - (sect.addr : Int)) % 2 ^ 64
      ∧ (sect.addr ≤ value →
          (bfd_mach_o_read_symtab_symbol xvec abfd header sections sym i).map
              (fun s => (s.symbol_section, s.value))
            = some (.bfdsection (n_sect - 1), value - sect.addr)))
    ∧ (n_sect = 0 ∨ sections.length < n_sect →
      (bfd_mach_o_read_symtab_symbol xvec abfd header sections sym i).map
          (fun s => (s.symbol_section, s.value))
        = some (.bfd_und_section_ptr, value)) := by
  have hrd := read_symtab_symbol_ok xvec abfd header sections sym i raw hraw hname
  rw [← htype, ← hsect, ← hdesc, ← hvalue] at hrd
  have hcl := classify_sect sections (bfd_h_get_32 xvec raw) type n_sect desc value hstab hkind
  have hlt : value < 2 ^ 64 := by
    rw [hvalue]
    exact bfd_h_get_value_lt xvec _ _
  rw [hrd]
  simp only [Option.map_some', Option.some.injEq, Prod.mk.injEq]
  refine ⟨fun sect h1 _ hs => ?_, fun h => hcl.2 h⟩
  have hs1 := hcl.1 sect (by omega) hs
  refine ⟨hs1, (vma_sub value sect.addr).1, fun hle => ⟨hs1.1, ?_⟩⟩
  rw [hs1.2]
  exact (vma_sub value sect.addr).2 hle hlt

theorem C11_sect_symbol_witness :
    (bfd_mach_o_read_symtab_symbol .big
        (be_words [1, 0x0f010000, 0x1010] ++ [0, 0x66, 0x6f, 0])
        ⟨0xfeedface, 7, 3, 1, 0, 0, 0, 0, 1, .BFD_ENDIAN_BIG⟩
        [⟨[], [], 0x1000, 0x100, 0, 0, 0, 0, 0, 0, 0, 0⟩]
        ⟨0, 1, 12, 4, none, none⟩ 0).map (fun s => (s.symbol_section, s.value))
      = some (.bfdsection 0, 0x10) :=
  ((C11_sect_symbol .big
    (be_words [1, 0x0f010000, 0x1010] ++ [0, 0x66, 0x6f, 0])
    ⟨0xfeedface, 7, 3, 1, 0, 0, 0, 0, 1, .BFD_ENDIAN_BIG⟩
    [⟨[], [], 0x1000, 0x100, 0, 0, 0, 0, 0, 0, 0, 0⟩]
    ⟨0, 1, 12, 4, none, none⟩ 0 (be_words [1, 0x0f010000, 0x1010])
    0x0f 1 0 0x1010
    (by decide) (by decide) (by decide) (by decide) (by decide) (by decide)
    (by decide) (by decide)).1
    ⟨[], [], 0x1000, 0x100, 0, 0, 0, 0, 0, 0, 0, 0⟩ (by decide) (by decide) (by decide)).2.2
    (by decide)

/-- C12. A readable symbol record with a name offset inside the string table, no
stab bit and kind `N_UNDF` decodes successfully.  When the type byte is exactly
`N_UNDF | N_EXT` and the value is not 0 the symbol is a common symbol: common
section, no flags, value kept.  Otherwise it gets the undefined section, its
flags are the global flag when one of the external bits `N_PEXT`, `N_EXT` is
set and the local flag when none is, together with the weak flag exactly when
the description word has the weak-reference bit. -/
theorem C12_undf_symbol (xvec : bfd_target) (abfd : Stream)
    (header : bfd_mach_o_header) (sections : List bfd_mach_o_section)
    (sym : bfd_mach_o_symtab_command) (i : Nat) (raw : List Byte)
    (type n_sect desc value : Nat)
    (hraw : bfd_bread abfd
        (u32 (sym.symoff + i * (if mach_o_wide_p header then BFD_MACH_O_NLIST_64_SIZE
          else BFD_MACH_O_NLIST_SIZE)))
        (if mach_o_wide_p header then BFD_MACH_O_NLIST_64_SIZE else BFD_MACH_O_NLIST_SIZE)
      = some raw)
    (hname : bfd_h_get_32 xvec raw < sym.strsize)
    (htype : type = bfd_h_get_8 (raw.drop 4))
    (hsect : n_sect = bfd_h_get_8 (raw.drop 5))
    (hdesc : desc = bfd_h_get_16 xvec (raw.drop 6))
    (hvalue : value = if mach_o_wide_p header then bfd_h_get_64 xvec (raw.drop 8)
        else bfd_h_get_32 xvec (raw.drop 8))
    (hstab : type &&& BFD_MACH_O_N_STAB = 0)
    (hkind : type &&& BFD_MACH_O_N_TYPE = BFD_MACH_O_N_UNDF) :
    (type = (BFD_MACH_O_N_UNDF ||| BFD_MACH_O_N_EXT) → value ≠ 0 →
      (bfd_mach_o_read_symtab_symbol xvec abfd header sections sym i).map
          (fun s => (s.symbol_section, s.flags, s.value))
        = some (.bfd_com_section_ptr, BSF_NO_FLAGS, value))
    ∧ (¬ (type = (BFD_MACH_O_N_UNDF ||| BFD_MACH_O_N_EXT) ∧ value ≠ 0) →
      (bfd_mach_o_read_symtab_symbol xvec abfd header sections sym i).map
          (fun s => (s.symbol_section, s.flags))
        = some (.bfd_und_section_ptr,
            (if type &&& BFD_MACH_O_N_PEXT ≠ 0 ∨ type &&& BFD_MACH_O_N_EXT ≠ 0
              then BSF_GLOBAL else BSF_LOCAL)
            ||| (if desc &&& BFD_MACH_O_N_WEAK_REF ≠ 0 then BSF_WEAK else 0))
      ∧ (bfd_mach_o_read_symtab_symbol xvec abfd header sections sym i).map
          (fun s => decide (s.flags &&& BSF_WEAK ≠ 0))
        = some (decide (desc &&& BFD_MACH_O_N_WEAK_REF ≠ 0))
      ∧ (bfd_mach_o_read_symtab_symbol xvec abfd header sections sym i).map
          (fun s => s.flags &&& (BSF_GLOBAL ||| BSF_LOCAL))
        = some (if type &&& BFD_MACH_O_N_PEXT ≠ 0 ∨ type &&& BFD_MACH_O_N_EXT ≠ 0
              then BSF_GLOBAL else BSF_LOCAL)) := by
  have hrd := read_symtab_symbol_ok xvec abfd header sections sym i raw hraw hname
  rw [← htype, ← hsect, ← hdesc, ← hvalue] at hrd
  have hcl := classify_undf sections (bfd_h_get_32 xvec raw) type n_sect desc value hstab hkind
  rw [hrd]
  simp only [Option.map_some', Option.some.injEq, Prod.mk.injEq]
  refine ⟨fun ht hv => ?_, fun hn => ?_⟩
  · rw [hcl.1 ht hv]
    exact ⟨rfl, rfl, rfl⟩
  · rw [hcl.2 hn]
    refine ⟨⟨rfl, rfl⟩, ?_, ?_⟩
    · dsimp only
      by_cases hg : (type &&& BFD_MACH_O_N_PEXT ≠ 0 ∨ type &&& BFD_MACH_O_N_EXT ≠ 0) <;>
        by_cases hw : (desc &&& BFD_MACH_O_N_WEAK_REF ≠ 0)
      · rw [if_pos hg, if_pos hw, decide_eq_true hw]
        decide
      · rw [if_pos hg, if_neg hw, decide_eq_false hw]
        decide
      · rw [if_neg hg, if_pos hw, decide_eq_true hw]
        decide
      · rw [if_neg hg, if_neg hw, decide_eq_false hw]
        decide
    · dsimp only
      by_cases hg : (type &&& BFD_MACH_O_N_PEXT ≠ 0 ∨ type &&& BFD_MACH_O_N_EXT ≠ 0) <;>
        by_cases hw : (desc &&& BFD_MACH_O_N_WEAK_REF ≠ 0)
      · rw [if_pos hg, if_pos hw]
        decide
      · rw [if_pos hg, if_neg hw]
        decide
      · rw [if_neg hg, if_pos hw]
        decide
      · rw [if_neg hg, if_neg hw]
        decide

theorem C12_undf_symbol_witness :
    (bfd_mach_o_read_symtab_symbol .big
        (be_words [1, 0x01000000, 8] ++ [0, 0x66, 0x6f, 0])
        ⟨0xfeedface, 7, 3, 1, 0, 0, 0, 0, 1, .BFD_ENDIAN_BIG⟩ []
        ⟨0, 1, 12, 4, none, none⟩ 0).map (fun s => (s.symbol_section, s.flags, s.value))
      = some (.bfd_com_section_ptr, BSF_NO_FLAGS, 8) :=
  (C12_undf_symbol .big
    (be_words [1, 0x01000000, 8] ++ [0, 0x66, 0x6f, 0])
    ⟨0xfeedface, 7, 3, 1, 0, 0, 0, 0, 1, .BFD_ENDIAN_BIG⟩ []
    ⟨0, 1, 12, 4, none, none⟩ 0 (be_words [1, 0x01000000, 8])
    0x01 0 0 8
    (by decide) (by decide) (by decide) (by decide) (by decide) (by decide)
    (by decide) (by decide)).1 (by decide) (by decide)

/-- C13. A readable symbol record with a name offset inside the string table and
some stab bit (mask 0xe0) set in its type byte decodes successfully with
exactly the debugging flag, hence neither the global nor the local flag.  When
the type byte is one of `N_FUN`, `N_STSYM`, `N_LCSYM`, `N_BNSYM`, `N_SLINE`,
`N_ENSYM`, `N_ECOMM`, `N_ECOML`, `N_GSYM` and the section number is between 1
and the number of flattened sections, the symbol gets the generic section of
the entry at 1-based index `n_sect` and the raw value minus that section's
address (in the 64-bit `bfd_vma`); in every other case it gets the undefined
section and keeps the raw value. -/
theorem C13_stab_symbol (xvec : bfd_target) (abfd : Stream)
    (header : bfd_mach_o_header) (sections : List bfd_mach_o_section)
    (sym : bfd_mach_o_symtab_command) (i : Nat) (raw : List Byte)
    (type n_sect desc value : Nat)
    (hraw : bfd_bread abfd
        (u32 (sym.symoff + i * (if mach_o_wide_p header then BFD_MACH_O_NLIST_64_SIZE
          else BFD_MACH_O_NLIST_SIZE)))
        (if mach_o_wide_p header then BFD_MACH_O_NLIST_64_SIZE else BFD_MACH_O_NLIST_SIZE)
      = some raw)
    (hname : bfd_h_get_32 xvec raw < sym.strsize)
    (htype : type = bfd_h_get_8 (raw.drop 4))
    (hsect : n_sect = bfd_h_get_8 (raw.drop 5))
    (hdesc : desc = bfd_h_get_16 xvec (raw.drop 6))
    (hvalue : value = if mach_o_wide_p header then bfd_h_get_64 xvec (raw.drop 8)
        else bfd_h_get_32 xvec (raw.drop 8))
    (hstab : type &&& BFD_MACH_O_N_STAB ≠ 0) :
    (bfd_mach_o_read_symtab_symbol xvec abfd header sections sym i).map (fun s => s.flags)
        = some BSF_DEBUGGING
    ∧ (bfd_mach_o_read_symtab_symbol xvec abfd header sections sym i).map
          (fun s => s.flags &&& (BSF_GLOBAL ||| BSF_LOCAL)) = some 0
    ∧ (∀ sect : bfd_mach_o_section,
        (type = N_FUN ∨ type = N_STSYM ∨ type = N_LCSYM ∨ type = N_BNSYM
          ∨ type = N_SLINE ∨ type = N_ENSYM ∨ type = N_ECOMM ∨ type = N_ECOML
          ∨ type = N_GSYM) →
        1 ≤ n_sect → n_sect ≤ sections.length → sections[n_sect - 1]? = some sect →
      (bfd_mach_o_read_symtab_symbol xvec abfd header sections sym i).map
          (fun s => (s.symbol_section, s.value))
        = some (.bfdsection (n_sect - 1), vma (value + (2 ^ 64 - vma sect.addr)))
      ∧ ((vma (value + (2 ^ 64 - vma sect.addr)) : Nat) : Int)
          = ((value : Int) - (sect.addr : Int)) % 2 ^ 64
      ∧ (sect.addr ≤ value →
          (bfd_mach_o_read_symtab_symbol xvec abfd header sections sym i).map
              (fun s => (s.symbol_section, s.value))
            = some (.bfdsection (n_sect - 1), value - sect.addr)))
    ∧ (¬ ((type = N_FUN ∨ type = N_STSYM ∨ type = N_LCSYM ∨ type = N_BNSYM
          ∨ type = N_SLINE ∨ type = N_ENSYM ∨ type = N_ECOMM ∨ type = N_ECOML
          ∨ type = N_GSYM) ∧ 1 ≤ n_sect ∧ n_sect ≤ sections.length) →
      (bfd_mach_o_read_symtab_symbol xvec abfd header sections sym i).map
          (fun s => (s.symbol_section, s.value))
        = some (.bfd_und_section_ptr, value)) := by
  have hrd := read_symtab_symbol_ok xvec abfd header sections sym i raw hraw hname
  rw [← htype, ← hsect, ← hdesc, ← hvalue] at hrd
  have hcl := classify_stab sections (bfd_h_get_32 xvec raw) type n_sect desc value hstab
  have hlt : value < 2 ^ 64 := by
    rw [hvalue]
    exact bfd_h_get_value_lt xvec _ _
  rw [hrd]
  simp only [Option.map_some', Option.some.injEq, Prod.mk.injEq]
  refine ⟨hcl.1, ?_, fun sect hw h1 _ hs => ?_, fun hn => hcl.2.2 hn⟩
  · rw [hcl.1]
    decide
  · have hs1 := hcl.2.1 sect hw (by omega) hs
    refine ⟨hs1, (vma_sub value sect.addr).1, fun hle => ⟨hs1.1, ?_⟩⟩
    rw [hs1.2]
    exact (vma_sub value sect.addr).2 hle hlt

theorem C13_stab_symbol_witness :
    (bfd_mach_o_read_symtab_symbol .big
        (be_words [1, 0x24010000, 0x1010] ++ [0, 0x66, 0x6f, 0])
        ⟨0xfeedface, 7, 3, 1, 0, 0, 0, 0, 1, .BFD_ENDIAN_BIG⟩
        [⟨[], [], 0x1000, 0x100, 0, 0, 0, 0, 0, 0, 0, 0⟩]
        ⟨0, 1, 12, 4, none, none⟩ 0).map (fun s => s.flags)
      = some BSF_DEBUGGING :=
  (C13_stab_symbol .big
    (be_words [1, 0x24010000, 0x1010] ++ [0, 0x66, 0x6f, 0])
    ⟨0xfeedface, 7, 3, 1, 0, 0, 0, 0, 1, .BFD_ENDIAN_BIG⟩
    [⟨[], [], 0x1000, 0x100, 0, 0, 0, 0, 0, 0, 0, 0⟩]
    ⟨0, 1, 12, 4, none, none⟩ 0 (be_words [1, 0x24010000, 0x1010])
    0x24 1 0 0x1010
    (by decide) (by decide) (by decide) (by decide) (by decide) (by decide)
    (by decide)).1

theorem c_string_zero (mem : List Byte) : c_string mem 0 = mem.takeWhile (fun b => b ≠ 0) := by
  simp [c_string]

theorem c_string_nil : c_string [] 0 = [] := by
  simp [c_string]

theorem c_string_cons (x : Byte) (xs : List Byte) :
    c_string (x :: xs) 0 = if x = 0 then [] else x :: c_string xs 0 := by
  simp only [c_string_zero, List.takeWhile_cons]
  by_cases hx : x = 0 <;> simp [hx]

/-- The comparison `strncmp (a, b, n) == 0` holds exactly when the two C strings
agree on their first `n` characters. -/
theorem strncmp_eq_iff (n : Nat) : ∀ a b : List Byte,
    strncmp_eq a b n = true ↔ (c_string a 0).take n = (c_string b 0).take n := by
  induction n with
  | zero => intro a b; simp [strncmp_eq]
  | succ n ih =>
    intro a b
    rw [strncmp_eq]
    cases a with
    | nil =>
      cases b with
      | nil => simp [c_string_nil]
      | cons y ys =>
        by_cases hy : y = 0
        · subst hy; simp [c_string_nil, c_string_cons]
        · have hy2 : ¬ (0 : Byte) = y := fun h => hy h.symm
          simp [c_string_nil, c_string_cons, hy, hy2]
    | cons x xs =>
      cases b with
      | nil =>
        by_cases hx : x = 0
        · subst hx; simp [c_string_nil, c_string_cons]
        · simp [c_string_nil, c_string_cons, hx]
      | cons y ys =>
        by_cases hxy : x = y
        · subst hxy
          by_cases hx : x = 0
          · subst hx; simp [c_string_cons]
          · simp [c_string_cons, hx, ih xs ys]
        · by_cases hx : x = 0
          · subst hx
            have hy : ¬ y = 0 := fun h => hxy h.symm
            simp [c_string_cons, hxy, hy]
          · by_cases hy : y = 0
            · subst hy; simp [c_string_cons, hx]
            · simp [c_string_cons, hxy, hx, hy]

/-- Between two C strings of at most 16 characters, the 16-character comparison
is equality. -/
theorem strncmp_eq_table (t x : List Byte) (ht : t.length ≤ 16) (h0 : ∀ b ∈ t, b ≠ 0)
    (hx : (c_string x 0).length ≤ 16) :
    strncmp_eq t x 16 = true ↔ c_string x 0 = t := by
  have hc : c_string t 0 = t := by
    rw [c_string_zero, List.takeWhile_eq_self_iff]
    intro b hb
    simpa using h0 b hb
  rw [strncmp_eq_iff, hc, List.take_of_length_le ht, List.take_of_length_le hx]
  exact eq_comm

theorem find?_unique {α : Type} (p : α → Bool) (l : List α) (a : α) (ha : a ∈ l)
    (hp : p a = true) (huniq : ∀ b ∈ l, p b = true → b = a) : l.find? p = some a := by
  cases h : l.find? p with
  | none =>
    rw [List.find?_eq_none] at h
    exact absurd hp (h a ha)
  | some b =>
    rw [huniq b (List.mem_of_find?_eq_some h) (List.find?_some h)]

set_option maxRecDepth 100000 in
/-- The names of the static tables are C strings of at most 16 characters,
segment names are pairwise distinct, and so are the section names of each
segment. -/
theorem segsec_names_xlat_facts :
    (∀ seg ∈ segsec_names_xlat, seg.segname.length ≤ 16 ∧ (∀ b ∈ seg.segname, b ≠ 0)
      ∧ ∀ sec ∈ seg.sections, sec.mach_o_name.length ≤ 16 ∧ (∀ b ∈ sec.mach_o_name, b ≠ 0)
        ∧ (∀ b ∈ sec.bfd_name, b ≠ 0))
    ∧ (∀ s1 ∈ segsec_names_xlat, ∀ s2 ∈ segsec_names_xlat, s1.segname = s2.segname → s1 = s2)
    ∧ (∀ seg ∈ segsec_names_xlat, ∀ a ∈ seg.sections, ∀ b ∈ seg.sections,
        a.mach_o_name = b.mach_o_name → a = b) := by
  decide

/-- What `bfd_mach_o_normalize_section_name` returns: the entry of the static
tables for the pair of C strings, and nothing when there is no such entry. -/
theorem normalize_section_name_spec (segname sectname : List Byte)
    (hS : (c_string segname 0).length ≤ 16) (hN : (c_string sectname 0).length ≤ 16) :
    (∀ seg ∈ segsec_names_xlat, ∀ sec ∈ seg.sections,
      c_string segname 0 = seg.segname → c_string sectname 0 = sec.mach_o_name →
      bfd_mach_o_normalize_section_name segname sectname = (some sec.bfd_name, sec.flags))
    ∧ ((∀ seg ∈ segsec_names_xlat, ∀ sec ∈ seg.sections,
        ¬ (c_string segname 0 = seg.segname ∧ c_string sectname 0 = sec.mach_o_name)) →
      bfd_mach_o_normalize_section_name segname sectname = (none, SEC_NO_FLAGS)) := by
  obtain ⟨hok, hseg, hsec⟩ := segsec_names_xlat_facts
  constructor
  · intro seg hs sec hc h1 h2
    obtain ⟨a1, a2, a3⟩ := hok seg hs
    obtain ⟨b1, b2, -⟩ := a3 sec hc
    have f1 : segsec_names_xlat.find?
        (fun seg => strncmp_eq seg.segname segname BFD_MACH_O_SEGNAME_SIZE) = some seg := by
      apply find?_unique _ _ _ hs
      · exact (strncmp_eq_table _ _ a1 a2 hS).mpr h1
      · intro b hb hpb
        obtain ⟨c1, c2, -⟩ := hok b hb
        have := (strncmp_eq_table _ _ c1 c2 hS).mp hpb
        exact hseg b hb seg hs (this.symm.trans h1)
    have f2 : seg.sections.find?
        (fun sec => strncmp_eq sec.mach_o_name sectname BFD_MACH_O_SECTNAME_SIZE)
          = some sec := by
      apply find?_unique _ _ _ hc
      · exact (strncmp_eq_table _ _ b1 b2 hN).mpr h2
      · intro b hb hpb
        obtain ⟨c1, c2, -⟩ := a3 b hb
        have := (strncmp_eq_table _ _ c1 c2 hN).mp hpb
        exact hsec seg hs b hb sec hc (this.symm.trans h2)
    simp only [bfd_mach_o_normalize_section_name, f1, f2]
  · intro hno
    unfold bfd_mach_o_normalize_section_name
    cases f1 : segsec_names_xlat.find?
        (fun seg => strncmp_eq seg.segname segname BFD_MACH_O_SEGNAME_SIZE) with
    | none => rfl
    | some seg =>
      dsimp only
      cases f2 : seg.sections.find?
          (fun sec => strncmp_eq sec.mach_o_name sectname BFD_MACH_O_SECTNAME_SIZE) with
      | none => rfl
      | some sec =>
        exfalso
        have hs := List.mem_of_find?_eq_some f1
        have hc := List.mem_of_find?_eq_some f2
        obtain ⟨a1, a2, a3⟩ := hok seg hs
        obtain ⟨b1, b2, -⟩ := a3 sec hc
        have p1 := List.find?_some f1
        have p2 := List.find?_some f2
        exact hno seg hs sec hc ⟨(strncmp_eq_table _ _ a1 a2 hS).mp p1,
          (strncmp_eq_table _ _ b1 b2 hN).mp p2⟩

/-- C17. For a segment name `S` and a section name `N` of at most 16 bytes each,
the C strings behind the two arguments of
`bfd_mach_o_convert_section_name_to_bfd`: when `(S, N)`
is an entry of the static tables the result is that entry's canonical name
and flags; otherwise the result has no flags and is the untruncated name
`"LC_SEGMENT." ++ S ++ "." ++ N` when `S` does not begin with an underscore
and `S ++ "." ++ N` when it does, also when `S` is a well-known segment and
`N` is not in its table. -/
theorem C17_convert_section_name_to_bfd (segname sectname : List Byte)
    (hS : (c_string segname 0).length ≤ 16) (hN : (c_string sectname 0).length ≤ 16) :
    (∀ seg ∈ segsec_names_xlat, ∀ sec ∈ seg.sections,
      c_string segname 0 = seg.segname → c_string sectname 0 = sec.mach_o_name →
      bfd_mach_o_convert_section_name_to_bfd segname sectname
        = (some sec.bfd_name, sec.flags))
    ∧ ((∀ seg ∈ segsec_names_xlat, ∀ sec ∈ seg.sections,
        ¬ (c_string segname 0 = seg.segname ∧ c_string sectname 0 = sec.mach_o_name)) →
      ((c_string segname 0).head? ≠ some (byteOf 0x5f) →
        bfd_mach_o_convert_section_name_to_bfd segname sectname
          = (some (str "LC_SEGMENT." ++ c_string segname 0 ++ str "."
              ++ c_string sectname 0), SEC_NO_FLAGS))
      ∧ ((c_string segname 0).head? = some (byteOf 0x5f) →
        bfd_mach_o_convert_section_name_to_bfd segname sectname
          = (some (c_string segname 0 ++ str "." ++ c_string sectname 0), SEC_NO_FLAGS))) := by
  obtain ⟨hhit, hmiss⟩ := normalize_section_name_spec segname sectname hS hN
  have hhead : (c_string segname 0).head? = some (byteOf 0x5f)
      ↔ segname.headD 0 = byteOf 0x5f := by
    cases segname with
    | nil => simp only [c_string_nil]; decide
    | cons x xs =>
      rw [c_string_cons]
      by_cases hx : x = 0
      · subst hx
        simp only [if_true, List.headD_cons]
        decide
      · simp [hx]
  refine ⟨fun seg hs sec hc h1 h2 => ?_, fun hno => ⟨fun hne => ?_, fun he => ?_⟩⟩
  · simp only [bfd_mach_o_convert_section_name_to_bfd, hhit seg hs sec hc h1 h2]
  · have hne2 : segname.headD 0 ≠ byteOf 0x5f := fun h => hne (hhead.mpr h)
    simp only [bfd_mach_o_convert_section_name_to_bfd, hmiss hno, hne2, ne_eq,
      not_false_eq_true, if_true]
  · have he2 := hhead.mp he
    simp only [bfd_mach_o_convert_section_name_to_bfd, hmiss hno, he2, ne_eq,
      not_true_eq_false, if_false, List.nil_append]

theorem C17_convert_section_name_to_bfd_witness :
    bfd_mach_o_convert_section_name_to_bfd (str "__TEXT") (str "__text")
      = (some (str ".text"), SEC_CODE ||| SEC_LOAD) :=
  (C17_convert_section_name_to_bfd (str "__TEXT") (str "__text") (by decide) (by decide)).1
    ⟨str "__TEXT", text_section_names_xlat⟩ (by decide)
    ⟨str ".text", str "__text", SEC_CODE ||| SEC_LOAD⟩ (by decide) (by decide) (by decide)

set_option maxRecDepth 100000 in
/-- C19. The static name tables are a bijection between canonical names and
(segment, section) pairs: for every entry, the reverse translation of its
canonical name gives exactly its segment and section name, and
`bfd_mach_o_normalize_section_name` of that pair gives exactly its canonical
name and flags; no two entries have the same canonical name, and no two
entries have the same (segment, section) pair. -/
theorem C19_name_tables_bijection :
    (∀ seg ∈ segsec_names_xlat, ∀ sec ∈ seg.sections,
      bfd_mach_o_convert_section_name_to_mach_o sec.bfd_name = (seg.segname, sec.mach_o_name)
      ∧ bfd_mach_o_normalize_section_name seg.segname sec.mach_o_name
          = (some sec.bfd_name, sec.flags))
    ∧ ((segsec_names_xlat.flatMap (fun seg => seg.sections.map (fun sec => sec.bfd_name))).Nodup)
    ∧ ((segsec_names_xlat.flatMap
        (fun seg => seg.sections.map (fun sec => (seg.segname, sec.mach_o_name)))).Nodup)
    ∧ (segsec_names_xlat.flatMap (fun seg => seg.sections)).length = 21 := by
  decide

theorem c_string_nul_free (mem : List Byte) : ∀ b ∈ c_string mem 0, b ≠ 0 := by
  intro b hb
  rw [c_string_zero] at hb
  simpa using List.mem_takeWhile_imp hb

theorem c_string_of_nul_free (l : List Byte) (h : ∀ b ∈ l, b ≠ 0) : c_string l 0 = l := by
  rw [c_string_zero, List.takeWhile_eq_self_iff]
  intro b hb
  simpa using h b hb

theorem indexOf_split (a : Byte) : ∀ l : List Byte, l.indexOf a < l.length →
    l = l.take (l.indexOf a) ++ a :: l.drop (l.indexOf a + 1) ∧ a ∉ l.take (l.indexOf a) := by
  intro l
  induction l with
  | nil => intro h; simp at h
  | cons x xs ih =>
    intro h
    by_cases hx : x = a
    · subst hx
      simp
    · have hne : ¬ (x == a) = true := by simpa using hx
      have hidx : (x :: xs).indexOf a = xs.indexOf a + 1 := by
        simp [List.indexOf_cons, hne]
      rw [hidx] at h ⊢
      have h2 : xs.indexOf a < xs.length := by simpa using h
      obtain ⟨e1, e2⟩ := ih h2
      refine ⟨?_, ?_⟩
      · simp only [List.take_succ_cons, List.drop_succ_cons, List.cons_append]
        rw [← e1]
      · simp only [List.take_succ_cons, List.mem_cons, not_or]
        exact ⟨fun h => hx h.symm, e2⟩

theorem indexOf_of_split (a : Byte) (sec : List Byte) : ∀ seg : List Byte, a ∉ seg →
    (seg ++ a :: sec).indexOf a = seg.length := by
  intro seg
  induction seg with
  | nil => intro _; simp
  | cons x xs ih =>
    intro h
    simp only [List.mem_cons, not_or] at h
    have hne : ¬ (x == a) = true := by simpa using fun h2 : x = a => h.1 h2.symm
    simp [List.indexOf_cons, hne, ih h.2]

set_option maxRecDepth 100000 in
theorem lc_segment_nul_free : ∀ b ∈ str "LC_SEGMENT.", b ≠ 0 := by
  decide

/-- The two outcomes of `bfd_mach_o_convert_section_name_to_mach_o` on a name that
is not a canonical name of the static tables, with `r` the name without a
leading "LC_SEGMENT.": the split at the first '.', or `r` truncated to 16
bytes in both names. -/
theorem convert_section_name_to_mach_o_cases (name r : List Byte)
    (hnot : ∀ seg ∈ segsec_names_xlat, ∀ sec ∈ seg.sections,
      c_string name 0 ≠ sec.bfd_name)
    (hr : r = if (str "LC_SEGMENT.").isPrefixOf (c_string name 0)
      then (c_string name 0).drop 11 else c_string name 0) :
    (∀ seg sec : List Byte, r = seg ++ byteOf 0x2e :: sec → byteOf 0x2e ∉ seg →
      seg ≠ [] → seg.length < 16 → sec.length < 16 →
      bfd_mach_o_convert_section_name_to_mach_o name = (seg, sec))
    ∧ ((∀ seg sec : List Byte, r = seg ++ byteOf 0x2e :: sec → byteOf 0x2e ∉ seg →
        seg = [] ∨ 16 ≤ seg.length ∨ 16 ≤ sec.length) →
      bfd_mach_o_convert_section_name_to_mach_o name = (r.take 16, r.take 16)) := by
  obtain ⟨hok, -, -⟩ := segsec_names_xlat_facts
  have hs0 := c_string_nul_free name
  generalize hs : c_string name 0 = s at hnot hr hs0
  have hknown : (if s.headD 0 = byteOf 0x2e then
      (segsec_names_xlat.flatMap (fun seg => seg.sections.map (fun sec => (seg, sec)))).find?
        (fun e => strcmp_eq e.2.bfd_name s)
      else none) = none := by
    split
    · rw [List.find?_eq_none]
      intro e he
      simp only [List.mem_flatMap, List.mem_map] at he
      obtain ⟨seg, hseg, sec, hsec, rfl⟩ := he
      have hb := (hok seg hseg).2.2 sec hsec
      simp only [strcmp_eq, c_string_of_nul_free _ hb.2.2, c_string_of_nul_free _ hs0,
        beq_iff_eq]
      exact fun h => hnot seg hseg sec hsec h.symm
    · rfl
  have hstrip : strncmp_eq s (str "LC_SEGMENT.") 11 = (str "LC_SEGMENT.").isPrefixOf s := by
    rw [Bool.eq_iff_iff, strncmp_eq_iff, c_string_of_nul_free _ hs0,
      c_string_of_nul_free (str "LC_SEGMENT.") lc_segment_nul_free, List.isPrefixOf_iff_prefix,
      List.prefix_iff_eq_take]
    exact eq_comm
  have hr0 : ∀ b ∈ r, b ≠ 0 := by
    intro b hb
    rw [hr] at hb
    split at hb
    · exact hs0 b (List.mem_of_mem_drop hb)
    · exact hs0 b hb
  have hcode : bfd_mach_o_convert_section_name_to_mach_o name = 
      (match strchr_dot r with
      | some seglen =>
        if seglen ≠ 0 then
          if seglen < 16 ∧ strlen r - (seglen + 1) < 16 then
            (r.take seglen, (r.drop (seglen + 1)).take (strlen r - (seglen + 1)))
          else (r.take (if strlen r > 16 then 16 else strlen r),
                 r.take (if strlen r > 16 then 16 else strlen r))
        else (r.take (if strlen r > 16 then 16 else strlen r),
                 r.take (if strlen r > 16 then 16 else strlen r))
      | none => (r.take (if strlen r > 16 then 16 else strlen r),
                 r.take (if strlen r > 16 then 16 else strlen r))) := by
    unfold bfd_mach_o_convert_section_name_to_mach_o
    simp only [hs, hknown, hstrip, ← hr]
  have hlen : strlen r = r.length := by
    rw [strlen, c_string_of_nul_free _ hr0]
  have hchr : strchr_dot r = if r.indexOf (byteOf 0x2e) < r.length
      then some (r.indexOf (byteOf 0x2e)) else none := by
    simp only [strchr_dot, c_string_of_nul_free _ hr0]
  have hboth : r.take (if r.length > 16 then 16 else r.length) = r.take 16 := by
    split
    · rfl
    · rw [List.take_of_length_le (by omega), List.take_of_length_le (by omega)]
  rw [hcode, hchr, hlen, hboth]
  constructor
  · intro seg sec hsplit hdot hne h1 h2
    have hidx := indexOf_of_split (byteOf 0x2e) sec seg hdot
    rw [← hsplit] at hidx
    have hrl : r.length = seg.length + (sec.length + 1) := by
      rw [hsplit]; simp
    have hpos : seg.length ≠ 0 := by
      intro h0
      exact hne (List.length_eq_zero.mp h0)
    have hlt : r.indexOf (byteOf 0x2e) < r.length := by omega
    rw [if_pos hlt]
    dsimp only
    rw [hidx, if_pos hpos, if_pos ⟨h1, by omega⟩]
    have e1 : r.take seg.length = seg := by
      rw [hsplit]; simp
    have e2 : (r.drop (seg.length + 1)).take (r.length - (seg.length + 1)) = sec := by
      rw [hrl, hsplit]
      have : seg.length + (sec.length + 1) - (seg.length + 1) = sec.length := by omega
      rw [this]
      simp
    rw [e1, e2]
  · intro hall
    by_cases hlt : r.indexOf (byteOf 0x2e) < r.length
    · rw [if_pos hlt]
      dsimp only
      obtain ⟨e1, e2⟩ := indexOf_split (byteOf 0x2e) r hlt
      have hcase := hall _ _ e1 e2
      have hl1 : (r.take (r.indexOf (byteOf 0x2e))).length = r.indexOf (byteOf 0x2e) := by
        rw [List.length_take]; omega
      have hl2 : (r.drop (r.indexOf (byteOf 0x2e) + 1)).length
          = r.length - (r.indexOf (byteOf 0x2e) + 1) := by
        rw [List.length_drop]
      rw [hl1, hl2] at hcase
      by_cases h0 : r.indexOf (byteOf 0x2e) = 0
      · rw [if_neg (by simpa using h0)]
      · rw [if_pos h0]
        have hseg0 : ¬ (r.take (r.indexOf (byteOf 0x2e)) = []) := by
          intro h
          have := congrArg List.length h
          rw [hl1] at this
          exact h0 (by simpa using this)
        have hn : ¬ (r.indexOf (byteOf 0x2e) < 16
            ∧ r.length - (r.indexOf (byteOf 0x2e) + 1) < 16) := by
          rcases hcase with h | h | h
          · exact absurd h hseg0
          · omega
          · omega
        rw [if_neg hn]
    · rw [if_neg hlt]

/-- C18 (amended). For a generic section name that is not a canonical name of the
static tables, let `r` be the name without a leading "LC_SEGMENT.".  When `r`
has a first '.' that is not its first character and both the part before it
and the part after it are shorter than 16 bytes, the segment name is the part
before and the section name the part after.  When `r` has no '.', starts with
the '.', or has a part before or after the first '.' that is longer than 16
bytes, the segment name and the section name are both `r` truncated to 16
bytes.  (Nothing is stated for a part of exactly 16 bytes.) -/
theorem C18_convert_section_name_to_mach_o (name r : List Byte)
    (hnot : ∀ seg ∈ segsec_names_xlat, ∀ sec ∈ seg.sections,
      c_string name 0 ≠ sec.bfd_name)
    (hr : r = if (str "LC_SEGMENT.").isPrefixOf (c_string name 0)
      then (c_string name 0).drop 11 else c_string name 0) :
    (∀ seg sec : List Byte, r = seg ++ byteOf 0x2e :: sec → byteOf 0x2e ∉ seg →
      seg ≠ [] → seg.length < 16 → sec.length < 16 →
      bfd_mach_o_convert_section_name_to_mach_o name = (seg, sec))
    ∧ ((∀ seg sec : List Byte, r = seg ++ byteOf 0x2e :: sec → byteOf 0x2e ∉ seg →
        seg = [] ∨ 16 < seg.length ∨ 16 < sec.length) →
      bfd_mach_o_convert_section_name_to_mach_o name = (r.take 16, r.take 16)) :=
  ⟨(convert_section_name_to_mach_o_cases name r hnot hr).1,
    fun h => (convert_section_name_to_mach_o_cases name r hnot hr).2
      (fun seg sec e hd => (h seg sec e hd).imp id
        (Or.imp (fun h1 => Nat.le_of_lt h1) (fun h2 => Nat.le_of_lt h2)))⟩

set_option maxRecDepth 100000 in
theorem C18_convert_section_name_to_mach_o_witness :
    bfd_mach_o_convert_section_name_to_mach_o (str "LC_SEGMENT.seg.sec")
      = (str "seg", str "sec") :=
  (C18_convert_section_name_to_mach_o (str "LC_SEGMENT.seg.sec") (str "seg.sec")
    (by decide) (by decide)).1 (str "seg") (str "sec") (by decide) (by decide) (by decide)
    (by decide) (by decide)

set_option maxRecDepth 100000 in
/-- C18, as stated, fails when the separator leads the name and when a part is
too long.  The name ".foo" is not a canonical name; the code stores ".foo" as
both the segment and the section name, where the claim expects the empty
segment name and the section name "foo".  For
"LC_SEGMENT.seg.a_section_name_of_26_bytes" the code stores the first 16
bytes of "seg.a_section_name_of_26_bytes" in both names, where the claim
expects the segment name "seg" and the section name "a_section_name_o". -/
theorem C18_no_split_counterexample :
    (∀ seg ∈ segsec_names_xlat, ∀ sec ∈ seg.sections,
      c_string (str ".foo") 0 ≠ sec.bfd_name)
    ∧ bfd_mach_o_convert_section_name_to_mach_o (str ".foo") = (str ".foo", str ".foo")
    ∧ spec_convert_section_name_to_mach_o (str ".foo") = ([], str "foo")
    ∧ bfd_mach_o_convert_section_name_to_mach_o (str ".foo")
        ≠ spec_convert_section_name_to_mach_o (str ".foo")
    ∧ bfd_mach_o_convert_section_name_to_mach_o
          (str "LC_SEGMENT.seg.a_section_name_of_26_bytes")
        = (str "seg.a_section_na", str "seg.a_section_na")
    ∧ spec_convert_section_name_to_mach_o (str "LC_SEGMENT.seg.a_section_name_of_26_bytes")
        = (str "seg", str "a_section_name_o") := by
  decide

theorem name16_length (l : List Byte) : (name16 l).length = 16 := by
  simp [name16]

theorem bfd_h_put_64_length (xvec : bfd_target) (v : Nat) :
    (bfd_h_put_64 xvec v).length = 8 := by
  cases xvec <;> rfl

/-- Copying at the end of the part `a` of a buffer replaces what follows. -/
theorem memcpy_at (a b : List Byte) (off : Nat) (src : List Byte) (h : off = a.length) :
    memcpy (a ++ b) off src = (a ++ src) ++ b.drop src.length := by
  subst h
  simp [memcpy, List.take_append_eq_append_take, List.drop_append_eq_append_drop]

theorem write_section_64_raw_eq (xvec : bfd_target) (raw0 : List Byte)
    (s : bfd_mach_o_section) :
    bfd_mach_o_write_section_64_raw xvec raw0 s
      = name16 s.sectname ++ (name16 s.segname ++ (bfd_h_put_64 xvec s.addr
        ++ (bfd_h_put_64 xvec s.size ++ (bfd_h_put_32 xvec s.offset
        ++ (bfd_h_put_32 xvec s.align ++ (bfd_h_put_32 xvec s.reloff
        ++ (bfd_h_put_32 xvec s.nreloc ++ (bfd_h_put_32 xvec s.flags
        ++ (bfd_h_put_32 xvec s.reserved1 ++ (bfd_h_put_32 xvec s.reserved2
        ++ bfd_h_put_32 xvec s.reserved3)))))))))) := by
  unfold bfd_mach_o_write_section_64_raw
  have hR : ((raw0 ++ List.replicate BFD_MACH_O_SECTION_64_SIZE 0).take
      BFD_MACH_O_SECTION_64_SIZE).length = 80 := by
    simp [BFD_MACH_O_SECTION_64_SIZE]
  generalize (raw0 ++ List.replicate BFD_MACH_O_SECTION_64_SIZE 0).take
      BFD_MACH_O_SECTION_64_SIZE = R at hR
  dsimp only
  have h0 := memcpy_at [] R 0 (name16 s.sectname) rfl
  rw [List.nil_append] at h0
  rw [h0]
  rw [memcpy_at _ _ 16 _ (by simp [name16_length])]
  rw [memcpy_at _ _ 32 _ (by simp [name16_length])]
  rw [memcpy_at _ _ 40 _ (by simp [name16_length, bfd_h_put_64_length])]
  rw [memcpy_at _ _ 48 _ (by simp [name16_length, bfd_h_put_64_length])]
  rw [memcpy_at _ _ 52 _ (by simp [name16_length, bfd_h_put_64_length, bfd_h_put_32_length])]
  rw [memcpy_at _ _ 56 _ (by simp [name16_length, bfd_h_put_64_length, bfd_h_put_32_length])]
  rw [memcpy_at _ _ 60 _ (by simp [name16_length, bfd_h_put_64_length, bfd_h_put_32_length])]
  rw [memcpy_at _ _ 64 _ (by simp [name16_length, bfd_h_put_64_length, bfd_h_put_32_length])]
  rw [memcpy_at _ _ 68 _ (by simp [name16_length, bfd_h_put_64_length, bfd_h_put_32_length])]
  rw [memcpy_at _ _ 72 _ (by simp [name16_length, bfd_h_put_64_length, bfd_h_put_32_length])]
  rw [memcpy_at _ _ 76 _ (by simp [name16_length, bfd_h_put_64_length, bfd_h_put_32_length])]
  have hnil : List.drop (bfd_h_put_32 xvec s.reserved3).length
      (List.drop (bfd_h_put_32 xvec s.reserved2).length
      (List.drop (bfd_h_put_32 xvec s.reserved1).length
      (List.drop (bfd_h_put_32 xvec s.flags).length
      (List.drop (bfd_h_put_32 xvec s.nreloc).length
      (List.drop (bfd_h_put_32 xvec s.reloff).length
      (List.drop (bfd_h_put_32 xvec s.align).length
      (List.drop (bfd_h_put_32 xvec s.offset).length
      (List.drop (bfd_h_put_64 xvec s.size).length
      (List.drop (bfd_h_put_64 xvec s.addr).length
      (List.drop (name16 s.segname).length
      (List.drop (name16 s.sectname).length R))))))))))) = [] := by
    simp only [List.drop_drop, name16_length, bfd_h_put_64_length, bfd_h_put_32_length]
    exact List.drop_eq_nil_of_le (by omega)
  rw [hnil]
  simp only [List.append_nil, List.append_assoc, List.nil_append]

/-- The record that `bfd_mach_o_write_section_32` hands to `bfd_bwrite`: the section
name, then the 16 bytes the buffer held at offsets 16 to 31 before the call,
then the nine words.  The segment name is not part of it. -/
theorem write_section_32_raw_eq (xvec : bfd_target) (raw0 : List Byte)
    (s : bfd_mach_o_section) :
    bfd_mach_o_write_section_32_raw xvec raw0 s
      = name16 s.sectname
        ++ ((((raw0 ++ List.replicate BFD_MACH_O_SECTION_SIZE 0).take
              BFD_MACH_O_SECTION_SIZE).drop 16).take 16
        ++ (bfd_h_put_32 xvec s.addr
        ++ (bfd_h_put_32 xvec s.size ++ (bfd_h_put_32 xvec s.offset
        ++ (bfd_h_put_32 xvec s.align ++ (bfd_h_put_32 xvec s.reloff
        ++ (bfd_h_put_32 xvec s.nreloc ++ (bfd_h_put_32 xvec s.flags
        ++ (bfd_h_put_32 xvec s.reserved1 ++ bfd_h_put_32 xvec s.reserved2))))))))) := by
  unfold bfd_mach_o_write_section_32_raw
  have hR : ((raw0 ++ List.replicate BFD_MACH_O_SECTION_SIZE 0).take
      BFD_MACH_O_SECTION_SIZE).length = 68 := by
    simp [BFD_MACH_O_SECTION_SIZE]
  generalize (raw0 ++ List.replicate BFD_MACH_O_SECTION_SIZE 0).take
      BFD_MACH_O_SECTION_SIZE = R at hR
  dsimp only
  have hg : ((R.drop 16).take 16).length = 16 := by
    simp only [List.length_take, List.length_drop]
    omega
  have h0 := memcpy_at [] R 0 (name16 s.sectname) rfl
  rw [List.nil_append, List.nil_append, name16_length] at h0
  have hsplit : R.drop 16 = (R.drop 16).take 16 ++ R.drop 32 := by
    have := (List.take_append_drop 16 (R.drop 16)).symm
    rwa [List.drop_drop] at this
  rw [h0, hsplit, ← List.append_assoc]
  generalize (R.drop 16).take 16 = g at hg
  rw [memcpy_at _ _ (16 + 16) _ (by simp [name16_length, hg])]
  rw [List.append_assoc (name16 s.sectname ++ g)]
  rw [memcpy_at _ _ 32 _ (by simp [name16_length, hg])]
  rw [memcpy_at _ _ 36 _ (by simp [name16_length, hg, bfd_h_put_32_length])]
  rw [memcpy_at _ _ 40 _ (by simp [name16_length, hg, bfd_h_put_32_length])]
  rw [memcpy_at _ _ 44 _ (by simp [name16_length, hg, bfd_h_put_32_length])]
  rw [memcpy_at _ _ 48 _ (by simp [name16_length, hg, bfd_h_put_32_length])]
  rw [memcpy_at _ _ 52 _ (by simp [name16_length, hg, bfd_h_put_32_length])]
  rw [memcpy_at _ _ 56 _ (by simp [name16_length, hg, bfd_h_put_32_length])]
  rw [memcpy_at _ _ 60 _ (by simp [name16_length, hg, bfd_h_put_32_length])]
  rw [memcpy_at _ _ 64 _ (by simp [name16_length, hg, bfd_h_put_32_length])]
  have hnil : List.drop (bfd_h_put_32 xvec s.reserved2).length
      (List.drop (bfd_h_put_32 xvec s.reserved1).length
      (List.drop (bfd_h_put_32 xvec s.flags).length
      (List.drop (bfd_h_put_32 xvec s.nreloc).length
      (List.drop (bfd_h_put_32 xvec s.reloff).length
      (List.drop (bfd_h_put_32 xvec s.align).length
      (List.drop (bfd_h_put_32 xvec s.offset).length
      (List.drop (bfd_h_put_32 xvec s.size).length
      (List.drop (bfd_h_put_32 xvec s.addr).length
      (name16 s.segname ++ List.drop (name16 s.segname).length (List.drop 32 R))))))))))
        = [] := by
    simp only [List.drop_drop, name16_length, bfd_h_put_32_length]
    apply List.drop_eq_nil_of_le
    simp only [List.length_append, name16_length, List.length_drop]
    omega
  rw [hnil]
  have htake : List.take 16 (g ++ List.drop 32 R) = g := by
    rw [List.take_append_eq_append_take, hg, List.take_of_length_le (by omega)]
    simp
  simp only [List.append_nil, List.append_assoc, List.nil_append, htake]

theorem bfd_bread_bwrite (abfd : Stream) (pos : Nat) (buf : List Byte) :
    bfd_bread (bfd_bwrite abfd pos buf) pos buf.length = some buf := by
  have hpre : (abfd.take pos ++ List.replicate (pos - abfd.length) 0).length = pos := by
    simp only [List.length_append, List.length_take, List.length_replicate]
    omega
  have hw : bfd_bwrite abfd pos buf
      = (abfd.take pos ++ List.replicate (pos - abfd.length) 0)
        ++ (buf ++ abfd.drop (pos + buf.length)) := by
    simp [bfd_bwrite, List.append_assoc]
  have hlen : pos + buf.length ≤ (bfd_bwrite abfd pos buf).length := by
    rw [hw, List.length_append, hpre, List.length_append]
    omega
  rw [bfd_bread, if_pos hlen, hw, List.drop_left' hpre, List.take_left' rfl]

theorem drop_append_len (a rest : List Byte) (n k : Nat) (h : a.length = n) :
    (a ++ rest).drop (n + k) = rest.drop k := by
  subst h
  simp [List.drop_append_eq_append_drop]

theorem bfd_h_get_64_put_64 (xvec : bfd_target) (v : Nat) (rest : List Byte) :
    bfd_h_get_64 xvec (bfd_h_put_64 xvec v ++ rest) = v % 2 ^ 64 := by
  cases xvec
  · have hd : (bfd_putb32 (v / 2 ^ 32) ++ (bfd_putb32 v ++ rest)).drop 4
        = bfd_putb32 v ++ rest := by
      simp [bfd_putb32]
    simp only [bfd_h_get_64, bfd_h_put_64, bfd_getb64, bfd_putb64, List.append_assoc]
    rw [bfd_getb32_putb32, hd, bfd_getb32_putb32]
    omega
  · have hd : (bfd_putl32 v ++ (bfd_putl32 (v / 2 ^ 32) ++ rest)).drop 4
        = bfd_putl32 (v / 2 ^ 32) ++ rest := by
      simp [bfd_putl32]
    simp only [bfd_h_get_64, bfd_h_put_64, bfd_getl64, bfd_putl64, List.append_assoc]
    rw [bfd_getl32_putl32, hd, bfd_getl32_putl32]
    omega

/-- The fields at their offsets in a 32-bit section record. -/
theorem section_record_32_fields (xvec : bfd_target) (n1 n2 : List Byte)
    (h1 : n1.length = 16) (h2 : n2.length = 16) (a b c d e f g h i : Nat)
    (raw : List Byte)
    (hraw : raw = n1 ++ (n2 ++ (bfd_h_put_32 xvec a ++ (bfd_h_put_32 xvec b
      ++ (bfd_h_put_32 xvec c ++ (bfd_h_put_32 xvec d ++ (bfd_h_put_32 xvec e
      ++ (bfd_h_put_32 xvec f ++ (bfd_h_put_32 xvec g ++ (bfd_h_put_32 xvec h
      ++ (bfd_h_put_32 xvec i ++ []))))))))))) :
    raw.length = 68 ∧ raw.take 16 = n1 ∧ (raw.drop 16).take 16 = n2
    ∧ bfd_h_get_32 xvec (raw.drop 32) = a % 2 ^ 32
    ∧ bfd_h_get_32 xvec (raw.drop 36) = b % 2 ^ 32
    ∧ bfd_h_get_32 xvec (raw.drop 40) = c % 2 ^ 32
    ∧ bfd_h_get_32 xvec (raw.drop 44) = d % 2 ^ 32
    ∧ bfd_h_get_32 xvec (raw.drop 48) = e % 2 ^ 32
    ∧ bfd_h_get_32 xvec (raw.drop 52) = f % 2 ^ 32
    ∧ bfd_h_get_32 xvec (raw.drop 56) = g % 2 ^ 32
    ∧ bfd_h_get_32 xvec (raw.drop 60) = h % 2 ^ 32
    ∧ bfd_h_get_32 xvec (raw.drop 64) = i % 2 ^ 32 := by
  have p := bfd_h_put_32_length xvec
  subst hraw
  refine ⟨?_, ?_, ?_, ?_, ?_, ?_, ?_, ?_, ?_, ?_, ?_, ?_⟩
  · simp [h1, h2, p]
  · exact List.take_left' h1
  · rw [drop_append_len _ _ 16 0 h1, List.drop_zero]
    exact List.take_left' h2
  · rw [show (32 : Nat) = 16 + (16 + 0) from rfl, drop_append_len _ _ 16 _ h1,
      drop_append_len _ _ 16 _ h2, List.drop_zero, bfd_h_get_32_put_32]
  · rw [show (36 : Nat) = 16 + (16 + (4 + 0)) from rfl, drop_append_len _ _ 16 _ h1,
      drop_append_len _ _ 16 _ h2, drop_append_len _ _ 4 _ (p _), List.drop_zero,
      bfd_h_get_32_put_32]
  · rw [show (40 : Nat) = 16 + (16 + (4 + (4 + 0))) from rfl, drop_append_len _ _ 16 _ h1,
      drop_append_len _ _ 16 _ h2, drop_append_len _ _ 4 _ (p _),
      drop_append_len _ _ 4 _ (p _), List.drop_zero, bfd_h_get_32_put_32]
  · rw [show (44 : Nat) = 16 + (16 + (4 + (4 + (4 + 0)))) from rfl,
      drop_append_len _ _ 16 _ h1,
      drop_append_len _ _ 16 _ h2, drop_append_len _ _ 4 _ (p _),
      drop_append_len _ _ 4 _ (p _), drop_append_len _ _ 4 _ (p _), List.drop_zero,
      bfd_h_get_32_put_32]
  · rw [show (48 : Nat) = 16 + (16 + (4 + (4 + (4 + (4 + 0))))) from rfl,
      drop_append_len _ _ 16 _ h1,
      drop_append_len _ _ 16 _ h2, drop_append_len _ _ 4 _ (p _),
      drop_append_len _ _ 4 _ (p _), drop_append_len _ _ 4 _ (p _),
      drop_append_len _ _ 4 _ (p _), List.drop_zero, bfd_h_get_32_put_32]
  · rw [show (52 : Nat) = 16 + (16 + (4 + (4 + (4 + (4 + (4 + 0)))))) from rfl,
      drop_append_len _ _ 16 _ h1,
      drop_append_len _ _ 16 _ h2, drop_append_len _ _ 4 _ (p _),
      drop_append_len _ _ 4 _ (p _), drop_append_len _ _ 4 _ (p _),
      drop_append_len _ _ 4 _ (p _), drop_append_len _ _ 4 _ (p _), List.drop_zero,
      bfd_h_get_32_put_32]
  · rw [show (56 : Nat) = 16 + (16 + (4 + (4 + (4 + (4 + (4 + (4 + 0))))))) from rfl,
      drop_append_len _ _ 16 _ h1,
      drop_append_len _ _ 16 _ h2, drop_append_len _ _ 4 _ (p _),
      drop_append_len _ _ 4 _ (p _), drop_append_len _ _ 4 _ (p _),
      drop_append_len _ _ 4 _ (p _), drop_append_len _ _ 4 _ (p _),
      drop_append_len _ _ 4 _ (p _), List.drop_zero, bfd_h_get_32_put_32]
  · rw [show (60 : Nat) = 16 + (16 + (4 + (4 + (4 + (4 + (4 + (4 + (4 + 0)))))))) from rfl,
      drop_append_len _ _ 16 _ h1,
      drop_append_len _ _ 16 _ h2, drop_append_len _ _ 4 _ (p _),
      drop_append_len _ _ 4 _ (p _), drop_append_len _ _ 4 _ (p _),
      drop_append_len _ _ 4 _ (p _), drop_append_len _ _ 4 _ (p _),
      drop_append_len _ _ 4 _ (p _), drop_append_len _ _ 4 _ (p _), List.drop_zero,
      bfd_h_get_32_put_32]
  · rw [show (64 : Nat) = 16 + (16 + (4 + (4 + (4 + (4 + (4 + (4 + (4 + (4 + 0)))))))))
        from rfl,
      drop_append_len _ _ 16 _ h1,
      drop_append_len _ _ 16 _ h2, drop_append_len _ _ 4 _ (p _),
      drop_append_len _ _ 4 _ (p _), drop_append_len _ _ 4 _ (p _),
      drop_append_len _ _ 4 _ (p _), drop_append_len _ _ 4 _ (p _),
      drop_append_len _ _ 4 _ (p _), drop_append_len _ _ 4 _ (p _),
      drop_append_len _ _ 4 _ (p _), List.drop_zero, bfd_h_get_32_put_32]

/-- The fields at their offsets in a 64-bit section record. -/
theorem section_record_64_fields (xvec : bfd_target) (n1 n2 : List Byte)
    (h1 : n1.length = 16) (h2 : n2.length = 16) (a b c d e f g h i j : Nat)
    (raw : List Byte)
    (hraw : raw = n1 ++ (n2 ++ (bfd_h_put_64 xvec a ++ (bfd_h_put_64 xvec b
      ++ (bfd_h_put_32 xvec c ++ (bfd_h_put_32 xvec d ++ (bfd_h_put_32 xvec e
      ++ (bfd_h_put_32 xvec f ++ (bfd_h_put_32 xvec g ++ (bfd_h_put_32 xvec h
      ++ (bfd_h_put_32 xvec i ++ (bfd_h_put_32 xvec j ++ [])))))))))))) :
    raw.length = 80 ∧ raw.take 16 = n1 ∧ (raw.drop 16).take 16 = n2
    ∧ bfd_h_get_64 xvec (raw.drop 32) = a % 2 ^ 64
    ∧ bfd_h_get_64 xvec (raw.drop 40) = b % 2 ^ 64
    ∧ bfd_h_get_32 xvec (raw.drop 48) = c % 2 ^ 32
    ∧ bfd_h_get_32 xvec (raw.drop 52) = d % 2 ^ 32
    ∧ bfd_h_get_32 xvec (raw.drop 56) = e % 2 ^ 32
    ∧ bfd_h_get_32 xvec (raw.drop 60) = f % 2 ^ 32
    ∧ bfd_h_get_32 xvec (raw.drop 64) = g % 2 ^ 32
    ∧ bfd_h_get_32 xvec (raw.drop 68) = h % 2 ^ 32
    ∧ bfd_h_get_32 xvec (raw.drop 72) = i % 2 ^ 32
    ∧ bfd_h_get_32 xvec (raw.drop 76) = j % 2 ^ 32 := by
  have p := bfd_h_put_32_length xvec
  have q := bfd_h_put_64_length xvec
  subst hraw
  refine ⟨?_, ?_, ?_, ?_, ?_, ?_, ?_, ?_, ?_, ?_, ?_, ?_, ?_⟩
  · simp [h1, h2, p, q]
  · exact List.take_left' h1
  · rw [drop_append_len _ _ 16 0 h1, List.drop_zero]
    exact List.take_left' h2
  · rw [show (32 : Nat) = 16 + (16 + 0) from rfl, drop_append_len _ _ 16 _ h1,
      drop_append_len _ _ 16 _ h2, List.drop_zero, bfd_h_get_64_put_64]
  · rw [show (40 : Nat) = 16 + (16 + (8 + 0)) from rfl, drop_append_len _ _ 16 _ h1,
      drop_append_len _ _ 16 _ h2, drop_append_len _ _ 8 _ (q _), List.drop_zero,
      bfd_h_get_64_put_64]
  · rw [show (48 : Nat) = 16 + (16 + (8 + (8 + 0))) from rfl, drop_append_len _ _ 16 _ h1,
      drop_append_len _ _ 16 _ h2, drop_append_len _ _ 8 _ (q _),
      drop_append_len _ _ 8 _ (q _), List.drop_zero, bfd_h_get_32_put_32]
  · rw [show (52 : Nat) = 16 + (16 + (8 + (8 + (4 + 0)))) from rfl,
      drop_append_len _ _ 16 _ h1,
      drop_append_len _ _ 16 _ h2, drop_append_len _ _ 8 _ (q _),
      drop_append_len _ _ 8 _ (q _), drop_append_len _ _ 4 _ (p _), List.drop_zero,
      bfd_h_get_32_put_32]
  · rw [show (56 : Nat) = 16 + (16 + (8 + (8 + (4 + (4 + 0))))) from rfl,
      drop_append_len _ _ 16 _ h1,
      drop_append_len _ _ 16 _ h2, drop_append_len _ _ 8 _ (q _),
      drop_append_len _ _ 8 _ (q _), drop_append_len _ _ 4 _ (p _),
      drop_append_len _ _ 4 _ (p _), List.drop_zero, bfd_h_get_32_put_32]
  · rw [show (60 : Nat) = 16 + (16 + (8 + (8 + (4 + (4 + (4 + 0)))))) from rfl,
      drop_append_len _ _ 16 _ h1,
      drop_append_len _ _ 16 _ h2, drop_append_len _ _ 8 _ (q _),
      drop_append_len _ _ 8 _ (q _), drop_append_len _ _ 4 _ (p _),
      drop_append_len _ _ 4 _ (p _), drop_append_len _ _ 4 _ (p _), List.drop_zero,
      bfd_h_get_32_put_32]
  · rw [show (64 : Nat) = 16 + (16 + (8 + (8 + (4 + (4 + (4 + (4 + 0))))))) from rfl,
      drop_append_len _ _ 16 _ h1,
      drop_append_len _ _ 16 _ h2, drop_append_len _ _ 8 _ (q _),
      drop_append_len _ _ 8 _ (q _), drop_append_len _ _ 4 _ (p _),
      drop_append_len _ _ 4 _ (p _), drop_append_len _ _ 4 _ (p _),
      drop_append_len _ _ 4 _ (p _), List.drop_zero, bfd_h_get_32_put_32]
  · rw [show (68 : Nat) = 16 + (16 + (8 + (8 + (4 + (4 + (4 + (4 + (4 + 0)))))))) from rfl,
      drop_append_len _ _ 16 _ h1,
      drop_append_len _ _ 16 _ h2, drop_append_len _ _ 8 _ (q _),
      drop_append_len _ _ 8 _ (q _), drop_append_len _ _ 4 _ (p _),
      drop_append_len _ _ 4 _ (p _), drop_append_len _ _ 4 _ (p _),
      drop_append_len _ _ 4 _ (p _), drop_append_len _ _ 4 _ (p _), List.drop_zero,
      bfd_h_get_32_put_32]
  · rw [show (72 : Nat) = 16 + (16 + (8 + (8 + (4 + (4 + (4 + (4 + (4 + (4 + 0)))))))))
        from rfl,
      drop_append_len _ _ 16 _ h1,
      drop_append_len _ _ 16 _ h2, drop_append_len _ _ 8 _ (q _),
      drop_append_len _ _ 8 _ (q _), drop_append_len _ _ 4 _ (p _),
      drop_append_len _ _ 4 _ (p _), drop_append_len _ _ 4 _ (p _),
      drop_append_len _ _ 4 _ (p _), drop_append_len _ _ 4 _ (p _),
      drop_append_len _ _ 4 _ (p _), List.drop_zero, bfd_h_get_32_put_32]
  · rw [show (76 : Nat)
        = 16 + (16 + (8 + (8 + (4 + (4 + (4 + (4 + (4 + (4 + (4 + 0))))))))))
        from rfl,
      drop_append_len _ _ 16 _ h1,
      drop_append_len _ _ 16 _ h2, drop_append_len _ _ 8 _ (q _),
      drop_append_len _ _ 8 _ (q _), drop_append_len _ _ 4 _ (p _),
      drop_append_len _ _ 4 _ (p _), drop_append_len _ _ 4 _ (p _),
      drop_append_len _ _ 4 _ (p _), drop_append_len _ _ 4 _ (p _),
      drop_append_len _ _ 4 _ (p _), drop_append_len _ _ 4 _ (p _), List.drop_zero,
      bfd_h_get_32_put_32]

theorem make_bfd_section_some (segname sectname : List Byte) :
    ∃ sec, bfd_mach_o_make_bfd_section segname sectname = some sec := by
  unfold bfd_mach_o_make_bfd_section bfd_mach_o_convert_section_name_to_bfd
  rcases bfd_mach_o_normalize_section_name segname sectname with ⟨n, f⟩
  cases n with
  | none => exact ⟨_, rfl⟩
  | some name => exact ⟨_, rfl⟩

theorem init_section_used_by_bfd (sec : asection) (prot : Nat) :
    (bfd_mach_o_init_section_from_mach_o sec prot).used_by_bfd = sec.used_by_bfd := by
  rfl

/-- C15 (amended). For every section, either byte order and any prior content of
the write buffer, `bfd_mach_o_write_section_64` emits an 80-byte record that
`bfd_mach_o_read_section_64` decodes successfully to the same segment name and
section name (as 16-byte NUL-padded fields), the same 64-bit `addr` and
`size`, and `offset`, `align`, `reloff`, `nreloc`, `flags`, `reserved1`,
`reserved2` and `reserved3` each reduced modulo 2^32. -/
theorem C15_section_64_round_trip (xvec : bfd_target) (abfd : Stream) (pos prot : Nat)
    (raw0 : List Byte) (s : bfd_mach_o_section) :
    (bfd_mach_o_write_section_64_raw xvec raw0 s).length = 80
    ∧ (bfd_mach_o_read_section_64 xvec (bfd_mach_o_write_section_64 xvec abfd pos raw0 s)
          pos prot).map (fun sec => sec.used_by_bfd)
        = some { sectname := name16 s.sectname, segname := name16 s.segname
                 addr := s.addr % 2 ^ 64, size := s.size % 2 ^ 64
                 offset := s.offset % 2 ^ 32, align := s.align % 2 ^ 32
                 reloff := s.reloff % 2 ^ 32, nreloc := s.nreloc % 2 ^ 32
                 flags := s.flags % 2 ^ 32, reserved1 := s.reserved1 % 2 ^ 32
                 reserved2 := s.reserved2 % 2 ^ 32, reserved3 := s.reserved3 % 2 ^ 32 } := by
  have hraw := write_section_64_raw_eq xvec raw0 s
  obtain ⟨hlen, f1, f2, f3, f4, f5, f6, f7, f8, f9, f10, f11, f12⟩ :=
    section_record_64_fields xvec (name16 s.sectname) (name16 s.segname)
      (name16_length _) (name16_length _) s.addr s.size s.offset s.align s.reloff s.nreloc
      s.flags s.reserved1 s.reserved2 s.reserved3
      (bfd_mach_o_write_section_64_raw xvec raw0 s) (by rw [hraw, List.append_nil])
  refine ⟨hlen, ?_⟩
  have hrd : bfd_bread (bfd_mach_o_write_section_64 xvec abfd pos raw0 s) pos
      BFD_MACH_O_SECTION_64_SIZE = some (bfd_mach_o_write_section_64_raw xvec raw0 s) := by
    have := bfd_bread_bwrite abfd pos (bfd_mach_o_write_section_64_raw xvec raw0 s)
    rw [hlen] at this
    exact this
  obtain ⟨sec, hsec⟩ := make_bfd_section_some (bfd_mach_o_write_section_64_raw xvec raw0 s)
    ((bfd_mach_o_write_section_64_raw xvec raw0 s).drop 16)
  simp only [bfd_mach_o_read_section_64, hrd, hsec, Option.map_some',
    init_section_used_by_bfd, f1, f2, f3, f4, f5, f6, f7, f8, f9, f10, f11, f12]

set_option maxRecDepth 100000 in
/-- C15, as stated, fails for a section whose file offset does not fit in 32
bits: the record holds the low 32 bits only, so the section with
`offset = 2^32 + 5` is decoded with `offset = 5`. -/
theorem C15_offset_truncated_counterexample :
    (bfd_mach_o_read_section_64 .big
        (bfd_mach_o_write_section_64 .big [] 0 []
          ⟨name16 (str "__text"), name16 (str "__TEXT"), 0x1000, 0x20, 2 ^ 32 + 5, 2, 0, 0,
            0, 0, 0, 0⟩) 0 7).map (fun sec => sec.used_by_bfd.offset) = some 5
    ∧ (bfd_mach_o_read_section_64 .big
        (bfd_mach_o_write_section_64 .big [] 0 []
          ⟨name16 (str "__text"), name16 (str "__TEXT"), 0x1000, 0x20, 2 ^ 32 + 5, 2, 0, 0,
            0, 0, 0, 0⟩) 0 7).map (fun sec => sec.used_by_bfd)
      ≠ some ⟨name16 (str "__text"), name16 (str "__TEXT"), 0x1000, 0x20, 2 ^ 32 + 5, 2, 0, 0,
            0, 0, 0, 0⟩ := by
  decide

set_option maxRecDepth 100000 in
/-- C14 fails on the code.  For every section, byte order and prior content
`raw0` of the write buffer, the 68-byte record that
`bfd_mach_o_write_section_32` emits has the section name in bytes 0-15, but
its bytes 16-31 are the bytes the buffer held there before the call, whatever
the segment name of the section is; `bfd_mach_o_read_section_32` decodes the
record to that prior content as segment name, and to the section name and the
nine words modulo 2^32.  For the section `__text` of segment `__TEXT` and a
buffer that held zeros, the decoded segment name is sixteen NUL bytes, not
`__TEXT`. -/
theorem C14_segment_name_not_written (xvec : bfd_target) (abfd : Stream) (pos prot : Nat)
    (raw0 : List Byte) (s : bfd_mach_o_section) :
    (bfd_mach_o_write_section_32_raw xvec raw0 s).length = 68
    ∧ (bfd_mach_o_write_section_32_raw xvec raw0 s).take 16 = name16 s.sectname
    ∧ ((bfd_mach_o_write_section_32_raw xvec raw0 s).drop 16).take 16
        = (((raw0 ++ List.replicate BFD_MACH_O_SECTION_SIZE 0).take
              BFD_MACH_O_SECTION_SIZE).drop 16).take 16
    ∧ (bfd_mach_o_read_section_32 xvec (bfd_mach_o_write_section_32 xvec abfd pos raw0 s)
          pos prot).map (fun sec => sec.used_by_bfd)
        = some { sectname := name16 s.sectname
                 segname := (((raw0 ++ List.replicate BFD_MACH_O_SECTION_SIZE 0).take
                    BFD_MACH_O_SECTION_SIZE).drop 16).take 16
                 addr := s.addr % 2 ^ 32, size := s.size % 2 ^ 32
                 offset := s.offset % 2 ^ 32, align := s.align % 2 ^ 32
                 reloff := s.reloff % 2 ^ 32, nreloc := s.nreloc % 2 ^ 32
                 flags := s.flags % 2 ^ 32, reserved1 := s.reserved1 % 2 ^ 32
                 reserved2 := s.reserved2 % 2 ^ 32, reserved3 := 0 }
    ∧ (bfd_mach_o_read_section_32 .big
          (bfd_mach_o_write_section_32 .big [] 0 (List.replicate 68 0)
            ⟨name16 (str "__text"), name16 (str "__TEXT"), 0x1000, 0x20, 0x400, 2, 0, 0,
              0x80000400, 0, 0, 0⟩) 0 7).map (fun sec => sec.used_by_bfd.segname)
        = some (List.replicate 16 0)
    ∧ List.replicate 16 (0 : Byte) ≠ name16 (str "__TEXT") := by
  have hraw := write_section_32_raw_eq xvec raw0 s
  have hg : ((((raw0 ++ List.replicate BFD_MACH_O_SECTION_SIZE 0).take
      BFD_MACH_O_SECTION_SIZE).drop 16).take 16).length = 16 := by
    simp [BFD_MACH_O_SECTION_SIZE]
  obtain ⟨hlen, f1, f2, f3, f4, f5, f6, f7, f8, f9, f10, f11⟩ :=
    section_record_32_fields xvec (name16 s.sectname) _
      (name16_length _) hg s.addr s.size s.offset s.align s.reloff s.nreloc
      s.flags s.reserved1 s.reserved2
      (bfd_mach_o_write_section_32_raw xvec raw0 s) (by rw [hraw, List.append_nil])
  refine ⟨hlen, f1, f2, ?_, by decide, by decide⟩
  have hrd : bfd_bread (bfd_mach_o_write_section_32 xvec abfd pos raw0 s) pos
      BFD_MACH_O_SECTION_SIZE = some (bfd_mach_o_write_section_32_raw xvec raw0 s) := by
    have := bfd_bread_bwrite abfd pos (bfd_mach_o_write_section_32_raw xvec raw0 s)
    rw [hlen] at this
    exact this
  obtain ⟨sec, hsec⟩ := make_bfd_section_some (bfd_mach_o_write_section_32_raw xvec raw0 s)
    ((bfd_mach_o_write_section_32_raw xvec raw0 s).drop 16)
  simp only [bfd_mach_o_read_section_32, hrd, hsec, Option.map_some',
    init_section_used_by_bfd, f1, f2, f3, f4, f5, f6, f7, f8, f9, f10, f11]

set_option maxRecDepth 100000 in
/-- C16 fails on the code.  `bfd_mach_o_read_section_32` and
`bfd_mach_o_read_section_64` hand the section-name field to
`bfd_mach_o_make_bfd_section` as segment name and the segment-name field as
section name.  The record of section `__text` in segment `__TEXT` is decoded
into a generic section named `__text.__TEXT` created without flags, not into
`.text` with `SEC_CODE | SEC_LOAD`; the record of `__debug_info` in `__DWARF`
into `__debug_info.__DWARF`, not `.debug_info`; and for no entry of the
static tables is the decoded section given the entry's canonical name. -/
theorem C16_section_names_swapped :
    bfd_mach_o_make_bfd_section
        (section_record_names (str "__TEXT") (str "__text") ++ List.replicate 36 0)
        ((section_record_names (str "__TEXT") (str "__text") ++ List.replicate 36 0).drop 16)
      = some (bfd_make_section_anyway_with_flags (str "__text.__TEXT") SEC_NO_FLAGS)
    ∧ (bfd_mach_o_read_section_32 .big
        (section_record_names (str "__TEXT") (str "__text") ++ List.replicate 36 0) 0 7).map
        (fun sec => sec.name) = some (str "__text.__TEXT")
    ∧ (bfd_mach_o_read_section_64 .big
        (section_record_names (str "__DWARF") (str "__debug_info") ++ List.replicate 48 0)
        0 7).map (fun sec => sec.name) = some (str "__debug_info.__DWARF")
    ∧ bfd_mach_o_convert_section_name_to_bfd (name16 (str "__TEXT")) (name16 (str "__text"))
        = (some (str ".text"), SEC_CODE ||| SEC_LOAD)
    ∧ (∀ seg ∈ segsec_names_xlat, ∀ sec ∈ seg.sections,
        (bfd_mach_o_read_section_32 .big
            (section_record_names seg.segname sec.mach_o_name ++ List.replicate 36 0)
            0 7).map (fun s => s.name) ≠ some sec.bfd_name
        ∧ (bfd_mach_o_read_section_64 .big
            (section_record_names seg.segname sec.mach_o_name ++ List.replicate 48 0)
            0 7).map (fun s => s.name) ≠ some sec.bfd_name) := by
  decide

theorem build_commands_section_spec (filelen target_index : Nat) (sec : asection) :
    (bfd_mach_o_build_commands_section filelen target_index sec).1.kept = sec.kept
    ∧ (bfd_mach_o_build_commands_section filelen target_index sec).1.target_index
        = target_index + 1 := by
  unfold bfd_mach_o_build_commands_section
  by_cases h : sec.used_by_bfd.flags = 0
  · simp only [h, if_true]
    exact ⟨rfl, trivial⟩
  · simp only [h, if_false]
    exact ⟨rfl, trivial⟩

theorem build_commands_loop_spec : ∀ (secs : List asection) (filelen target_index : Nat)
    (done : List asection),
    (bfd_mach_o_build_commands_loop secs filelen target_index done).1.map asection.kept
      = done.map asection.kept ++ secs.map asection.kept
    ∧ (bfd_mach_o_build_commands_loop secs filelen target_index done).1.map
        (fun s => s.target_index)
      = done.map (fun s => s.target_index) ++ List.range' (target_index + 1) secs.length := by
  intro secs
  induction secs with
  | nil => intro filelen target_index done; simp [bfd_mach_o_build_commands_loop]
  | cons sec rest ih =>
    intro filelen target_index done
    obtain ⟨k1, k2⟩ := build_commands_section_spec filelen target_index sec
    obtain ⟨i1, i2⟩ := ih (bfd_mach_o_build_commands_section filelen target_index sec).2
      (target_index + 1)
      (done ++ [(bfd_mach_o_build_commands_section filelen target_index sec).1])
    rw [bfd_mach_o_build_commands_loop, i1, i2]
    simp [k1, k2, List.range'_succ]

/-- The lengths and offsets of the two commands, in `unsigned int` arithmetic. -/
theorem build_commands_lengths
    (mdata : bfd_mach_o_data_struct bfd_mach_o_object bfd_mach_o_command)
    (h0 : mdata.header.ncmds = 0) :
    (bfd_mach_o_build_commands mdata).2.commands.map (fun c => (c.type, c.offset, c.len))
      = [(if mach_o_wide_p mdata.header then BFD_MACH_O_LC_SEGMENT_64
            else BFD_MACH_O_LC_SEGMENT,
          if mach_o_wide_p mdata.header then BFD_MACH_O_HEADER_64_SIZE
            else BFD_MACH_O_HEADER_SIZE,
          if mach_o_wide_p mdata.header
            then u32 (BFD_MACH_O_LC_SEGMENT_64_SIZE
              + BFD_MACH_O_SECTION_64_SIZE * mdata.rest.sections.length)
            else u32 (BFD_MACH_O_LC_SEGMENT_SIZE
              + BFD_MACH_O_SECTION_SIZE * mdata.rest.sections.length)),
         (BFD_MACH_O_LC_SYMTAB,
          u32 ((if mach_o_wide_p mdata.header then BFD_MACH_O_HEADER_64_SIZE
              else BFD_MACH_O_HEADER_SIZE)
            + (if mach_o_wide_p mdata.header
              then u32 (BFD_MACH_O_LC_SEGMENT_64_SIZE
                + BFD_MACH_O_SECTION_64_SIZE * mdata.rest.sections.length)
              else u32 (BFD_MACH_O_LC_SEGMENT_SIZE
                + BFD_MACH_O_SECTION_SIZE * mdata.rest.sections.length))),
          24)] := by
  simp only [bfd_mach_o_build_commands, h0, ne_eq, not_true_eq_false, if_false,
    List.map_cons, List.map_nil]

/-- C20 (amended). For every object with no commands and `n` sections whose
command table ends below 2^32 (`28 + 56 + 68 n < 2^32` for the 32-bit form,
`32 + 72 + 80 n < 2^32` for the 64-bit form), `bfd_mach_o_build_commands`
succeeds and leaves exactly two commands.  Command 0 is `LC_SEGMENT` at offset
28 with length `56 + 68 n`, or `LC_SEGMENT_64` at offset 32 with length
`72 + 80 n`; its body is a segment with `nsects = n` whose section list is
the section list of the object, the same sections in the same order, with
target indices 1, ..., n.  Command 1 is `LC_SYMTAB` with length 24 at the
offset of command 0 plus its length, without a segment body.
`header.sizeofcmds` is the sum of the two lengths. -/
theorem C20_build_commands
    (mdata : bfd_mach_o_data_struct bfd_mach_o_object bfd_mach_o_command) (n : Nat)
    (hn : n = mdata.rest.sections.length)
    (h0 : mdata.header.ncmds = 0)
    (hfit : (if mach_o_wide_p mdata.header then 32 + (72 + 80 * n) else 28 + (56 + 68 * n))
      < 2 ^ 32) :
    (bfd_mach_o_build_commands mdata).1 = true
    ∧ (bfd_mach_o_build_commands mdata).2.header.ncmds = 2
    ∧ (bfd_mach_o_build_commands mdata).2.commands.map (fun c => (c.type, c.offset, c.len))
        = [(if mach_o_wide_p mdata.header then BFD_MACH_O_LC_SEGMENT_64
              else BFD_MACH_O_LC_SEGMENT,
            if mach_o_wide_p mdata.header then 32 else 28,
            if mach_o_wide_p mdata.header then 72 + 80 * n else 56 + 68 * n),
           (BFD_MACH_O_LC_SYMTAB,
            (if mach_o_wide_p mdata.header then 32 else 28)
              + (if mach_o_wide_p mdata.header then 72 + 80 * n else 56 + 68 * n),
            24)]
    ∧ (bfd_mach_o_build_commands mdata).2.commands.map
          (fun c => c.segment.map (fun seg => (seg.nsects, seg.sections)))
        = [some (n, (bfd_mach_o_build_commands mdata).2.rest.sections), none]
    ∧ (bfd_mach_o_build_commands mdata).2.rest.sections.map asection.kept
        = mdata.rest.sections.map asection.kept
    ∧ (bfd_mach_o_build_commands mdata).2.rest.sections.map (fun s => s.target_index)
        = List.range' 1 n
    ∧ (bfd_mach_o_build_commands mdata).2.header.sizeofcmds
        = (if mach_o_wide_p mdata.header then 72 + 80 * n else 56 + 68 * n) + 24 := by
  have hlens := build_commands_lengths mdata h0
  subst hn
  have hloop := fun filelen => build_commands_loop_spec mdata.rest.sections filelen 0 []
  cases hw : mach_o_wide_p mdata.header
  case true =>
    simp only [hw, if_true] at hfit hlens ⊢
    have e1 : u32 (BFD_MACH_O_LC_SEGMENT_64_SIZE
        + BFD_MACH_O_SECTION_64_SIZE * mdata.rest.sections.length)
        = 72 + 80 * mdata.rest.sections.length := by
      simp only [u32, BFD_MACH_O_LC_SEGMENT_64_SIZE, BFD_MACH_O_SECTION_64_SIZE]
      omega
    have e2 : u32 (BFD_MACH_O_HEADER_64_SIZE + (72 + 80 * mdata.rest.sections.length))
        = 32 + (72 + 80 * mdata.rest.sections.length) := by
      simp only [u32, BFD_MACH_O_HEADER_64_SIZE]
      omega
    rw [e1, e2] at hlens
    refine ⟨?_, ?_, hlens, ?_, ?_, ?_, ?_⟩
    · simp only [bfd_mach_o_build_commands, h0, ne_eq, not_true_eq_false, if_false]
    · simp only [bfd_mach_o_build_commands, h0, ne_eq, not_true_eq_false, if_false]
    · simp only [bfd_mach_o_build_commands, h0, ne_eq, not_true_eq_false, if_false,
        List.map_cons, List.map_nil, bfd_mach_o_load_command.segment, Option.map_some',
        Option.map_none']
    · simp only [bfd_mach_o_build_commands, h0, ne_eq, not_true_eq_false, if_false]
      simpa using (hloop _).1
    · simp only [bfd_mach_o_build_commands, h0, ne_eq, not_true_eq_false, if_false]
      simpa using (hloop _).2
    · simp only [bfd_mach_o_build_commands, h0, ne_eq, not_true_eq_false, if_false, hw,
        if_true, e1]
  case false =>
    simp only [hw, Bool.false_eq_true, if_false] at hfit hlens ⊢
    have e1 : u32 (BFD_MACH_O_LC_SEGMENT_SIZE
        + BFD_MACH_O_SECTION_SIZE * mdata.rest.sections.length)
        = 56 + 68 * mdata.rest.sections.length := by
      simp only [u32, BFD_MACH_O_LC_SEGMENT_SIZE, BFD_MACH_O_SECTION_SIZE]
      omega
    have e2 : u32 (BFD_MACH_O_HEADER_SIZE + (56 + 68 * mdata.rest.sections.length))
        = 28 + (56 + 68 * mdata.rest.sections.length) := by
      simp only [u32, BFD_MACH_O_HEADER_SIZE]
      omega
    rw [e1, e2] at hlens
    refine ⟨?_, ?_, hlens, ?_, ?_, ?_, ?_⟩
    · simp only [bfd_mach_o_build_commands, h0, ne_eq, not_true_eq_false, if_false]
    · simp only [bfd_mach_o_build_commands, h0, ne_eq, not_true_eq_false, if_false]
    · simp only [bfd_mach_o_build_commands, h0, ne_eq, not_true_eq_false, if_false,
        List.map_cons, List.map_nil, bfd_mach_o_load_command.segment, Option.map_some',
        Option.map_none']
    · simp only [bfd_mach_o_build_commands, h0, ne_eq, not_true_eq_false, if_false]
      simpa using (hloop _).1
    · simp only [bfd_mach_o_build_commands, h0, ne_eq, not_true_eq_false, if_false]
      simpa using (hloop _).2
    · simp only [bfd_mach_o_build_commands, h0, ne_eq, not_true_eq_false, if_false, hw,
        Bool.false_eq_true, e1]

theorem C20_build_commands_witness :
    (bfd_mach_o_build_commands
        ⟨⟨0xfeedface, 7, 3, 1, 0, 0, 0, 0, 1, .BFD_ENDIAN_BIG⟩, [],
          ⟨[bfd_make_section_anyway_with_flags (str ".text") (SEC_CODE ||| SEC_LOAD),
            bfd_make_section_anyway_with_flags (str ".data") (SEC_DATA ||| SEC_LOAD)],
           0⟩⟩).2.commands.map (fun c => (c.type, c.offset, c.len))
      = [(1, 28, 192), (2, 220, 24)] :=
  (C20_build_commands
    ⟨⟨0xfeedface, 7, 3, 1, 0, 0, 0, 0, 1, .BFD_ENDIAN_BIG⟩, [],
      ⟨[bfd_make_section_anyway_with_flags (str ".text") (SEC_CODE ||| SEC_LOAD),
        bfd_make_section_anyway_with_flags (str ".data") (SEC_DATA ||| SEC_LOAD)],
       0⟩⟩ 2 rfl rfl (by decide)).2.2.1

/-- C20, as stated, fails when the length of the segment command does not fit in
`unsigned int`: for a 32-bit object with 63161284 sections the length
`56 + 68 * 63161284 = 2^32 + 72` is stored as 72, and the symbol-table command
is placed at offset 100. -/
theorem C20_length_wraps_counterexample :
    (bfd_mach_o_build_commands
        ⟨⟨0xfeedface, 7, 3, 1, 0, 0, 0, 0, 1, .BFD_ENDIAN_BIG⟩, [],
          ⟨List.replicate 63161284
            (bfd_make_section_anyway_with_flags (str ".text") (SEC_CODE ||| SEC_LOAD)),
           0⟩⟩).2.commands.map (fun c => (c.type, c.offset, c.len))
      = [(BFD_MACH_O_LC_SEGMENT, 28, 72), (BFD_MACH_O_LC_SYMTAB, 100, 24)]
    ∧ 56 + 68 * 63161284 = 2 ^ 32 + 72 := by
  have key : ∀ secs : List asection, secs.length = 63161284 →
      (bfd_mach_o_build_commands
          ⟨⟨0xfeedface, 7, 3, 1, 0, 0, 0, 0, 1, .BFD_ENDIAN_BIG⟩, [],
            ⟨secs, 0⟩⟩).2.commands.map (fun c => (c.type, c.offset, c.len))
        = [(BFD_MACH_O_LC_SEGMENT, 28, 72), (BFD_MACH_O_LC_SYMTAB, 100, 24)] := by
    intro secs hl
    rw [build_commands_lengths _ rfl]
    dsimp only
    rw [hl]
    decide
  exact ⟨key _ (List.length_replicate _ _), by norm_num⟩

theorem bfd_getb32_drop_take (p : List Byte) (n k : Nat) (h : k + 4 ≤ n) :
    bfd_getb32 ((p.take n).drop k) = bfd_getb32 (p.drop k) :=
  bfd_h_get_32_drop_take .big p n k h

/-- The directory entry decoded from the 20 bytes at `8 + 20 * i`. -/
theorem archive_p_entries_spec (abfd : Stream) : ∀ (todo i : Nat)
    (done : List mach_o_fat_archentry), 8 + 20 * (i + todo) ≤ abfd.length →
    bfd_mach_o_archive_p_entries abfd todo i done
      = some (done ++ (List.range' i todo).map (fun k =>
          { cputype := bfd_getb32 (abfd.drop (8 + 20 * k))
            cpusubtype := bfd_getb32 (abfd.drop (8 + 20 * k + 4))
            offset := bfd_getb32 (abfd.drop (8 + 20 * k + 8))
            size := bfd_getb32 (abfd.drop (8 + 20 * k + 12))
            align := bfd_getb32 (abfd.drop (8 + 20 * k + 16)) })) := by
  intro todo
  induction todo with
  | zero => intro i done _; simp [bfd_mach_o_archive_p_entries]
  | succ n ih =>
    intro i done hlen
    have hrd : bfd_bread abfd (8 + 20 * i) 20 = some ((abfd.drop (8 + 20 * i)).take 20) := by
      rw [bfd_bread, if_pos (by omega)]
    rw [bfd_mach_o_archive_p_entries, hrd]
    dsimp only
    rw [ih (i + 1) _ (by omega)]
    have e0 : bfd_getb32 ((abfd.drop (8 + 20 * i)).take 20) = bfd_getb32 (abfd.drop (8 + 20 * i)) :=
      bfd_getb32_take _ _ (by omega)
    have e1 := bfd_getb32_drop_take (abfd.drop (8 + 20 * i)) 20 4 (by omega)
    have e2 := bfd_getb32_drop_take (abfd.drop (8 + 20 * i)) 20 8 (by omega)
    have e3 := bfd_getb32_drop_take (abfd.drop (8 + 20 * i)) 20 12 (by omega)
    have e4 := bfd_getb32_drop_take (abfd.drop (8 + 20 * i)) 20 16 (by omega)
    rw [List.drop_drop] at e1 e2 e3 e4
    rw [e0, e1, e2, e3, e4]
    simp [List.range'_succ, Nat.add_comm]

/-- C22. `bfd_mach_o_archive_p` rejects every stream whose first big-endian word
is not 0xcafebabe and every stream whose second big-endian word `nfat_arch`
exceeds 30, such as 31.  It accepts every stream with that magic,
`nfat_arch = n <= 30` and at least `8 + 20 n` bytes, and decodes entry `i` as
the five consecutive big-endian words `cputype`, `cpusubtype`, `offset`,
`size`, `align` starting at byte `8 + 20 i`. -/
theorem C22_archive_p (abfd : Stream) :
    (bfd_getb32 abfd ≠ 0xcafebabe → bfd_mach_o_archive_p abfd = none)
    ∧ (bfd_getb32 (abfd.drop 4) > 30 → bfd_mach_o_archive_p abfd = none)
    ∧ (bfd_getb32 (abfd.drop 4) = 31 → bfd_mach_o_archive_p abfd = none)
    ∧ (∀ n : Nat, bfd_getb32 abfd = 0xcafebabe → bfd_getb32 (abfd.drop 4) = n → n ≤ 30 →
        8 + 20 * n ≤ abfd.length →
        bfd_mach_o_archive_p abfd
          = some { magic := 0xcafebabe, nfat_arch := n
                   archentries := (List.range n).map (fun i =>
                     { cputype := bfd_getb32 (abfd.drop (8 + 20 * i))
                       cpusubtype := bfd_getb32 (abfd.drop (8 + 20 * i + 4))
                       offset := bfd_getb32 (abfd.drop (8 + 20 * i + 8))
                       size := bfd_getb32 (abfd.drop (8 + 20 * i + 12))
                       align := bfd_getb32 (abfd.drop (8 + 20 * i + 16)) }) }) := by
  have hhdr : ∀ hdr, bfd_bread abfd 0 8 = some hdr →
      bfd_getb32 hdr = bfd_getb32 abfd ∧ bfd_getb32 (hdr.drop 4) = bfd_getb32 (abfd.drop 4) := by
    intro hdr h
    unfold bfd_bread at h
    split at h
    · simp only [Option.some.injEq, List.drop_zero] at h
      rw [← h]
      exact ⟨bfd_getb32_take _ _ (by omega), bfd_getb32_drop_take _ 8 4 (by omega)⟩
    · exact absurd h (by simp)
  have hbig : bfd_getb32 (abfd.drop 4) > 30 → bfd_mach_o_archive_p abfd = none := by
    intro h
    unfold bfd_mach_o_archive_p
    cases hb : bfd_bread abfd 0 8 with
    | none => rfl
    | some hdr =>
      obtain ⟨e1, e2⟩ := hhdr hdr hb
      dsimp only
      rw [e1, e2]
      split
      · rfl
      · rfl
  refine ⟨fun h => ?_, hbig, fun h => hbig (by omega), fun n hm hn hle hlen => ?_⟩
  · unfold bfd_mach_o_archive_p
    cases hb : bfd_bread abfd 0 8 with
    | none => rfl
    | some hdr =>
      obtain ⟨e1, e2⟩ := hhdr hdr hb
      dsimp only
      rw [e1, if_pos h]
  · have hb : bfd_bread abfd 0 8 = some ((abfd.drop 0).take 8) := by
      rw [bfd_bread, if_pos (by omega)]
    obtain ⟨e1, e2⟩ := hhdr _ hb
    unfold bfd_mach_o_archive_p
    rw [hb]
    dsimp only
    rw [e1, e2, hm, hn, if_neg (by simp), if_neg (by omega),
      archive_p_entries_spec abfd n 0 [] (by omega)]
    simp [List.range_eq_range']

/-- C23. On a fat archive that is not itself of the requested format,
`bfd_mach_o_fat_extract` walks the directory in order.  When entry `i` is the
lowest-indexed entry whose `(cputype, cpusubtype)` converts to the requested
(architecture, machine) pair, the result is the member opened at that entry's
byte offset if the member passes the format check, and `NULL` if it fails the
check, even when a later entry matches as well.  When no entry matches the
result is `NULL`. -/
theorem C23_fat_extract (check_format : Nat → Bool) (adata : mach_o_fat_data_struct)
    (arch : bfd_architecture × bfd_machine) (is_arch : Bool) :
    (∀ (i : Nat) (e : mach_o_fat_archentry), adata.archentries[i]? = some e →
      bfd_mach_o_convert_architecture e.cputype e.cpusubtype = arch →
      (∀ (j : Nat) (e1 : mach_o_fat_archentry), j < i → adata.archentries[j]? = some e1 →
        bfd_mach_o_convert_architecture e1.cputype e1.cpusubtype ≠ arch) →
      bfd_mach_o_fat_extract false is_arch true check_format adata arch
        = if check_format e.offset then .member e.offset else .NULL)
    ∧ ((∀ e ∈ adata.archentries,
        bfd_mach_o_convert_architecture e.cputype e.cpusubtype ≠ arch) →
      bfd_mach_o_fat_extract false is_arch true check_format adata arch = .NULL) := by
  have hne : ∀ e : mach_o_fat_archentry,
      ((bfd_mach_o_convert_architecture e.cputype e.cpusubtype).1 ≠ arch.1
        ∨ (bfd_mach_o_convert_architecture e.cputype e.cpusubtype).2 ≠ arch.2)
      ↔ bfd_mach_o_convert_architecture e.cputype e.cpusubtype ≠ arch := by
    intro e
    rw [Ne, Ne, Ne, Prod.ext_iff]
    tauto
  have hloop : ∀ (l : List mach_o_fat_archentry),
      (∀ (i : Nat) (e : mach_o_fat_archentry), l[i]? = some e →
        bfd_mach_o_convert_architecture e.cputype e.cpusubtype = arch →
        (∀ (j : Nat) (e1 : mach_o_fat_archentry), j < i → l[j]? = some e1 →
          bfd_mach_o_convert_architecture e1.cputype e1.cpusubtype ≠ arch) →
        bfd_mach_o_fat_extract_loop check_format arch l
          = if check_format e.offset then .member e.offset else .NULL)
      ∧ ((∀ e ∈ l, bfd_mach_o_convert_architecture e.cputype e.cpusubtype ≠ arch) →
        bfd_mach_o_fat_extract_loop check_format arch l = .NULL) := by
    intro l
    induction l with
    | nil =>
      refine ⟨fun i e h => ?_, fun _ => rfl⟩
      simp at h
    | cons a rest ih =>
      refine ⟨fun i e hi hm hfirst => ?_, fun hall => ?_⟩
      · cases i with
        | zero =>
          simp only [List.getElem?_cons_zero, Option.some.injEq] at hi
          subst hi
          rw [bfd_mach_o_fat_extract_loop, if_neg (fun h => (hne a).mp h hm)]
        | succ k =>
          simp only [List.getElem?_cons_succ] at hi
          have ha := hfirst 0 a (Nat.succ_pos k) (by simp)
          rw [bfd_mach_o_fat_extract_loop, if_pos ((hne a).mpr ha)]
          apply ih.1 k e hi hm
          intro j e1 hj hje
          exact hfirst (j + 1) e1 (Nat.succ_lt_succ hj) (by simpa using hje)
      · have ha := hall a (List.mem_cons_self a rest)
        rw [bfd_mach_o_fat_extract_loop, if_pos ((hne a).mpr ha)]
        exact ih.2 (fun e he => hall e (List.mem_cons_of_mem a he))
  simp only [bfd_mach_o_fat_extract, Bool.false_eq_true, if_false, Bool.not_true]
  exact hloop adata.archentries

theorem C22_archive_p_witness :
    bfd_mach_o_archive_p (be_words [0xcafebabe, 1, 7, 3, 0x1000, 0x2000, 12])
        = some { magic := 0xcafebabe, nfat_arch := 1
                 archentries := [{ cputype := 7, cpusubtype := 3, offset := 0x1000
                                   size := 0x2000, align := 12 }] }
    ∧ bfd_mach_o_archive_p (be_words [0xcafebabe, 31]) = none
    ∧ bfd_mach_o_archive_p (be_words [0xcafebabf, 1, 7, 3, 0x1000, 0x2000, 12]) = none :=
  ⟨((C22_archive_p (be_words [0xcafebabe, 1, 7, 3, 0x1000, 0x2000, 12])).2.2.2 1
      (by decide) (by decide) (by decide) (by decide)).trans (by decide),
    (C22_archive_p (be_words [0xcafebabe, 31])).2.2.1 (by decide),
    (C22_archive_p (be_words [0xcafebabf, 1, 7, 3, 0x1000, 0x2000, 12])).1 (by decide)⟩

theorem C23_fat_extract_witness :
    bfd_mach_o_fat_extract false false true (fun origin => origin == 0x3000)
        { magic := 0xcafebabe, nfat_arch := 3
          archentries := [{ cputype := 18, cpusubtype := 0, offset := 0x1000, size := 16, align := 12 },
                          { cputype := 7, cpusubtype := 3, offset := 0x2000, size := 16, align := 12 },
                          { cputype := 7, cpusubtype := 3, offset := 0x3000, size := 16, align := 12 }] }
        (bfd_mach_o_convert_architecture 7 3) = .NULL
    ∧ bfd_mach_o_fat_extract false false true (fun origin => origin == 0x2000)
        { magic := 0xcafebabe, nfat_arch := 3
          archentries := [{ cputype := 18, cpusubtype := 0, offset := 0x1000, size := 16, align := 12 },
                          { cputype := 7, cpusubtype := 3, offset := 0x2000, size := 16, align := 12 },
                          { cputype := 7, cpusubtype := 3, offset := 0x3000, size := 16, align := 12 }] }
        (bfd_mach_o_convert_architecture 7 3) = .member 0x2000 :=
  ⟨((C23_fat_extract (fun origin => origin == 0x3000) _ (bfd_mach_o_convert_architecture 7 3)
        false).1 1 { cputype := 7, cpusubtype := 3, offset := 0x2000, size := 16, align := 12 }
        (by decide) (by decide)
        (by
          intro j e1 hj hje
          obtain rfl : j = 0 := by omega
          simp only [List.getElem?_cons_zero, Option.some.injEq] at hje
          subst hje
          decide)).trans (by decide),
    ((C23_fat_extract (fun origin => origin == 0x2000) _ (bfd_mach_o_convert_architecture 7 3)
        false).1 1 { cputype := 7, cpusubtype := 3, offset := 0x2000, size := 16, align := 12 }
        (by decide) (by decide)
        (by
          intro j e1 hj hje
          obtain rfl : j = 0 := by omega
          simp only [List.getElem?_cons_zero, Option.some.injEq] at hje
          subst hje
          decide)).trans (by decide)⟩

/-- C26 (amended). `bfd_mach_o_scan` never compares the header field `sizeofcmds`
with the commands it decodes.  For readers whose start-address walk does not
look at that field (the source walk reads `header.cputype` only), the scan of
an image whose header says `sizeofcmds = x` succeeds exactly when the scan
with any other value succeeds, and decodes the same flags, commands and
object data; after a successful scan `header.sizeofcmds` is the value the
header came with. -/
theorem C26_scan_ignores_sizeofcmds {σ P : Type} (R : bfd_mach_o_readers σ P)
    (xvec : bfd_target) (abfd : Stream) (flags : bfd_flags) (header : bfd_mach_o_header)
    (mdata : σ) (x : Nat)
    (hR : ∀ (cmd : bfd_mach_o_load_command P) (m : σ),
      R.thread_start_address abfd { header with sizeofcmds := x } cmd m
        = R.thread_start_address abfd header cmd m) :
    bfd_mach_o_scan R xvec abfd flags { header with sizeofcmds := x } mdata
      = (bfd_mach_o_scan R xvec abfd flags header mdata).map
          (fun r => (r.1, { r.2 with header := { r.2.header with sizeofcmds := x } }))
    ∧ ∀ r, bfd_mach_o_scan R xvec abfd flags header mdata = some r →
        r.2.header.sizeofcmds = header.sizeofcmds := by
  have hst : ∀ cmds m, bfd_mach_o_scan_start_address R abfd { header with sizeofcmds := x }
      cmds m = bfd_mach_o_scan_start_address R abfd header cmds m := by
    intro cmds m
    unfold bfd_mach_o_scan_start_address
    split
    · exact hR _ _
    · rfl
  constructor
  · have hw : mach_o_wide_p { header with sizeofcmds := x } = mach_o_wide_p header := rfl
    unfold bfd_mach_o_scan
    simp only [hw, hst]
    split
    · rfl
    · generalize bfd_mach_o_scan_commands R xvec abfd
          (if mach_o_wide_p header = true then BFD_MACH_O_HEADER_64_SIZE
            else BFD_MACH_O_HEADER_SIZE) header.ncmds [] mdata = sc
      cases sc with
      | none => rfl
      | some r =>
        obtain ⟨commands, m⟩ := r
        dsimp only
        cases bfd_mach_o_scan_start_address R abfd header commands m with
        | none => rfl
        | some m1 => rfl
  · intro r hr
    unfold bfd_mach_o_scan at hr
    dsimp only at hr
    split at hr
    · exact absurd hr (by simp)
    · split at hr
      · exact absurd hr (by simp)
      · split at hr
        · exact absurd hr (by simp)
        · simp only [Option.some.injEq] at hr
          rw [← hr]

theorem C26_scan_ignores_sizeofcmds_witness :
    bfd_mach_o_scan bfd_mach_o_no_readers .big
        (be_words [0xfeedface, 7, 3, 1, 2, 16, 0, 3, 8, 0x80000030, 8])
        ⟨false, false, false, false⟩
        { (⟨0xfeedface, 7, 3, 1, 2, 16, 0, 0, 1, .BFD_ENDIAN_BIG⟩ : bfd_mach_o_header) with
          sizeofcmds := 99 } ()
      = (bfd_mach_o_scan bfd_mach_o_no_readers .big
          (be_words [0xfeedface, 7, 3, 1, 2, 16, 0, 3, 8, 0x80000030, 8])
          ⟨false, false, false, false⟩
          ⟨0xfeedface, 7, 3, 1, 2, 16, 0, 0, 1, .BFD_ENDIAN_BIG⟩ ()).map
          (fun r => (r.1, { r.2 with header := { r.2.header with sizeofcmds := 99 } })) :=
  (C26_scan_ignores_sizeofcmds bfd_mach_o_no_readers .big
    (be_words [0xfeedface, 7, 3, 1, 2, 16, 0, 3, 8, 0x80000030, 8])
    ⟨false, false, false, false⟩
    ⟨0xfeedface, 7, 3, 1, 2, 16, 0, 0, 1, .BFD_ENDIAN_BIG⟩ () 99 (fun _ _ => rfl)).1

/-- C26, as stated, fails: in this 44-byte image the header announces two commands
and `sizeofcmds = 99`, the two commands have length 8 each, and
`bfd_mach_o_scan` succeeds, leaving `header.sizeofcmds = 99` next to commands
whose lengths add up to 16. -/
theorem C26_sizeofcmds_unchecked_counterexample :
    (bfd_mach_o_scan bfd_mach_o_no_readers .big
        (be_words [0xfeedface, 7, 3, 1, 2, 99, 0, 3, 8, 0x80000030, 8])
        ⟨false, false, false, false⟩
        (bfd_mach_o_read_header
          (be_words [0xfeedface, 7, 3, 1, 2, 99, 0, 3, 8, 0x80000030, 8])
          ⟨0, 0, 0, 0, 0, 0, 0, 0, 0, .BFD_ENDIAN_UNKNOWN⟩).2 ()).map
      (fun r => (r.2.header.ncmds, r.2.header.sizeofcmds, r.2.commands.map (fun c => c.len)))
      = some (2, 99, [8, 8])
    ∧ ([8, 8] : List Nat).sum = 16 := by
  decide

theorem read_symtab_strtab_again (abfd : Stream) (flags : bfd_flags)
    (symtab : Option bfd_mach_o_symtab_command) :
    (bfd_mach_o_read_symtab_strtab abfd flags
        (bfd_mach_o_read_symtab_strtab abfd flags symtab).2).2
      = (bfd_mach_o_read_symtab_strtab abfd flags symtab).2
    ∧ (bfd_mach_o_read_symtab_strtab abfd flags
        (bfd_mach_o_read_symtab_strtab abfd flags symtab).2).1
      = (((bfd_mach_o_read_symtab_strtab abfd flags symtab).2).bind
          (fun sym => sym.strtab)).isSome
    ∧ ((bfd_mach_o_read_symtab_strtab abfd flags symtab).1 = true →
        bfd_mach_o_read_symtab_strtab abfd flags
            (bfd_mach_o_read_symtab_strtab abfd flags symtab).2
          = bfd_mach_o_read_symtab_strtab abfd flags symtab) := by
  cases symtab with
  | none => simp [bfd_mach_o_read_symtab_strtab]
  | some sym =>
    cases hs : sym.strtab with
    | some st => simp [bfd_mach_o_read_symtab_strtab, hs]
    | none =>
      by_cases hm : flags.BFD_IN_MEMORY = true
      · by_cases hsz : u32 (sym.stroff + sym.strsize) > abfd.length
        · simp [bfd_mach_o_read_symtab_strtab, hs, hm, hsz]
        · simp [bfd_mach_o_read_symtab_strtab, hs, hm, hsz]
      · cases hb : bfd_bread abfd sym.stroff sym.strsize with
        | none => simp [bfd_mach_o_read_symtab_strtab, hs, hm, hb]
        | some buf => simp [bfd_mach_o_read_symtab_strtab, hs, hm, hb]

theorem read_symtab_symbols_allocated (xvec : bfd_target) (abfd : Stream) (flags : bfd_flags)
    (header : bfd_mach_o_header) (sections : List bfd_mach_o_section)
    (symtab : Option bfd_mach_o_symtab_command) :
    (bfd_mach_o_read_symtab_symbols xvec abfd flags header sections symtab).2 = none
    ∨ ∃ sym syms, (bfd_mach_o_read_symtab_symbols xvec abfd flags header sections symtab).2
        = some sym ∧ sym.symbols = some syms := by
  cases symtab with
  | none => left; rfl
  | some sym =>
    right
    cases hs : sym.symbols with
    | some syms => exact ⟨sym, syms, by simp [bfd_mach_o_read_symtab_symbols, hs], hs⟩
    | none =>
      unfold bfd_mach_o_read_symtab_symbols
      simp only [hs]
      rcases hst : bfd_mach_o_read_symtab_strtab abfd flags
          (some { sym with symbols := some [] }) with ⟨ok, r⟩
      cases r with
      | none => cases ok <;> exact ⟨_, _, rfl, rfl⟩
      | some sym1 =>
        cases ok with
        | false =>
          exact ⟨sym1, [], rfl, (read_symtab_strtab_fields abfd flags _ sym1 false hst).2.2.2⟩
        | true =>
          dsimp only
          exact ⟨_, _, rfl, rfl⟩

/-- A second consecutive call of the lazy loaders, for every state.  A second
call of `bfd_mach_o_read_symtab_symbols` changes neither the symbol array nor
the string table and returns 0 whatever the first call returned, so it
repeats the result of a first call that succeeded.  A second call of
`bfd_mach_o_read_symtab_strtab` changes nothing either, returns 0 exactly when
the first call left a string-table pointer behind, and repeats the result of
a first call that succeeded. -/
theorem read_symtab_symbols_again (xvec : bfd_target) (abfd : Stream) (flags : bfd_flags)
    (header : bfd_mach_o_header) (sections : List bfd_mach_o_section)
    (symtab : Option bfd_mach_o_symtab_command) :
    bfd_mach_o_read_symtab_symbols xvec abfd flags header sections
        (bfd_mach_o_read_symtab_symbols xvec abfd flags header sections symtab).2
      = (true, (bfd_mach_o_read_symtab_symbols xvec abfd flags header sections symtab).2)
    ∧ ((bfd_mach_o_read_symtab_symbols xvec abfd flags header sections symtab).1 = true →
        bfd_mach_o_read_symtab_symbols xvec abfd flags header sections
            (bfd_mach_o_read_symtab_symbols xvec abfd flags header sections symtab).2
          = bfd_mach_o_read_symtab_symbols xvec abfd flags header sections symtab)
    ∧ (bfd_mach_o_read_symtab_strtab abfd flags
        (bfd_mach_o_read_symtab_strtab abfd flags symtab).2).2
      = (bfd_mach_o_read_symtab_strtab abfd flags symtab).2
    ∧ (bfd_mach_o_read_symtab_strtab abfd flags
        (bfd_mach_o_read_symtab_strtab abfd flags symtab).2).1
      = (((bfd_mach_o_read_symtab_strtab abfd flags symtab).2).bind
          (fun sym => sym.strtab)).isSome
    ∧ ((bfd_mach_o_read_symtab_strtab abfd flags symtab).1 = true →
        bfd_mach_o_read_symtab_strtab abfd flags
            (bfd_mach_o_read_symtab_strtab abfd flags symtab).2
          = bfd_mach_o_read_symtab_strtab abfd flags symtab) := by
  have h2 : bfd_mach_o_read_symtab_symbols xvec abfd flags header sections
        (bfd_mach_o_read_symtab_symbols xvec abfd flags header sections symtab).2
      = (true, (bfd_mach_o_read_symtab_symbols xvec abfd flags header sections symtab).2) := by
    rcases read_symtab_symbols_allocated xvec abfd flags header sections symtab with h | h
    · rw [h]
      rfl
    · obtain ⟨sym, syms, e1, e2⟩ := h
      rw [e1]
      simp only [bfd_mach_o_read_symtab_symbols, e2]
  refine ⟨h2, fun h1 => ?_, read_symtab_strtab_again abfd flags symtab⟩
  rw [h2]
  exact Prod.ext h1.symm rfl

/-- C27 (the code at the failing inputs). A failed load is not repeated.  The
symbol table names a string table of 4 bytes at offset 12 of a 12-byte file:
the first call of `bfd_mach_o_read_symtab_strtab` allocates the table, fails
to read it and leaves the pointer set, and the second call returns 0 although
no string table was loaded; the first call of
`bfd_mach_o_read_symtab_symbols` fails for the same reason and the second
returns 0 with an empty symbol array.  With a readable string table and a
symbol whose name offset 9 is out of range the first call of
`bfd_mach_o_read_symtab_symbols` fails and the second returns 0 as well. -/
theorem C27_failed_load_not_repeated :
    (bfd_mach_o_read_symtab_strtab (be_words [0, 0x01000000, 0]) ⟨false, false, false, false⟩
        (some ⟨0, 1, 12, 4, none, none⟩)).1 = false
    ∧ (bfd_mach_o_read_symtab_strtab (be_words [0, 0x01000000, 0]) ⟨false, false, false, false⟩
        (bfd_mach_o_read_symtab_strtab (be_words [0, 0x01000000, 0])
          ⟨false, false, false, false⟩ (some ⟨0, 1, 12, 4, none, none⟩)).2).1 = true
    ∧ (bfd_mach_o_read_symtab_symbols .big (be_words [0, 0x01000000, 0])
        ⟨false, false, false, false⟩
        ⟨0xfeedface, 7, 3, 1, 0, 0, 0, 0, 1, .BFD_ENDIAN_BIG⟩ []
        (some ⟨0, 1, 12, 4, none, none⟩)).1 = false
    ∧ (bfd_mach_o_read_symtab_symbols .big (be_words [0, 0x01000000, 0])
        ⟨false, false, false, false⟩
        ⟨0xfeedface, 7, 3, 1, 0, 0, 0, 0, 1, .BFD_ENDIAN_BIG⟩ []
        (bfd_mach_o_read_symtab_symbols .big (be_words [0, 0x01000000, 0])
          ⟨false, false, false, false⟩
          ⟨0xfeedface, 7, 3, 1, 0, 0, 0, 0, 1, .BFD_ENDIAN_BIG⟩ []
          (some ⟨0, 1, 12, 4, none, none⟩)).2).1 = true
    ∧ (bfd_mach_o_read_symtab_symbols .big (be_words [9, 0x01000000, 0] ++ [0, 0x66, 0x6f, 0])
        ⟨false, false, false, false⟩
        ⟨0xfeedface, 7, 3, 1, 0, 0, 0, 0, 1, .BFD_ENDIAN_BIG⟩ []
        (some ⟨0, 1, 12, 4, none, none⟩)).1 = false
    ∧ (bfd_mach_o_read_symtab_symbols .big (be_words [9, 0x01000000, 0] ++ [0, 0x66, 0x6f, 0])
        ⟨false, false, false, false⟩
        ⟨0xfeedface, 7, 3, 1, 0, 0, 0, 0, 1, .BFD_ENDIAN_BIG⟩ []
        (bfd_mach_o_read_symtab_symbols .big
          (be_words [9, 0x01000000, 0] ++ [0, 0x66, 0x6f, 0])
          ⟨false, false, false, false⟩
          ⟨0xfeedface, 7, 3, 1, 0, 0, 0, 0, 1, .BFD_ENDIAN_BIG⟩ []
          (some ⟨0, 1, 12, 4, none, none⟩)).2).1 = true := by
  decide

/-! ## The symbol-table and dynamic-symbol-table commands -/

/-- A table loop of `bfd_mach_o_read_dysymtab` that succeeds has decoded the
`todo` consecutive records of `len` bytes that start at `pos`. -/
theorem read_dysymtab_table_spec {α : Type} (abfd : Stream) (len : Nat)
    (decode : List Byte → α) : ∀ (todo pos : Nat) (done r : List α),
    bfd_mach_o_read_dysymtab_table abfd len decode todo pos done = some r →
    r = done ++ (List.range todo).map
      (fun i => decode ((abfd.drop (pos + len * i)).take len)) := by
  intro todo
  induction todo with
  | zero =>
    intro pos done r h
    simp only [bfd_mach_o_read_dysymtab_table, Option.some.injEq] at h
    simp [h]
  | succ n ih =>
    intro pos done r h
    rw [bfd_mach_o_read_dysymtab_table] at h
    split at h
    · exact absurd h (by simp)
    · rename_i buf hb
      have hbuf : buf = (abfd.drop pos).take len := by
        unfold bfd_bread at hb
        split at hb
        · exact (Option.some.inj hb).symm
        · exact absurd hb (by simp)
      rw [ih _ _ _ h, hbuf, List.range_succ_eq_map, List.append_assoc]
      simp only [List.singleton_append, List.map_cons, List.map_map, Nat.mul_zero,
        Nat.add_zero]
      congr 2
      apply List.map_congr_left
      intro i _
      simp only [Function.comp, Nat.mul_succ]
      rw [show pos + len + len * i = pos + (len * i + len) by omega]

/-- A table loop of `bfd_mach_o_read_dysymtab` succeeds when the file holds the
`todo` records. -/
theorem read_dysymtab_table_some {α : Type} (abfd : Stream) (len : Nat)
    (decode : List Byte → α) : ∀ (todo pos : Nat) (done : List α),
    pos + len * todo ≤ abfd.length →
    (bfd_mach_o_read_dysymtab_table abfd len decode todo pos done).isSome = true := by
  intro todo
  induction todo with
  | zero => intro pos done _; rfl
  | succ n ih =>
    intro pos done h
    have hle : pos + len ≤ abfd.length := by
      rw [Nat.mul_succ] at h
      omega
    rw [bfd_mach_o_read_dysymtab_table, bfd_bread, if_pos hle]
    apply ih
    rw [Nat.mul_succ] at h
    omega

/-- What a successful `bfd_mach_o_read_dysymtab` has done: `mdata->dysymtab` was
null and now refers to the decoded body, nothing else of the object data has
changed, and the indirect-symbol and external-reference tables hold the
decoded records of the file. -/
theorem read_dysymtab_some {τ : Type} (xvec : bfd_target) (wide : Bool) (abfd : Stream)
    (command : bfd_mach_o_load_command bfd_mach_o_command)
    (mdata m : bfd_mach_o_symtab_data τ) (body : bfd_mach_o_command)
    (h : bfd_mach_o_read_dysymtab xvec wide abfd command mdata = some (body, m)) :
    mdata.dysymtab = none ∧ ∃ cmd, body = .dysymtab cmd
      ∧ m = { mdata with dysymtab := some cmd }
      ∧ cmd.indirect_syms = (List.range cmd.nindirectsyms).map
          (fun i => bfd_h_get_32 xvec ((abfd.drop (cmd.indirectsymoff + 4 * i)).take 4))
      ∧ cmd.ext_refs = (List.range cmd.nextrefsyms).map
          (fun i => bfd_mach_o_read_dysymtab_ext_ref xvec
            (bfd_h_get_32 xvec ((abfd.drop (cmd.extrefsymoff + 4 * i)).take 4))) := by
  unfold bfd_mach_o_read_dysymtab at h
  split at h
  · exact absurd h (by simp)
  · rename_i raw hraw
    dsimp only at h
    split at h
    · exact absurd h (by simp)
    · rename_i dm hdm
      split at h
      · exact absurd h (by simp)
      · rename_i toc htoc
        split at h
        · exact absurd h (by simp)
        · rename_i isyms hisyms
          split at h
          · exact absurd h (by simp)
          · rename_i refs hrefs
            split at h
            · exact absurd h (by simp)
            · rename_i hnone
              simp only [Option.some.injEq, Prod.mk.injEq] at h
              obtain ⟨rfl, rfl⟩ := h
              refine ⟨by simpa using hnone, _, rfl, rfl, ?_, ?_⟩
              · dsimp only
                split at hisyms
                · rw [read_dysymtab_table_spec _ _ _ _ _ _ _ hisyms]
                  rfl
                · rename_i h0
                  simp only [ne_eq, Decidable.not_not] at h0
                  simp only [Option.some.injEq] at hisyms
                  rw [← hisyms, h0]
                  rfl
              · dsimp only
                split at hrefs
                · rw [read_dysymtab_table_spec _ _ _ _ _ _ _ hrefs]
                  rfl
                · rename_i h0
                  simp only [ne_eq, Decidable.not_not] at h0
                  simp only [Option.some.injEq] at hrefs
                  rw [← hrefs, h0]
                  rfl

/-- What a successful `bfd_mach_o_read_symtab` has done: `mdata->symtab` was null
and now refers to the decoded body, `mdata->dysymtab` is unchanged. -/
theorem read_symtab_some {τ : Type} (xvec : bfd_target) (abfd : Stream)
    (command : bfd_mach_o_load_command bfd_mach_o_command)
    (mdata m : bfd_mach_o_symtab_data τ) (body : bfd_mach_o_command)
    (h : bfd_mach_o_read_symtab xvec abfd command mdata = some (body, m)) :
    mdata.symtab = none ∧ m.dysymtab = mdata.dysymtab
      ∧ ∃ sym, body = .symtab sym ∧ m.symtab = some sym := by
  unfold bfd_mach_o_read_symtab at h
  split at h
  · exact absurd h (by simp)
  · rename_i raw hraw
    dsimp only at h
    split at h <;>
    · split at h
      · exact absurd h (by simp)
      · rename_i hnone
        simp only [Option.some.injEq, Prod.mk.injEq] at h
        obtain ⟨rfl, rfl⟩ := h
        exact ⟨by simpa using hnone, rfl, _, rfl, rfl⟩

theorem and_mask_8 (x : Nat) : x &&& 0xff = x % 2 ^ 8 :=
  Nat.and_pow_two_sub_one_eq_mod x 8

/-- The bit-field layout of one external reference. -/
theorem read_dysymtab_ext_ref_spec (xvec : bfd_target) (v : Nat) (hv : v < 2 ^ 32) :
    (bfd_big_endian xvec = true →
      (bfd_mach_o_read_dysymtab_ext_ref xvec v).isym = v >>> 8
      ∧ (bfd_mach_o_read_dysymtab_ext_ref xvec v).flags = v % 2 ^ 8
      ∧ v = ((bfd_mach_o_read_dysymtab_ext_ref xvec v).isym <<< 8)
            ||| (bfd_mach_o_read_dysymtab_ext_ref xvec v).flags)
    ∧ (bfd_big_endian xvec = false →
      (bfd_mach_o_read_dysymtab_ext_ref xvec v).isym = v % 2 ^ 24
      ∧ (bfd_mach_o_read_dysymtab_ext_ref xvec v).flags = v >>> 24
      ∧ v = ((bfd_mach_o_read_dysymtab_ext_ref xvec v).flags <<< 24)
            ||| (bfd_mach_o_read_dysymtab_ext_ref xvec v).isym)
    ∧ (bfd_mach_o_read_dysymtab_ext_ref xvec v).isym < 2 ^ 24
    ∧ (bfd_mach_o_read_dysymtab_ext_ref xvec v).flags < 2 ^ 8 := by
  have hb : ∀ a b : Nat, b < 2 ^ 8 → (a <<< 8) ||| b = a * 2 ^ 8 + b := by
    intro a b hb
    rw [Nat.shiftLeft_eq, Nat.lor_comm, or_mul_two_pow b a 8 hb, Nat.add_comm]
  have hl : ∀ a b : Nat, b < 2 ^ 24 → (a <<< 24) ||| b = a * 2 ^ 24 + b := by
    intro a b hb
    rw [Nat.shiftLeft_eq, Nat.lor_comm, or_mul_two_pow b a 24 hb, Nat.add_comm]
  cases hbe : bfd_big_endian xvec
  · have e1 : (bfd_mach_o_read_dysymtab_ext_ref xvec v).isym = v % 2 ^ 24 := by
      simp only [bfd_mach_o_read_dysymtab_ext_ref, hbe, Bool.false_eq_true, if_false,
        and_mask_24]
    have e2 : (bfd_mach_o_read_dysymtab_ext_ref xvec v).flags = v / 2 ^ 24 % 2 ^ 8 := by
      simp only [bfd_mach_o_read_dysymtab_ext_ref, hbe, Bool.false_eq_true, if_false,
        and_mask_8, Nat.shiftRight_eq_div_pow]
    rw [e1, e2, Nat.shiftRight_eq_div_pow, Nat.shiftRight_eq_div_pow,
      hl _ _ (Nat.mod_lt _ (by norm_num))]
    refine ⟨fun h => absurd h (by simp), fun _ => ⟨rfl, ?_, ?_⟩, ?_, ?_⟩
    · omega
    · omega
    · omega
    · omega
  · have e1 : (bfd_mach_o_read_dysymtab_ext_ref xvec v).isym = v / 2 ^ 8 % 2 ^ 24 := by
      simp only [bfd_mach_o_read_dysymtab_ext_ref, hbe, if_true,
        and_mask_24, Nat.shiftRight_eq_div_pow]
    have e2 : (bfd_mach_o_read_dysymtab_ext_ref xvec v).flags = v % 2 ^ 8 := by
      simp only [bfd_mach_o_read_dysymtab_ext_ref, hbe, if_true, and_mask_8]
    rw [e1, e2, Nat.shiftRight_eq_div_pow, Nat.shiftRight_eq_div_pow,
      hb _ _ (Nat.mod_lt _ (by norm_num))]
    refine ⟨fun _ => ⟨?_, rfl, ?_⟩, fun h => absurd h (by simp), ?_, ?_⟩
    · omega
    · omega
    · omega
    · omega

/-- C29. In the body that `bfd_mach_o_read_dysymtab` decodes, external reference
`i` comes from the 32-bit word `v` read in the byte order of the file at
`extrefsymoff + 4 i`.  For a big-endian file `isym` is the high 24 bits
`v >> 8` and `flags` the low 8 bits; for a little-endian file `isym` is the
low 24 bits and `flags` the high 8 bits `v >> 24`.  In both cases
`isym < 2^24`, `flags < 2^8`, and `v` is recovered as `(isym << 8) | flags`,
respectively `(flags << 24) | isym`. -/
theorem C29_ext_ref_decode {τ : Type} (xvec : bfd_target) (wide : Bool) (abfd : Stream)
    (command : bfd_mach_o_load_command bfd_mach_o_command)
    (mdata m : bfd_mach_o_symtab_data τ) (cmd : bfd_mach_o_dysymtab_command)
    (h : bfd_mach_o_read_dysymtab xvec wide abfd command mdata = some (.dysymtab cmd, m))
    (i : Nat) (hi : i < cmd.nextrefsyms) :
    ∃ ref, cmd.ext_refs[i]? = some ref
      ∧ (bfd_big_endian xvec = true →
          ref.isym = bfd_h_get_32 xvec (abfd.drop (cmd.extrefsymoff + 4 * i)) >>> 8
          ∧ ref.flags = bfd_h_get_32 xvec (abfd.drop (cmd.extrefsymoff + 4 * i)) % 2 ^ 8
          ∧ bfd_h_get_32 xvec (abfd.drop (cmd.extrefsymoff + 4 * i))
              = (ref.isym <<< 8) ||| ref.flags)
      ∧ (bfd_big_endian xvec = false →
          ref.isym = bfd_h_get_32 xvec (abfd.drop (cmd.extrefsymoff + 4 * i)) % 2 ^ 24
          ∧ ref.flags = bfd_h_get_32 xvec (abfd.drop (cmd.extrefsymoff + 4 * i)) >>> 24
          ∧ bfd_h_get_32 xvec (abfd.drop (cmd.extrefsymoff + 4 * i))
              = (ref.flags <<< 24) ||| ref.isym)
      ∧ ref.isym < 2 ^ 24 ∧ ref.flags < 2 ^ 8 := by
  obtain ⟨-, cmd1, hc, -, -, hrefs⟩ := read_dysymtab_some xvec wide abfd command mdata m _ h
  simp only [bfd_mach_o_command.dysymtab.injEq] at hc
  subst hc
  have htk : bfd_h_get_32 xvec ((abfd.drop (cmd.extrefsymoff + 4 * i)).take 4)
      = bfd_h_get_32 xvec (abfd.drop (cmd.extrefsymoff + 4 * i)) := by
    have := bfd_h_get_32_drop_take xvec (abfd.drop (cmd.extrefsymoff + 4 * i)) 4 0 (by omega)
    simpa using this
  refine ⟨bfd_mach_o_read_dysymtab_ext_ref xvec
    (bfd_h_get_32 xvec (abfd.drop (cmd.extrefsymoff + 4 * i))), ?_, ?_⟩
  · rw [hrefs, List.getElem?_map, List.getElem?_range hi, Option.map_some', htk]
  · exact read_dysymtab_ext_ref_spec xvec _ (bfd_h_get_32_lt xvec _)

set_option maxRecDepth 100000 in
theorem C29_ext_ref_decode_witness :
    bfd_mach_o_read_dysymtab .big false
        (be_words [0xb, 80, 0, 0, 0, 0, 0, 0, 0, 0, 0, 0, 80, 1, 0, 0, 0, 0, 0, 0, 0x12345678])
        { type := 0xb, type_required := false, offset := 0, len := 80, command := none }
        { symtab := none, dysymtab := none, HAS_SYMS := false, rest := () }
      = some (.dysymtab ⟨0, 0, 0, 0, 0, 0, 0, 0, 0, 0, 80, 1, 0, 0, 0, 0, 0, 0, [], [], [],
            [⟨0x123456, 0x78⟩]⟩,
          { symtab := none
            dysymtab := some ⟨0, 0, 0, 0, 0, 0, 0, 0, 0, 0, 80, 1, 0, 0, 0, 0, 0, 0, [], [], [],
              [⟨0x123456, 0x78⟩]⟩
            HAS_SYMS := false, rest := () })
    ∧ ∃ ref : bfd_mach_o_dylib_reference, [(⟨0x123456, 0x78⟩ : bfd_mach_o_dylib_reference)][0]? = some ref
      ∧ ref.isym < 2 ^ 24 ∧ ref.flags < 2 ^ 8 :=
  ⟨by decide,
    (C29_ext_ref_decode .big false
      (be_words [0xb, 80, 0, 0, 0, 0, 0, 0, 0, 0, 0, 0, 80, 1, 0, 0, 0, 0, 0, 0, 0x12345678])
      { type := 0xb, type_required := false, offset := 0, len := 80, command := none }
      { symtab := none, dysymtab := none, HAS_SYMS := false, rest := () }
      { symtab := none
        dysymtab := some ⟨0, 0, 0, 0, 0, 0, 0, 0, 0, 0, 80, 1, 0, 0, 0, 0, 0, 0, [], [], [],
          [⟨0x123456, 0x78⟩]⟩
        HAS_SYMS := false, rest := () }
      ⟨0, 0, 0, 0, 0, 0, 0, 0, 0, 0, 80, 1, 0, 0, 0, 0, 0, 0, [], [], [], [⟨0x123456, 0x78⟩]⟩
      (by decide) 0 (by decide)).imp (fun _ hr => ⟨hr.1, hr.2.2.2⟩)⟩

theorem decoded_on_rest {τ : Type}
    (f : Stream → bfd_mach_o_load_command bfd_mach_o_command → τ
      → Option (bfd_mach_o_command × τ))
    (abfd : Stream) (command c : bfd_mach_o_load_command bfd_mach_o_command)
    (mdata m : bfd_mach_o_symtab_data τ)
    (h : decoded command (on_rest f abfd command mdata) = some (c, m)) :
    m.symtab = mdata.symtab ∧ m.dysymtab = mdata.dysymtab := by
  unfold on_rest at h
  split at h
  · simp [decoded] at h
  · simp only [decoded, Option.some.injEq, Prod.mk.injEq] at h
    obtain ⟨-, rfl⟩ := h
    exact ⟨rfl, rfl⟩

theorem ite_pred_neg {α : Type} (Q : α → Prop) (c : Prop) [Decidable c] (a b : α)
    (hc : ¬ c) (hb : Q b) : Q (if c then a else b) := by
  rw [if_neg hc]
  exact hb

/-- For a command that is neither a symbol-table nor a dynamic-symbol-table
command, every branch of the switch of `bfd_mach_o_read_command` is either the
result of a decoder that works on the other members of the object data or the
command unchanged. -/
theorem symtab_readers_switch_other {τ : Type} (xvec : bfd_target)
    (header : bfd_mach_o_header) (R : bfd_mach_o_readers τ bfd_mach_o_command)
    (abfd : Stream) (command : bfd_mach_o_load_command bfd_mach_o_command)
    (mdata : bfd_mach_o_symtab_data τ)
    (Q : Option (bfd_mach_o_load_command bfd_mach_o_command × bfd_mach_o_symtab_data τ)
      → Prop)
    (h1 : command.type ≠ BFD_MACH_O_LC_SYMTAB) (h2 : command.type ≠ BFD_MACH_O_LC_DYSYMTAB)
    (hd : ∀ g, Q (decoded command (on_rest g abfd command mdata)))
    (hs : Q (some (command, mdata))) :
    Q (bfd_mach_o_read_command_switch (bfd_mach_o_symtab_readers xvec header R) abfd
      command mdata) := by
  unfold bfd_mach_o_read_command_switch
  exact ite_pred Q _ _ _ (hd _)
      (ite_pred Q _ _ _ (hd _)
      (ite_pred_neg Q _ _ _ h1
      (ite_pred Q _ _ _ hs
      (ite_pred Q _ _ _ (hd _)
      (ite_pred Q _ _ _ (hd _)
      (ite_pred Q _ _ _ (hd _)
      (ite_pred Q _ _ _ (hd _)
      (ite_pred Q _ _ _ hs
      (ite_pred Q _ _ _ (hd _)
      (ite_pred_neg Q _ _ _ h2
      (ite_pred Q _ _ _ hs
      (ite_pred Q _ _ _ (hd _)
      (ite_pred Q _ _ _ (hd _)
      (ite_pred Q _ _ _ (hd _)
      (ite_pred Q _ _ _ (hd _)
      (hs))))))))))))))))

/-- One pass through the switch of `bfd_mach_o_read_command`: a symbol-table
command is accepted only while `mdata->symtab` is null, which then refers to
its body; likewise for a dynamic-symbol-table command and `mdata->dysymtab`;
a command of any other kind leaves both pointers alone. -/
theorem symtab_readers_switch {τ : Type} (xvec : bfd_target) (header : bfd_mach_o_header)
    (R : bfd_mach_o_readers τ bfd_mach_o_command) (abfd : Stream)
    (command c : bfd_mach_o_load_command bfd_mach_o_command)
    (mdata m : bfd_mach_o_symtab_data τ)
    (h : bfd_mach_o_read_command_switch (bfd_mach_o_symtab_readers xvec header R) abfd
      command mdata = some (c, m)) :
    (c.type = BFD_MACH_O_LC_SYMTAB → mdata.symtab = none ∧ m.dysymtab = mdata.dysymtab
        ∧ ∃ sym, c.command = some (.symtab sym) ∧ m.symtab = some sym)
    ∧ (c.type = BFD_MACH_O_LC_DYSYMTAB → mdata.dysymtab = none ∧ m.symtab = mdata.symtab
        ∧ ∃ dysym, c.command = some (.dysymtab dysym) ∧ m.dysymtab = some dysym)
    ∧ (c.type ≠ BFD_MACH_O_LC_SYMTAB → c.type ≠ BFD_MACH_O_LC_DYSYMTAB →
        m.symtab = mdata.symtab ∧ m.dysymtab = mdata.dysymtab) := by
  obtain ⟨ht, -, -, -⟩ := read_command_switch_fields _ abfd command c mdata m h
  rw [ht]
  by_cases h1 : command.type = BFD_MACH_O_LC_SYMTAB
  · have hsw : bfd_mach_o_read_command_switch (bfd_mach_o_symtab_readers xvec header R) abfd
        command mdata = decoded command (bfd_mach_o_read_symtab xvec abfd command mdata) := by
      unfold bfd_mach_o_read_command_switch
      simp only [h1]
      rfl
    rw [hsw] at h
    cases hr : bfd_mach_o_read_symtab xvec abfd command mdata with
    | none => rw [hr] at h; simp [decoded] at h
    | some v =>
      obtain ⟨body, m1⟩ := v
      rw [hr] at h
      simp only [decoded, Option.some.injEq, Prod.mk.injEq] at h
      obtain ⟨rfl, rfl⟩ := h
      obtain ⟨a, b, sym, rfl, d⟩ := read_symtab_some xvec abfd command mdata m1 body hr
      refine ⟨fun _ => ⟨a, b, sym, rfl, d⟩, fun h2 => ?_, fun h2 => absurd h1 h2⟩
      rw [h1] at h2
      exact absurd h2 (by decide)
  · by_cases h2 : command.type = BFD_MACH_O_LC_DYSYMTAB
    · have hsw : bfd_mach_o_read_command_switch (bfd_mach_o_symtab_readers xvec header R) abfd
          command mdata = decoded command
            (bfd_mach_o_read_dysymtab xvec (mach_o_wide_p header) abfd command mdata) := by
        unfold bfd_mach_o_read_command_switch
        simp only [h2]
        rfl
      rw [hsw] at h
      cases hr : bfd_mach_o_read_dysymtab xvec (mach_o_wide_p header) abfd command mdata with
      | none => rw [hr] at h; simp [decoded] at h
      | some v =>
        obtain ⟨body, m1⟩ := v
        rw [hr] at h
        simp only [decoded, Option.some.injEq, Prod.mk.injEq] at h
        obtain ⟨rfl, rfl⟩ := h
        obtain ⟨a, cmd, rfl, rfl, -, -⟩ :=
          read_dysymtab_some xvec (mach_o_wide_p header) abfd command mdata m1 body hr
        exact ⟨fun h3 => absurd h3 h1, fun _ => ⟨a, rfl, cmd, rfl, rfl⟩,
          fun _ h3 => absurd h2 h3⟩
    · refine ⟨fun h3 => absurd h3 h1, fun h3 => absurd h3 h2, fun _ _ => ?_⟩
      refine symtab_readers_switch_other xvec header R abfd command mdata
        (fun x => x = some (c, m) → m.symtab = mdata.symtab ∧ m.dysymtab = mdata.dysymtab)
        h1 h2 ?_ ?_ h
      · exact fun g hg => decoded_on_rest g abfd command c mdata m hg
      · intro hg
        simp only [Option.some.injEq, Prod.mk.injEq] at hg
        obtain ⟨-, rfl⟩ := hg
        exact ⟨rfl, rfl⟩

/-- The same for `bfd_mach_o_read_command`, which takes the kind from the file. -/
theorem symtab_readers_command {τ : Type} (xvec : bfd_target) (header : bfd_mach_o_header)
    (R : bfd_mach_o_readers τ bfd_mach_o_command) (abfd : Stream)
    (command c : bfd_mach_o_load_command bfd_mach_o_command)
    (mdata m : bfd_mach_o_symtab_data τ)
    (h : bfd_mach_o_read_command (bfd_mach_o_symtab_readers xvec header R) xvec abfd
      command mdata = some (c, m)) :
    (c.type = BFD_MACH_O_LC_SYMTAB → mdata.symtab = none ∧ m.dysymtab = mdata.dysymtab
        ∧ ∃ sym, c.command = some (.symtab sym) ∧ m.symtab = some sym)
    ∧ (c.type = BFD_MACH_O_LC_DYSYMTAB → mdata.dysymtab = none ∧ m.symtab = mdata.symtab
        ∧ ∃ dysym, c.command = some (.dysymtab dysym) ∧ m.dysymtab = some dysym)
    ∧ (c.type ≠ BFD_MACH_O_LC_SYMTAB → c.type ≠ BFD_MACH_O_LC_DYSYMTAB →
        m.symtab = mdata.symtab ∧ m.dysymtab = mdata.dysymtab) := by
  unfold bfd_mach_o_read_command at h
  split at h
  · exact absurd h (by simp)
  · exact symtab_readers_switch xvec header R abfd _ c mdata m h

/-- The command loop of `bfd_mach_o_scan` keeps the invariant: the bodies of the
symbol-table commands decoded so far are exactly what `mdata->symtab` refers
to (none when it is null, one otherwise), and likewise for the
dynamic-symbol-table commands and `mdata->dysymtab`. -/
theorem scan_commands_symtab {τ : Type} (xvec : bfd_target) (header : bfd_mach_o_header)
    (R : bfd_mach_o_readers τ bfd_mach_o_command) (abfd : Stream) (hdrsize : Nat) :
    ∀ (todo : Nat) (done cmds : List (bfd_mach_o_load_command bfd_mach_o_command))
      (m m' : bfd_mach_o_symtab_data τ),
      bfd_mach_o_scan_commands (bfd_mach_o_symtab_readers xvec header R) xvec abfd hdrsize
        todo done m = some (cmds, m') →
      ((done.filter (fun c => c.type = BFD_MACH_O_LC_SYMTAB)).map (·.command)
          = m.symtab.toList.map (fun s => some (.symtab s))
        ∧ (done.filter (fun c => c.type = BFD_MACH_O_LC_DYSYMTAB)).map (·.command)
          = m.dysymtab.toList.map (fun s => some (.dysymtab s))) →
      ((cmds.filter (fun c => c.type = BFD_MACH_O_LC_SYMTAB)).map (·.command)
          = m'.symtab.toList.map (fun s => some (.symtab s))
        ∧ (cmds.filter (fun c => c.type = BFD_MACH_O_LC_DYSYMTAB)).map (·.command)
          = m'.dysymtab.toList.map (fun s => some (.dysymtab s))) := by
  intro todo
  induction todo with
  | zero =>
    intro done cmds m m' h J
    simp only [bfd_mach_o_scan_commands, Option.some.injEq, Prod.mk.injEq] at h
    obtain ⟨rfl, rfl⟩ := h
    exact J
  | succ n ih =>
    intro done cmds m m' h J
    rw [bfd_mach_o_scan_commands] at h
    split at h
    · exact absurd h (by simp)
    · rename_i cur m1 hrd
      obtain ⟨hs, hd, ho⟩ := symtab_readers_command xvec header R abfd _ cur m m1 hrd
      refine ih (done ++ [cur]) cmds m1 m' h ?_
      obtain ⟨J1, J2⟩ := J
      have hne : BFD_MACH_O_LC_SYMTAB ≠ BFD_MACH_O_LC_DYSYMTAB := by decide
      simp only [List.filter_append, List.map_append, J1, J2]
      by_cases h1 : cur.type = BFD_MACH_O_LC_SYMTAB
      · obtain ⟨a, b, sym, e1, e2⟩ := hs h1
        simp [List.filter_cons, h1, hne, a, b, e1, e2]
      · by_cases h2 : cur.type = BFD_MACH_O_LC_DYSYMTAB
        · obtain ⟨a, b, dysym, e1, e2⟩ := hd h2
          simp [List.filter_cons, h2, hne.symm, a, b, e1, e2]
        · obtain ⟨a, b⟩ := ho h1 h2
          simp [List.filter_cons, h1, h2, a, b]

/-- C25. After a successful `bfd_mach_o_scan` that starts from null `symtab` and
`dysymtab` pointers (as `bfd_mach_o_header_p` allocates the object data), the
decoded command table holds at most one symbol-table command, `mdata->symtab`
refers to the body of that command, and it is null when the table holds none;
the same is true of the dynamic-symbol-table commands and `mdata->dysymtab`.
A command of either kind is accepted only while the matching pointer is null
and sets it, so the second command of a kind makes decoding fail. -/
theorem C25_single_symtab {τ : Type} (xvec : bfd_target)
    (R : bfd_mach_o_readers τ bfd_mach_o_command) (abfd : Stream)
    (flags flags' : bfd_flags) (header : bfd_mach_o_header)
    (mdata : bfd_mach_o_symtab_data τ)
    (res : bfd_mach_o_data_struct (bfd_mach_o_symtab_data τ) bfd_mach_o_command)
    (h0 : mdata.symtab = none) (h1 : mdata.dysymtab = none)
    (h : bfd_mach_o_scan (bfd_mach_o_symtab_readers xvec header R) xvec abfd flags header
      mdata = some (flags', res)) :
    ((res.commands.filter (fun c => c.type = BFD_MACH_O_LC_SYMTAB)).length ≤ 1
      ∧ (∀ c ∈ res.commands, c.type = BFD_MACH_O_LC_SYMTAB →
          ∃ sym, c.command = some (.symtab sym) ∧ res.rest.symtab = some sym)
      ∧ ((∀ c ∈ res.commands, c.type ≠ BFD_MACH_O_LC_SYMTAB) → res.rest.symtab = none))
    ∧ ((res.commands.filter (fun c => c.type = BFD_MACH_O_LC_DYSYMTAB)).length ≤ 1
      ∧ (∀ c ∈ res.commands, c.type = BFD_MACH_O_LC_DYSYMTAB →
          ∃ dysym, c.command = some (.dysymtab dysym) ∧ res.rest.dysymtab = some dysym)
      ∧ ((∀ c ∈ res.commands, c.type ≠ BFD_MACH_O_LC_DYSYMTAB) → res.rest.dysymtab = none))
    ∧ (∀ (command c : bfd_mach_o_load_command bfd_mach_o_command)
        (m m' : bfd_mach_o_symtab_data τ),
        bfd_mach_o_read_command (bfd_mach_o_symtab_readers xvec header R) xvec abfd
          command m = some (c, m') →
        (c.type = BFD_MACH_O_LC_SYMTAB → m.symtab = none ∧ m'.symtab ≠ none)
        ∧ (c.type = BFD_MACH_O_LC_DYSYMTAB → m.dysymtab = none ∧ m'.dysymtab ≠ none)) := by
  have key : ∀ {β : Type} (l : List (bfd_mach_o_load_command bfd_mach_o_command)) (t : Nat)
      (o : Option β) (f : β → bfd_mach_o_command),
      (l.filter (fun c => c.type = t)).map (·.command) = o.toList.map (fun s => some (f s)) →
      (l.filter (fun c => c.type = t)).length ≤ 1
      ∧ (∀ c ∈ l, c.type = t → ∃ s, c.command = some (f s) ∧ o = some s)
      ∧ ((∀ c ∈ l, c.type ≠ t) → o = none) := by
    intro β l t o f he
    have hlen := congrArg List.length he
    simp only [List.length_map] at hlen
    refine ⟨?_, fun c hc ht => ?_, fun hall => ?_⟩
    · rw [hlen]
      cases o <;> simp
    · have hmem : c.command ∈ (l.filter (fun c => c.type = t)).map (·.command) :=
        List.mem_map_of_mem _ (List.mem_filter.mpr ⟨hc, by simpa using ht⟩)
      rw [he] at hmem
      cases o with
      | none => simp at hmem
      | some s =>
        simp only [Option.toList_some, List.map_cons, List.map_nil, List.mem_singleton] at hmem
        exact ⟨s, hmem, rfl⟩
    · cases o with
      | none => rfl
      | some s =>
        have hnil : l.filter (fun c => c.type = t) = [] := by
          rw [List.filter_eq_nil_iff]
          intro c hc
          simpa using hall c hc
        rw [hnil] at hlen
        simp at hlen
  unfold bfd_mach_o_scan at h
  simp only at h
  split at h
  · exact absurd h (by simp)
  split at h
  · exact absurd h (by simp)
  rename_i cmds m1 hloop
  split at h
  · exact absurd h (by simp)
  rename_i m2 hstart
  simp only [Option.some.injEq, Prod.mk.injEq] at h
  obtain ⟨-, rfl⟩ := h
  obtain ⟨J1, J2⟩ := scan_commands_symtab xvec header R abfd _ header.ncmds [] cmds mdata m1
    hloop (by simp [h0, h1])
  have hm2 : m2.symtab = m1.symtab ∧ m2.dysymtab = m1.dysymtab := by
    unfold bfd_mach_o_scan_start_address at hstart
    split at hstart
    · simp only [bfd_mach_o_symtab_readers] at hstart
      split at hstart
      · exact absurd hstart (by simp)
      · simp only [Option.some.injEq] at hstart
        rw [← hstart]
        exact ⟨rfl, rfl⟩
    · simp only [Option.some.injEq] at hstart
      rw [← hstart]
      exact ⟨rfl, rfl⟩
  have hs : ((bfd_mach_o_symtab_readers xvec header R).bfd_mach_o_flatten_sections
      cmds m2).symtab = m1.symtab := hm2.1
  have hd : ((bfd_mach_o_symtab_readers xvec header R).bfd_mach_o_flatten_sections
      cmds m2).dysymtab = m1.dysymtab := hm2.2
  dsimp only
  rw [hs, hd]
  refine ⟨key cmds _ _ _ J1, key cmds _ _ _ J2, fun command c m m' hc => ?_⟩
  obtain ⟨a, b, -⟩ := symtab_readers_command xvec header R abfd command c m m' hc
  refine ⟨fun ht => ?_, fun ht => ?_⟩
  · obtain ⟨x, -, sym, -, y⟩ := a ht
    exact ⟨x, by simp [y]⟩
  · obtain ⟨x, -, dysym, -, y⟩ := b ht
    exact ⟨x, by simp [y]⟩

theorem C25_single_symtab_witness :
    bfd_mach_o_scan (bfd_mach_o_symtab_readers .big
          ⟨0xfeedface, 7, 3, 1, 2, 32, 0, 0, 1, .BFD_ENDIAN_BIG⟩ bfd_mach_o_fail_readers) .big
        (be_words [0xfeedface, 7, 3, 1, 2, 32, 0, 3, 8, 2, 24, 100, 0, 200, 4])
        ⟨false, false, false, false⟩
        ⟨0xfeedface, 7, 3, 1, 2, 32, 0, 0, 1, .BFD_ENDIAN_BIG⟩
        { symtab := none, dysymtab := none, HAS_SYMS := false, rest := () }
      = some (⟨true, false, false, false⟩,
          ⟨⟨0xfeedface, 7, 3, 1, 2, 32, 0, 0, 1, .BFD_ENDIAN_BIG⟩,
            [⟨3, false, 28, 8, none⟩,
             ⟨2, false, 36, 24, some (.symtab ⟨100, 0, 200, 4, none, none⟩)⟩],
            { symtab := some ⟨100, 0, 200, 4, none, none⟩, dysymtab := none
              HAS_SYMS := false, rest := () }⟩)
    ∧ ([(⟨3, false, 28, 8, none⟩ : bfd_mach_o_load_command bfd_mach_o_command),
        ⟨2, false, 36, 24, some (.symtab ⟨100, 0, 200, 4, none, none⟩)⟩].filter
          (fun c => c.type = BFD_MACH_O_LC_SYMTAB)).length ≤ 1 :=
  ⟨rfl, (C25_single_symtab .big bfd_mach_o_fail_readers
    (be_words [0xfeedface, 7, 3, 1, 2, 32, 0, 3, 8, 2, 24, 100, 0, 200, 4])
    ⟨false, false, false, false⟩ ⟨true, false, false, false⟩
    ⟨0xfeedface, 7, 3, 1, 2, 32, 0, 0, 1, .BFD_ENDIAN_BIG⟩
    { symtab := none, dysymtab := none, HAS_SYMS := false, rest := () }
    ⟨⟨0xfeedface, 7, 3, 1, 2, 32, 0, 0, 1, .BFD_ENDIAN_BIG⟩,
      [⟨3, false, 28, 8, none⟩,
       ⟨2, false, 36, 24, some (.symtab ⟨100, 0, 200, 4, none, none⟩)⟩],
      { symtab := some ⟨100, 0, 200, 4, none, none⟩, dysymtab := none
        HAS_SYMS := false, rest := () }⟩ rfl rfl rfl).1.1⟩

/-- A command table with two symbol-table commands is refused: the second one
finds `mdata->symtab` set. -/
theorem scan_two_symtab_fails :
    bfd_mach_o_scan (bfd_mach_o_symtab_readers .big
          ⟨0xfeedface, 7, 3, 1, 2, 48, 0, 0, 1, .BFD_ENDIAN_BIG⟩ bfd_mach_o_fail_readers) .big
        (be_words [0xfeedface, 7, 3, 1, 2, 48, 0, 2, 24, 100, 0, 200, 4, 2, 24, 100, 0, 200, 4])
        ⟨false, false, false, false⟩
        ⟨0xfeedface, 7, 3, 1, 2, 48, 0, 0, 1, .BFD_ENDIAN_BIG⟩
        { symtab := none, dysymtab := none, HAS_SYMS := false, rest := () }
      = none := by
  rfl

/-! ## Numbering the output symbols -/

/-- What the loop body of `bfd_mach_o_mangle_symbols` leaves in a symbol. -/
theorem mangle_symbol_spec (sections : List asection) (i : Nat)
    (s s1 : bfd_mach_o_asymbol)
    (h : bfd_mach_o_mangle_symbol sections i s = .value s1) :
    s1.udata_i = i
    ∧ s1.symbol_section = s.symbol_section ∧ s1.flags = s.flags
    ∧ (∀ j, s.symbol_section = .bfdsection j →
        ∃ sec, sections[j]? = some sec ∧ s1.n_sect = sec.target_index % 2 ^ 8)
    ∧ ((∀ j, s.symbol_section ≠ .bfdsection j) → s1.n_sect = s.n_sect)
    ∧ (s.n_type = BFD_MACH_O_N_UNDF → s.flags &&& BSF_DEBUGGING = 0 →
        s1.n_type =
          (if s.symbol_section = .bfd_abs_section_ptr then BFD_MACH_O_N_ABS
            else if s.symbol_section = .bfd_und_section_ptr then BFD_MACH_O_N_UNDF
            else if s.symbol_section = .bfd_com_section_ptr then
              BFD_MACH_O_N_UNDF ||| BFD_MACH_O_N_EXT
            else BFD_MACH_O_N_SECT)
          ||| (if s.flags &&& BSF_GLOBAL ≠ 0 then BFD_MACH_O_N_EXT else 0))
    ∧ (¬ (s.n_type = BFD_MACH_O_N_UNDF ∧ s.flags &&& BSF_DEBUGGING = 0) →
        s1.n_type = s.n_type ∧ s1.n_desc = s.n_desc) := by
  unfold bfd_mach_o_mangle_symbol at h
  by_cases hc : s.n_type = BFD_MACH_O_N_UNDF ∧ s.flags &&& BSF_DEBUGGING = 0
  · obtain ⟨hc1, hc2⟩ := hc
    cases hsec : s.symbol_section with
    | bfd_und_section_ptr =>
      by_cases hw : s.flags &&& BSF_WEAK = 0 <;> by_cases hg : s.flags &&& BSF_GLOBAL = 0 <;>
        · simp [hc1, hc2, hsec, hw, hg] at h
          subst h
          simp [hsec, hc1, hc2, hg]
    | bfd_abs_section_ptr =>
      by_cases hg : s.flags &&& BSF_GLOBAL = 0 <;>
        · simp [hc1, hc2, hsec, hg] at h
          subst h
          simp [hsec, hc1, hc2, hg]
    | bfd_com_section_ptr =>
      by_cases hg : s.flags &&& BSF_GLOBAL = 0 <;>
        · simp [hc1, hc2, hsec, hg] at h
          subst h
          simp [hsec, hc1, hc2, hg]
    | bfdsection j =>
      cases hj : sections[j]? with
      | none =>
        by_cases hg : s.flags &&& BSF_GLOBAL = 0 <;> simp [hc1, hc2, hsec, hg, hj] at h
      | some sec =>
        by_cases hg : s.flags &&& BSF_GLOBAL = 0 <;>
          · simp [hc1, hc2, hsec, hg, hj] at h
            subst h
            simp [hsec, hc1, hc2, hg, hj]
  · rw [if_neg hc] at h
    cases hsec : s.symbol_section with
    | bfdsection j =>
      cases hj : sections[j]? with
      | none => simp [hsec, hj] at h
      | some sec =>
        simp [hsec, hj] at h
        subst h
        simp [hsec, hc, hj]
        tauto
    | _ =>
      simp [hsec] at h
      subst h
      simp [hsec, hc]
      tauto

/-- The loop body is defined on every symbol whose section, if it is a real
section, is a section of the object. -/
theorem mangle_symbol_defined (sections : List asection) (i : Nat) (s : bfd_mach_o_asymbol)
    (h : ∀ j, s.symbol_section = .bfdsection j → j < sections.length) :
    ∃ s1, bfd_mach_o_mangle_symbol sections i s = .value s1 := by
  unfold bfd_mach_o_mangle_symbol
  dsimp only
  split
  · rename_i s2 j hj
    have hs : s.symbol_section = .bfdsection j := by
      rw [← hj]
      split
      · split
        · split <;> rfl
        · split
          · split
            · split <;> rfl
            · split <;> rfl
          · split
            · split <;> rfl
            · split <;> rfl
      · rfl
    have hlt := h j hs
    rw [List.getElem?_eq_getElem hlt]
    exact ⟨_, rfl⟩
  · exact ⟨_, rfl⟩

/-- The loop of `bfd_mach_o_mangle_symbols` applies the loop body to symbol `k` of
the remaining symbols with the number `i + k`. -/
theorem mangle_symbols_loop_spec (sections : List asection) :
    ∀ (symbols : List bfd_mach_o_asymbol) (i : Nat),
    (∀ s ∈ symbols, ∀ j, s.symbol_section = .bfdsection j → j < sections.length) →
    ∃ out, bfd_mach_o_mangle_symbols_loop sections i symbols = .value out
      ∧ out.length = symbols.length
      ∧ ∀ (k : Nat) (s : bfd_mach_o_asymbol), symbols[k]? = some s →
        ∃ s1, out[k]? = some s1
          ∧ bfd_mach_o_mangle_symbol sections (i + k) s = .value s1 := by
  intro symbols
  induction symbols with
  | nil =>
    intro i _
    exact ⟨[], rfl, rfl, fun k s hk => by simp at hk⟩
  | cons a rest ih =>
    intro i h
    obtain ⟨a1, ha⟩ := mangle_symbol_defined sections i a
      (h a (List.mem_cons_self a rest))
    obtain ⟨out, ho, hlen, hk⟩ := ih (i + 1) (fun s hs => h s (List.mem_cons_of_mem a hs))
    refine ⟨a1 :: out, ?_, by simp [hlen], fun k s hs => ?_⟩
    · rw [bfd_mach_o_mangle_symbols_loop, ha]
      dsimp only
      rw [ho]
    · cases k with
      | zero =>
        simp only [List.getElem?_cons_zero, Option.some.injEq] at hs
        subst hs
        exact ⟨a1, by simp, ha⟩
      | succ k =>
        simp only [List.getElem?_cons_succ] at hs
        obtain ⟨s1, h1, h2⟩ := hk k s hs
        refine ⟨s1, by simpa using h1, ?_⟩
        rw [show i + (k + 1) = i + 1 + k by omega]
        exact h2

/-- C30, as amended.  On output symbols whose real sections are sections of the
object, `bfd_mach_o_mangle_symbols` returns as many symbols as it was given.
Symbol `i` gets the identifier `udata.i = i` and keeps its section and flags.
A symbol of a real section gets `n_sect` equal to the low eight bits of that
section's target index, which is the target index when that is below 256; any
other symbol keeps its `n_sect`.  A non-debugging symbol whose `n_type` was 0
on entry gets `N_ABS`, `N_UNDF`, `N_UNDF | N_EXT` or `N_SECT` according to its
section being absolute, undefined, common or a real section, or-ed with
`N_EXT` when it is global; any other symbol keeps its `n_type`. -/
theorem C30_mangle_symbols (sections : List asection) (symbols : List bfd_mach_o_asymbol)
    (h : ∀ s ∈ symbols, ∀ j, s.symbol_section = .bfdsection j → j < sections.length) :
    ∃ out, bfd_mach_o_mangle_symbols sections symbols = .value out
      ∧ out.length = symbols.length
      ∧ ∀ (i : Nat) (s : bfd_mach_o_asymbol), symbols[i]? = some s →
        ∃ s1, out[i]? = some s1
          ∧ s1.udata_i = i
          ∧ s1.symbol_section = s.symbol_section ∧ s1.flags = s.flags
          ∧ (∀ j, s.symbol_section = .bfdsection j →
              ∃ sec, sections[j]? = some sec ∧ s1.n_sect = sec.target_index % 2 ^ 8
                ∧ (sec.target_index < 2 ^ 8 → s1.n_sect = sec.target_index))
          ∧ ((∀ j, s.symbol_section ≠ .bfdsection j) → s1.n_sect = s.n_sect)
          ∧ (s.n_type = BFD_MACH_O_N_UNDF → s.flags &&& BSF_DEBUGGING = 0 →
              s1.n_type =
                (if s.symbol_section = .bfd_abs_section_ptr then BFD_MACH_O_N_ABS
                  else if s.symbol_section = .bfd_und_section_ptr then BFD_MACH_O_N_UNDF
                  else if s.symbol_section = .bfd_com_section_ptr then
                    BFD_MACH_O_N_UNDF ||| BFD_MACH_O_N_EXT
                  else BFD_MACH_O_N_SECT)
                ||| (if s.flags &&& BSF_GLOBAL ≠ 0 then BFD_MACH_O_N_EXT else 0))
          ∧ (¬ (s.n_type = BFD_MACH_O_N_UNDF ∧ s.flags &&& BSF_DEBUGGING = 0) →
              s1.n_type = s.n_type) := by
  obtain ⟨out, ho, hlen, hk⟩ := mangle_symbols_loop_spec sections symbols 0 h
  refine ⟨out, ho, hlen, fun i s hs => ?_⟩
  obtain ⟨s1, h1, h2⟩ := hk i s hs
  rw [Nat.zero_add] at h2
  obtain ⟨a, b, c, d, e, f, g⟩ := mangle_symbol_spec sections i s s1 h2
  refine ⟨s1, h1, a, b, c, fun j hj => ?_, e, f, fun hn => (g hn).1⟩
  obtain ⟨sec, hsec, hn⟩ := d j hj
  exact ⟨sec, hsec, hn, fun hlt => by rw [hn, Nat.mod_eq_of_lt hlt]⟩

theorem C30_mangle_symbols_witness :
    bfd_mach_o_mangle_symbols
        [⟨[], 0, 0, 0, 8, 0, 0, 0, 0, 1, ⟨[], [], 0, 8, 0, 0, 0, 0, 0, 0, 0, 0⟩⟩]
        [⟨1, 4, BSF_GLOBAL, 0, .bfdsection 0, 0, 0, 0⟩,
         ⟨5, 0, BSF_WEAK, 0, .bfd_und_section_ptr, 0, 0, 0⟩,
         ⟨9, 0, BSF_DEBUGGING, 0, .bfd_abs_section_ptr, 0x24, 7, 0⟩]
      = .value
        [⟨1, 4, BSF_GLOBAL, 0, .bfdsection 0, 0x0f, 1, 0⟩,
         ⟨5, 0, BSF_WEAK, 1, .bfd_und_section_ptr, 0, 0, 0x40⟩,
         ⟨9, 0, BSF_DEBUGGING, 2, .bfd_abs_section_ptr, 0x24, 7, 0⟩]
    ∧ ∃ out, bfd_mach_o_mangle_symbols
        [⟨[], 0, 0, 0, 8, 0, 0, 0, 0, 1, ⟨[], [], 0, 8, 0, 0, 0, 0, 0, 0, 0, 0⟩⟩]
        [⟨1, 4, BSF_GLOBAL, 0, .bfdsection 0, 0, 0, 0⟩,
         ⟨5, 0, BSF_WEAK, 0, .bfd_und_section_ptr, 0, 0, 0⟩,
         ⟨9, 0, BSF_DEBUGGING, 0, .bfd_abs_section_ptr, 0x24, 7, 0⟩] = .value out
      ∧ out.length = 3 :=
  ⟨by decide,
    (C30_mangle_symbols
      [⟨[], 0, 0, 0, 8, 0, 0, 0, 0, 1, ⟨[], [], 0, 8, 0, 0, 0, 0, 0, 0, 0, 0⟩⟩]
      [⟨1, 4, BSF_GLOBAL, 0, .bfdsection 0, 0, 0, 0⟩,
       ⟨5, 0, BSF_WEAK, 0, .bfd_und_section_ptr, 0, 0, 0⟩,
       ⟨9, 0, BSF_DEBUGGING, 0, .bfd_abs_section_ptr, 0x24, 7, 0⟩]
      (by
        intro s hs j hj
        simp only [List.mem_cons, List.mem_singleton, List.not_mem_nil, or_false] at hs
        rcases hs with rfl | rfl | rfl
        · simp only [sym_section.bfdsection.injEq] at hj
          subst hj
          decide
        · exact absurd hj (by simp)
        · exact absurd hj (by simp))).imp (fun _ ho => ⟨ho.1, ho.2.1⟩)⟩

/-- C30, as stated, fails for a section whose target index does not fit the
one-byte `n_sect`: the symbol of a section with target index 256 gets
`n_sect = 0`. -/
theorem C30_n_sect_truncated_counterexample :
    bfd_mach_o_mangle_symbols
        [⟨[], 0, 0, 0, 8, 0, 0, 0, 0, 256, ⟨[], [], 0, 8, 0, 0, 0, 0, 0, 0, 0, 0⟩⟩]
        [⟨1, 4, BSF_GLOBAL, 0, .bfdsection 0, 0, 0, 0⟩]
      = .value [⟨1, 4, BSF_GLOBAL, 0, .bfdsection 0, 0x0f, 0, 0⟩]
    ∧ (0 : Nat) ≠ 256 := by
  decide

/-! ## Thread commands -/

theorem thread_walk_zero (blocks : List (Nat × Nat)) : thread_walk blocks 0 = 8 := by
  simp [thread_walk, u32]

theorem thread_walk_succ (blocks : List (Nat × Nat)) (i f c : Nat)
    (h : blocks[i]? = some (f, c)) :
    thread_walk blocks (i + 1) = u32 (thread_walk blocks i + (8 + c * 4)) := by
  have hi : i < blocks.length := by
    rcases Nat.lt_or_ge i blocks.length with hlt | hge
    · exact hlt
    · rw [List.getElem?_eq_none hge] at h
      exact absurd h (by simp)
  have hb : blocks[i] = (f, c) := by
    rw [List.getElem?_eq_getElem hi] at h
    exact Option.some.inj h
  have ht : blocks.take (i + 1) = blocks.take i ++ [(f, c)] := by
    rw [List.take_succ, h]
    rfl
  simp only [thread_walk, ht, List.map_append, List.map_cons, List.map_nil, List.sum_append,
    List.sum_cons, List.sum_nil, Nat.add_zero, u32_add_u32]
  congr 1
  omega

/-- The counting loop of `bfd_mach_o_read_thread` over the blocks `i, i+1, ...` of a
command whose block headers are readable and whose walking offset stays
below the command length before the last block: with enough fuel it ends
with all the blocks counted when the final offset is the command length, and
with -1 when the final offset is beyond it. -/
theorem read_thread_count_spec (xvec : bfd_target) (abfd : Stream)
    (command : bfd_mach_o_load_command bfd_mach_o_command) (blocks : List (Nat × Nat))
    (hw : ∀ i, i < blocks.length → thread_walk blocks i < command.len)
    (hr : ∀ i f c, blocks[i]? = some (f, c) →
      ∃ raw, bfd_bread abfd (u32 (command.offset + thread_walk blocks i)) 8 = some raw
        ∧ bfd_h_get_32 xvec raw = f ∧ bfd_h_get_32 xvec (raw.drop 4) = c)
    (hend : command.len ≤ thread_walk blocks blocks.length) :
    ∀ (n i fuel : Nat), i + n = blocks.length → n + 1 ≤ fuel →
      bfd_mach_o_read_thread_count xvec abfd command fuel (thread_walk blocks i) (u32 i)
        = some (if thread_walk blocks blocks.length = command.len
            then some (u32 blocks.length) else none) := by
  intro n
  induction n with
  | zero =>
    intro i fuel hi hf
    obtain ⟨fuel, rfl⟩ : ∃ g, fuel = g + 1 := ⟨fuel - 1, by omega⟩
    have hik : i = blocks.length := by omega
    subst hik
    rw [bfd_mach_o_read_thread_count]
    by_cases he : thread_walk blocks blocks.length = command.len
    · rw [if_pos he, if_pos he]
    · rw [if_neg he, if_neg he, if_pos hend]
  | succ n ih =>
    intro i fuel hi hf
    obtain ⟨fuel, rfl⟩ : ∃ g, fuel = g + 1 := ⟨fuel - 1, by omega⟩
    have hlt : i < blocks.length := by omega
    have hwi := hw i hlt
    obtain ⟨raw, hraw, -, hc⟩ := hr i blocks[i].1 blocks[i].2
      (by rw [List.getElem?_eq_getElem hlt])
    rw [bfd_mach_o_read_thread_count, if_neg (by omega), if_neg (by omega), hraw]
    dsimp only
    rw [hc, ← thread_walk_succ blocks i blocks[i].1 blocks[i].2
      (by rw [List.getElem?_eq_getElem hlt]), u32_add_u32]
    exact ih (i + 1) fuel (by omega) (by omega)

/-- The filling loop of `bfd_mach_o_read_thread` under the same conditions, when the
first loop has counted all the blocks. -/
theorem read_thread_flavours_spec (xvec : bfd_target) (abfd : Stream)
    (command : bfd_mach_o_load_command bfd_mach_o_command) (blocks : List (Nat × Nat))
    (hw : ∀ i, i < blocks.length → thread_walk blocks i < command.len)
    (hr : ∀ i f c, blocks[i]? = some (f, c) →
      ∃ raw, bfd_bread abfd (u32 (command.offset + thread_walk blocks i)) 8 = some raw
        ∧ bfd_h_get_32 xvec raw = f ∧ bfd_h_get_32 xvec (raw.drop 4) = c)
    (hend : thread_walk blocks blocks.length = command.len) :
    ∀ (n i fuel : Nat), i + n = blocks.length → n + 1 ≤ fuel →
      bfd_mach_o_read_thread_flavours xvec abfd command blocks.length fuel
          (thread_walk blocks i)
          ((List.range i).map (fun j =>
            { flavour := (blocks.getD j (0, 0)).1
              offset := u32 (command.offset + thread_walk blocks j) + 8
              size := (blocks.getD j (0, 0)).2 * 4 }))
        = some (some ((List.range blocks.length).map (fun j =>
            { flavour := (blocks.getD j (0, 0)).1
              offset := u32 (command.offset + thread_walk blocks j) + 8
              size := (blocks.getD j (0, 0)).2 * 4 }))) := by
  intro n
  induction n with
  | zero =>
    intro i fuel hi hf
    obtain ⟨fuel, rfl⟩ : ∃ g, fuel = g + 1 := ⟨fuel - 1, by omega⟩
    have hik : i = blocks.length := by omega
    subst hik
    rw [bfd_mach_o_read_thread_flavours, if_pos hend]
  | succ n ih =>
    intro i fuel hi hf
    obtain ⟨fuel, rfl⟩ : ∃ g, fuel = g + 1 := ⟨fuel - 1, by omega⟩
    have hlt : i < blocks.length := by omega
    have hwi := hw i hlt
    have hget : blocks[i]? = some (blocks[i].1, blocks[i].2) := by
      rw [List.getElem?_eq_getElem hlt]
    obtain ⟨raw, hraw, hf1, hc⟩ := hr i blocks[i].1 blocks[i].2 hget
    rw [bfd_mach_o_read_thread_flavours, if_neg (by omega), if_neg (by omega),
      if_neg (by simp only [List.length_map, List.length_range]; omega), hraw]
    dsimp only
    rw [hc, hf1, show blocks[i].2 * 4 + 8 = 8 + blocks[i].2 * 4 by omega,
      ← thread_walk_succ blocks i blocks[i].1 blocks[i].2 hget]
    have hrange : (List.range i).map (fun j =>
          ({ flavour := (blocks.getD j (0, 0)).1
             offset := u32 (command.offset + thread_walk blocks j) + 8
             size := (blocks.getD j (0, 0)).2 * 4 } : bfd_mach_o_thread_flavour))
        ++ [{ flavour := blocks[i].1
              offset := u32 (command.offset + thread_walk blocks i) + 8
              size := blocks[i].2 * 4 }]
        = (List.range (i + 1)).map (fun j =>
          ({ flavour := (blocks.getD j (0, 0)).1
             offset := u32 (command.offset + thread_walk blocks j) + 8
             size := (blocks.getD j (0, 0)).2 * 4 } : bfd_mach_o_thread_flavour)) := by
      rw [List.range_succ, List.map_append, List.map_cons, List.map_nil,
        List.getD_eq_getElem _ _ hlt]
    rw [hrange]
    exact ih (i + 1) fuel (by omega) (by omega)

/-- The walk of `bfd_mach_o_read_thread` in its own 32-bit arithmetic: the walking
offset after `i` blocks is `w_i = (8 + sum over j < i of (8 + 4 count_j))
mod 2^32` and block header `i` is read at `(o + w_i) mod 2^32`.  For a thread
command at offset `o` with length `L` whose `k` block headers (flavour_i,
count_i) are readable there and whose walking offsets `w_0 .. w_(k-1)` are
below `L`: if `w_k = L`, the function (given more fuel than blocks) yields
exactly `k` flavour triples in order, with flavour `flavour_i`, size
`4 count_i` and offset `((o + w_i) mod 2^32) + 8`; that offset is
`o + 16 + sum over j < i of (8 + 4 count_j)` whenever the blocks exactly fill
the `L - 8` bytes and `o + L <= 2^32`.  If `w_k > L` the function fails. -/
theorem read_thread_walk_spec (xvec : bfd_target) (abfd : Stream)
    (command : bfd_mach_o_load_command bfd_mach_o_command) (blocks : List (Nat × Nat))
    (hk : blocks.length < 2 ^ 32)
    (hw : ∀ i, i < blocks.length → thread_walk blocks i < command.len)
    (hr : ∀ i f c, blocks[i]? = some (f, c) →
      ∃ raw, bfd_bread abfd (u32 (command.offset + thread_walk blocks i)) 8 = some raw
        ∧ bfd_h_get_32 xvec raw = f ∧ bfd_h_get_32 xvec (raw.drop 4) = c) :
    (thread_walk blocks blocks.length = command.len →
      ∀ fuel, blocks.length + 1 ≤ fuel →
      ∃ thr, bfd_mach_o_read_thread xvec abfd command fuel = some (some thr)
        ∧ thr.flavours.length = blocks.length
        ∧ ∀ i f c, blocks[i]? = some (f, c) →
          thr.flavours[i]? = some
            (bfd_mach_o_thread_flavour.mk f
              (u32 (command.offset + thread_walk blocks i) + 8) (4 * c)))
    ∧ (command.len < thread_walk blocks blocks.length →
      ∀ fuel, blocks.length + 1 ≤ fuel →
      bfd_mach_o_read_thread xvec abfd command fuel = some none)
    ∧ (8 + (blocks.map (fun b => 8 + 4 * b.2)).sum = command.len →
      command.len < 2 ^ 32 → command.offset + command.len ≤ 2 ^ 32 →
      thread_walk blocks blocks.length = command.len
      ∧ ∀ i, i < blocks.length →
        thread_walk blocks i < command.len
        ∧ u32 (command.offset + thread_walk blocks i) + 8
          = command.offset + 16 + ((blocks.take i).map (fun b => 8 + 4 * b.2)).sum) := by
  refine ⟨fun hend fuel hf => ?_, fun hend fuel hf => ?_, fun hsum hlen hfit => ?_⟩
  · have h1 := read_thread_count_spec xvec abfd command blocks hw hr (Nat.le_of_eq hend.symm)
      blocks.length 0 fuel (by omega) hf
    have h2 := read_thread_flavours_spec xvec abfd command blocks hw hr hend
      blocks.length 0 fuel (by omega) hf
    rw [thread_walk_zero] at h1 h2
    rw [if_pos hend] at h1
    have hu0 : u32 0 = 0 := rfl
    have huk : u32 blocks.length = blocks.length := Nat.mod_eq_of_lt hk
    rw [hu0, huk] at h1
    simp only [List.range_zero, List.map_nil] at h2
    refine ⟨_, by rw [bfd_mach_o_read_thread, h1]; dsimp only; rw [h2], ?_, ?_⟩
    · simp
    · intro i f c hb
      have hi : i < blocks.length := by
        rcases Nat.lt_or_ge i blocks.length with hlt | hge
        · exact hlt
        · rw [List.getElem?_eq_none hge] at hb
          exact absurd hb (by simp)
      have hbi : blocks[i] = (f, c) := by
        rw [List.getElem?_eq_getElem hi] at hb
        exact Option.some.inj hb
      rw [List.getElem?_map, List.getElem?_range hi, Option.map_some',
        List.getD_eq_getElem _ _ hi, hbi, Nat.mul_comm]
  · have h1 := read_thread_count_spec xvec abfd command blocks hw hr (Nat.le_of_lt hend)
      blocks.length 0 fuel (by omega) hf
    rw [thread_walk_zero, if_neg (by omega)] at h1
    have hu0 : u32 0 = 0 := rfl
    rw [hu0] at h1
    rw [bfd_mach_o_read_thread, h1]
  · have hle : ∀ i, ((blocks.take i).map (fun b => 8 + 4 * b.2)).sum
        ≤ (blocks.map (fun b => 8 + 4 * b.2)).sum := by
      intro i
      conv_rhs => rw [← List.take_append_drop i blocks]
      rw [List.map_append, List.sum_append]
      omega
    have hwi : ∀ i, thread_walk blocks i
        = 8 + ((blocks.take i).map (fun b => 8 + 4 * b.2)).sum := by
      intro i
      have := hle i
      rw [thread_walk, u32, Nat.mod_eq_of_lt (by omega)]
    refine ⟨?_, fun i hi => ?_⟩
    · rw [hwi, List.take_length, hsum]
    · have hs : ((blocks.take (i + 1)).map (fun b => 8 + 4 * b.2)).sum
          = ((blocks.take i).map (fun b => 8 + 4 * b.2)).sum + (8 + 4 * blocks[i].2) := by
        rw [List.take_succ, List.getElem?_eq_getElem hi]
        simp only [Option.toList_some, List.map_append, List.map_cons, List.map_nil,
          List.sum_append, List.sum_cons, List.sum_nil, Nat.add_zero]
      have h1 := hle (i + 1)
      have hlt : thread_walk blocks i < command.len := by
        rw [hwi]
        omega
      refine ⟨hlt, ?_⟩
      rw [u32, Nat.mod_eq_of_lt (by omega), hwi]
      omega

theorem read_thread_walk_example :
    bfd_mach_o_read_thread .big (be_words [4, 32, 1, 2, 0xaa, 0xbb, 7, 0])
        ⟨4, false, 0, 32, none⟩ 3
      = some (some ⟨[⟨1, 16, 8⟩, ⟨7, 32, 0⟩]⟩)
    ∧ ∃ thr, bfd_mach_o_read_thread .big (be_words [4, 32, 1, 2, 0xaa, 0xbb, 7, 0])
        ⟨4, false, 0, 32, none⟩ 3 = some (some thr)
      ∧ thr.flavours.length = 2 :=
  ⟨by decide,
    ((read_thread_walk_spec .big (be_words [4, 32, 1, 2, 0xaa, 0xbb, 7, 0])
      ⟨4, false, 0, 32, none⟩ [(1, 2), (7, 0)] (by decide)
      (by
        intro i hi
        simp only [List.length_cons, List.length_nil] at hi
        interval_cases i <;> decide)
      (by
        intro i f c hb
        rcases i with _ | _ | i
        · simp only [List.getElem?_cons_zero, Option.some.injEq, Prod.mk.injEq] at hb
          obtain ⟨rfl, rfl⟩ := hb
          exact ⟨_, rfl, by decide, by decide⟩
        · simp only [List.getElem?_cons_succ, List.getElem?_cons_zero, Option.some.injEq,
            Prod.mk.injEq] at hb
          obtain ⟨rfl, rfl⟩ := hb
          exact ⟨_, rfl, by decide, by decide⟩
        · simp at hb)).1 (by decide) 3 (by decide)).imp (fun _ ht => ⟨ht.1, ht.2.1⟩)⟩

/-- C28 (the code at the failing input). In this thread command of length 24 the
one block announces a count of 0x40000002 words, so its state runs far past
the command: the walking offset 8 + 8 + 4 * 0x40000002 exceeds 24 without
equalling it.  The `unsigned int` walking offset is
(8 + 8 + 4 * 0x40000002) mod 2^32 = 24, the command length, so neither loop
reaches `return -1` and `bfd_mach_o_read_thread` succeeds with one flavour of
size 0x100000008. -/
theorem C28_wrapped_walk_accepted :
    bfd_mach_o_read_thread .big (be_words [4, 24, 1, 0x40000002, 0, 0])
        ⟨4, false, 0, 24, none⟩ 2
      = some (some ⟨[⟨1, 16, 0x100000008⟩]⟩)
    ∧ 24 < 8 + (8 + 4 * 0x40000002)
    ∧ 8 + (8 + 4 * 0x40000002) ≠ 24 := by
  decide

/-! ## File layout of the sections -/

/-- Clearing the low `a` bits of a 64-bit pattern rounds it down to a multiple of
`2 ^ a`. -/
theorem and_high_mask (x a : Nat) (hx : x < 2 ^ 64) :
    x &&& vma ((2 ^ 64 - 1) <<< a) = x / 2 ^ a * 2 ^ a := by
  apply Nat.eq_of_testBit_eq
  intro i
  rw [Nat.testBit_and, vma, Nat.testBit_mod_two_pow, Nat.testBit_shiftLeft,
    Nat.testBit_two_pow_sub_one, ← Nat.shiftRight_eq_div_pow, ← Nat.shiftLeft_eq,
    Nat.testBit_shiftLeft, Nat.testBit_shiftRight]
  by_cases hia : a ≤ i
  · have e : a + (i - a) = i := by omega
    rw [e]
    by_cases hi : i < 64
    · have h2 : i - a < 64 := by omega
      simp [hia, hi, h2]
    · have hf : x.testBit i = false :=
        Nat.testBit_lt_two_pow (Nat.lt_of_lt_of_le hx
          (Nat.pow_le_pow_right (by decide) (by omega)))
      simp [hf]
  · simp [hia]

/-- `FILE_ALIGN` rounds the cursor up to a multiple of `2 ^ algn` when the shift
count is below 64 and the sum does not leave the 64 bits. -/
theorem FILE_ALIGN_eq (off algn : Nat) (ha : algn < 64) (hoff : off + 2 ^ algn ≤ 2 ^ 64) :
    FILE_ALIGN off algn = (off + 2 ^ algn - 1) / 2 ^ algn * 2 ^ algn := by
  have hp : 0 < 2 ^ algn := Nat.two_pow_pos _
  have h1 : vma (1 <<< algn) = 2 ^ algn := by
    rw [Nat.one_shiftLeft, vma]
    exact Nat.mod_eq_of_lt (Nat.pow_lt_pow_right (by decide) ha)
  have h2 : vma (off + 2 ^ algn + (2 ^ 64 - 1)) = off + 2 ^ algn - 1 := by
    rw [vma]
    have : off + 2 ^ algn + (2 ^ 64 - 1) = (off + 2 ^ algn - 1) + 2 ^ 64 := by omega
    rw [this, Nat.add_mod_right]
    exact Nat.mod_eq_of_lt (by omega)
  rw [FILE_ALIGN, h1, h2]
  exact and_high_mask _ _ (by omega)

/-- Rounding up gives the least multiple of `p` that is not below `c`. -/
theorem round_up_least (c p : Nat) (hp : 0 < p) :
    p ∣ (c + p - 1) / p * p
    ∧ c ≤ (c + p - 1) / p * p
    ∧ (c + p - 1) / p * p < c + p
    ∧ ∀ m, p ∣ m → c ≤ m → (c + p - 1) / p * p ≤ m := by
  have hdm := Nat.div_add_mod (c + p - 1) p
  have hml := Nat.mod_lt (c + p - 1) hp
  have hcomm : p * ((c + p - 1) / p) = (c + p - 1) / p * p := Nat.mul_comm _ _
  refine ⟨Nat.dvd_mul_left _ _, by omega, by omega, ?_⟩
  rintro m ⟨k, rfl⟩ hk
  rw [Nat.mul_comm p k]
  apply Nat.mul_le_mul_right
  have hlt : (c + p - 1) / p < k + 1 := by
    rw [Nat.div_lt_iff_lt_mul hp]
    have : (k + 1) * p = p * k + p := by rw [Nat.add_mul, Nat.one_mul, Nat.mul_comm]
    omega
  exact Nat.le_of_lt_succ hlt

/-- What the specification's layout step means. -/
theorem spec_layout_step_spec (c : Nat) (sec : asection) :
    (sec.size ≠ 0 →
      2 ^ sec.alignment_power ∣ (spec_layout_step c sec).1
      ∧ c ≤ (spec_layout_step c sec).1
      ∧ (∀ m, 2 ^ sec.alignment_power ∣ m → c ≤ m → (spec_layout_step c sec).1 ≤ m)
      ∧ (spec_layout_step c sec).2 = (spec_layout_step c sec).1 + sec.size)
    ∧ (sec.size = 0 → (spec_layout_step c sec).1 = 0 ∧ (spec_layout_step c sec).2 = c) := by
  refine ⟨fun h => ?_, fun h => ?_⟩
  · obtain ⟨a, b, -, d⟩ := round_up_least c (2 ^ sec.alignment_power) (Nat.two_pow_pos _)
    simp only [spec_layout_step, h, ne_eq, not_false_eq_true, if_true]
    exact ⟨a, b, d, trivial⟩
  · simp [spec_layout_step, h]

theorem spec_layout_step_le (c : Nat) (sec : asection) : c ≤ (spec_layout_step c sec).2 := by
  by_cases h : sec.size = 0
  · rw [((spec_layout_step_spec c sec).2 h).2]
  · obtain ⟨-, b, -, d⟩ := (spec_layout_step_spec c sec).1 h
    omega

/-- One iteration of the section loop of `bfd_mach_o_build_commands` is the
specification's layout step, as long as the alignment power of a non-empty
section is below 64 and the new cursor stays below 2^63. -/
theorem build_commands_section_layout (c target_index : Nat) (sec : asection)
    (hc : c < 2 ^ 63)
    (ha : sec.size ≠ 0 → sec.alignment_power < 64)
    (hb : (spec_layout_step c sec).2 < 2 ^ 63) :
    (bfd_mach_o_build_commands_section c target_index sec).1.used_by_bfd.offset
        = (spec_layout_step c sec).1
    ∧ (bfd_mach_o_build_commands_section c target_index sec).1.filepos
        = (spec_layout_step c sec).1
    ∧ (bfd_mach_o_build_commands_section c target_index sec).2 = (spec_layout_step c sec).2 := by
  have key : ∀ s : asection, s.size = sec.size → s.alignment_power = sec.alignment_power →
      (let msect : bfd_mach_o_section :=
        { s.used_by_bfd with addr := s.vma, size := s.size, align := s.alignment_power }
       let filelen := if msect.size ≠ 0 then FILE_ALIGN c msect.align else c
       (if msect.size ≠ 0 then filelen else 0, vma (filelen + msect.size)))
      = spec_layout_step c sec := by
    intro s hs hal
    dsimp only
    by_cases h0 : sec.size = 0
    · simp only [hs, h0, ne_eq, not_true_eq_false, if_false, spec_layout_step, Nat.add_zero, vma]
      rw [Nat.mod_eq_of_lt (by omega)]
    · have hlt := ha h0
      obtain ⟨-, b, b2, -⟩ := round_up_least c (2 ^ sec.alignment_power)
        (Nat.two_pow_pos _)
      have hstep : spec_layout_step c sec
          = ((c + 2 ^ sec.alignment_power - 1) / 2 ^ sec.alignment_power
              * 2 ^ sec.alignment_power,
            (c + 2 ^ sec.alignment_power - 1) / 2 ^ sec.alignment_power
              * 2 ^ sec.alignment_power + sec.size) := by
        simp only [spec_layout_step, h0, ne_eq, not_false_eq_true, if_true]
      rw [hstep] at hb ⊢
      have hpow : 2 ^ sec.alignment_power ≤ 2 ^ 63 :=
        Nat.pow_le_pow_right (by decide) (by omega)
      simp only [hs, hal, h0, ne_eq, not_false_eq_true, if_true]
      rw [FILE_ALIGN_eq c sec.alignment_power hlt (by omega), vma,
        Nat.mod_eq_of_lt (by simp only at hb; omega)]
  unfold bfd_mach_o_build_commands_section
  by_cases hf : sec.used_by_bfd.flags = 0
  · have := key (bfd_mach_o_set_section_flags_from_bfd sec) rfl rfl
    simp only [hf, if_true]
    simp only [Prod.ext_iff] at this
    exact ⟨this.1, this.1, this.2⟩
  · have := key sec rfl rfl
    simp only [hf, if_false]
    simp only [Prod.ext_iff] at this
    exact ⟨this.1, this.1, this.2⟩

theorem spec_layout_end_append (l1 : List asection) : ∀ (c : Nat) (l2 : List asection),
    spec_layout_end c (l1 ++ l2) = spec_layout_end (spec_layout_end c l1) l2 := by
  induction l1 with
  | nil => intro c l2; rfl
  | cons a rest ih =>
    intro c l2
    simp only [List.cons_append, spec_layout_end]
    exact ih _ _

theorem spec_layout_end_le (l : List asection) : ∀ c : Nat, c ≤ spec_layout_end c l := by
  induction l with
  | nil => intro c; exact Nat.le_refl c
  | cons a rest ih =>
    intro c
    exact Nat.le_trans (spec_layout_step_le c a) (ih _)

/-- The cursors of the specification's layout grow with the number of sections
laid out. -/
theorem spec_layout_end_take_mono (l : List asection) (c a b : Nat) (hab : a ≤ b) :
    spec_layout_end c (l.take a) ≤ spec_layout_end c (l.take b) := by
  have h : l.take b = l.take a ++ (l.take b).drop a := by
    conv_lhs => rw [← List.take_append_drop a (l.take b)]
    rw [List.take_take, Nat.min_eq_left hab]
  rw [h, spec_layout_end_append]
  exact spec_layout_end_le _ _

theorem spec_layout_end_take_succ (l : List asection) (c i : Nat) (s : asection)
    (h : l[i]? = some s) :
    spec_layout_end c (l.take (i + 1))
      = (spec_layout_step (spec_layout_end c (l.take i)) s).2 := by
  rw [List.take_succ, h, spec_layout_end_append]
  rfl

/-- The section loop of `bfd_mach_o_build_commands` follows the specification's
layout as long as the alignment powers of the non-empty sections are below
64 and the last cursor is below 2^63: it ends with the last cursor, keeps the
sections already appended, and appends section `i` with the offset the
layout step gives it from the cursor after the `i` sections before it. -/
theorem build_commands_loop_layout : ∀ (secs : List asection) (c target_index : Nat)
    (done : List asection),
    (∀ s ∈ secs, s.size ≠ 0 → s.alignment_power < 64) →
    spec_layout_end c secs < 2 ^ 63 →
    (bfd_mach_o_build_commands_loop secs c target_index done).2 = spec_layout_end c secs
    ∧ (∀ i, i < done.length →
        (bfd_mach_o_build_commands_loop secs c target_index done).1[i]? = done[i]?)
    ∧ ∀ i s, secs[i]? = some s →
        ∃ o, (bfd_mach_o_build_commands_loop secs c target_index done).1[done.length + i]?
            = some o
          ∧ o.size = s.size ∧ o.alignment_power = s.alignment_power
          ∧ o.used_by_bfd.offset
            = (spec_layout_step (spec_layout_end c (secs.take i)) s).1
          ∧ o.filepos = (spec_layout_step (spec_layout_end c (secs.take i)) s).1 := by
  intro secs
  induction secs with
  | nil =>
    intro c ti done _ _
    refine ⟨rfl, fun i _ => rfl, fun i s h => ?_⟩
    simp at h
  | cons a rest ih =>
    intro c ti done hal hb
    have hb1 : spec_layout_end (spec_layout_step c a).2 rest < 2 ^ 63 := hb
    have hstep : (spec_layout_step c a).2 < 2 ^ 63 :=
      Nat.lt_of_le_of_lt (spec_layout_end_le rest _) hb1
    have hc : c < 2 ^ 63 := Nat.lt_of_le_of_lt (spec_layout_step_le c a) hstep
    obtain ⟨e1, e2, e3⟩ := build_commands_section_layout c ti a hc
      (hal a (List.mem_cons_self a rest)) hstep
    obtain ⟨k1, -⟩ := build_commands_section_spec c ti a
    have ksize : (bfd_mach_o_build_commands_section c ti a).1.size = a.size :=
      congrArg (fun t => t.2.2.2.2.1) k1
    have kalign : (bfd_mach_o_build_commands_section c ti a).1.alignment_power
        = a.alignment_power := congrArg (fun t => t.2.2.2.2.2.1) k1
    rw [bfd_mach_o_build_commands_loop, e3]
    obtain ⟨i1, i2, i3⟩ := ih (spec_layout_step c a).2 (ti + 1)
      (done ++ [(bfd_mach_o_build_commands_section c ti a).1])
      (fun s hs => hal s (List.mem_cons_of_mem a hs)) hb1
    refine ⟨i1, fun i hi => ?_, fun i s hs => ?_⟩
    · rw [i2 i (by simp only [List.length_append, List.length_singleton]; omega),
        List.getElem?_append_left hi]
    · cases i with
      | zero =>
        simp only [List.getElem?_cons_zero, Option.some.injEq] at hs
        subst hs
        refine ⟨(bfd_mach_o_build_commands_section c ti a).1, ?_, ksize, kalign, e1, e2⟩
        have h0 := i2 done.length (by simp)
        simpa using h0
      | succ i =>
        simp only [List.getElem?_cons_succ] at hs
        obtain ⟨o, ho, h1, h2, h3, h4⟩ := i3 i s hs
        refine ⟨o, ?_, h1, h2, h3, h4⟩
        rw [← ho]
        congr 1
        simp only [List.length_append, List.length_singleton]
        omega

/-- The cursor `bfd_mach_o_build_commands` starts the section loop with, and what
it stores from the loop. -/
theorem build_commands_layout_parts
    (mdata : bfd_mach_o_data_struct bfd_mach_o_object bfd_mach_o_command)
    (h0 : mdata.header.ncmds = 0) (F : Nat)
    (hF : F = u32 ((if mach_o_wide_p mdata.header then BFD_MACH_O_HEADER_64_SIZE
              else BFD_MACH_O_HEADER_SIZE)
            + (if mach_o_wide_p mdata.header
              then u32 (BFD_MACH_O_LC_SEGMENT_64_SIZE
                + BFD_MACH_O_SECTION_64_SIZE * mdata.rest.sections.length)
              else u32 (BFD_MACH_O_LC_SEGMENT_SIZE
                + BFD_MACH_O_SECTION_SIZE * mdata.rest.sections.length))) + 6 * 4) :
    (bfd_mach_o_build_commands mdata).2.rest.sections
        = (bfd_mach_o_build_commands_loop mdata.rest.sections F 0 []).1
    ∧ (bfd_mach_o_build_commands mdata).2.rest.filelen
        = (bfd_mach_o_build_commands_loop mdata.rest.sections F 0 []).2
    ∧ (bfd_mach_o_build_commands mdata).2.commands.map
          (fun c => c.segment.map (fun seg => (seg.fileoff, seg.filesize, seg.vmsize)))
        = [some (F,
            vma ((bfd_mach_o_build_commands_loop mdata.rest.sections F 0 []).2 + (2 ^ 64 - F)),
            vma ((bfd_mach_o_build_commands_loop mdata.rest.sections F 0 []).2 + (2 ^ 64 - F))),
           none]
    ∧ (bfd_mach_o_build_commands mdata).2.header.sizeofcmds
        = (if mach_o_wide_p mdata.header
            then u32 (BFD_MACH_O_LC_SEGMENT_64_SIZE
              + BFD_MACH_O_SECTION_64_SIZE * mdata.rest.sections.length)
            else u32 (BFD_MACH_O_LC_SEGMENT_SIZE
              + BFD_MACH_O_SECTION_SIZE * mdata.rest.sections.length)) + 6 * 4 := by
  subst hF
  simp only [bfd_mach_o_build_commands, h0, ne_eq, not_true_eq_false, if_false,
    List.map_cons, List.map_nil, bfd_mach_o_load_command.segment, Option.map_some',
    Option.map_none', and_self]

/-- C21, as amended.  Let `c_0` be the header size plus `sizeofcmds` (below 2^32),
and let `c_i` be the cursor of the layout on unbounded integers after
sections `s_1 .. s_i`.  When every non-empty section has an alignment power
below 64 and the last cursor `c_n` is below 2^63, `bfd_mach_o_build_commands`
lays the sections out so: a section of size 0 gets offset 0 and
`c_i = c_(i-1)`; any other section gets, as file position and as Mach-O
offset, the least multiple of `2 ^ align_i` that is not below `c_(i-1)`, and
`c_i = offset_i + size_i`.  The segment has `fileoff = c_0` and
`filesize = vmsize = c_n - c_0`, and the file length is `c_n`.  The non-empty
sections start at or after `c_0`, each at a multiple of its alignment, and
each one ends at or before the start of every later one. -/
theorem C21_build_commands_layout
    (mdata : bfd_mach_o_data_struct bfd_mach_o_object bfd_mach_o_command) (c0 : Nat)
    (h0 : mdata.header.ncmds = 0)
    (hc0 : c0 = if mach_o_wide_p mdata.header
      then 32 + (72 + 80 * mdata.rest.sections.length + 24)
      else 28 + (56 + 68 * mdata.rest.sections.length + 24))
    (hfit : c0 < 2 ^ 32)
    (hal : ∀ s ∈ mdata.rest.sections, s.size ≠ 0 → s.alignment_power < 64)
    (hb : spec_layout_end c0 mdata.rest.sections < 2 ^ 63) :
    c0 = (if mach_o_wide_p mdata.header then 32 else 28)
          + (bfd_mach_o_build_commands mdata).2.header.sizeofcmds
    ∧ (∀ i s, mdata.rest.sections[i]? = some s →
        ∃ o, (bfd_mach_o_build_commands mdata).2.rest.sections[i]? = some o
          ∧ o.size = s.size ∧ o.alignment_power = s.alignment_power
          ∧ o.used_by_bfd.offset = o.filepos
          ∧ (s.size ≠ 0 →
              2 ^ s.alignment_power ∣ o.filepos
              ∧ spec_layout_end c0 (mdata.rest.sections.take i) ≤ o.filepos
              ∧ (∀ m, 2 ^ s.alignment_power ∣ m →
                  spec_layout_end c0 (mdata.rest.sections.take i) ≤ m → o.filepos ≤ m)
              ∧ spec_layout_end c0 (mdata.rest.sections.take (i + 1)) = o.filepos + s.size)
          ∧ (s.size = 0 →
              o.filepos = 0
              ∧ spec_layout_end c0 (mdata.rest.sections.take (i + 1))
                = spec_layout_end c0 (mdata.rest.sections.take i)))
    ∧ (bfd_mach_o_build_commands mdata).2.commands.map
          (fun c => c.segment.map (fun seg => (seg.fileoff, seg.filesize, seg.vmsize)))
        = [some (c0, spec_layout_end c0 mdata.rest.sections - c0,
            spec_layout_end c0 mdata.rest.sections - c0), none]
    ∧ (bfd_mach_o_build_commands mdata).2.rest.filelen
        = spec_layout_end c0 mdata.rest.sections
    ∧ (∀ (i j : Nat) (si sj oi oj : asection), i < j →
        mdata.rest.sections[i]? = some si → mdata.rest.sections[j]? = some sj →
        (bfd_mach_o_build_commands mdata).2.rest.sections[i]? = some oi →
        (bfd_mach_o_build_commands mdata).2.rest.sections[j]? = some oj →
        si.size ≠ 0 → sj.size ≠ 0 →
        c0 ≤ oi.filepos ∧ oi.filepos + oi.size ≤ oj.filepos) := by
  have hF : c0 = u32 ((if mach_o_wide_p mdata.header then BFD_MACH_O_HEADER_64_SIZE
              else BFD_MACH_O_HEADER_SIZE)
            + (if mach_o_wide_p mdata.header
              then u32 (BFD_MACH_O_LC_SEGMENT_64_SIZE
                + BFD_MACH_O_SECTION_64_SIZE * mdata.rest.sections.length)
              else u32 (BFD_MACH_O_LC_SEGMENT_SIZE
                + BFD_MACH_O_SECTION_SIZE * mdata.rest.sections.length))) + 6 * 4 := by
    rw [hc0] at hfit ⊢
    cases hw : mach_o_wide_p mdata.header
    · simp only [hw, Bool.false_eq_true, if_false] at hfit ⊢
      simp only [u32, BFD_MACH_O_HEADER_SIZE, BFD_MACH_O_LC_SEGMENT_SIZE,
        BFD_MACH_O_SECTION_SIZE]
      omega
    · simp only [hw, if_true] at hfit ⊢
      simp only [u32, BFD_MACH_O_HEADER_64_SIZE, BFD_MACH_O_LC_SEGMENT_64_SIZE,
        BFD_MACH_O_SECTION_64_SIZE]
      omega
  have hsz : (if mach_o_wide_p mdata.header
            then u32 (BFD_MACH_O_LC_SEGMENT_64_SIZE
              + BFD_MACH_O_SECTION_64_SIZE * mdata.rest.sections.length)
            else u32 (BFD_MACH_O_LC_SEGMENT_SIZE
              + BFD_MACH_O_SECTION_SIZE * mdata.rest.sections.length)) + 6 * 4
      = c0 - (if mach_o_wide_p mdata.header then 32 else 28)
      ∧ (if mach_o_wide_p mdata.header then 32 else 28) ≤ c0 := by
    rw [hc0] at hfit ⊢
    cases hw : mach_o_wide_p mdata.header
    · simp only [hw, Bool.false_eq_true, if_false] at hfit ⊢
      simp only [u32, BFD_MACH_O_LC_SEGMENT_SIZE, BFD_MACH_O_SECTION_SIZE]
      omega
    · simp only [hw, if_true] at hfit ⊢
      simp only [u32, BFD_MACH_O_LC_SEGMENT_64_SIZE, BFD_MACH_O_SECTION_64_SIZE]
      omega
  obtain ⟨p1, p2, p3, p4⟩ := build_commands_layout_parts mdata h0 c0 hF
  obtain ⟨l1, -, l3⟩ := build_commands_loop_layout mdata.rest.sections c0 0 [] hal hb
  have hle : c0 ≤ spec_layout_end c0 mdata.rest.sections := spec_layout_end_le _ _
  have hsec : ∀ i s, mdata.rest.sections[i]? = some s →
      ∃ o, (bfd_mach_o_build_commands mdata).2.rest.sections[i]? = some o
        ∧ o.size = s.size ∧ o.alignment_power = s.alignment_power
        ∧ o.used_by_bfd.offset = o.filepos
        ∧ o.filepos
          = (spec_layout_step (spec_layout_end c0 (mdata.rest.sections.take i)) s).1 := by
    intro i s hs
    obtain ⟨o, ho, a, b, c, d⟩ := l3 i s hs
    rw [List.length_nil, Nat.zero_add] at ho
    exact ⟨o, by rw [p1, ho], a, b, by rw [c, d], d⟩
  refine ⟨?_, fun i s hs => ?_, ?_, ?_, fun i j si sj oi oj hij hsi hsj hoi hoj hzi hzj => ?_⟩
  · rw [p4, hsz.1]
    have := hsz.2
    omega
  · obtain ⟨o, ho, a, b, c, d⟩ := hsec i s hs
    obtain ⟨q1, q2⟩ := spec_layout_step_spec (spec_layout_end c0 (mdata.rest.sections.take i)) s
    refine ⟨o, ho, a, b, c, fun hz => ?_, fun hz => ?_⟩
    · obtain ⟨r1, r2, r3, r4⟩ := q1 hz
      rw [d, spec_layout_end_take_succ _ _ _ _ hs]
      exact ⟨r1, r2, r3, r4⟩
    · obtain ⟨r1, r2⟩ := q2 hz
      rw [d, spec_layout_end_take_succ _ _ _ _ hs]
      exact ⟨r1, r2⟩
  · rw [p3, l1, vma]
    have e : spec_layout_end c0 mdata.rest.sections + (2 ^ 64 - c0)
        = (spec_layout_end c0 mdata.rest.sections - c0) + 2 ^ 64 := by omega
    rw [e, Nat.add_mod_right, Nat.mod_eq_of_lt (by omega)]
  · rw [p2, l1]
  · obtain ⟨o1, ho1, a1, -, -, d1⟩ := hsec i si hsi
    obtain ⟨o2, ho2, -, -, -, d2⟩ := hsec j sj hsj
    rw [hoi] at ho1
    rw [hoj] at ho2
    obtain rfl := Option.some.inj ho1
    obtain rfl := Option.some.inj ho2
    obtain ⟨-, r2, -, r4⟩ :=
      (spec_layout_step_spec (spec_layout_end c0 (mdata.rest.sections.take i)) si).1 hzi
    obtain ⟨-, t2, -, -⟩ :=
      (spec_layout_step_spec (spec_layout_end c0 (mdata.rest.sections.take j)) sj).1 hzj
    have m1 := spec_layout_end_take_mono mdata.rest.sections c0 (i + 1) j hij
    have m0 : c0 ≤ spec_layout_end c0 (mdata.rest.sections.take i) := spec_layout_end_le _ _
    rw [spec_layout_end_take_succ _ _ _ _ hsi, r4] at m1
    rw [d1, d2, a1]
    omega

theorem C21_build_commands_layout_witness :
    (bfd_mach_o_build_commands
        ⟨⟨0xfeedface, 7, 3, 1, 0, 0, 0, 0, 1, .BFD_ENDIAN_BIG⟩, [],
          ⟨[⟨[], 0, 0, 0, 10, 0, 2, 0, 0, 0, ⟨[], [], 0, 0, 0, 0, 0, 0, 0x80000400, 0, 0, 0⟩⟩,
            ⟨[], 0, 0, 0, 0, 0, 4, 0, 0, 0, ⟨[], [], 0, 0, 0, 0, 0, 0, 1, 0, 0, 0⟩⟩,
            ⟨[], 0, 0, 0, 5, 0, 3, 0, 0, 0, ⟨[], [], 0, 0, 0, 0, 0, 0, 0, 0, 0, 0⟩⟩],
           0⟩⟩).2.rest.filelen = 333
    ∧ (bfd_mach_o_build_commands
        ⟨⟨0xfeedface, 7, 3, 1, 0, 0, 0, 0, 1, .BFD_ENDIAN_BIG⟩, [],
          ⟨[⟨[], 0, 0, 0, 10, 0, 2, 0, 0, 0, ⟨[], [], 0, 0, 0, 0, 0, 0, 0x80000400, 0, 0, 0⟩⟩,
            ⟨[], 0, 0, 0, 0, 0, 4, 0, 0, 0, ⟨[], [], 0, 0, 0, 0, 0, 0, 1, 0, 0, 0⟩⟩,
            ⟨[], 0, 0, 0, 5, 0, 3, 0, 0, 0, ⟨[], [], 0, 0, 0, 0, 0, 0, 0, 0, 0, 0⟩⟩],
           0⟩⟩).2.rest.sections.map
          (fun s => (s.filepos, s.used_by_bfd.offset, s.size))
      = [(312, 312, 10), (0, 0, 0), (328, 328, 5)] :=
  ⟨((C21_build_commands_layout
        ⟨⟨0xfeedface, 7, 3, 1, 0, 0, 0, 0, 1, .BFD_ENDIAN_BIG⟩, [],
          ⟨[⟨[], 0, 0, 0, 10, 0, 2, 0, 0, 0, ⟨[], [], 0, 0, 0, 0, 0, 0, 0x80000400, 0, 0, 0⟩⟩,
            ⟨[], 0, 0, 0, 0, 0, 4, 0, 0, 0, ⟨[], [], 0, 0, 0, 0, 0, 0, 1, 0, 0, 0⟩⟩,
            ⟨[], 0, 0, 0, 5, 0, 3, 0, 0, 0, ⟨[], [], 0, 0, 0, 0, 0, 0, 0, 0, 0, 0⟩⟩],
           0⟩⟩ 312 rfl (by decide) (by decide) (by decide) (by decide)).2.2.2.1).trans (by decide),
    by decide⟩

/-- C21, as stated, fails when the 64-bit cursor wraps: in this 32-bit object
`c_0 = 244`; the first section, of size `2^64 - 244`, gets offset 244 and
moves the cursor to `(244 + 2^64 - 244) mod 2^64 = 0`, so the second section,
of size 8, is placed at offset 0, before the end of the command table, and
the file length is 8. -/
theorem C21_cursor_wraps_counterexample :
    (bfd_mach_o_build_commands
        ⟨⟨0xfeedface, 7, 3, 1, 0, 0, 0, 0, 1, .BFD_ENDIAN_BIG⟩, [],
          ⟨[⟨[], 0, 0, 0, 2 ^ 64 - 244, 0, 0, 0, 0, 0,
              ⟨[], [], 0, 0, 0, 0, 0, 0, 0x80000400, 0, 0, 0⟩⟩,
            ⟨[], 0, 0, 0, 8, 0, 0, 0, 0, 0, ⟨[], [], 0, 0, 0, 0, 0, 0, 0, 0, 0, 0⟩⟩],
           0⟩⟩).2.rest.sections.map
          (fun s => (s.filepos, s.size))
      = [(244, 2 ^ 64 - 244), (0, 8)]
    ∧ (bfd_mach_o_build_commands
        ⟨⟨0xfeedface, 7, 3, 1, 0, 0, 0, 0, 1, .BFD_ENDIAN_BIG⟩, [],
          ⟨[⟨[], 0, 0, 0, 2 ^ 64 - 244, 0, 0, 0, 0, 0,
              ⟨[], [], 0, 0, 0, 0, 0, 0, 0x80000400, 0, 0, 0⟩⟩,
            ⟨[], 0, 0, 0, 8, 0, 0, 0, 0, 0, ⟨[], [], 0, 0, 0, 0, 0, 0, 0, 0, 0, 0⟩⟩],
           0⟩⟩).2.rest.filelen = 8
    ∧ (bfd_mach_o_build_commands
        ⟨⟨0xfeedface, 7, 3, 1, 0, 0, 0, 0, 1, .BFD_ENDIAN_BIG⟩, [],
          ⟨[⟨[], 0, 0, 0, 2 ^ 64 - 244, 0, 0, 0, 0, 0,
              ⟨[], [], 0, 0, 0, 0, 0, 0, 0x80000400, 0, 0, 0⟩⟩,
            ⟨[], 0, 0, 0, 8, 0, 0, 0, 0, 0, ⟨[], [], 0, 0, 0, 0, 0, 0, 0, 0, 0, 0⟩⟩],
           0⟩⟩).2.header.sizeofcmds + 28 = 244
    ∧ (0 : Nat) < 244 := by
  decide

/-! ## Synthetic symbols -/

theorem vma_add_sub (a x : Nat) (ha : a < 2 ^ 64) (hx : x < 2 ^ 64) :
    vma (vma (a + x) + (2 ^ 64 - a)) = x := by
  simp only [vma]
  omega

/-- The loop over the indirect symbols of a section stores one symbol for each
iteration when the indirect symbols it reads are in the table and those below
`nsyms` are in the symbol array: symbol `k` belongs to the section, has the
synthetic flags and the value of the running address, and is named after the
symbol `indirect_syms[j + k]` refers to. -/
theorem get_synthetic_symtab_entries_spec (dysymtab : bfd_mach_o_dysymtab_command)
    (symtab : bfd_mach_o_symtab_command) (symbols : List bfd_mach_o_asymbol)
    (strtab : List Byte) (i : Nat) (sec : bfd_mach_o_section) (entry_size : Nat)
    (hsym : symbols.length = symtab.nsyms) :
    ∀ (todo j addr : Nat), j + todo ≤ dysymtab.indirect_syms.length →
    ∃ out, bfd_mach_o_get_synthetic_symtab_entries dysymtab symtab symbols strtab i sec
          entry_size todo j addr = .value out
      ∧ out.length = todo
      ∧ ∀ k, k < todo →
        ∃ isym s, dysymtab.indirect_syms[j + k]? = some isym ∧ out[k]? = some s
          ∧ s.symbol_section = .bfdsection i
          ∧ s.flags = BSF_GLOBAL ||| BSF_SYNTHETIC
          ∧ s.value = vma (vma (addr + k * entry_size) + (2 ^ 64 - sec.addr))
          ∧ (∀ sym, isym < symtab.nsyms → symbols[isym]? = some sym →
              s.name = c_string strtab sym.name ++ str "$stub")
          ∧ (symtab.nsyms ≤ isym → s.name = []) := by
  intro todo
  induction todo with
  | zero =>
    intro j addr _
    exact ⟨[], rfl, rfl, fun k hk => absurd hk (Nat.not_lt_zero k)⟩
  | succ n ih =>
    intro j addr hj
    have hjl : j < dysymtab.indirect_syms.length := by omega
    obtain ⟨rest, hrest, hlen, hk⟩ := ih (j + 1) (vma (addr + entry_size)) (by omega)
    rw [bfd_mach_o_get_synthetic_symtab_entries, List.getElem?_eq_getElem hjl]
    dsimp only
    by_cases hlt : dysymtab.indirect_syms[j] < symtab.nsyms
    · have hin : dysymtab.indirect_syms[j] < symbols.length := by omega
      rw [if_pos hlt, List.getElem?_eq_getElem hin]
      dsimp only
      rw [hrest]
      refine ⟨_, rfl, by simp [hlen], fun k hkn => ?_⟩
      cases k with
      | zero =>
        refine ⟨dysymtab.indirect_syms[j],
          { name := c_string strtab symbols[dysymtab.indirect_syms[j]].name ++ str "$stub"
            value := vma (addr + (2 ^ 64 - sec.addr))
            flags := BSF_GLOBAL ||| BSF_SYNTHETIC
            symbol_section := .bfdsection i },
          by simp [List.getElem?_eq_getElem hjl], List.getElem?_cons_zero, rfl, rfl, ?_, ?_, ?_⟩
        · simp only [Nat.zero_mul, Nat.add_zero, vma, Nat.mod_mod, Nat.add_mod_mod,
            Nat.mod_add_mod]
        · intro sym _ hs
          rw [List.getElem?_eq_getElem hin] at hs
          rw [← Option.some.inj hs]
        · intro hge
          omega
      | succ k =>
        obtain ⟨isym, s, h1, h2, h3, h4, h5, h6, h7⟩ := hk k (by omega)
        refine ⟨isym, s, ?_, by simpa using h2, h3, h4, ?_, h6, h7⟩
        · rw [← h1]
          congr 1
          omega
        · rw [h5]
          simp only [vma, Nat.mod_add_mod, Nat.add_mod_mod]
          congr 1
          rw [Nat.succ_mul]
          omega
    · rw [if_neg hlt]
      dsimp only
      rw [hrest]
      refine ⟨_, rfl, by simp [hlen], fun k hkn => ?_⟩
      cases k with
      | zero =>
        refine ⟨dysymtab.indirect_syms[j],
          { name := []
            value := vma (addr + (2 ^ 64 - sec.addr))
            flags := BSF_GLOBAL ||| BSF_SYNTHETIC
            symbol_section := .bfdsection i },
          by simp [List.getElem?_eq_getElem hjl], List.getElem?_cons_zero, rfl, rfl, ?_, ?_, ?_⟩
        · simp only [Nat.zero_mul, Nat.add_zero, vma, Nat.mod_mod, Nat.add_mod_mod,
            Nat.mod_add_mod]
        · intro sym h _
          exact absurd h hlt
        · intro _
          rfl
      | succ k =>
        obtain ⟨isym, s, h1, h2, h3, h4, h5, h6, h7⟩ := hk k (by omega)
        refine ⟨isym, s, ?_, by simpa using h2, h3, h4, ?_, h6, h7⟩
        · rw [← h1]
          congr 1
          omega
        · rw [h5]
          simp only [vma, Nat.mod_add_mod, Nat.add_mod_mod]
          congr 1
          rw [Nat.succ_mul]
          omega

/-- The section loop of `bfd_mach_o_get_synthetic_symtab` appends the symbols of each
section to those stored before, so the symbols of a section form one block of
the result. -/
theorem get_synthetic_symtab_sections_block (wide : Bool)
    (dysymtab : bfd_mach_o_dysymtab_command) (symtab : bfd_mach_o_symtab_command)
    (symbols : List bfd_mach_o_asymbol) (strtab : List Byte) (count names : Nat) :
    ∀ (secs : List bfd_mach_o_section) (i0 : Nat) (done res : List synthetic_asymbol),
    bfd_mach_o_get_synthetic_symtab_sections wide dysymtab symtab symbols strtab count names
        secs i0 done = .value res →
    (∃ after, res = done ++ after)
    ∧ ∀ k sec out, secs[k]? = some sec →
        bfd_mach_o_get_synthetic_symtab_section wide dysymtab symtab symbols strtab (i0 + k) sec
          = .value out →
        ∃ before after, res = before ++ out ++ after := by
  intro secs
  induction secs with
  | nil =>
    intro i0 done res h
    simp only [bfd_mach_o_get_synthetic_symtab_sections, c_result.value.injEq] at h
    subst h
    exact ⟨⟨[], by simp⟩, fun k sec out hk => by simp at hk⟩
  | cons a rest ih =>
    intro i0 done res h
    rw [bfd_mach_o_get_synthetic_symtab_sections] at h
    split at h
    · exact absurd h (by simp)
    · rename_i new hnew
      split at h
      · exact absurd h (by simp)
      · obtain ⟨⟨after, hafter⟩, hblock⟩ := ih (i0 + 1) (done ++ new) res h
        refine ⟨⟨new ++ after, by rw [hafter, List.append_assoc]⟩, fun k sec out hk ho => ?_⟩
        cases k with
        | zero =>
          simp only [List.getElem?_cons_zero, Option.some.injEq] at hk
          subst hk
          rw [Nat.add_zero, hnew] at ho
          simp only [c_result.value.injEq] at ho
          subst ho
          exact ⟨done, after, hafter⟩
        | succ k =>
          simp only [List.getElem?_cons_succ] at hk
          refine hblock k sec out hk ?_
          rw [← ho]
          congr 1
          omega

/-- C24. For a loaded symbol table (the symbol array holds `nsyms` symbols, the
table of indirect symbols `nindirectsyms` entries) and section `i` of the
section table, of type symbol-stub, lazy or non-lazy symbol-pointer, with
entry size `e > 0`, size `s` and first indirect index `f = reserved1`, where
`f + floor(s/e) <= nindirectsyms`: the entry size is `reserved2` for a stub
section and 4 (32-bit) or 8 (64-bit) for a symbol-pointer section;
`bfd_mach_o_get_synthetic_symtab` stores for that section `floor(s/e)`
synthetic symbols in order; symbol `j` belongs to that section with value
`j * e`, that is at address `addr + j * e`, carries the flags
`BSF_GLOBAL | BSF_SYNTHETIC`, and is named `N ++ "$stub"` when
`indirect_syms[f + j]` is below `nsyms` and refers to a symbol named `N`, and
by the empty string otherwise.  In every array the function returns, these
symbols are one block. -/
theorem C24_synthetic_symbols (wide : Bool) (dysymtab : bfd_mach_o_dysymtab_command)
    (symtab : bfd_mach_o_symtab_command) (symbols : List bfd_mach_o_asymbol)
    (strtab : List Byte) (i : Nat) (sec : bfd_mach_o_section)
    (hsymbols : symtab.symbols = some symbols) (hstrtab : symtab.strtab = some strtab)
    (hsym : symbols.length = symtab.nsyms)
    (hind : dysymtab.indirect_syms.length = dysymtab.nindirectsyms)
    (hn : dysymtab.nindirectsyms < 2 ^ 32)
    (htype : sec.flags &&& BFD_MACH_O_SECTION_TYPE_MASK = BFD_MACH_O_S_SYMBOL_STUBS
      ∨ sec.flags &&& BFD_MACH_O_SECTION_TYPE_MASK = BFD_MACH_O_S_LAZY_SYMBOL_POINTERS
      ∨ sec.flags &&& BFD_MACH_O_SECTION_TYPE_MASK = BFD_MACH_O_S_NON_LAZY_SYMBOL_POINTERS)
    (hr2 : sec.reserved2 < 2 ^ 32) (haddr : sec.addr < 2 ^ 64) (hsize : sec.size < 2 ^ 64)
    (he : 0 < bfd_mach_o_section_get_entry_size wide sec)
    (hrange : sec.reserved1 + sec.size / bfd_mach_o_section_get_entry_size wide sec
      ≤ dysymtab.nindirectsyms) :
    (sec.flags &&& BFD_MACH_O_SECTION_TYPE_MASK = BFD_MACH_O_S_SYMBOL_STUBS →
      bfd_mach_o_section_get_entry_size wide sec = sec.reserved2)
    ∧ (sec.flags &&& BFD_MACH_O_SECTION_TYPE_MASK = BFD_MACH_O_S_LAZY_SYMBOL_POINTERS
        ∨ sec.flags &&& BFD_MACH_O_SECTION_TYPE_MASK = BFD_MACH_O_S_NON_LAZY_SYMBOL_POINTERS →
      bfd_mach_o_section_get_entry_size wide sec = if wide then 8 else 4)
    ∧ ∃ out, bfd_mach_o_get_synthetic_symtab_section wide dysymtab symtab symbols strtab i sec
          = .value out
      ∧ out.length = sec.size / bfd_mach_o_section_get_entry_size wide sec
      ∧ (∀ j, j < sec.size / bfd_mach_o_section_get_entry_size wide sec →
        ∃ isym s, dysymtab.indirect_syms[sec.reserved1 + j]? = some isym ∧ out[j]? = some s
          ∧ s.symbol_section = .bfdsection i
          ∧ s.flags = BSF_GLOBAL ||| BSF_SYNTHETIC
          ∧ s.value = j * bfd_mach_o_section_get_entry_size wide sec
          ∧ vma (sec.addr + s.value)
            = vma (sec.addr + j * bfd_mach_o_section_get_entry_size wide sec)
          ∧ (∀ sym, isym < symtab.nsyms → symbols[isym]? = some sym →
              s.name = c_string strtab sym.name ++ str "$stub")
          ∧ (symtab.nsyms ≤ isym → s.name = []))
      ∧ ∀ (sections : List bfd_mach_o_section) (res : List synthetic_asymbol),
        sections[i]? = some sec →
        bfd_mach_o_get_synthetic_symtab wide sections (some symtab) (some dysymtab)
          = .value (some res) →
        ∃ before after, res = before ++ out ++ after := by
  have hstub : sec.flags &&& BFD_MACH_O_SECTION_TYPE_MASK = BFD_MACH_O_S_SYMBOL_STUBS →
      bfd_mach_o_section_get_entry_size wide sec = sec.reserved2 := by
    intro h
    have h1 : ¬ (BFD_MACH_O_S_SYMBOL_STUBS = BFD_MACH_O_S_NON_LAZY_SYMBOL_POINTERS
        ∨ BFD_MACH_O_S_SYMBOL_STUBS = BFD_MACH_O_S_LAZY_SYMBOL_POINTERS) := by decide
    rw [bfd_mach_o_section_get_entry_size, h, if_neg h1, if_pos rfl, u32,
      Nat.mod_eq_of_lt hr2]
  have hptr : sec.flags &&& BFD_MACH_O_SECTION_TYPE_MASK = BFD_MACH_O_S_LAZY_SYMBOL_POINTERS
        ∨ sec.flags &&& BFD_MACH_O_SECTION_TYPE_MASK = BFD_MACH_O_S_NON_LAZY_SYMBOL_POINTERS →
      bfd_mach_o_section_get_entry_size wide sec = if wide then 8 else 4 := by
    intro h
    rw [bfd_mach_o_section_get_entry_size, if_pos (Or.symm h)]
  have hdiv : sec.size / bfd_mach_o_section_get_entry_size wide sec
      ≤ dysymtab.nindirectsyms := Nat.le_trans (Nat.le_add_left _ _) hrange
  have hr1 : sec.reserved1 < 2 ^ 32 :=
    Nat.lt_of_le_of_lt (Nat.le_trans (Nat.le_add_right _ _) hrange) hn
  have hnbr : bfd_mach_o_section_get_nbr_indirect wide sec
      = sec.size / bfd_mach_o_section_get_entry_size wide sec := by
    rw [bfd_mach_o_section_get_nbr_indirect, if_neg (by omega), u32,
      Nat.mod_eq_of_lt (by omega)]
  have hfirst : u32 sec.reserved1 = sec.reserved1 := Nat.mod_eq_of_lt hr1
  have hlast : u32 (sec.reserved1 + sec.size / bfd_mach_o_section_get_entry_size wide sec)
      = sec.reserved1 + sec.size / bfd_mach_o_section_get_entry_size wide sec :=
    Nat.mod_eq_of_lt (by omega)
  have hfn : bfd_mach_o_get_synthetic_symtab_section wide dysymtab symtab symbols strtab i sec
      = bfd_mach_o_get_synthetic_symtab_entries dysymtab symtab symbols strtab i sec
          (bfd_mach_o_section_get_entry_size wide sec)
          (sec.size / bfd_mach_o_section_get_entry_size wide sec) sec.reserved1 sec.addr := by
    have ht : sec.flags &&& BFD_MACH_O_SECTION_TYPE_MASK
          = BFD_MACH_O_S_NON_LAZY_SYMBOL_POINTERS
        ∨ sec.flags &&& BFD_MACH_O_SECTION_TYPE_MASK = BFD_MACH_O_S_LAZY_SYMBOL_POINTERS
        ∨ sec.flags &&& BFD_MACH_O_SECTION_TYPE_MASK = BFD_MACH_O_S_SYMBOL_STUBS := by
      rcases htype with h | h | h
      · exact Or.inr (Or.inr h)
      · exact Or.inr (Or.inl h)
      · exact Or.inl h
    rw [bfd_mach_o_get_synthetic_symtab_section, if_pos ht]
    dsimp only
    rw [hnbr, hfirst, hlast, Nat.add_sub_cancel_left]
  obtain ⟨out, ho, hlen, hk⟩ := get_synthetic_symtab_entries_spec dysymtab symtab symbols strtab
    i sec (bfd_mach_o_section_get_entry_size wide sec) hsym
    (sec.size / bfd_mach_o_section_get_entry_size wide sec) sec.reserved1 sec.addr
    (by rw [hind]; exact hrange)
  refine ⟨hstub, hptr, out, by rw [hfn, ho], hlen, fun j hj => ?_, fun sections res hs hres => ?_⟩
  · obtain ⟨isym, s, h1, h2, h3, h4, h5, h6, h7⟩ := hk j hj
    have hje : j * bfd_mach_o_section_get_entry_size wide sec < 2 ^ 64 := by
      have h1 : j * bfd_mach_o_section_get_entry_size wide sec
          ≤ sec.size / bfd_mach_o_section_get_entry_size wide sec
            * bfd_mach_o_section_get_entry_size wide sec :=
        Nat.mul_le_mul_right _ (Nat.le_of_lt hj)
      have h2 := Nat.div_mul_le_self sec.size (bfd_mach_o_section_get_entry_size wide sec)
      omega
    have hv : s.value = j * bfd_mach_o_section_get_entry_size wide sec := by
      rw [h5]
      exact vma_add_sub _ _ haddr hje
    exact ⟨isym, s, h1, h2, h3, h4, hv, by rw [hv], h6, h7⟩
  · unfold bfd_mach_o_get_synthetic_symtab at hres
    simp only [hsymbols, hstrtab, Option.getD_some] at hres
    split at hres
    · exact absurd hres (by simp)
    · split at hres
      · exact absurd hres (by simp)
      · split at hres
        · exact absurd hres (by simp)
        · rename_i names hnames l hl
          simp only [c_result.value.injEq, Option.some.injEq] at hres
          subst hres
          obtain ⟨-, hblock⟩ := get_synthetic_symtab_sections_block wide dysymtab symtab
            symbols strtab _ _ sections 0 [] l hl
          exact hblock i sec out hs (by rw [Nat.zero_add, hfn, ho])

set_option maxRecDepth 100000 in
theorem C24_synthetic_symbols_witness :
    bfd_mach_o_get_synthetic_symtab false
        [⟨str "__symbol_stub", str "__TEXT", 0x1000, 32, 0, 0, 0, 0, 0x80000408, 2, 16, 0⟩]
        (some ⟨0, 10, 0, 9,
          some (List.replicate 5 ⟨0, 0, 0, 0, .bfd_und_section_ptr, 1, 0, 0⟩
          ++ [⟨1, 0, 0, 0, .bfd_und_section_ptr, 1, 0, 0⟩]
          ++ List.replicate 3 ⟨0, 0, 0, 0, .bfd_und_section_ptr, 1, 0, 0⟩
          ++ [⟨5, 0, 0, 0, .bfd_und_section_ptr, 1, 0, 0⟩]),
          some (0 :: str "foo" ++ 0 :: str "bar" ++ [0])⟩)
        (some ⟨0, 0, 0, 0, 0, 0, 0, 0, 0, 0, 0, 0, 0, 4, 0, 0, 0, 0, [], [], [0, 0, 5, 9], []⟩)
      = .value (some
          [⟨str "foo$stub", 0, BSF_GLOBAL ||| BSF_SYNTHETIC, .bfdsection 0⟩,
           ⟨str "bar$stub", 16, BSF_GLOBAL ||| BSF_SYNTHETIC, .bfdsection 0⟩])
    ∧ ∃ out, bfd_mach_o_get_synthetic_symtab_section false
          ⟨0, 0, 0, 0, 0, 0, 0, 0, 0, 0, 0, 0, 0, 4, 0, 0, 0, 0, [], [], [0, 0, 5, 9], []⟩
          ⟨0, 10, 0, 9,
          some (List.replicate 5 ⟨0, 0, 0, 0, .bfd_und_section_ptr, 1, 0, 0⟩
          ++ [⟨1, 0, 0, 0, .bfd_und_section_ptr, 1, 0, 0⟩]
          ++ List.replicate 3 ⟨0, 0, 0, 0, .bfd_und_section_ptr, 1, 0, 0⟩
          ++ [⟨5, 0, 0, 0, .bfd_und_section_ptr, 1, 0, 0⟩]),
          some (0 :: str "foo" ++ 0 :: str "bar" ++ [0])⟩
          (List.replicate 5 ⟨0, 0, 0, 0, .bfd_und_section_ptr, 1, 0, 0⟩
          ++ [⟨1, 0, 0, 0, .bfd_und_section_ptr, 1, 0, 0⟩]
          ++ List.replicate 3 ⟨0, 0, 0, 0, .bfd_und_section_ptr, 1, 0, 0⟩
          ++ [⟨5, 0, 0, 0, .bfd_und_section_ptr, 1, 0, 0⟩])
          (0 :: str "foo" ++ 0 :: str "bar" ++ [0]) 0
          ⟨str "__symbol_stub", str "__TEXT", 0x1000, 32, 0, 0, 0, 0, 0x80000408, 2, 16, 0⟩
        = .value out
      ∧ out.length = 32 / 16 :=
  ⟨by decide,
    (C24_synthetic_symbols false
      ⟨0, 0, 0, 0, 0, 0, 0, 0, 0, 0, 0, 0, 0, 4, 0, 0, 0, 0, [], [], [0, 0, 5, 9], []⟩
      ⟨0, 10, 0, 9,
          some (List.replicate 5 ⟨0, 0, 0, 0, .bfd_und_section_ptr, 1, 0, 0⟩
          ++ [⟨1, 0, 0, 0, .bfd_und_section_ptr, 1, 0, 0⟩]
          ++ List.replicate 3 ⟨0, 0, 0, 0, .bfd_und_section_ptr, 1, 0, 0⟩
          ++ [⟨5, 0, 0, 0, .bfd_und_section_ptr, 1, 0, 0⟩]),
          some (0 :: str "foo" ++ 0 :: str "bar" ++ [0])⟩
      (List.replicate 5 ⟨0, 0, 0, 0, .bfd_und_section_ptr, 1, 0, 0⟩
          ++ [⟨1, 0, 0, 0, .bfd_und_section_ptr, 1, 0, 0⟩]
          ++ List.replicate 3 ⟨0, 0, 0, 0, .bfd_und_section_ptr, 1, 0, 0⟩
          ++ [⟨5, 0, 0, 0, .bfd_und_section_ptr, 1, 0, 0⟩])
      (0 :: str "foo" ++ 0 :: str "bar" ++ [0]) 0
      ⟨str "__symbol_stub", str "__TEXT", 0x1000, 32, 0, 0, 0, 0, 0x80000408, 2, 16, 0⟩
      rfl rfl (by decide) (by decide) (by decide) (by decide) (by decide) (by decide)
      (by decide) (by decide) (by decide)).2.2.imp (fun _ ho => ⟨ho.1, ho.2.1⟩)⟩

/-- The array of `bfd_mach_o_get_synthetic_symtab` holds `nindirectsyms` symbols, and
nothing keeps the sections from sharing indirect symbols: with two stub
sections that both use the two indirect symbols of the file, the function
stores four symbols in an array of two. -/
theorem get_synthetic_symtab_array_overrun :
    bfd_mach_o_get_synthetic_symtab false
        [⟨[], [], 0x1000, 8, 0, 0, 0, 0, 0x8, 0, 4, 0⟩,
         ⟨[], [], 0x2000, 8, 0, 0, 0, 0, 0x8, 0, 4, 0⟩]
        (some ⟨0, 0, 0, 1, some [], some [0]⟩)
        (some ⟨0, 0, 0, 0, 0, 0, 0, 0, 0, 0, 0, 0, 0, 2, 0, 0, 0, 0, [], [], [0, 1], []⟩)
      = .undefined := by
  decide

/-! ## Walking the members of a fat archive -/

/-- In a list without repeated offsets, the first entry with the offset of entry
`i` is entry `i`. -/
theorem findIdx_offset_nodup (l : List mach_o_fat_archentry)
    (hnd : (l.map (·.offset)).Nodup) (i : Nat) (hi : i < l.length) :
    l.findIdx (fun e => decide (e.offset = l[i].offset)) = i := by
  induction l generalizing i with
  | nil => simp at hi
  | cons a t ih =>
    simp only [List.map_cons, List.nodup_cons, List.mem_map, not_exists, not_and] at hnd
    cases i with
    | zero => simp [List.findIdx_cons]
    | succ j =>
      simp only [List.length_cons, Nat.add_lt_add_iff_right] at hi
      have hne : a.offset ≠ t[j].offset := fun h =>
        hnd.1 t[j] (List.getElem_mem hi) h.symm
      simp only [List.getElem_cons_succ, List.findIdx_cons, hne, decide_False, cond_false]
      rw [ih hnd.2 j hi]

/-- One call of `bfd_mach_o_openr_next_archived_file` in a directory without
repeated offsets: after the member of entry `i` comes the member of entry
`i + 1`, or the end of the archive. -/
theorem openr_next_after (adata : mach_o_fat_data_struct)
    (hlen : adata.archentries.length = adata.nfat_arch)
    (hnd : (adata.archentries.map (·.offset)).Nodup) (i : Nat)
    (hi : i < adata.archentries.length) :
    bfd_mach_o_openr_next_archived_file adata (some adata.archentries[i].offset)
      = match adata.archentries[i + 1]? with
        | some e => .member e.offset
        | none => .no_more_archived_files := by
  unfold bfd_mach_o_openr_next_archived_file
  have ht : adata.archentries.take adata.nfat_arch = adata.archentries := by
    rw [← hlen, List.take_length]
  simp only [ht, findIdx_offset_nodup adata.archentries hnd i hi]
  have hne : i ≠ adata.nfat_arch := by omega
  simp only [hne, if_false]
  by_cases h1 : i + 1 < adata.archentries.length
  · have : ¬ (i + 1 ≥ adata.nfat_arch) := by omega
    simp only [this, if_false]
    rw [List.getElem?_eq_getElem h1]
  · have h2 : i + 1 ≥ adata.nfat_arch := by omega
    simp only [h2, if_true]
    rw [List.getElem?_eq_none (by omega)]

/-- The walk from entry `i` on, in a directory without repeated offsets. -/
theorem openr_next_calls_from (adata : mach_o_fat_data_struct)
    (hlen : adata.archentries.length = adata.nfat_arch)
    (hnd : (adata.archentries.map (·.offset)).Nodup) :
    ∀ (k i : Nat) (hi : i < adata.archentries.length),
      i + 1 + k = adata.nfat_arch →
      openr_next_calls adata (k + 1) (some adata.archentries[i].offset)
        = (adata.archentries.drop (i + 1)).map (fun e => .member e.offset)
          ++ [.no_more_archived_files] := by
  intro k
  induction k with
  | zero =>
    intro i hi hk
    rw [openr_next_calls, openr_next_after adata hlen hnd i hi,
      List.getElem?_eq_none (by omega), List.drop_eq_nil_of_le (by omega)]
    rfl
  | succ k ih =>
    intro i hi hk
    have h1 : i + 1 < adata.archentries.length := by omega
    rw [openr_next_calls, openr_next_after adata hlen hnd i hi,
      List.getElem?_eq_getElem h1]
    simp only
    rw [ih (i + 1) h1 (by omega), List.drop_eq_getElem_cons h1]
    rfl

/-- C40 (amended). For a directory of `n = nfat_arch` entries whose offsets are
pairwise distinct, the walk that starts with a null `prev` and passes each
returned member to the next call returns, in its first `n` calls, members
whose origins are the offsets of entries 0, 1, ..., n-1 in directory order,
each entry once, and its call number `n + 1` reports
no-more-archived-files. -/
theorem C40_openr_next_iteration (adata : mach_o_fat_data_struct)
    (hlen : adata.archentries.length = adata.nfat_arch)
    (hnd : (adata.archentries.map (·.offset)).Nodup) :
    openr_next_calls adata (adata.nfat_arch + 1) none
      = adata.archentries.map (fun e => .member e.offset)
        ++ [.no_more_archived_files] := by
  rcases hn : adata.nfat_arch with _ | n
  · have hnil : adata.archentries = [] := List.length_eq_zero.mp (by omega)
    simp [openr_next_calls, bfd_mach_o_openr_next_archived_file, hn, hnil]
  · have h0 : 0 < adata.archentries.length := by omega
    have hfirst : bfd_mach_o_openr_next_archived_file adata none
        = .member adata.archentries[0].offset := by
      unfold bfd_mach_o_openr_next_archived_file
      have : ¬ (0 ≥ adata.nfat_arch) := by omega
      simp only [this, if_false]
      rw [List.getElem?_eq_getElem h0]
    rw [openr_next_calls, hfirst]
    simp only
    rw [openr_next_calls_from adata hlen hnd n 0 h0 (by omega)]
    conv_rhs => rw [← List.drop_zero adata.archentries, List.drop_eq_getElem_cons h0]
    rfl

theorem C40_openr_next_iteration_witness :
    openr_next_calls ⟨0xcafebabe, 2, [⟨7, 3, 4096, 100, 12⟩, ⟨18, 0, 8192, 200, 12⟩]⟩ 3 none
      = [.member 4096, .member 8192, .no_more_archived_files] :=
  C40_openr_next_iteration
    ⟨0xcafebabe, 2, [⟨7, 3, 4096, 100, 12⟩, ⟨18, 0, 8192, 200, 12⟩]⟩ rfl (by decide)

/-- C40, as stated, fails when two entries of the directory carry the same offset:
the 48-byte fat file below is accepted by `bfd_mach_o_archive_p` with two
entries that both start at offset 4096; the call after the member of entry 1
finds offset 4096 at entry 0 again and returns the member of entry 1 once
more, so the third call (and every later one) returns a member instead of
reporting no-more-archived-files. -/
theorem C40_duplicate_offsets_counterexample :
    bfd_mach_o_archive_p
        (be_words [0xcafebabe, 2, 7, 3, 4096, 100, 12, 18, 0, 4096, 200, 12])
      = some ⟨0xcafebabe, 2, [⟨7, 3, 4096, 100, 12⟩, ⟨18, 0, 4096, 200, 12⟩]⟩
    ∧ openr_next_calls
        ⟨0xcafebabe, 2, [⟨7, 3, 4096, 100, 12⟩, ⟨18, 0, 4096, 200, 12⟩]⟩ 3 none
      = [.member 4096, .member 4096, .member 4096]
    ∧ bfd_mach_o_openr_next_archived_file
        ⟨0xcafebabe, 2, [⟨7, 3, 4096, 100, 12⟩, ⟨18, 0, 4096, 200, 12⟩]⟩ (some 4096)
      = .member 4096 := by
  decide

/-! ## Dynamic relocations -/

/-- C36 (the code at the failing inputs). For every dynamic symbol table with at
least one relocation (counts as decoded, below 2^32), read with a back end
that has the relocation hook and with both relocation tables readable,
`bfd_mach_o_canonicalize_dynamic_reloc` returns `nextrel + nlocrel` and stores
`nextrel + nlocrel + 1` pointers, the last one null, while
`bfd_mach_o_get_dynamic_reloc_upper_bound` returns the size of
`nextrel + nlocrel` pointers only: the bound is one pointer short of the
array that is filled.  The bound of the per-section sibling,
`bfd_mach_o_get_reloc_upper_bound`, does count the terminator. -/
theorem C36_dynamic_reloc_bound_too_small (d : bfd_mach_o_dysymtab_command)
    (asect : asection)
    (h1 : d.nextrel < 2 ^ 32) (h2 : d.nlocrel < 2 ^ 32)
    (hne : ¬ (d.nextrel = 0 ∧ d.nlocrel = 0))
    (hr : asect.reloc_count + 1 < 2 ^ 32) :
    bfd_mach_o_get_dynamic_reloc_upper_bound (some d)
        = sizeof_arelent_ptr * (d.nextrel + d.nlocrel)
      ∧ (bfd_mach_o_canonicalize_dynamic_reloc (some d) true true true).1
        = some (d.nextrel + d.nlocrel)
      ∧ (bfd_mach_o_canonicalize_dynamic_reloc (some d) true true true).2.length
        = d.nextrel + d.nlocrel + 1
      ∧ (bfd_mach_o_canonicalize_dynamic_reloc (some d) true true true).2.getLast? = some none
      ∧ bfd_mach_o_get_dynamic_reloc_upper_bound (some d)
        < sizeof_arelent_ptr
          * (bfd_mach_o_canonicalize_dynamic_reloc (some d) true true true).2.length
      ∧ bfd_mach_o_get_reloc_upper_bound asect
        = sizeof_arelent_ptr * (asect.reloc_count + 1) := by
  have hv : vma (d.nextrel + d.nlocrel) = d.nextrel + d.nlocrel := by
    simp only [vma]
    omega
  have hb : bfd_mach_o_get_dynamic_reloc_upper_bound (some d)
      = sizeof_arelent_ptr * (d.nextrel + d.nlocrel) := by
    simp only [bfd_mach_o_get_dynamic_reloc_upper_bound, hv, sizeof_arelent_ptr, vma]
    omega
  have hc : bfd_mach_o_canonicalize_dynamic_reloc (some d) true true true
      = (some (d.nextrel + d.nlocrel),
          (List.range (d.nextrel + d.nlocrel)).map some ++ [none]) := by
    simp only [bfd_mach_o_canonicalize_dynamic_reloc, hne, if_false, hv, Bool.not_true,
      Bool.false_eq_true]
  refine ⟨hb, by rw [hc], by rw [hc]; simp, by rw [hc]; simp, ?_, ?_⟩
  · rw [hb, hc]
    simp only [List.length_append, List.length_map, List.length_range, List.length_singleton,
      sizeof_arelent_ptr]
    omega
  · simp only [bfd_mach_o_get_reloc_upper_bound, sizeof_arelent_ptr, vma, u32]
    omega

theorem C36_dynamic_reloc_bound_too_small_witness :
    bfd_mach_o_get_dynamic_reloc_upper_bound
        (some ⟨0, 0, 0, 0, 0, 0, 0, 0, 0, 0, 0, 0, 0, 0, 4096, 1, 0, 0, [], [], [], []⟩) = 8
    ∧ (bfd_mach_o_canonicalize_dynamic_reloc
        (some ⟨0, 0, 0, 0, 0, 0, 0, 0, 0, 0, 0, 0, 0, 0, 4096, 1, 0, 0, [], [], [], []⟩)
        true true true) = (some 1, [some 0, none])
    ∧ 8 < 8 * 2 :=
  ⟨(C36_dynamic_reloc_bound_too_small
      ⟨0, 0, 0, 0, 0, 0, 0, 0, 0, 0, 0, 0, 0, 0, 4096, 1, 0, 0, [], [], [], []⟩
      ⟨[], 0, 0, 0, 0, 0, 0, 0, 0, 0, ⟨[], [], 0, 0, 0, 0, 0, 0, 0, 0, 0, 0⟩⟩
      (by decide) (by decide) (by decide) (by decide)).1,
    by decide, by decide⟩

/-! ## Relocation numbers outside the section table -/

/-- C34 (the code at the failing inputs). For a raw normal (non-scattered),
non-extern relocation whose 24-bit number is 0 or greater than `nsects`,
`bfd_mach_o_canonicalize_one_reloc` does not degrade to a null target: after
the two assertions have reported, it indexes the flattened section table at
`num - 1`, outside positions `0..nsects-1`, which is outside the defined
behaviour. -/
theorem C34_reloc_number_out_of_range {H : Type} (xvec : bfd_target)
    (sections : List bfd_mach_o_section)
    (swap_reloc_in : arelent H → bfd_mach_o_reloc_info → Option (arelent H))
    (raw : List Byte) (res : arelent H) (reloc : bfd_mach_o_reloc_info)
    (hs : bfd_h_get_32 xvec raw &&& BFD_MACH_O_SR_SCATTERED = 0)
    (he : bfd_h_get_32 xvec (raw.drop 4) &&& BFD_MACH_O_R_EXTERN = 0)
    (hn : BFD_MACH_O_GET_R_SYMBOLNUM (bfd_h_get_32 xvec (raw.drop 4)) = 0
      ∨ sections.length < BFD_MACH_O_GET_R_SYMBOLNUM (bfd_h_get_32 xvec (raw.drop 4))) :
    bfd_mach_o_canonicalize_one_reloc xvec sections swap_reloc_in raw res reloc
      = .undefined := by
  have hl : bfd_mach_o_canonicalize_one_reloc_lower xvec sections raw res reloc
      = .undefined := by
    unfold bfd_mach_o_canonicalize_one_reloc_lower
    simp only [hs, he, ne_eq, not_true_eq_false, if_false]
    by_cases h0 : BFD_MACH_O_GET_R_SYMBOLNUM (bfd_h_get_32 xvec (raw.drop 4)) = 0
    · simp only [h0, if_true]
    · have hlt : sections.length
          < BFD_MACH_O_GET_R_SYMBOLNUM (bfd_h_get_32 xvec (raw.drop 4)) := by
        rcases hn with h | h
        · exact absurd h h0
        · exact h
      simp only [h0, if_false]
      rw [List.getElem?_eq_none (by omega)]
  simp only [bfd_mach_o_canonicalize_one_reloc, hl]

theorem C34_reloc_number_out_of_range_witness :
    bfd_mach_o_canonicalize_one_reloc .big
        [⟨str "__text", str "__TEXT", 0x1000, 32, 0, 0, 0, 0, 0, 0, 0, 0⟩]
        (fun (r : arelent Unit) _ => some r)
        (be_words [0x10, 0]) ⟨.null, 0, 0, none⟩ ⟨0, 0, 0, 0, 0, 0, 0⟩ = .undefined
    ∧ bfd_mach_o_canonicalize_one_reloc .big
        [⟨str "__text", str "__TEXT", 0x1000, 32, 0, 0, 0, 0, 0, 0, 0, 0⟩]
        (fun (r : arelent Unit) _ => some r)
        (be_words [0x10, 2]) ⟨.null, 0, 0, none⟩ ⟨0, 0, 0, 0, 0, 0, 0⟩ = .undefined :=
  ⟨C34_reloc_number_out_of_range .big
      [⟨str "__text", str "__TEXT", 0x1000, 32, 0, 0, 0, 0, 0, 0, 0, 0⟩]
      (fun (r : arelent Unit) _ => some r)
      (be_words [0x10, 0]) ⟨.null, 0, 0, none⟩ ⟨0, 0, 0, 0, 0, 0, 0⟩
      (by decide) (by decide) (Or.inl (by decide)),
    by decide⟩

/-! ## Synthetic symbols outside the table of indirect symbols -/

/-- C37 (the code at two failing inputs). The section loop of
`bfd_mach_o_get_synthetic_symtab` takes `first` and the number of entries from
the section record and compares neither with `nindirectsyms`.  First object:
two indirect symbols and one stub section of two entries whose `reserved1` is
1, so the loop reads the indirect symbols 1 and 2, the second one outside the
table.  Second object: two indirect symbols and two stub sections that both
use them; each section yields two symbols, so four symbols are stored in the
array of `nindirectsyms = 2` slots.  Both runs leave the defined behaviour. -/
theorem C37_indirect_symbols_unchecked :
    bfd_mach_o_get_synthetic_symtab_section false
        ⟨0, 0, 0, 0, 0, 0, 0, 0, 0, 0, 0, 0, 0, 2, 0, 0, 0, 0, [], [], [0, 1], []⟩
        ⟨0, 0, 0, 1, some [], some [0]⟩ [] [0] 0
        ⟨[], [], 0x1000, 8, 0, 0, 0, 0, 0x8, 1, 4, 0⟩
      = .undefined
    ∧ bfd_mach_o_get_synthetic_symtab false
        [⟨[], [], 0x1000, 8, 0, 0, 0, 0, 0x8, 1, 4, 0⟩]
        (some ⟨0, 0, 0, 1, some [], some [0]⟩)
        (some ⟨0, 0, 0, 0, 0, 0, 0, 0, 0, 0, 0, 0, 0, 2, 0, 0, 0, 0, [], [], [0, 1], []⟩)
      = .undefined
    ∧ bfd_mach_o_get_synthetic_symtab_section false
        ⟨0, 0, 0, 0, 0, 0, 0, 0, 0, 0, 0, 0, 0, 2, 0, 0, 0, 0, [], [], [0, 1], []⟩
        ⟨0, 0, 0, 1, some [], some [0]⟩ [] [0] 0
        ⟨[], [], 0x1000, 8, 0, 0, 0, 0, 0x8, 0, 4, 0⟩
      = .value [⟨[], 0, BSF_GLOBAL ||| BSF_SYNTHETIC, .bfdsection 0⟩,
          ⟨[], 4, BSF_GLOBAL ||| BSF_SYNTHETIC, .bfdsection 0⟩]
    ∧ bfd_mach_o_get_synthetic_symtab_section false
        ⟨0, 0, 0, 0, 0, 0, 0, 0, 0, 0, 0, 0, 0, 2, 0, 0, 0, 0, [], [], [0, 1], []⟩
        ⟨0, 0, 0, 1, some [], some [0]⟩ [] [0] 1
        ⟨[], [], 0x2000, 8, 0, 0, 0, 0, 0x8, 0, 4, 0⟩
      = .value [⟨[], 0, BSF_GLOBAL ||| BSF_SYNTHETIC, .bfdsection 1⟩,
          ⟨[], 4, BSF_GLOBAL ||| BSF_SYNTHETIC, .bfdsection 1⟩]
    ∧ bfd_mach_o_get_synthetic_symtab false
        [⟨[], [], 0x1000, 8, 0, 0, 0, 0, 0x8, 0, 4, 0⟩,
         ⟨[], [], 0x2000, 8, 0, 0, 0, 0, 0x8, 0, 4, 0⟩]
        (some ⟨0, 0, 0, 1, some [], some [0]⟩)
        (some ⟨0, 0, 0, 0, 0, 0, 0, 0, 0, 0, 0, 0, 0, 2, 0, 0, 0, 0, [], [], [0, 1], []⟩)
      = .undefined := by
  decide

/-! ## A thread command whose walk never ends -/

/-- The counting loop of `bfd_mach_o_read_thread` on a block whose count is
0x3ffffffe: the walking offset comes back to 8 after every iteration. -/
theorem read_thread_count_stuck (fuel nflavours : Nat) :
    bfd_mach_o_read_thread_count .big (be_words [4, 24, 1, 0x3ffffffe])
      ⟨4, false, 0, 24, none⟩ fuel 8 nflavours = none := by
  induction fuel generalizing nflavours with
  | zero => rfl
  | succ n ih =>
    rw [bfd_mach_o_read_thread_count]
    have h1 : ¬ ((8 : Nat) = 24) := by decide
    have h2 : ¬ ((8 : Nat) ≥ 24) := by decide
    have hr : bfd_bread (be_words [4, 24, 1, 0x3ffffffe]) (u32 (0 + 8)) 8
        = some (be_words [1, 0x3ffffffe]) := by decide
    have ho : u32 (8 + (8 + bfd_h_get_32 .big ((be_words [1, 0x3ffffffe]).drop 4) * 4))
        = 8 := by decide
    simp only [h1, h2, if_false, hr, ho]
    exact ih _

/-- C38 (the code at the failing input). In the 16-byte thread command below
(kind 4, length 24) the block at offset 8 announces a count of 0x3ffffffe
words, so the walking offset advances by (8 + 4 * 0x3ffffffe) mod 2^32 = 0:
it does not increase, it is 8 again after every iteration, never equal to the
command length 24 and never above it, and the walk of
`bfd_mach_o_read_thread` does not end whatever number of iterations it is
given. -/
theorem C38_read_thread_walk_never_ends :
    (∀ fuel : Nat,
      bfd_mach_o_read_thread .big (be_words [4, 24, 1, 0x3ffffffe])
        ⟨4, false, 0, 24, none⟩ fuel = none)
    ∧ u32 (8 + (8 + 0x3ffffffe * 4)) = 8 := by
  refine ⟨fun fuel => ?_, by decide⟩
  simp only [bfd_mach_o_read_thread, read_thread_count_stuck]

/-! ## Round trip of generated section names -/

set_option maxRecDepth 100000 in
/-- Every canonical name of the static tables starts with a dot. -/
theorem bfd_names_start_with_dot :
    ∀ seg ∈ segsec_names_xlat, ∀ sec ∈ seg.sections,
      sec.bfd_name.head? = some (byteOf 0x2e) := by
  decide

/-- The generic name `bfd_mach_o_convert_section_name_to_bfd` makes for a pair of
C strings outside the static tables, and what is left of it once
`bfd_mach_o_convert_section_name_to_mach_o` has removed the prefix. -/
theorem generated_name_facts (S N : List Byte)
    (hS0 : ∀ b ∈ S, b ≠ 0) (hN0 : ∀ b ∈ N, b ≠ 0) (hS1 : S ≠ []) :
    (∀ b ∈ (if S.headD 0 ≠ byteOf 0x5f then str "LC_SEGMENT." else [])
        ++ S ++ byteOf 0x2e :: N, b ≠ 0)
    ∧ (∀ seg ∈ segsec_names_xlat, ∀ sec ∈ seg.sections,
        (if S.headD 0 ≠ byteOf 0x5f then str "LC_SEGMENT." else [])
          ++ S ++ byteOf 0x2e :: N ≠ sec.bfd_name)
    ∧ S ++ byteOf 0x2e :: N
      = if (str "LC_SEGMENT.").isPrefixOf
          ((if S.headD 0 ≠ byteOf 0x5f then str "LC_SEGMENT." else [])
            ++ S ++ byteOf 0x2e :: N)
        then ((if S.headD 0 ≠ byteOf 0x5f then str "LC_SEGMENT." else [])
            ++ S ++ byteOf 0x2e :: N).drop 11
        else (if S.headD 0 ≠ byteOf 0x5f then str "LC_SEGMENT." else [])
            ++ S ++ byteOf 0x2e :: N := by
  obtain ⟨x, xs, rfl⟩ := List.exists_cons_of_ne_nil hS1
  have hdot0 : byteOf 0x2e ≠ 0 := by decide
  by_cases hx : x = byteOf 0x5f
  · subst hx
    simp only [List.headD_cons, ne_eq, not_true_eq_false, if_false, List.nil_append]
    refine ⟨?_, ?_, ?_⟩
    · intro b hb
      simp only [List.cons_append, List.mem_cons, List.mem_append] at hb
      rcases hb with rfl | hb | rfl | hb
      · decide
      · exact hS0 b (List.mem_cons_of_mem _ hb)
      · exact hdot0
      · exact hN0 b hb
    · intro seg hseg sec hsec h
      have h1 := bfd_names_start_with_dot seg hseg sec hsec
      rw [← h] at h1
      simp only [List.cons_append, List.head?_cons, Option.some.injEq] at h1
      exact absurd h1 (by decide)
    · have hp : (str "LC_SEGMENT.").isPrefixOf (byteOf 0x5f :: xs ++ byteOf 0x2e :: N)
          = false := by
        rw [Bool.eq_false_iff]
        intro h
        rw [List.isPrefixOf_iff_prefix] at h
        obtain ⟨t, ht⟩ := h
        have e : str "LC_SEGMENT." = byteOf 0x4c :: str "C_SEGMENT." := by decide
        rw [e] at ht
        have := congrArg List.head? ht
        simp only [List.cons_append, List.head?_cons, Option.some.injEq] at this
        exact absurd this (by decide)
      rw [hp]
      simp
  · simp only [List.headD_cons, ne_eq, hx, not_false_eq_true, if_true]
    refine ⟨?_, ?_, ?_⟩
    · intro b hb
      simp only [List.mem_append, List.mem_cons] at hb
      rcases hb with (hb | hb) | rfl | hb
      · exact lc_segment_nul_free b hb
      · exact hS0 b (by simpa using hb)
      · exact hdot0
      · exact hN0 b hb
    · intro seg hseg sec hsec h
      have h1 := bfd_names_start_with_dot seg hseg sec hsec
      rw [← h] at h1
      have e : str "LC_SEGMENT." = byteOf 0x4c :: str "C_SEGMENT." := by decide
      rw [e] at h1
      simp only [List.cons_append, List.head?_cons, Option.some.injEq] at h1
      exact absurd h1 (by decide)
    · have hp : (str "LC_SEGMENT.").isPrefixOf
          (str "LC_SEGMENT." ++ (x :: xs) ++ byteOf 0x2e :: N) = true := by
        rw [List.isPrefixOf_iff_prefix, List.append_assoc]
        exact List.prefix_append _ _
      rw [hp]
      have hl : (str "LC_SEGMENT.").length = 11 := by decide
      simp only [if_true, List.append_assoc]
      rw [List.drop_append_of_le_length (by omega), ← hl, List.drop_length, List.nil_append]

/-- C39 (the code on the inputs of the claim). Let `S` and `N` be C strings of 1
to 16 bytes, `S` without a '.', the pair not an entry of the static tables.
`bfd_mach_o_convert_section_name_to_bfd` makes the generic name
`S ++ "." ++ N`, with "LC_SEGMENT." in front unless `S` starts with '_'.
When both names are shorter than 16 bytes,
`bfd_mach_o_convert_section_name_to_mach_o` gives back exactly `S` and `N`.
When one of them is 16 bytes long, the test `seglen < 16 && seclen < 16`
rejects the split and both names become the first 16 bytes of
`S ++ "." ++ N`, which is not the pair (`S`, `N`) unless `S = N`. -/
theorem C39_name_round_trip (S N : List Byte)
    (hS0 : ∀ b ∈ S, b ≠ 0) (hN0 : ∀ b ∈ N, b ≠ 0)
    (hS1 : 1 ≤ S.length) (hS16 : S.length ≤ 16) (hN1 : 1 ≤ N.length) (hN16 : N.length ≤ 16)
    (hdot : byteOf 0x2e ∉ S)
    (hnot : ∀ seg ∈ segsec_names_xlat, ∀ sec ∈ seg.sections,
      ¬ (S = seg.segname ∧ N = sec.mach_o_name)) :
    (bfd_mach_o_convert_section_name_to_bfd S N).1
        = some ((if S.headD 0 ≠ byteOf 0x5f then str "LC_SEGMENT." else [])
            ++ S ++ byteOf 0x2e :: N)
      ∧ (S.length < 16 → N.length < 16 →
        bfd_mach_o_convert_section_name_to_mach_o
            ((if S.headD 0 ≠ byteOf 0x5f then str "LC_SEGMENT." else [])
              ++ S ++ byteOf 0x2e :: N)
          = (S, N))
      ∧ (S.length = 16 ∨ N.length = 16 →
        bfd_mach_o_convert_section_name_to_mach_o
            ((if S.headD 0 ≠ byteOf 0x5f then str "LC_SEGMENT." else [])
              ++ S ++ byteOf 0x2e :: N)
          = ((S ++ byteOf 0x2e :: N).take 16, (S ++ byteOf 0x2e :: N).take 16)
        ∧ (S ≠ N →
          bfd_mach_o_convert_section_name_to_mach_o
              ((if S.headD 0 ≠ byteOf 0x5f then str "LC_SEGMENT." else [])
                ++ S ++ byteOf 0x2e :: N)
            ≠ (S, N))) := by
  have hSne : S ≠ [] := by
    intro h
    rw [h] at hS1
    simp at hS1
  have hcS : c_string S 0 = S := c_string_of_nul_free S hS0
  have hcN : c_string N 0 = N := c_string_of_nul_free N hN0
  obtain ⟨hname0, hnotbfd, hr⟩ := generated_name_facts S N hS0 hN0 hSne
  generalize hnm : (if S.headD 0 ≠ byteOf 0x5f then str "LC_SEGMENT." else [])
      ++ S ++ byteOf 0x2e :: N = name at hname0 hnotbfd hr ⊢
  have hcname : c_string name 0 = name := c_string_of_nul_free name hname0
  have hcases := convert_section_name_to_mach_o_cases name (S ++ byteOf 0x2e :: N)
    (by rw [hcname]; exact hnotbfd) (by rw [hcname]; exact hr)
  have hsplit : ∀ seg sec : List Byte, S ++ byteOf 0x2e :: N = seg ++ byteOf 0x2e :: sec →
      byteOf 0x2e ∉ seg → seg = S ∧ sec = N := by
    intro seg sec h hd
    have i1 := indexOf_of_split (byteOf 0x2e) N S hdot
    have i2 := indexOf_of_split (byteOf 0x2e) sec seg hd
    rw [h, i2] at i1
    have := List.append_inj h i1.symm
    exact ⟨this.1.symm, (List.cons.inj this.2).2.symm⟩
  refine ⟨?_, ?_, ?_⟩
  · have hmiss := (normalize_section_name_spec S N (by rw [hcS]; exact hS16)
      (by rw [hcN]; exact hN16)).2 (by rw [hcS, hcN]; exact hnot)
    have hstr : str "." = [byteOf 0x2e] := by decide
    simp only [bfd_mach_o_convert_section_name_to_bfd, hmiss, hcS, hcN, hstr, ← hnm,
      List.append_assoc, List.singleton_append]
  · intro h1 h2
    exact hcases.1 S N rfl hdot hSne h1 h2
  · intro h16
    have hboth := hcases.2 (by
      intro seg sec h hd
      obtain ⟨rfl, rfl⟩ := hsplit seg sec h hd
      rcases h16 with h | h
      · exact Or.inr (Or.inl (by omega))
      · exact Or.inr (Or.inr (by omega)))
    refine ⟨hboth, fun hne h => ?_⟩
    rw [hboth] at h
    have := Prod.mk.inj h
    exact hne (this.1.symm.trans this.2)

set_option maxRecDepth 100000 in
theorem C39_name_round_trip_witness :
    (bfd_mach_o_convert_section_name_to_bfd (str "__TEXT") (str "__gcc_except_tab")).1
      = some (str "__TEXT.__gcc_except_tab")
    ∧ bfd_mach_o_convert_section_name_to_mach_o (str "__TEXT.__gcc_except_tab")
      = (str "__TEXT.__gcc_exc", str "__TEXT.__gcc_exc")
    ∧ bfd_mach_o_convert_section_name_to_mach_o (str "__TEXT.__gcc_except_tab")
      ≠ (str "__TEXT", str "__gcc_except_tab") :=
  ⟨(C39_name_round_trip (str "__TEXT") (str "__gcc_except_tab") (by decide) (by decide)
      (by decide) (by decide) (by decide) (by decide) (by decide) (by decide)).1,
    ((C39_name_round_trip (str "__TEXT") (str "__gcc_except_tab") (by decide) (by decide)
      (by decide) (by decide) (by decide) (by decide) (by decide) (by decide)).2.2
      (Or.inr (by decide))).1,
    ((C39_name_round_trip (str "__TEXT") (str "__gcc_except_tab") (by decide) (by decide)
      (by decide) (by decide) (by decide) (by decide) (by decide) (by decide)).2.2
      (Or.inr (by decide))).2 (by decide)⟩

/-! ## Segment commands and the flattened section table -/

theorem u32_vma_u32_add (a b : Nat) : u32 (vma (u32 a + b)) = u32 (a + b) := by
  simp only [u32, vma]
  omega

/-- The offset at which the section loop of `bfd_mach_o_read_segment` reads section
record `i`. -/
theorem read_segment_segoff (offset i : Nat) (wide : Bool) :
    u32 (if wide then
        vma (u32 (offset + BFD_MACH_O_LC_SEGMENT_64_SIZE) + i * BFD_MACH_O_SECTION_64_SIZE)
      else vma (u32 (offset + BFD_MACH_O_LC_SEGMENT_SIZE) + i * BFD_MACH_O_SECTION_SIZE))
      = u32 (offset + segment_fixed_size wide + section_record_size wide * i) := by
  cases wide
  · simp only [Bool.false_eq_true, if_false, u32_vma_u32_add, segment_fixed_size,
      section_record_size, Nat.mul_comm]
  · simp only [if_true, u32_vma_u32_add, segment_fixed_size, section_record_size,
      Nat.mul_comm]

/-- A section record that `bfd_mach_o_read_section` decodes lies inside the file. -/
theorem read_section_inside (xvec : bfd_target) (abfd : Stream) (offset prot : Nat)
    (wide : Bool) (sec : asection)
    (h : bfd_mach_o_read_section xvec abfd offset prot wide = some sec) :
    offset + section_record_size wide ≤ abfd.length := by
  unfold bfd_mach_o_read_section at h
  cases wide
  · simp only [Bool.false_eq_true, if_false, bfd_mach_o_read_section_32] at h
    split at h
    · exact absurd h (by simp)
    · rename_i raw hraw
      unfold bfd_bread at hraw
      split at hraw
      · simpa [section_record_size] using ‹_›
      · exact absurd hraw (by simp)
  · simp only [if_true, bfd_mach_o_read_section_64] at h
    split at h
    · exact absurd h (by simp)
    · rename_i raw hraw
      unfold bfd_bread at hraw
      split at hraw
      · simpa [section_record_size] using ‹_›
      · exact absurd hraw (by simp)

/-- The section loop of `bfd_mach_o_read_segment` appends one section for each of
the `todo` records, record `i + j` being read at its place after the fixed
part. -/
theorem read_segment_sections_spec (xvec : bfd_target) (abfd : Stream)
    (command : bfd_mach_o_load_command bfd_mach_o_command) (initprot : Nat) (wide : Bool) :
    ∀ (todo i : Nat) (done out : List asection),
      bfd_mach_o_read_segment_sections xvec abfd command initprot wide todo i done
        = some out →
      ∃ new : List asection, out = done ++ new ∧ new.length = todo
        ∧ ∀ j, j < todo →
          new[j]? = bfd_mach_o_read_section xvec abfd
              (u32 (command.offset + segment_fixed_size wide
                + section_record_size wide * (i + j))) initprot wide
            ∧ new[j]?.isSome = true := by
  intro todo
  induction todo with
  | zero =>
    intro i done out h
    simp only [bfd_mach_o_read_segment_sections, Option.some.injEq] at h
    exact ⟨[], by simp [h], rfl, fun j hj => absurd hj (by omega)⟩
  | succ n ih =>
    intro i done out h
    rw [bfd_mach_o_read_segment_sections] at h
    simp only [read_segment_segoff] at h
    split at h
    · exact absurd h (by simp)
    · rename_i sec hsec
      obtain ⟨new, rfl, hlen, hall⟩ := ih (i + 1) (done ++ [sec]) out h
      refine ⟨sec :: new, by simp, by simp [hlen], ?_⟩
      intro j hj
      cases j with
      | zero =>
        simp only [List.getElem?_cons_zero, Nat.add_zero, hsec, Option.isSome_some, and_self]
      | succ k =>
        have := hall k (by omega)
        have e : i + 1 + k = i + (k + 1) := by omega
        rw [e] at this
        simpa only [List.getElem?_cons_succ] using this

/-- What a successful `bfd_mach_o_read_segment` has read: the section count is a
32-bit value, the list of the segment holds one section for each of the
`nsects` records, in file order, and record `i` is the one at
(`command->offset` + fixed part + record size * `i`) mod 2^32. -/
theorem read_segment_spec (xvec : bfd_target) (abfd : Stream)
    (command : bfd_mach_o_load_command bfd_mach_o_command) (wide : Bool)
    (seg : bfd_mach_o_segment_command)
    (h : bfd_mach_o_read_segment xvec abfd command wide = some seg) :
    seg.nsects < 2 ^ 32 ∧ seg.sections.length = seg.nsects
      ∧ ∀ i, i < seg.nsects →
        seg.sections[i]? = bfd_mach_o_read_section xvec abfd
            (u32 (command.offset + segment_fixed_size wide + section_record_size wide * i))
            seg.initprot wide
          ∧ seg.sections[i]?.isSome = true := by
  unfold bfd_mach_o_read_segment at h
  split at h
  · exact absurd h (by simp)
  · rename_i raw hraw
    dsimp only at h
    split at h
    · exact absurd h (by simp)
    · rename_i sections hsec
      simp only [Option.some.injEq] at h
      obtain ⟨new, hout, hlen, hall⟩ := read_segment_sections_spec xvec abfd command _ wide
        _ 0 [] sections hsec
      simp only [List.nil_append] at hout
      subst hout
      subst h
      cases wide
      · simp only [Bool.false_eq_true, if_false] at hlen hall ⊢
        refine ⟨bfd_h_get_32_lt _ _, hlen, fun i hi => ?_⟩
        have := hall i hi
        simpa only [Nat.zero_add] using this
      · simp only [if_true] at hlen hall ⊢
        refine ⟨bfd_h_get_32_lt _ _, hlen, fun i hi => ?_⟩
        have := hall i hi
        simpa only [Nat.zero_add] using this

/-- `bfd_mach_o_read_segment` uses the offset of the command and nothing else of
it: neither its kind nor its length. -/
theorem read_segment_offset_only (xvec : bfd_target) (abfd : Stream)
    (c1 c2 : bfd_mach_o_load_command bfd_mach_o_command) (wide : Bool)
    (h : c1.offset = c2.offset) :
    bfd_mach_o_read_segment xvec abfd c1 wide = bfd_mach_o_read_segment xvec abfd c2 wide := by
  have hl : ∀ (initprot todo i : Nat) (done : List asection),
      bfd_mach_o_read_segment_sections xvec abfd c1 initprot wide todo i done
        = bfd_mach_o_read_segment_sections xvec abfd c2 initprot wide todo i done := by
    intro initprot todo
    induction todo with
    | zero => intro i done; rfl
    | succ n ih =>
      intro i done
      rw [bfd_mach_o_read_segment_sections, bfd_mach_o_read_segment_sections, h]
      simp only [ih]
  unfold bfd_mach_o_read_segment
  simp only [h, hl]

/-- C33 (amended). For every segment command that `bfd_mach_o_read_segment` decodes
successfully, with fixed part F = 56 and record size R = 68 (32-bit) or
F = 72 and R = 80 (64-bit): the segment has exactly `nsects` sections, section
`i` is decoded from the record at (command offset + F + R * i) mod 2^32, and
each of these records lies inside the file.  The command length is not
consulted: the same segment is decoded whatever length the command has, so
F + R * nsects may exceed it. -/
theorem C33_read_segment_records (xvec : bfd_target) (abfd : Stream)
    (command : bfd_mach_o_load_command bfd_mach_o_command) (wide : Bool)
    (seg : bfd_mach_o_segment_command)
    (h : bfd_mach_o_read_segment xvec abfd command wide = some seg) :
    segment_fixed_size wide = (if wide then 72 else 56)
      ∧ section_record_size wide = (if wide then 80 else 68)
      ∧ seg.sections.length = seg.nsects
      ∧ (∀ i, i < seg.nsects →
        seg.sections[i]? = bfd_mach_o_read_section xvec abfd
            (u32 (command.offset + segment_fixed_size wide + section_record_size wide * i))
            seg.initprot wide
          ∧ seg.sections[i]?.isSome = true
          ∧ u32 (command.offset + segment_fixed_size wide + section_record_size wide * i)
              + section_record_size wide ≤ abfd.length)
      ∧ ∀ len : Nat,
        bfd_mach_o_read_segment xvec abfd { command with len := len } wide = some seg := by
  obtain ⟨-, hlen, hall⟩ := read_segment_spec xvec abfd command wide seg h
  refine ⟨by cases wide <;> rfl, by cases wide <;> rfl, hlen, fun i hi => ?_, fun len => ?_⟩
  · obtain ⟨h1, h2⟩ := hall i hi
    refine ⟨h1, h2, ?_⟩
    obtain ⟨sec, hsec⟩ := Option.isSome_iff_exists.mp h2
    rw [hsec] at h1
    exact read_section_inside xvec abfd _ _ wide sec h1.symm
  · rw [read_segment_offset_only xvec abfd { command with len := len } command wide rfl]
    exact h

set_option maxRecDepth 100000 in
theorem C33_read_segment_records_witness :
    (bfd_mach_o_read_segment .big (one_section_object 124) ⟨1, false, 28, 124, none⟩
        false).isSome = true
    ∧ ∀ len : Nat,
      bfd_mach_o_read_segment .big (one_section_object 124) ⟨1, false, 28, len, none⟩ false
        = bfd_mach_o_read_segment .big (one_section_object 124) ⟨1, false, 28, 124, none⟩
            false := by
  have hs : (bfd_mach_o_read_segment .big (one_section_object 124)
      ⟨1, false, 28, 124, none⟩ false).isSome = true := by decide
  obtain ⟨seg, hseg⟩ := Option.isSome_iff_exists.mp hs
  exact ⟨hs, fun len =>
    ((C33_read_segment_records .big (one_section_object 124) ⟨1, false, 28, 124, none⟩
      false seg hseg).2.2.2.2 len).trans hseg.symm⟩

set_option maxRecDepth 100000 in
/-- C33, as stated, fails because the command length is never compared with the
section count: in this 152-byte object the one command is a 32-bit segment
command of length 56, the fixed part alone, that announces one section.
`bfd_mach_o_scan` accepts the file and `bfd_mach_o_read_segment` decodes the
section from the record at bytes 84..151, which starts at command offset +
command length = 84; F + R * nsects = 124 exceeds the command length 56. -/
theorem C33_records_beyond_command_counterexample :
    (bfd_mach_o_scan (bfd_mach_o_segment_readers .big bfd_mach_o_fail_readers) .big
        (one_section_object 56) ⟨false, false, false, false⟩
        ⟨0xfeedface, 7, 3, 1, 1, 56, 0, 0, 1, .BFD_ENDIAN_BIG⟩ ⟨0, .value [], ()⟩).map
      (fun r => (r.2.rest.nsects, r.2.commands.map (fun c => (c.type, c.offset, c.len))))
      = some (1, [(1, 28, 56)])
    ∧ (bfd_mach_o_read_segment .big (one_section_object 56) ⟨1, false, 28, 56, none⟩
        false).map (fun seg => (seg.nsects, seg.sections.map (·.filepos)))
      = some (1, [152])
    ∧ ¬ (56 + 68 * 1 ≤ 56)
    ∧ 28 + 56 ≤ u32 (28 + segment_fixed_size false + section_record_size false * 0) := by
  refine ⟨by decide, by decide, by decide, by decide⟩

/-! ## The flattened section table after a scan -/

/-- One pass through the switch of `bfd_mach_o_read_command` with the segment
decoders in place: a command of a segment kind that is accepted carries the
segment body `bfd_mach_o_read_segment` decoded at its offset, in the 64-bit
form for `LC_SEGMENT_64` and in the 32-bit form for `LC_SEGMENT`. -/
theorem segment_readers_switch {τ : Type} (xvec : bfd_target)
    (R : bfd_mach_o_readers τ bfd_mach_o_command) (abfd : Stream)
    (command c : bfd_mach_o_load_command bfd_mach_o_command)
    (mdata m : bfd_mach_o_sections_data τ)
    (h : bfd_mach_o_read_command_switch (bfd_mach_o_segment_readers xvec R) abfd
      command mdata = some (c, m))
    (hk : bfd_mach_o_segment_kind c = true) :
    ∃ seg, c.command = some (.segment seg)
      ∧ bfd_mach_o_read_segment xvec abfd c (decide (c.type = BFD_MACH_O_LC_SEGMENT_64))
        = some seg := by
  obtain ⟨ht, -, -, -⟩ := read_command_switch_fields _ abfd command c mdata m h
  simp only [bfd_mach_o_segment_kind, decide_eq_true_eq] at hk
  rw [ht] at hk ⊢
  have hne : ¬ BFD_MACH_O_LC_SEGMENT_64 = BFD_MACH_O_LC_SEGMENT := by decide
  by_cases h1 : command.type = BFD_MACH_O_LC_SEGMENT
  · have hsw : bfd_mach_o_read_command_switch (bfd_mach_o_segment_readers xvec R) abfd
        command mdata = decoded command
          (match bfd_mach_o_read_segment xvec abfd command false with
            | none => none
            | some seg => some (.segment seg, mdata)) := by
      unfold bfd_mach_o_read_command_switch
      simp only [h1]
      rfl
    rw [hsw] at h
    cases hr : bfd_mach_o_read_segment xvec abfd command false with
    | none => rw [hr] at h; simp [decoded] at h
    | some seg =>
      rw [hr] at h
      simp only [decoded, Option.some.injEq, Prod.mk.injEq] at h
      obtain ⟨rfl, -⟩ := h
      refine ⟨seg, rfl, ?_⟩
      have hd : decide (command.type = BFD_MACH_O_LC_SEGMENT_64) = false := by
        rw [h1]; decide
      rw [hd]
      exact (read_segment_offset_only xvec abfd
        { command with command := some (.segment seg) } command false rfl).trans hr
  · have h2 : command.type = BFD_MACH_O_LC_SEGMENT_64 := hk.resolve_left h1
    have hsw : bfd_mach_o_read_command_switch (bfd_mach_o_segment_readers xvec R) abfd
        command mdata = decoded command
          (match bfd_mach_o_read_segment xvec abfd command true with
            | none => none
            | some seg => some (.segment seg, mdata)) := by
      unfold bfd_mach_o_read_command_switch
      simp only [h2, hne]
      rfl
    rw [hsw] at h
    cases hr : bfd_mach_o_read_segment xvec abfd command true with
    | none => rw [hr] at h; simp [decoded] at h
    | some seg =>
      rw [hr] at h
      simp only [decoded, Option.some.injEq, Prod.mk.injEq] at h
      obtain ⟨rfl, -⟩ := h
      refine ⟨seg, rfl, ?_⟩
      have hd : decide (command.type = BFD_MACH_O_LC_SEGMENT_64) = true := by
        rw [h2]; decide
      rw [hd]
      exact (read_segment_offset_only xvec abfd
        { command with command := some (.segment seg) } command true rfl).trans hr

/-- The command loop of `bfd_mach_o_scan` keeps the invariant: every command of a
segment kind decoded so far carries the segment body decoded at its offset. -/
theorem scan_commands_segments {τ : Type} (xvec : bfd_target)
    (R : bfd_mach_o_readers τ bfd_mach_o_command) (abfd : Stream) (hdrsize : Nat) :
    ∀ (todo : Nat) (done cmds : List (bfd_mach_o_load_command bfd_mach_o_command))
      (m m' : bfd_mach_o_sections_data τ),
      bfd_mach_o_scan_commands (bfd_mach_o_segment_readers xvec R) xvec abfd hdrsize
        todo done m = some (cmds, m') →
      (∀ c ∈ done, bfd_mach_o_segment_kind c = true →
        ∃ seg, c.command = some (.segment seg)
          ∧ bfd_mach_o_read_segment xvec abfd c
              (decide (c.type = BFD_MACH_O_LC_SEGMENT_64)) = some seg) →
      ∀ c ∈ cmds, bfd_mach_o_segment_kind c = true →
        ∃ seg, c.command = some (.segment seg)
          ∧ bfd_mach_o_read_segment xvec abfd c
              (decide (c.type = BFD_MACH_O_LC_SEGMENT_64)) = some seg := by
  intro todo
  induction todo with
  | zero =>
    intro done cmds m m' h J
    simp only [bfd_mach_o_scan_commands, Option.some.injEq, Prod.mk.injEq] at h
    obtain ⟨rfl, -⟩ := h
    exact J
  | succ n ih =>
    intro done cmds m m' h J
    rw [bfd_mach_o_scan_commands] at h
    split at h
    · exact absurd h (by simp)
    · rename_i cur m1 hrd
      refine ih (done ++ [cur]) cmds m1 m' h ?_
      intro c hc hk
      rcases List.mem_append.mp hc with hc | hc
      · exact J c hc hk
      · simp only [List.mem_singleton] at hc
        subst hc
        unfold bfd_mach_o_read_command at hrd
        split at hrd
        · exact absurd hrd (by simp)
        · exact segment_readers_switch xvec R abfd _ c m m1 hrd hk

/-- The counting loop of `bfd_mach_o_flatten_sections` adds up the section counts
of the segment commands; with 32-bit counts and fewer than 2^32 commands the
`unsigned long` sum does not wrap. -/
theorem flatten_sections_count_spec :
    ∀ (cs : List (bfd_mach_o_load_command bfd_mach_o_command)) (n : Nat),
      (∀ seg ∈ segment_commands cs, seg.nsects < 2 ^ 32) →
      n + cs.length * 2 ^ 32 < 2 ^ 64 →
      bfd_mach_o_flatten_sections_count cs n
        = n + ((segment_commands cs).map (·.nsects)).sum := by
  intro cs
  induction cs with
  | nil => intro n _ _; simp [bfd_mach_o_flatten_sections_count, segment_commands]
  | cons c rest ih =>
    intro n hb hn
    simp only [List.length_cons] at hn
    rw [bfd_mach_o_flatten_sections_count]
    by_cases hk : bfd_mach_o_segment_kind c = true
    · cases hseg : c.segment with
      | none =>
        have e : segment_commands (c :: rest) = segment_commands rest := by
          simp [segment_commands, List.filterMap_cons, hk, hseg]
        rw [e] at hb ⊢
        simp only [hk, if_true, Option.map_none', Option.getD_none, Nat.add_zero]
        have hv : vma n = n := by simp only [vma]; omega
        rw [hv]
        exact ih n hb (by omega)
      | some seg =>
        have e : segment_commands (c :: rest) = seg :: segment_commands rest := by
          simp [segment_commands, List.filterMap_cons, hk, hseg]
        rw [e] at hb ⊢
        have hs := hb seg (List.mem_cons_self _ _)
        simp only [hk, if_true, Option.map_some', Option.getD_some, List.map_cons,
          List.sum_cons]
        have hv : vma (n + seg.nsects) = n + seg.nsects := by simp only [vma]; omega
        rw [hv, ih (n + seg.nsects) (fun s hs2 => hb s (List.mem_cons_of_mem _ hs2))
          (by omega)]
        omega
    · have e : segment_commands (c :: rest) = segment_commands rest := by
        simp [segment_commands, List.filterMap_cons, hk]
      rw [e] at hb ⊢
      simp only [hk, Bool.false_eq_true, if_false]
      exact ih n hb (by omega)

/-- The filling loop of `bfd_mach_o_flatten_sections` stores the section lists of
the segment commands one after the other, in command order. -/
theorem flatten_sections_fill_spec :
    ∀ cs : List (bfd_mach_o_load_command bfd_mach_o_command),
      bfd_mach_o_flatten_sections_fill cs
        = (segment_commands cs).flatMap (·.sections) := by
  intro cs
  induction cs with
  | nil => simp [bfd_mach_o_flatten_sections_fill, segment_commands]
  | cons c rest ih =>
    rw [bfd_mach_o_flatten_sections_fill]
    by_cases hk : bfd_mach_o_segment_kind c = true
    · cases hseg : c.segment with
      | none =>
        have e : segment_commands (c :: rest) = segment_commands rest := by
          simp [segment_commands, List.filterMap_cons, hk, hseg]
        simp [e, hk, ih]
      | some seg =>
        have e : segment_commands (c :: rest) = seg :: segment_commands rest := by
          simp [segment_commands, List.filterMap_cons, hk, hseg]
        simp [e, hk, ih]
    · have e : segment_commands (c :: rest) = segment_commands rest := by
        simp [segment_commands, List.filterMap_cons, hk]
      simp [e, hk, ih]

theorem flatMap_sections_length :
    ∀ l : List bfd_mach_o_segment_command,
      (∀ seg ∈ l, seg.sections.length = seg.nsects) →
      (l.flatMap (·.sections)).length = (l.map (·.nsects)).sum := by
  intro l
  induction l with
  | nil => intro _; simp
  | cons a t ih =>
    intro h
    simp only [List.flatMap_cons, List.length_append, List.map_cons, List.sum_cons]
    rw [h a (List.mem_cons_self _ _), ih (fun s hs => h s (List.mem_cons_of_mem _ hs))]

/-- A segment body listed by `segment_commands` is the body of a command of a
segment kind. -/
theorem mem_segment_commands (cs : List (bfd_mach_o_load_command bfd_mach_o_command))
    (seg : bfd_mach_o_segment_command) (h : seg ∈ segment_commands cs) :
    ∃ c ∈ cs, bfd_mach_o_segment_kind c = true ∧ c.command = some (.segment seg) := by
  simp only [segment_commands, List.mem_filterMap] at h
  obtain ⟨c, hc, hseg⟩ := h
  split at hseg
  · rename_i hk
    refine ⟨c, hc, hk, ?_⟩
    unfold bfd_mach_o_load_command.segment at hseg
    split at hseg
    · rename_i s hs
      simp only [Option.some.injEq] at hseg
      rw [hs, hseg]
    · exact absurd hseg (by simp)
  · exact absurd hseg (by simp)

/-- C31. After every successful `bfd_mach_o_scan` (of an object whose command
count is a 32-bit value, as the header reader leaves it): every command of
kind `LC_SEGMENT` or `LC_SEGMENT_64` carries a segment body whose section list
has exactly its `nsects` elements, element `i` being the section decoded from
record `i` after the fixed part of the command (on-disk order);
`mdata->nsects` is the sum of `nsects` over these commands; and
`mdata->sections` is the concatenation of their section lists in command
order, which fills the `nsects` slots of the table exactly.  So the k-th
section record met during the scan is at 1-based flattened index k. -/
theorem C31_flatten_sections {τ : Type} (xvec : bfd_target)
    (R : bfd_mach_o_readers τ bfd_mach_o_command) (abfd : Stream)
    (flags flags1 : bfd_flags) (header : bfd_mach_o_header)
    (mdata0 : bfd_mach_o_sections_data τ)
    (mdata : bfd_mach_o_data_struct (bfd_mach_o_sections_data τ) bfd_mach_o_command)
    (hn : header.ncmds < 2 ^ 32)
    (h : bfd_mach_o_scan (bfd_mach_o_segment_readers xvec R) xvec abfd flags header mdata0
      = some (flags1, mdata)) :
    (∀ c ∈ mdata.commands,
      c.type = BFD_MACH_O_LC_SEGMENT ∨ c.type = BFD_MACH_O_LC_SEGMENT_64 →
      ∃ seg, c.command = some (.segment seg) ∧ seg.sections.length = seg.nsects
        ∧ ∀ i, i < seg.nsects →
          seg.sections[i]? = bfd_mach_o_read_section xvec abfd
              (u32 (c.offset
                + segment_fixed_size (decide (c.type = BFD_MACH_O_LC_SEGMENT_64))
                + section_record_size (decide (c.type = BFD_MACH_O_LC_SEGMENT_64)) * i))
              seg.initprot (decide (c.type = BFD_MACH_O_LC_SEGMENT_64))
            ∧ seg.sections[i]?.isSome = true)
    ∧ mdata.rest.nsects = ((segment_commands mdata.commands).map (·.nsects)).sum
    ∧ mdata.rest.sections
      = .value ((segment_commands mdata.commands).flatMap (·.sections))
    ∧ ((segment_commands mdata.commands).flatMap (·.sections)).length
      = mdata.rest.nsects := by
  unfold bfd_mach_o_scan at h
  simp only at h
  split at h
  · exact absurd h (by simp)
  split at h
  · exact absurd h (by simp)
  rename_i cmds m1 hloop
  split at h
  · exact absurd h (by simp)
  rename_i m2 hstart
  simp only [Option.some.injEq, Prod.mk.injEq] at h
  obtain ⟨-, rfl⟩ := h
  have hh : (if mach_o_wide_p header then BFD_MACH_O_HEADER_64_SIZE
      else BFD_MACH_O_HEADER_SIZE) < 2 ^ 32 := by
    split <;> simp [BFD_MACH_O_HEADER_64_SIZE, BFD_MACH_O_HEADER_SIZE]
  obtain ⟨hlen, -⟩ := scan_commands_spec _ xvec abfd _ hh header.ncmds [] cmds mdata0 m1
    hloop (fun i hi => absurd hi (by simp))
  simp only [List.length_nil, Nat.zero_add] at hlen
  have hseg := scan_commands_segments xvec R abfd _ header.ncmds [] cmds mdata0 m1 hloop
    (fun c hc => absurd hc (List.not_mem_nil c))
  have hbody : ∀ seg ∈ segment_commands cmds,
      seg.nsects < 2 ^ 32 ∧ seg.sections.length = seg.nsects := by
    intro seg hs
    obtain ⟨c, hc, hk, hcmd⟩ := mem_segment_commands cmds seg hs
    obtain ⟨seg2, e1, e2⟩ := hseg c hc hk
    rw [hcmd] at e1
    simp only [Option.some.injEq, bfd_mach_o_command.segment.injEq] at e1
    subst e1
    obtain ⟨a, b, -⟩ := read_segment_spec xvec abfd c _ seg e2
    exact ⟨a, b⟩
  have hcount : bfd_mach_o_flatten_sections_count cmds 0
      = ((segment_commands cmds).map (·.nsects)).sum := by
    rw [flatten_sections_count_spec cmds 0 (fun s hs => (hbody s hs).1)
      (by rw [hlen]; omega), Nat.zero_add]
  have hfl := flatMap_sections_length (segment_commands cmds) (fun s hs => (hbody s hs).2)
  have hres : (bfd_mach_o_segment_readers xvec R).bfd_mach_o_flatten_sections cmds m2
      = bfd_mach_o_flatten_sections cmds m2 := rfl
  dsimp only
  rw [hres]
  simp only [bfd_mach_o_flatten_sections, flatten_sections_fill_spec, hcount, hfl, if_true]
  refine ⟨fun c hc hk => ?_, trivial, trivial, trivial⟩
  obtain ⟨seg, e1, e2⟩ := hseg c hc (by simpa [bfd_mach_o_segment_kind] using hk)
  obtain ⟨-, b, d⟩ := read_segment_spec xvec abfd c _ seg e2
  exact ⟨seg, e1, b, d⟩

set_option maxRecDepth 100000 in
theorem C31_flatten_sections_witness :
    ∃ r, bfd_mach_o_scan (bfd_mach_o_segment_readers .big bfd_mach_o_fail_readers) .big
        (one_section_object 124) ⟨false, false, false, false⟩
        ⟨0xfeedface, 7, 3, 1, 1, 124, 0, 0, 1, .BFD_ENDIAN_BIG⟩ ⟨0, .value [], ()⟩ = some r
      ∧ r.2.rest.nsects = ((segment_commands r.2.commands).map (·.nsects)).sum
      ∧ r.2.rest.sections = .value ((segment_commands r.2.commands).flatMap (·.sections))
      ∧ ((segment_commands r.2.commands).flatMap (·.sections)).length = r.2.rest.nsects := by
  have hs : (bfd_mach_o_scan (bfd_mach_o_segment_readers .big bfd_mach_o_fail_readers) .big
      (one_section_object 124) ⟨false, false, false, false⟩
      ⟨0xfeedface, 7, 3, 1, 1, 124, 0, 0, 1, .BFD_ENDIAN_BIG⟩
      ⟨0, .value [], ()⟩).isSome = true := by decide
  obtain ⟨r, hr⟩ := Option.isSome_iff_exists.mp hs
  exact ⟨r, hr,
    (C31_flatten_sections .big bfd_mach_o_fail_readers (one_section_object 124)
      ⟨false, false, false, false⟩ r.1
      ⟨0xfeedface, 7, 3, 1, 1, 124, 0, 0, 1, .BFD_ENDIAN_BIG⟩ ⟨0, .value [], ()⟩ r.2
      (by decide) hr).2⟩

set_option maxRecDepth 100000 in
/-- The scan of the 152-byte object with one segment command and one section:
one section is counted and the flattened table holds the section of the
record at offset 84. -/
theorem scan_one_section_object :
    (bfd_mach_o_scan (bfd_mach_o_segment_readers .big bfd_mach_o_fail_readers) .big
        (one_section_object 124) ⟨false, false, false, false⟩
        ⟨0xfeedface, 7, 3, 1, 1, 124, 0, 0, 1, .BFD_ENDIAN_BIG⟩ ⟨0, .value [], ()⟩).map
      (fun r => (r.2.rest.nsects, r.2.rest.sections))
      = some (1, .value
          ((bfd_mach_o_read_section .big (one_section_object 124) 84 5 false).toList)) := by
  decide

/-! ## The file-length cursor while the commands are written -/

theorem spec_reloc_step_le (hook : Bool) (c : Nat) (sec : asection) :
    c ≤ (spec_reloc_step hook c sec).2 := by
  unfold spec_reloc_step
  split
  · have := (round_up_least c 4 (by decide)).2.1
    simp only
    omega
  · exact Nat.le_refl c

theorem spec_reloc_end_le (hook : Bool) (l : List asection) :
    ∀ c : Nat, c ≤ spec_reloc_end hook c l := by
  induction l with
  | nil => intro c; exact Nat.le_refl c
  | cons a t ih =>
    intro c
    exact Nat.le_trans (spec_reloc_step_le hook c a) (ih _)

theorem spec_reloc_end_append (hook : Bool) (l1 : List asection) :
    ∀ (c : Nat) (l2 : List asection),
      spec_reloc_end hook c (l1 ++ l2) = spec_reloc_end hook (spec_reloc_end hook c l1) l2 := by
  induction l1 with
  | nil => intro c l2; rfl
  | cons a t ih =>
    intro c l2
    simp only [List.cons_append, spec_reloc_end]
    exact ih _ _

theorem spec_reloc_end_take_le (hook : Bool) (l : List asection) (c i : Nat) :
    spec_reloc_end hook c (l.take i) ≤ spec_reloc_end hook c l := by
  conv_rhs => rw [← List.take_append_drop i l, spec_reloc_end_append]
  exact spec_reloc_end_le hook _ _

theorem spec_reloc_end_take_mono (hook : Bool) (l : List asection) (c a b : Nat)
    (hab : a ≤ b) :
    spec_reloc_end hook c (l.take a) ≤ spec_reloc_end hook c (l.take b) := by
  have e : l.take a = (l.take b).take a := by
    rw [List.take_take, Nat.min_eq_left hab]
  rw [e]
  exact spec_reloc_end_take_le hook _ _ _

theorem spec_reloc_end_take_succ (hook : Bool) (l : List asection) (c i : Nat)
    (s : asection) (hs : l[i]? = some s) :
    spec_reloc_end hook c (l.take (i + 1))
      = (spec_reloc_step hook (spec_reloc_end hook c (l.take i)) s).2 := by
  have hi : i < l.length := by
    by_contra hc
    rw [List.getElem?_eq_none (by omega)] at hs
    exact absurd hs (by simp)
  have e : l.take (i + 1) = l.take i ++ [s] := by
    rw [List.take_succ, hs]
    rfl
  rw [e, spec_reloc_end_append]
  rfl

/-- `bfd_mach_o_write_relocs` is the specification's step as long as the new
cursor stays below 2^32: the cursor and the table offset are those of the
step, and the function changes nothing else that the layout depends on. -/
theorem write_relocs_layout {H : Type} (xvec : bfd_target) (O : bfd_mach_o_output H)
    (abfd : Stream) (c : Nat) (sec : asection)
    (hb : (spec_reloc_step O.swap_reloc_out.isSome c sec).2 < 2 ^ 32) :
    (bfd_mach_o_write_relocs xvec O abfd c sec).2.2.1
        = (spec_reloc_step O.swap_reloc_out.isSome c sec).2
      ∧ (bfd_mach_o_write_relocs xvec O abfd c sec).2.2.2.reloc_count = sec.reloc_count
      ∧ (bfd_mach_o_write_relocs xvec O abfd c sec).2.2.2.size = sec.size
      ∧ (bfd_mach_o_write_relocs xvec O abfd c sec).2.2.2.filepos = sec.filepos
      ∧ (bfd_mach_o_write_relocs xvec O abfd c sec).2.2.2.used_by_bfd.reloff
        = (spec_reloc_step O.swap_reloc_out.isSome c sec).1
      ∧ (sec.reloc_count ≠ 0 → O.swap_reloc_out.isSome = true →
        (bfd_mach_o_write_relocs xvec O abfd c sec).2.2.2.used_by_bfd.nreloc
            = sec.reloc_count
          ∧ (bfd_mach_o_write_relocs xvec O abfd c sec).2.2.2.rel_filepos
            = (spec_reloc_step O.swap_reloc_out.isSome c sec).1) := by
  unfold bfd_mach_o_write_relocs
  by_cases h0 : sec.reloc_count = 0
  · simp only [h0, if_true, spec_reloc_step, ne_eq, not_true_eq_false, false_and, if_false,
      and_self, false_implies, and_true]
  · cases hs : O.swap_reloc_out with
    | none =>
      simp only [h0, if_false, spec_reloc_step, Option.isSome_none, Bool.false_eq_true,
        and_false, if_false, and_self, true_and, false_implies, implies_true]
    | some swap =>
      rw [hs] at hb
      simp only [spec_reloc_step, h0, ne_eq, not_false_eq_true, Option.isSome_some, and_self,
        if_true] at hb
      have hle := (round_up_least c 4 (by decide)).2.1
      have hfa : FILE_ALIGN c 2 = (c + 4 - 1) / 4 * 4 := by
        rw [FILE_ALIGN_eq c 2 (by decide) (by norm_num; omega)]
        norm_num
      have hu : u32 (sec.reloc_count * BFD_MACH_O_RELENT_SIZE) = 8 * sec.reloc_count := by
        simp only [u32, BFD_MACH_O_RELENT_SIZE]
        omega
      have hv : vma ((c + 4 - 1) / 4 * 4 + 8 * sec.reloc_count)
          = (c + 4 - 1) / 4 * 4 + 8 * sec.reloc_count := by
        simp only [vma]
        omega
      simp only [h0, if_false, hfa, hu, hv, spec_reloc_step, ne_eq, not_false_eq_true,
        Option.isSome_some, and_self, if_true, implies_true]

/-- The relocation loop of the segment writers lays the tables out as the
specification does, as long as the last cursor stays below 2^32. -/
theorem write_segment_relocs_layout {H : Type} (xvec : bfd_target)
    (O : bfd_mach_o_output H) :
    ∀ (secs : List asection) (abfd : Stream) (c : Nat) (done : List asection),
      spec_reloc_end O.swap_reloc_out.isSome c secs < 2 ^ 32 →
      (bfd_mach_o_write_segment_relocs xvec O secs abfd c done).1 = true →
      (bfd_mach_o_write_segment_relocs xvec O secs abfd c done).2.2.1
          = spec_reloc_end O.swap_reloc_out.isSome c secs
        ∧ (∀ i, i < done.length →
          (bfd_mach_o_write_segment_relocs xvec O secs abfd c done).2.2.2[i]? = done[i]?)
        ∧ ∀ i s, secs[i]? = some s →
          ∃ o, (bfd_mach_o_write_segment_relocs xvec O secs abfd c done).2.2.2[
                done.length + i]? = some o
            ∧ o.reloc_count = s.reloc_count ∧ o.size = s.size ∧ o.filepos = s.filepos
            ∧ o.used_by_bfd.reloff
              = (spec_reloc_step O.swap_reloc_out.isSome
                  (spec_reloc_end O.swap_reloc_out.isSome c (secs.take i)) s).1
            ∧ (s.reloc_count ≠ 0 → O.swap_reloc_out.isSome = true →
              o.used_by_bfd.nreloc = s.reloc_count
              ∧ o.rel_filepos = o.used_by_bfd.reloff) := by
  intro secs
  induction secs with
  | nil =>
    intro abfd c done _ _
    refine ⟨rfl, fun i _ => rfl, fun i s h => ?_⟩
    simp at h
  | cons a rest ih =>
    intro abfd c done hb hok
    have hb1 : spec_reloc_end O.swap_reloc_out.isSome
        (spec_reloc_step O.swap_reloc_out.isSome c a).2 rest < 2 ^ 32 := hb
    have hstep : (spec_reloc_step O.swap_reloc_out.isSome c a).2 < 2 ^ 32 :=
      Nat.lt_of_le_of_lt (spec_reloc_end_le _ rest _) hb1
    obtain ⟨e1, e2, e3, e4, e5, e6⟩ := write_relocs_layout xvec O abfd c a hstep
    rw [bfd_mach_o_write_segment_relocs] at hok ⊢
    rcases hr : bfd_mach_o_write_relocs xvec O abfd c a with ⟨ok, abfd1, c1, out⟩
    rw [hr] at hok e1 e2 e3 e4 e5 e6
    simp only at e1 e2 e3 e4 e5 e6
    cases ok with
    | false => simp at hok
    | true =>
      simp only at hok ⊢
      subst e1
      obtain ⟨i1, i2, i3⟩ := ih abfd1 _ (done ++ [out]) hb1 hok
      refine ⟨i1, fun i hi => ?_, fun i s hs => ?_⟩
      · rw [i2 i (by simp only [List.length_append, List.length_singleton]; omega),
          List.getElem?_append_left hi]
      · cases i with
        | zero =>
          simp only [List.getElem?_cons_zero, Option.some.injEq] at hs
          subst hs
          refine ⟨out, ?_, e2, e3, e4, e5, fun h1 h2 => ?_⟩
          · have h0 := i2 done.length (by simp)
            simpa using h0
          · obtain ⟨x, y⟩ := e6 h1 h2
            exact ⟨x, by rw [y, e5]⟩
        | succ i =>
          simp only [List.getElem?_cons_succ] at hs
          obtain ⟨o, ho, h1, h2, h3, h4, h5⟩ := i3 i s hs
          refine ⟨o, ?_, h1, h2, h3, h4, h5⟩
          rw [← ho]
          congr 1
          simp only [List.length_append, List.length_singleton]
          omega

theorem spec_reloc_step_congr (hook : Bool) (c : Nat) (s1 s2 : asection)
    (h : s1.kept = s2.kept) : spec_reloc_step hook c s1 = spec_reloc_step hook c s2 := by
  have h1 : s1.reloc_count = s2.reloc_count := congrArg (fun t => t.2.2.2.2.2.2.1) h
  have h2 : s1.used_by_bfd.reloff = s2.used_by_bfd.reloff :=
    congrArg (fun t => t.2.2.2.2.2.2.2.2.2.2.1) h
  simp only [spec_reloc_step, h1, h2]

theorem spec_reloc_end_congr (hook : Bool) : ∀ (l1 l2 : List asection) (c : Nat),
    l1.map asection.kept = l2.map asection.kept →
    spec_reloc_end hook c l1 = spec_reloc_end hook c l2 := by
  intro l1
  induction l1 with
  | nil =>
    intro l2 c h
    cases l2 with
    | nil => rfl
    | cons b t => simp at h
  | cons a t ih =>
    intro l2 c h
    cases l2 with
    | nil => simp at h
    | cons b t2 =>
      simp only [List.map_cons, List.cons.injEq] at h
      simp only [spec_reloc_end, spec_reloc_step_congr hook c a b h.1]
      exact ih t2 _ h.2

/-- The table `bfd_mach_o_build_commands` leaves: a segment command of the width of
the header, whose section list is the section list of the object, and a
symbol-table command. -/
theorem build_commands_table
    (mdata : bfd_mach_o_data_struct bfd_mach_o_object bfd_mach_o_command)
    (h0 : mdata.header.ncmds = 0) :
    (bfd_mach_o_build_commands mdata).1 = true
      ∧ (bfd_mach_o_build_commands mdata).2.header.ncmds = 2
      ∧ ∃ c1 c2 seg, (bfd_mach_o_build_commands mdata).2.commands = [c1, c2]
        ∧ c1.type = (if mach_o_wide_p mdata.header then BFD_MACH_O_LC_SEGMENT_64
            else BFD_MACH_O_LC_SEGMENT)
        ∧ c1.segment = some seg
        ∧ seg.sections = (bfd_mach_o_build_commands mdata).2.rest.sections
        ∧ c2.type = BFD_MACH_O_LC_SYMTAB := by
  simp only [bfd_mach_o_build_commands, h0, ne_eq, not_true_eq_false, if_false]
  exact ⟨trivial, trivial, _, _, _, rfl, rfl, rfl, rfl, rfl⟩

theorem write_command_segment_32 {σ P : Type} (W : bfd_mach_o_writers σ P)
    (xvec : bfd_target) (abfd : Stream) (cur : bfd_mach_o_load_command P) (mdata : σ)
    (h : cur.type = BFD_MACH_O_LC_SEGMENT) :
    bfd_mach_o_write_command W xvec abfd cur mdata
      = W.bfd_mach_o_write_segment_32
          (bfd_bwrite abfd cur.offset (bfd_mach_o_write_command_head xvec cur)) cur mdata := by
  simp only [bfd_mach_o_write_command, h, if_true]

theorem write_command_segment_64 {σ P : Type} (W : bfd_mach_o_writers σ P)
    (xvec : bfd_target) (abfd : Stream) (cur : bfd_mach_o_load_command P) (mdata : σ)
    (h : cur.type = BFD_MACH_O_LC_SEGMENT_64) :
    bfd_mach_o_write_command W xvec abfd cur mdata
      = W.bfd_mach_o_write_segment_64
          (bfd_bwrite abfd cur.offset (bfd_mach_o_write_command_head xvec cur)) cur mdata := by
  have hne : ¬ BFD_MACH_O_LC_SEGMENT_64 = BFD_MACH_O_LC_SEGMENT := by decide
  simp only [bfd_mach_o_write_command, h, hne, if_true, if_false]

theorem write_command_symtab {σ P : Type} (W : bfd_mach_o_writers σ P)
    (xvec : bfd_target) (abfd : Stream) (cur : bfd_mach_o_load_command P) (mdata : σ)
    (h : cur.type = BFD_MACH_O_LC_SYMTAB) :
    bfd_mach_o_write_command W xvec abfd cur mdata
      = W.bfd_mach_o_write_symtab
          (bfd_bwrite abfd cur.offset (bfd_mach_o_write_command_head xvec cur)) cur mdata := by
  have hne1 : ¬ BFD_MACH_O_LC_SYMTAB = BFD_MACH_O_LC_SEGMENT := by decide
  have hne2 : ¬ BFD_MACH_O_LC_SYMTAB = BFD_MACH_O_LC_SEGMENT_64 := by decide
  simp only [bfd_mach_o_write_command, h, hne1, hne2, if_true, if_false]

/-- A successful `bfd_mach_o_write_segment_32` or `bfd_mach_o_write_segment_64` leaves
the sections and the cursor of its relocation loop. -/
theorem write_segment_ok {H : Type} (xvec : bfd_target) (wide : Bool)
    (O : bfd_mach_o_output H) (abfd out : Stream)
    (command : bfd_mach_o_load_command bfd_mach_o_command) (seg : bfd_mach_o_segment_command)
    (m m1 : bfd_mach_o_object) (hseg : command.segment = some seg)
    (h : bfd_mach_o_write_segment xvec wide O abfd command m = (true, out, m1)) :
    (bfd_mach_o_write_segment_relocs xvec O seg.sections abfd m.filelen []).1 = true
      ∧ m1.filelen
        = (bfd_mach_o_write_segment_relocs xvec O seg.sections abfd m.filelen []).2.2.1
      ∧ m1.sections
        = (bfd_mach_o_write_segment_relocs xvec O seg.sections abfd m.filelen []).2.2.2 := by
  unfold bfd_mach_o_write_segment at h
  rw [hseg] at h
  simp only at h
  rcases hr : bfd_mach_o_write_segment_relocs xvec O seg.sections abfd m.filelen []
    with ⟨ok, a1, c1, secs⟩
  rw [hr] at h
  cases ok with
  | false => simp at h
  | true =>
    simp only [Prod.mk.injEq, true_and] at h
    obtain ⟨-, rfl⟩ := h
    exact ⟨rfl, rfl, rfl⟩

/-- A successful `bfd_mach_o_write_symtab` lays the symbol table and the string table
out as the specification does, as long as the last cursor stays below 2^32,
and the record it writes in the command holds these offsets. -/
theorem write_symtab_layout {H : Type} (xvec : bfd_target) (O : bfd_mach_o_output H)
    (abfd out : Stream) (command : bfd_mach_o_load_command bfd_mach_o_command)
    (m m2 : bfd_mach_o_object) (strsize : Nat)
    (hc : m.filelen < 2 ^ 32)
    (hsz : ∀ a p r, O.write_symbols a p = some r → r.2 = strsize)
    (hb : (spec_symtab_layout O.wide m.filelen O.symcount strsize).2.2 < 2 ^ 32)
    (h : bfd_mach_o_write_symtab xvec O abfd command m = (true, out, m2)) :
    m2.sections = m.sections
      ∧ m2.filelen = (spec_symtab_layout O.wide m.filelen O.symcount strsize).2.2
      ∧ bfd_bread out (u32 (command.offset + BFD_MACH_O_LC_SIZE)) 16
        = some (bfd_mach_o_write_symtab_raw xvec
            (spec_symtab_layout O.wide m.filelen O.symcount strsize).1 O.symcount
            (spec_symtab_layout O.wide m.filelen O.symcount strsize).2.1 strsize) := by
  have hlen : ∀ a b c d : Nat, (bfd_mach_o_write_symtab_raw xvec a b c d).length = 16 := by
    intro a b c d
    simp only [bfd_mach_o_write_symtab_raw, List.length_append, bfd_h_put_32_length]
  have hfa : FILE_ALIGN m.filelen (if O.wide then 3 else 2)
      = (m.filelen + (if O.wide then 8 else 4) - 1) / (if O.wide then 8 else 4)
        * (if O.wide then 8 else 4) := by
    cases O.wide
    · simp only [Bool.false_eq_true, if_false]
      rw [FILE_ALIGN_eq m.filelen 2 (by decide) (by norm_num; omega)]
      norm_num
    · simp only [if_true]
      rw [FILE_ALIGN_eq m.filelen 3 (by decide) (by norm_num; omega)]
      norm_num
  have hsl : (if O.wide then BFD_MACH_O_NLIST_64_SIZE else BFD_MACH_O_NLIST_SIZE)
      = (if O.wide then 16 else 12) := rfl
  simp only [spec_symtab_layout] at hb ⊢
  generalize hso : (m.filelen + (if O.wide then 8 else 4) - 1) / (if O.wide then 8 else 4)
    * (if O.wide then 8 else 4) = symoff at hfa hb ⊢
  generalize hnl : O.symcount * (if O.wide then 16 else 12) = tab at hb ⊢
  unfold bfd_mach_o_write_symtab at h
  simp only [hfa, hsl, hnl] at h
  have hu1 : u32 symoff = symoff := by simp only [u32]; omega
  have hu2 : u32 tab = tab := by simp only [u32]; omega
  have hv1 : vma (symoff + tab) = symoff + tab := by simp only [vma]; omega
  have hu3 : u32 (symoff + tab) = symoff + tab := by simp only [u32]; omega
  simp only [hu1, hu2, hv1, hu3] at h
  cases hws : O.write_symbols abfd symoff with
  | none => rw [hws] at h; simp at h
  | some r =>
    obtain ⟨a1, size⟩ := r
    have hsize : size = strsize := hsz abfd symoff (a1, size) hws
    subst hsize
    rw [hws] at h
    simp only at h
    have hu4 : u32 size = size := by simp only [u32]; omega
    have hv2 : vma (symoff + tab + size) = symoff + tab + size := by simp only [vma]; omega
    simp only [hu4, hv2] at h
    cases hem : O.stringtab_emit a1 size with
    | none => rw [hem] at h; simp at h
    | some a2 =>
      rw [hem] at h
      simp only [Prod.mk.injEq, true_and] at h
      obtain ⟨rfl, rfl⟩ := h
      refine ⟨rfl, rfl, ?_⟩
      rw [← hlen symoff O.symcount (symoff + tab) size]
      exact bfd_bread_bwrite _ _ _

theorem write_commands_two {σ P : Type} (W : bfd_mach_o_writers σ P) (xvec : bfd_target)
    (c1 c2 : bfd_mach_o_load_command P) (abfd out : Stream) (m res : σ)
    (h : bfd_mach_o_write_commands W xvec [c1, c2] abfd m = (true, out, res)) :
    ∃ a1 m1, bfd_mach_o_write_command W xvec abfd c1 m = (true, a1, m1)
      ∧ bfd_mach_o_write_command W xvec a1 c2 m1 = (true, out, res) := by
  rw [bfd_mach_o_write_commands] at h
  rcases h1 : bfd_mach_o_write_command W xvec abfd c1 m with ⟨ok, a1, m1⟩
  rw [h1] at h
  cases ok with
  | false => simp at h
  | true =>
    simp only at h
    rw [bfd_mach_o_write_commands] at h
    rcases h2 : bfd_mach_o_write_command W xvec a1 c2 m1 with ⟨ok2, a2, m2⟩
    rw [h2] at h
    cases ok2 with
    | false => simp at h
    | true =>
      simp only [bfd_mach_o_write_commands, Prod.mk.injEq, true_and] at h
      obtain ⟨rfl, rfl⟩ := h
      exact ⟨a1, m1, rfl, h2⟩

/-- A successful `bfd_mach_o_write_contents` on an object without commands has
built the commands and then written them all. -/
theorem write_contents_built {H : Type} (xvec : bfd_target) (O : bfd_mach_o_output H)
    (abfd out : Stream) (flags : bfd_flags)
    (mdata res : bfd_mach_o_data_struct bfd_mach_o_object bfd_mach_o_command)
    (h0 : mdata.header.ncmds = 0)
    (h : bfd_mach_o_write_contents (bfd_mach_o_object_writers xvec O) xvec abfd flags mdata
      = (true, out, res)) :
    ∃ a, bfd_mach_o_write_commands (bfd_mach_o_object_writers xvec O) xvec
        ((bfd_mach_o_build_commands mdata).2.commands.take
          (bfd_mach_o_build_commands mdata).2.header.ncmds) a
        (bfd_mach_o_build_commands mdata).2.rest = (true, out, res.rest) := by
  unfold bfd_mach_o_write_contents at h
  have hW : (bfd_mach_o_object_writers xvec O).bfd_mach_o_build_commands mdata
      = bfd_mach_o_build_commands mdata := rfl
  have hM : ∀ m, (bfd_mach_o_object_writers xvec O).bfd_mach_o_mangle_symbols m
      = (true, m) := fun _ => rfl
  simp only [h0, if_true, hW] at h
  rcases hb : bfd_mach_o_build_commands mdata with ⟨ok, B⟩
  rw [hb] at h
  cases ok with
  | false => simp at h
  | true =>
    simp only [hM] at h
    rcases hwc : bfd_mach_o_write_commands (bfd_mach_o_object_writers xvec O) xvec
      (B.commands.take B.header.ncmds)
      (bfd_mach_o_write_header xvec abfd
        { B.header with
          filetype :=
            if B.header.filetype = 0 then
              if flags.EXEC_P then BFD_MACH_O_MH_EXECUTE
              else if flags.DYNAMIC then BFD_MACH_O_MH_DYLIB
              else BFD_MACH_O_MH_OBJECT
            else B.header.filetype }) B.rest with ⟨ok2, a2, r2⟩
    rw [hwc] at h
    simp only [Prod.mk.injEq] at h
    obtain ⟨rfl, rfl, rfl⟩ := h
    exact ⟨_, hwc⟩

theorem spec_layout_end_take_le (l : List asection) (c i : Nat) :
    spec_layout_end c (l.take i) ≤ spec_layout_end c l := by
  conv_rhs => rw [← List.take_append_drop i l, spec_layout_end_append]
  exact spec_layout_end_le _ _

/-- What the specification's relocation step means for a section that gets a
table. -/
theorem spec_reloc_step_spec (c : Nat) (sec : asection) (h : sec.reloc_count ≠ 0) :
    4 ∣ (spec_reloc_step true c sec).1
      ∧ c ≤ (spec_reloc_step true c sec).1
      ∧ (∀ m, 4 ∣ m → c ≤ m → (spec_reloc_step true c sec).1 ≤ m)
      ∧ (spec_reloc_step true c sec).2 = (spec_reloc_step true c sec).1 + 8 * sec.reloc_count := by
  obtain ⟨a, b, -, d⟩ := round_up_least c 4 (by decide)
  simp only [spec_reloc_step, h, ne_eq, not_false_eq_true, and_self, if_true]
  exact ⟨a, b, d, trivial⟩

/-- C35 (amended). Let `bfd_mach_o_write_contents` succeed on an object without
commands, so that it builds them and writes the segment command and the
symbol-table command.  On unbounded integers let `c0` be the end of the
command table, `c1` the cursor after the section contents laid out by
`bfd_mach_o_build_commands`, `c2` the cursor after the relocation tables and
`symoff`, `stroff`, `c3` the symbol table, the string table and the last
cursor.  When `c3` is below 2^32 (so that no sum, product or stored offset
wraps) the cursor `mdata->filelen` runs through `c1`, `c2`, `c3` and never
decreases; every section with relocations (when the back end can write them)
gets a table that starts at the cursor rounded up to a multiple of 4 and
takes 8 bytes for each relocation; the symbol table starts at the cursor
rounded up to a multiple of 4 (8 in the 64-bit form) and takes 12 (16) bytes
for each symbol; the string table starts right after it.  Hence the section
contents lie in `[c0, c1]`, the relocation tables in `[c1, c2]`, each one ending
at or before the start of every later one, the symbol table in
`[symoff, stroff]` with `c2 <= symoff`, and the string table in `[stroff, c3]`:
all after the command table and disjoint from one another. -/
theorem C35_write_layout {H : Type} (xvec : bfd_target) (O : bfd_mach_o_output H)
    (abfd out : Stream) (flags : bfd_flags)
    (mdata res : bfd_mach_o_data_struct bfd_mach_o_object bfd_mach_o_command)
    (c0 c1 c2 symoff stroff c3 strsize : Nat)
    (h0 : mdata.header.ncmds = 0)
    (hc0 : c0 = if mach_o_wide_p mdata.header
      then 32 + (72 + 80 * mdata.rest.sections.length + 24)
      else 28 + (56 + 68 * mdata.rest.sections.length + 24))
    (hal : ∀ s ∈ mdata.rest.sections, s.size ≠ 0 → s.alignment_power < 64)
    (hc1 : c1 = spec_layout_end c0 mdata.rest.sections)
    (hc2 : c2 = spec_reloc_end O.swap_reloc_out.isSome c1 mdata.rest.sections)
    (hsz : ∀ a p r, O.write_symbols a p = some r → r.2 = strsize)
    (hsym : (symoff, stroff, c3) = spec_symtab_layout O.wide c2 O.symcount strsize)
    (hb : c3 < 2 ^ 32)
    (h : bfd_mach_o_write_contents (bfd_mach_o_object_writers xvec O) xvec abfd flags mdata
      = (true, out, res)) :
    (c0 ≤ c1 ∧ c1 ≤ c2 ∧ c2 ≤ symoff ∧ symoff ≤ stroff ∧ stroff ≤ c3)
    ∧ (bfd_mach_o_build_commands mdata).2.rest.filelen = c1
    ∧ res.rest.filelen = c3
    ∧ (∀ i s, mdata.rest.sections[i]? = some s →
        ∃ o, res.rest.sections[i]? = some o ∧ o.size = s.size
          ∧ o.reloc_count = s.reloc_count
          ∧ (s.size ≠ 0 → c0 ≤ o.filepos ∧ o.filepos + o.size ≤ c1)
          ∧ (s.reloc_count ≠ 0 → O.swap_reloc_out.isSome = true →
              o.used_by_bfd.nreloc = s.reloc_count
              ∧ o.rel_filepos = o.used_by_bfd.reloff
              ∧ 4 ∣ o.used_by_bfd.reloff
              ∧ spec_reloc_end true c1 (mdata.rest.sections.take i) ≤ o.used_by_bfd.reloff
              ∧ (∀ m, 4 ∣ m → spec_reloc_end true c1 (mdata.rest.sections.take i) ≤ m →
                  o.used_by_bfd.reloff ≤ m)
              ∧ spec_reloc_end true c1 (mdata.rest.sections.take (i + 1))
                = o.used_by_bfd.reloff + 8 * o.used_by_bfd.nreloc
              ∧ c1 ≤ o.used_by_bfd.reloff
              ∧ o.used_by_bfd.reloff + 8 * o.used_by_bfd.nreloc ≤ c2))
    ∧ (∀ (i j : Nat) (si sj oi oj : asection), i < j →
        mdata.rest.sections[i]? = some si → mdata.rest.sections[j]? = some sj →
        res.rest.sections[i]? = some oi → res.rest.sections[j]? = some oj →
        si.reloc_count ≠ 0 → sj.reloc_count ≠ 0 → O.swap_reloc_out.isSome = true →
        oi.used_by_bfd.reloff + 8 * oi.used_by_bfd.nreloc ≤ oj.used_by_bfd.reloff)
    ∧ ((if O.wide then 8 else 4) ∣ symoff
      ∧ (∀ m, (if O.wide then 8 else 4) ∣ m → c2 ≤ m → symoff ≤ m)
      ∧ stroff = symoff + O.symcount * (if O.wide then 16 else 12)
      ∧ c3 = stroff + strsize)
    ∧ ∃ symcmd, (bfd_mach_o_build_commands mdata).2.commands[1]? = some symcmd
      ∧ symcmd.type = BFD_MACH_O_LC_SYMTAB
      ∧ bfd_bread out (u32 (symcmd.offset + BFD_MACH_O_LC_SIZE)) 16
        = some (bfd_mach_o_write_symtab_raw xvec symoff O.symcount stroff strsize) := by
  -- the cursors on unbounded integers
  have hpos : 0 < (if O.wide then 8 else 4) := by split <;> decide
  obtain ⟨r1, r2, -, r4⟩ := round_up_least c2 (if O.wide then 8 else 4) hpos
  simp only [spec_symtab_layout, Prod.mk.injEq] at hsym
  obtain ⟨e1, e2, e3⟩ := hsym
  rw [← e1] at r1 r2 r4 e2 e3
  rw [← e2] at e3
  have h01 : c0 ≤ c1 := by rw [hc1]; exact spec_layout_end_le _ _
  have h12 : c1 ≤ c2 := by rw [hc2]; exact spec_reloc_end_le _ _ _
  have hfit : c0 < 2 ^ 32 := by omega
  -- the command builder
  have hF : c0 = u32 ((if mach_o_wide_p mdata.header then BFD_MACH_O_HEADER_64_SIZE
              else BFD_MACH_O_HEADER_SIZE)
            + (if mach_o_wide_p mdata.header
              then u32 (BFD_MACH_O_LC_SEGMENT_64_SIZE
                + BFD_MACH_O_SECTION_64_SIZE * mdata.rest.sections.length)
              else u32 (BFD_MACH_O_LC_SEGMENT_SIZE
                + BFD_MACH_O_SECTION_SIZE * mdata.rest.sections.length))) + 6 * 4 := by
    rw [hc0] at hfit ⊢
    cases hwd : mach_o_wide_p mdata.header
    · simp only [hwd, Bool.false_eq_true, if_false] at hfit ⊢
      simp only [u32, BFD_MACH_O_HEADER_SIZE, BFD_MACH_O_LC_SEGMENT_SIZE,
        BFD_MACH_O_SECTION_SIZE]
      omega
    · simp only [hwd, if_true] at hfit ⊢
      simp only [u32, BFD_MACH_O_HEADER_64_SIZE, BFD_MACH_O_LC_SEGMENT_64_SIZE,
        BFD_MACH_O_SECTION_64_SIZE]
      omega
  obtain ⟨p1, p2, -, -⟩ := build_commands_layout_parts mdata h0 c0 hF
  obtain ⟨l1, -, l3⟩ := build_commands_loop_layout mdata.rest.sections c0 0 [] hal
    (by rw [← hc1]; omega)
  have hkept := (build_commands_loop_spec mdata.rest.sections c0 0 []).1
  rw [← p1] at hkept l3
  simp only [List.map_nil, List.nil_append, List.length_nil, Nat.zero_add] at hkept l3
  have hB : (bfd_mach_o_build_commands mdata).2.rest.filelen = c1 := by rw [p2, l1, hc1]
  obtain ⟨-, hnc, cmd, symcmd, seg, hcmds, hty, hsegc, hsecs, hsty⟩ :=
    build_commands_table mdata h0
  -- the two commands are written
  obtain ⟨a0, hwc⟩ := write_contents_built xvec O abfd out flags mdata res h0 h
  rw [hnc, hcmds] at hwc
  simp only [List.take_succ_cons, List.take_zero] at hwc
  obtain ⟨a1, m1, hw1, hw2⟩ := write_commands_two _ xvec cmd symcmd a0 out _ _ hwc
  have hseg1 : ∃ wd a, bfd_mach_o_write_segment xvec wd O a cmd
      (bfd_mach_o_build_commands mdata).2.rest = (true, a1, m1) := by
    cases hwd : mach_o_wide_p mdata.header
    · rw [hwd] at hty
      rw [write_command_segment_32 _ xvec a0 cmd _ hty] at hw1
      exact ⟨false, _, hw1⟩
    · rw [hwd] at hty
      rw [write_command_segment_64 _ xvec a0 cmd _ hty] at hw1
      exact ⟨true, _, hw1⟩
  obtain ⟨wd, a, hws⟩ := hseg1
  obtain ⟨s1, s2, s3⟩ := write_segment_ok xvec wd O a a1 cmd seg _ m1 hsegc hws
  rw [hsecs, hB] at s1 s2 s3
  have hc2' : spec_reloc_end O.swap_reloc_out.isSome c1
      (bfd_mach_o_build_commands mdata).2.rest.sections = c2 := by
    rw [hc2]
    exact spec_reloc_end_congr _ _ _ c1 hkept
  obtain ⟨q1, -, q3⟩ := write_segment_relocs_layout xvec O
    (bfd_mach_o_build_commands mdata).2.rest.sections a c1 [] (by rw [hc2']; omega) s1
  rw [← s2, hc2'] at q1
  rw [← s3] at q3
  simp only [List.length_nil, Nat.zero_add] at q3
  -- the symbol table
  rw [write_command_symtab _ xvec a1 symcmd m1 hsty] at hw2
  have hw2' : bfd_mach_o_write_symtab xvec O
      (bfd_bwrite a1 symcmd.offset (bfd_mach_o_write_command_head xvec symcmd)) symcmd m1
      = (true, out, res.rest) := hw2
  have hsl : spec_symtab_layout O.wide m1.filelen O.symcount strsize
      = (symoff, stroff, c3) := by
    rw [q1]
    simp only [spec_symtab_layout, ← e1, ← e2, ← e3]
  obtain ⟨t1, t2, t3⟩ := write_symtab_layout xvec O _ out symcmd m1 res.rest strsize
    (by rw [q1]; omega) hsz (by rw [hsl]; exact hb) hw2'
  rw [hsl] at t2 t3
  simp only at t2 t3
  -- the sections
  have hsec : ∀ i s, mdata.rest.sections[i]? = some s →
      ∃ ob o, (bfd_mach_o_build_commands mdata).2.rest.sections[i]? = some ob
        ∧ res.rest.sections[i]? = some o
        ∧ ob.kept = s.kept ∧ ob.size = s.size
        ∧ ob.filepos = (spec_layout_step (spec_layout_end c0 (mdata.rest.sections.take i)) s).1
        ∧ o.reloc_count = ob.reloc_count ∧ o.size = ob.size ∧ o.filepos = ob.filepos
        ∧ o.used_by_bfd.reloff
          = (spec_reloc_step O.swap_reloc_out.isSome
              (spec_reloc_end O.swap_reloc_out.isSome c1 (mdata.rest.sections.take i)) s).1
        ∧ (ob.reloc_count ≠ 0 → O.swap_reloc_out.isSome = true →
            o.used_by_bfd.nreloc = ob.reloc_count
            ∧ o.rel_filepos = o.used_by_bfd.reloff) := by
    intro i s hs
    obtain ⟨ob, hob, b1, -, -, b4⟩ := l3 i s hs
    have hk : ob.kept = s.kept := by
      have := congrArg (fun l => l[i]?) hkept
      simp only [List.getElem?_map, hob, hs, Option.map_some', Option.some.injEq] at this
      exact this
    obtain ⟨o, ho, g1, g2, g3, g4, g5⟩ := q3 i ob hob
    have htk : ((bfd_mach_o_build_commands mdata).2.rest.sections.take i).map asection.kept
        = (mdata.rest.sections.take i).map asection.kept := by
      rw [List.map_take, List.map_take, hkept]
    rw [spec_reloc_end_congr _ _ _ c1 htk, spec_reloc_step_congr _ _ ob s hk] at g4
    refine ⟨ob, o, hob, ?_, hk, b1, b4, g1, g2, g3, g4, g5⟩
    rw [t1]
    exact ho
  have hrc : ∀ (ob s : asection), ob.kept = s.kept → ob.reloc_count = s.reloc_count :=
    fun ob s hk => congrArg (fun t => t.2.2.2.2.2.2.1) hk
  have hreloc : ∀ i s o, mdata.rest.sections[i]? = some s → res.rest.sections[i]? = some o →
      s.reloc_count ≠ 0 → O.swap_reloc_out.isSome = true →
      o.used_by_bfd.nreloc = s.reloc_count
        ∧ o.rel_filepos = o.used_by_bfd.reloff
        ∧ 4 ∣ o.used_by_bfd.reloff
        ∧ spec_reloc_end true c1 (mdata.rest.sections.take i) ≤ o.used_by_bfd.reloff
        ∧ (∀ m, 4 ∣ m → spec_reloc_end true c1 (mdata.rest.sections.take i) ≤ m →
            o.used_by_bfd.reloff ≤ m)
        ∧ spec_reloc_end true c1 (mdata.rest.sections.take (i + 1))
          = o.used_by_bfd.reloff + 8 * o.used_by_bfd.nreloc := by
    intro i s o hs ho hz hk
    obtain ⟨ob, o2, -, ho2, k1, -, -, g1, -, -, g4, g5⟩ := hsec i s hs
    rw [ho] at ho2
    obtain rfl := Option.some.inj ho2
    rw [hk] at g4
    have hz2 : ob.reloc_count ≠ 0 := by rw [hrc ob s k1]; exact hz
    obtain ⟨x, y⟩ := g5 hz2 hk
    obtain ⟨u1, u2, u3, u4⟩ :=
      spec_reloc_step_spec (spec_reloc_end true c1 (mdata.rest.sections.take i)) s hz
    rw [← g4] at u1 u2 u3 u4
    rw [spec_reloc_end_take_succ true _ c1 i s hs, u4, x, hrc ob s k1]
    exact ⟨rfl, y, u1, u2, u3, rfl⟩
  refine ⟨⟨h01, h12, r2, by omega, by omega⟩, hB, t2, fun i s hs => ?_,
    fun i j si sj oi oj hij hsi hsj hoi hoj hzi hzj hk => ?_,
    ⟨r1, r4, e2, e3⟩, symcmd, by rw [hcmds]; rfl, hsty, t3⟩
  · obtain ⟨ob, o, -, ho, k1, k2, k3, g1, g2, g3, -, -⟩ := hsec i s hs
    refine ⟨o, ho, by rw [g2, k2], by rw [g1, hrc ob s k1], fun hz => ?_, fun hz hk => ?_⟩
    · obtain ⟨-, v2, -, v4⟩ :=
        (spec_layout_step_spec (spec_layout_end c0 (mdata.rest.sections.take i)) s).1 hz
      have m0 : c0 ≤ spec_layout_end c0 (mdata.rest.sections.take i) :=
        spec_layout_end_le _ _
      have m1 := spec_layout_end_take_le mdata.rest.sections c0 (i + 1)
      rw [spec_layout_end_take_succ _ _ _ _ hs, v4, ← hc1] at m1
      rw [g3, g2, k3, k2]
      omega
    · obtain ⟨x1, x2, x3, x4, x5, x6⟩ := hreloc i s o hs ho hz hk
      have m0 : c1 ≤ spec_reloc_end true c1 (mdata.rest.sections.take i) :=
        spec_reloc_end_le _ _ _
      have m1 := spec_reloc_end_take_le true mdata.rest.sections c1 (i + 1)
      rw [x6] at m1
      rw [hk] at hc2
      rw [← hc2] at m1
      exact ⟨x1, x2, x3, x4, x5, x6, by omega, m1⟩
  · obtain ⟨-, -, -, -, -, x6⟩ := hreloc i si oi hsi hoi hzi hk
    obtain ⟨-, -, -, y4, -, -⟩ := hreloc j sj oj hsj hoj hzj hk
    have m1 := spec_reloc_end_take_mono true mdata.rest.sections c1 (i + 1) j hij
    rw [x6] at m1
    omega

set_option maxRecDepth 100000 in
theorem C35_write_layout_witness :
    (bfd_mach_o_write_contents (bfd_mach_o_object_writers .big (bfd_mach_o_plain_output false 3 10))
        .big [] ⟨false, false, false, false⟩ three_section_object).1 = true
    ∧ (bfd_mach_o_write_contents
        (bfd_mach_o_object_writers .big (bfd_mach_o_plain_output false 3 10))
        .big [] ⟨false, false, false, false⟩ three_section_object).2.2.rest.filelen = 406
    ∧ (bfd_mach_o_write_contents
        (bfd_mach_o_object_writers .big (bfd_mach_o_plain_output false 3 10))
        .big [] ⟨false, false, false, false⟩ three_section_object).2.2.rest.sections.map
          (fun s => (s.filepos, s.size, s.used_by_bfd.reloff, s.used_by_bfd.nreloc))
      = [(312, 10, 336, 2), (0, 0, 0, 0), (328, 5, 352, 1)] :=
  ⟨by decide,
    (C35_write_layout .big (bfd_mach_o_plain_output false 3 10) []
      (bfd_mach_o_write_contents
        (bfd_mach_o_object_writers .big (bfd_mach_o_plain_output false 3 10))
        .big [] ⟨false, false, false, false⟩ three_section_object).2.1
      ⟨false, false, false, false⟩ three_section_object
      (bfd_mach_o_write_contents
        (bfd_mach_o_object_writers .big (bfd_mach_o_plain_output false 3 10))
        .big [] ⟨false, false, false, false⟩ three_section_object).2.2
      312 333 360 360 396 406 10 rfl (by decide) (by decide) (by decide) (by decide)
      (fun a p r hr => by cases hr; rfl) (by decide) (by decide)
      (Prod.ext (by decide) rfl)).2.2.1,
    by decide⟩

set_option maxRecDepth 100000 in
/-- C35, as stated, fails when the cursor leaves 32 bits: `symoff` and `stroff` are
`unsigned int` members, so the cursor is truncated when it is stored in them.
The object below has one section of 2^32 bytes, which
`bfd_mach_o_build_commands` places at offset 176, the end of the command
table; the cursor is then 2^32 + 176.  `bfd_mach_o_write_contents` succeeds
with the last cursor 2^32 + 198, and the symbol-table command it writes holds
`symoff` = 176 and `stroff` = 188: the symbol table does not start at the
cursor rounded up to a multiple of 4, it starts where the section contents
start and lies inside them. -/
theorem C35_cursor_truncated_counterexample :
    (bfd_mach_o_write_contents (bfd_mach_o_object_writers .big (bfd_mach_o_plain_output false 1 10))
        .big [] ⟨false, false, false, false⟩ large_section_object).1 = true
    ∧ (bfd_mach_o_build_commands large_section_object).2.rest.filelen = 2 ^ 32 + 176
    ∧ (bfd_mach_o_build_commands large_section_object).2.rest.sections.map
        (fun s => (s.filepos, s.size)) = [(176, 2 ^ 32)]
    ∧ (bfd_mach_o_write_contents
        (bfd_mach_o_object_writers .big (bfd_mach_o_plain_output false 1 10))
        .big [] ⟨false, false, false, false⟩ large_section_object).2.2.rest.filelen
      = 2 ^ 32 + 198
    ∧ bfd_bread (bfd_mach_o_write_contents
        (bfd_mach_o_object_writers .big (bfd_mach_o_plain_output false 1 10))
        .big [] ⟨false, false, false, false⟩ large_section_object).2.1 (152 + 8) 16
      = some (bfd_mach_o_write_symtab_raw .big 176 1 188 10)
    ∧ (2 ^ 32 + 176 + 4 - 1) / 4 * 4 ≠ 176
    ∧ 176 < 176 + 2 ^ 32 := by
  refine ⟨by decide, by decide, by decide, by decide, by decide, by decide, by decide⟩

/-! ## The kinds the write side accepts -/

/-- A command whose kind is a case label of the write switch does not reach the
`default` branch: the iteration ends with the result of one of the four body
writers, called on the file with the prefix written, or with success. -/
theorem write_command_case {σ P : Type} (W : bfd_mach_o_writers σ P) (xvec : bfd_target)
    (abfd : Stream) (cur : bfd_mach_o_load_command P) (mdata : σ)
    (hc : cur.type ∈ bfd_mach_o_write_contents_cases) :
    bfd_mach_o_write_command W xvec abfd cur mdata
        = W.bfd_mach_o_write_segment_32
            (bfd_bwrite abfd cur.offset (bfd_mach_o_write_command_head xvec cur)) cur mdata
      ∨ bfd_mach_o_write_command W xvec abfd cur mdata
        = W.bfd_mach_o_write_segment_64
            (bfd_bwrite abfd cur.offset (bfd_mach_o_write_command_head xvec cur)) cur mdata
      ∨ bfd_mach_o_write_command W xvec abfd cur mdata
        = W.bfd_mach_o_write_symtab
            (bfd_bwrite abfd cur.offset (bfd_mach_o_write_command_head xvec cur)) cur mdata
      ∨ bfd_mach_o_write_command W xvec abfd cur mdata
        = W.bfd_mach_o_write_thread
            (bfd_bwrite abfd cur.offset (bfd_mach_o_write_command_head xvec cur)) cur mdata
      ∨ bfd_mach_o_write_command W xvec abfd cur mdata
        = (true, bfd_bwrite abfd cur.offset (bfd_mach_o_write_command_head xvec cur),
            mdata) := by
  unfold bfd_mach_o_write_command
  dsimp only
  split
  · exact Or.inl rfl
  split
  · exact Or.inr (Or.inl rfl)
  split
  · exact Or.inr (Or.inr (Or.inl rfl))
  split
  · exact Or.inr (Or.inr (Or.inr (Or.inr rfl)))
  split
  · exact Or.inr (Or.inr (Or.inr (Or.inl rfl)))
  split
  · exact Or.inr (Or.inr (Or.inr (Or.inr rfl)))
  · rename_i h1 h2 h3 h4 h5 h6
    exfalso
    simp only [bfd_mach_o_write_contents_cases, List.mem_cons, List.mem_singleton,
      List.not_mem_nil, or_false] at hc
    simp only [not_or] at h5 h6
    rcases hc with h | h | h | h | h | h | h | h | h | h | h | h | h | h | h | h | h | h | h
      | h | h
    · exact h1 h
    · exact h2 h
    · exact h3 h
    · exact h4 h
    · exact h5.1 h
    · exact h5.2 h
    · exact h6.1 h
    · exact h6.2.1 h
    · exact h6.2.2.1 h
    · exact h6.2.2.2.1 h
    · exact h6.2.2.2.2.1 h
    · exact h6.2.2.2.2.2.1 h
    · exact h6.2.2.2.2.2.2.1 h
    · exact h6.2.2.2.2.2.2.2.1 h
    · exact h6.2.2.2.2.2.2.2.2.1 h
    · exact h6.2.2.2.2.2.2.2.2.2.1 h
    · exact h6.2.2.2.2.2.2.2.2.2.2.1 h
    · exact h6.2.2.2.2.2.2.2.2.2.2.2.1 h
    · exact h6.2.2.2.2.2.2.2.2.2.2.2.2.1 h
    · exact h6.2.2.2.2.2.2.2.2.2.2.2.2.2.1 h
    · exact h6.2.2.2.2.2.2.2.2.2.2.2.2.2.2 h

/-- The command loop succeeds on a table of accepted kinds when the body writers
do. -/
theorem write_commands_cases {σ P : Type} (W : bfd_mach_o_writers σ P) (xvec : bfd_target)
    (h32 : ∀ a c m, (W.bfd_mach_o_write_segment_32 a c m).1 = true)
    (h64 : ∀ a c m, (W.bfd_mach_o_write_segment_64 a c m).1 = true)
    (hsy : ∀ a c m, (W.bfd_mach_o_write_symtab a c m).1 = true)
    (hth : ∀ a c m, (W.bfd_mach_o_write_thread a c m).1 = true) :
    ∀ (l : List (bfd_mach_o_load_command P)) (abfd : Stream) (mdata : σ),
      (∀ c ∈ l, c.type ∈ bfd_mach_o_write_contents_cases) →
      (bfd_mach_o_write_commands W xvec l abfd mdata).1 = true := by
  intro l
  induction l with
  | nil => intro abfd mdata _; rfl
  | cons cur rest ih =>
    intro abfd mdata hl
    rw [bfd_mach_o_write_commands]
    have hone : (bfd_mach_o_write_command W xvec abfd cur mdata).1 = true := by
      rcases write_command_case W xvec abfd cur mdata (hl cur (List.mem_cons_self _ _))
        with h | h | h | h | h
      · rw [h]; exact h32 _ _ _
      · rw [h]; exact h64 _ _ _
      · rw [h]; exact hsy _ _ _
      · rw [h]; exact hth _ _ _
      · rw [h]
    rcases hstep : bfd_mach_o_write_command W xvec abfd cur mdata with ⟨ok, a1, m1⟩
    rw [hstep] at hone
    simp only at hone
    subst hone
    exact ih a1 m1 (fun c hc => hl c (List.mem_cons_of_mem _ hc))

/-- C32 (amended). The write-side dispatch accepts the command kinds that are case
labels of its own switch (`LC_SEGMENT`, `LC_SEGMENT_64`, `LC_SYMTAB`,
`LC_SYMSEG`, `LC_THREAD`, `LC_UNIXTHREAD`, `LC_LOADFVMLIB`, `LC_IDFVMLIB`,
`LC_IDENT`, `LC_FVMFILE`, `LC_PREPAGE`, `LC_DYSYMTAB`, the dylib and dylinker
kinds, `LC_PREBOUND_DYLIB`, `LC_ROUTINES`, `LC_SUB_FRAMEWORK`), all of which the
read side recognises: for every command table whose commands are all of
these kinds, no iteration of the loop of `bfd_mach_o_write_contents` reaches
the unknown-load-command branch, so the function succeeds whenever the
command builder, the symbol numbering and the body writers do. -/
theorem C32_write_dispatch {σ P : Type} (W : bfd_mach_o_writers σ P) (xvec : bfd_target)
    (abfd : Stream) (flags : bfd_flags) (mdata : bfd_mach_o_data_struct σ P)
    (hn : mdata.header.ncmds ≠ 0)
    (hcases : ∀ c ∈ mdata.commands.take mdata.header.ncmds,
      c.type ∈ bfd_mach_o_write_contents_cases)
    (hmg : ∀ m, (W.bfd_mach_o_mangle_symbols m).1 = true)
    (h32 : ∀ a c m, (W.bfd_mach_o_write_segment_32 a c m).1 = true)
    (h64 : ∀ a c m, (W.bfd_mach_o_write_segment_64 a c m).1 = true)
    (hsy : ∀ a c m, (W.bfd_mach_o_write_symtab a c m).1 = true)
    (hth : ∀ a c m, (W.bfd_mach_o_write_thread a c m).1 = true) :
    (∀ t ∈ bfd_mach_o_write_contents_cases, t ∈ bfd_mach_o_read_command_cases)
      ∧ (∀ c ∈ mdata.commands.take mdata.header.ncmds, ∀ (out : Stream) (m : σ),
        bfd_mach_o_write_command W xvec out c m
          ≠ (false, bfd_bwrite out c.offset (bfd_mach_o_write_command_head xvec c), m)
        ∨ bfd_mach_o_write_command W xvec out c m
          = W.bfd_mach_o_write_segment_32
              (bfd_bwrite out c.offset (bfd_mach_o_write_command_head xvec c)) c m
        ∨ bfd_mach_o_write_command W xvec out c m
          = W.bfd_mach_o_write_segment_64
              (bfd_bwrite out c.offset (bfd_mach_o_write_command_head xvec c)) c m
        ∨ bfd_mach_o_write_command W xvec out c m
          = W.bfd_mach_o_write_symtab
              (bfd_bwrite out c.offset (bfd_mach_o_write_command_head xvec c)) c m
        ∨ bfd_mach_o_write_command W xvec out c m
          = W.bfd_mach_o_write_thread
              (bfd_bwrite out c.offset (bfd_mach_o_write_command_head xvec c)) c m)
      ∧ (bfd_mach_o_write_contents W xvec abfd flags mdata).1 = true := by
  refine ⟨by decide, fun c hc out m => ?_, ?_⟩
  · rcases write_command_case W xvec out c m (hcases c hc) with h | h | h | h | h
    · exact Or.inr (Or.inl h)
    · exact Or.inr (Or.inr (Or.inl h))
    · exact Or.inr (Or.inr (Or.inr (Or.inl h)))
    · exact Or.inr (Or.inr (Or.inr (Or.inr h)))
    · refine Or.inl ?_
      rw [h]
      simp
  · unfold bfd_mach_o_write_contents
    simp only [hn, if_false]
    rcases hm : W.bfd_mach_o_mangle_symbols mdata.rest with ⟨ok, rest⟩
    have := hmg mdata.rest
    rw [hm] at this
    simp only at this
    subst this
    dsimp only
    exact write_commands_cases W xvec h32 h64 hsy hth _ _ _ hcases

theorem C32_write_dispatch_witness :
    (bfd_mach_o_write_contents bfd_mach_o_ok_writers .big [] ⟨false, false, false, false⟩
      ⟨⟨0xfeedface, 7, 3, 1, 2, 16, 0, 0, 1, .BFD_ENDIAN_BIG⟩,
        [⟨3, false, 28, 8, none⟩, ⟨0x11, false, 36, 8, none⟩], ()⟩).1 = true :=
  (C32_write_dispatch bfd_mach_o_ok_writers .big [] ⟨false, false, false, false⟩
    ⟨⟨0xfeedface, 7, 3, 1, 2, 16, 0, 0, 1, .BFD_ENDIAN_BIG⟩,
      [⟨3, false, 28, 8, none⟩, ⟨0x11, false, 36, 8, none⟩], ()⟩
    (by decide) (by decide) (fun _ => rfl) (fun _ _ _ => rfl) (fun _ _ _ => rfl)
    (fun _ _ _ => rfl) (fun _ _ _ => rfl)).2.2

/-- C32, as stated, fails for the kinds of the read switch that the write switch
does not list.  The 36-byte image below holds one `LC_ROUTINES_64` command;
`bfd_mach_o_scan` succeeds and the kind is one that `bfd_mach_o_read_command`
recognises.  `bfd_mach_o_write_contents` on the scanned table fails although
every body writer succeeds: the command reaches the `default` branch, the
unknown-load-command error.  The same holds for each of `LC_UUID`,
`LC_DYLD_INFO`, `LC_RPATH` and the two version-min kinds: recognised on the
read side, no case label on the write side. -/
theorem C32_recognised_kind_not_written_counterexample :
    (bfd_mach_o_scan bfd_mach_o_no_readers .big
        (be_words [0xfeedface, 7, 3, 1, 1, 8, 0, 0x1a, 8]) ⟨false, false, false, false⟩
        ⟨0xfeedface, 7, 3, 1, 1, 8, 0, 0, 1, .BFD_ENDIAN_BIG⟩ ()).map
      (fun r => r.2.commands.map (fun c => (c.type, c.type_required, c.offset, c.len)))
      = some [(0x1a, false, 28, 8)]
    ∧ BFD_MACH_O_LC_ROUTINES_64 = 0x1a
    ∧ BFD_MACH_O_LC_ROUTINES_64 ∈ bfd_mach_o_read_command_cases
    ∧ (bfd_mach_o_write_contents bfd_mach_o_ok_writers .big []
        ⟨false, false, false, false⟩
        ⟨⟨0xfeedface, 7, 3, 1, 1, 8, 0, 0, 1, .BFD_ENDIAN_BIG⟩,
          [⟨0x1a, false, 28, 8, none⟩], ()⟩).1 = false
    ∧ bfd_mach_o_write_command bfd_mach_o_ok_writers .big [] ⟨0x1a, false, 28, 8, none⟩ ()
      = (false, bfd_bwrite [] 28
          (bfd_mach_o_write_command_head .big
            (⟨0x1a, false, 28, 8, none⟩ : bfd_mach_o_load_command Unit)), ())
    ∧ ∀ t ∈ [BFD_MACH_O_LC_UUID, BFD_MACH_O_LC_DYLD_INFO, BFD_MACH_O_LC_RPATH,
          BFD_MACH_O_LC_ROUTINES_64, BFD_MACH_O_LC_VERSION_MIN_MACOSX,
          BFD_MACH_O_LC_VERSION_MIN_IPHONEOS],
        t ∈ bfd_mach_o_read_command_cases ∧ t ∉ bfd_mach_o_write_contents_cases := by
  refine ⟨by decide, by decide, by decide, by decide, by decide, by decide⟩

end MachO
